import Mathlib

/-!
# The SFU relay of `backend/websocket/multiplayer.go` and the hub of `broadcast.go`

A shallow embedding of the room registry (`SFU`), of `Room` and of `Peer`, with
the operations `getOrCreateRoom`, `addPeer`, `removePeer`, `broadcastData`,
`forwardTrack`, `CloseRoom` and `CloseAll`, the ICE configuration
`getWebRTCConfigFromEnv`, the join handler `HandleJoin`, the goroutines of join
requests that run concurrently, two goroutines that
run `getOrCreateRoom` statement by statement under the mutex of the registry,
the goroutines of the forwarding tasks that `forwardTrack` starts, the read lock
of a room around the calls of `broadcastData` and `forwardTrack`, and the
notification hub `WebSocketHub` of `backend/websocket/broadcast.go`.

Go objects live in a heap: a `*Room` or `*Peer` is a `Ptr` (`none` is `nil`,
`some a` the address of the object), and the heap maps every address to an
object.  `&Room{...}` takes the next unused address.  The pion/webrtc objects
(`PeerConnection`, `DataChannel`, tracks, senders) are plain handles; what the
library answers to a call is given by an `Env`, and every call made to it is
appended to the `trace` of the `World`.  Each method body runs under the mutex
of its receiver, so it is one atomic state transformer here.  `HandleJoin` holds
no mutex of its own.  The definition `HandleJoin` is the sequence of its calls
run without interruption, which is what the statements about one call and about
calls made one after the other are about.  For joins that run at the same time
the handler is cut into the turns of `stepJoin`, which the scheduler of `runSys`
interleaves with the turns of other joins, of `CloseRoom`, of `CloseAll` and of
the callbacks; a goroutine that takes its turns in a row leaves the state of
`HandleJoin` (`soloJoin_HandleJoin`).
-/

namespace Sfu

/-- A Go pointer: `none` is `nil`, `some a` is the address of a heap object. -/
abbrev Ptr := Option Nat

/-- A byte slice. -/
abbrev Bytes := List Nat

/-- A Go `map[string]V`: finitely many entries with pairwise distinct keys.
`m[k]` is `AList.lookup`, `m[k] = v` is `AList.insert`, `delete(m, k)` is
`AList.erase`, `len(m)` is the length of `entries`.  Go leaves the order in
which `range` visits the entries unspecified: here it is the order of
`entries`, and nothing proved below depends on which order that is. -/
abbrev GoMap (V : Type) := AList (fun _ : String => V)

/-- An entry of a `GoMap`. -/
abbrev Entry (V : Type) := Sigma (fun _ : String => V)

/-- State of a `chan struct{}` that is only ever closed: the zero value `nil`,
a channel returned by `make`, or a channel on which `close` has run. -/
inductive Chan where
  | nil
  | made
  | closed
  deriving DecidableEq, Repr

/-- The struct `Peer`.  Its `closed` channel is held inline: `HandleJoin`, the
only place that builds a `Peer`, makes a channel of its own for each peer. -/
structure Peer where
  id : String
  pc : Ptr
  roomRef : Ptr
  data : Ptr
  closed : Chan
  deriving DecidableEq

instance : Inhabited Peer := ⟨{ id := "", pc := none, roomRef := none, data := none, closed := Chan.nil }⟩

/-- The struct `Room` without its mutex. -/
structure Room where
  id : String
  peers : GoMap Ptr

instance : Inhabited Room := ⟨{ id := "", peers := ∅ }⟩

/-- The struct `SFU` without its mutex. -/
structure SFU where
  rooms : GoMap Ptr

/-- A `webrtc.SessionDescription`: an offer or an answer. -/
structure SessionDescription where
  sdpType : Nat
  sdp : String
  deriving DecidableEq, Repr

/-- What `c.JSON` sends: `gin.H{"error": msg}` or a session description. -/
inductive Reply where
  | error (msg : String)
  | answer (ld : SessionDescription)
  deriving DecidableEq, Repr

/-- The lines written by `log.Printf`. -/
inductive LogMsg where
  | joined (room peer : String) (total : Nat)
  | removed (room peer : String) (remaining : Nat)
  | newTrackError (room peer : String)
  | addTrackError (room peer : String)
  | connState (state : String)
  | dataChannelOpen (peer : String) (dc : Nat)
  | incomingTrack (room : String) (remote : Nat) (peer : String)
  | setRemoteDescriptionError (err : String)
  | createAnswerError (err : String)
  | setLocalDescriptionError (err : String)
  deriving DecidableEq, Repr

/-- Effects that leave the registry: log lines, `close` of a peer's channel, and
calls into pion/webrtc together with what the library answered. -/
inductive Event where
  | log (m : LogMsg)
  | chanClose (peer : Nat)
  | send (dc : Nat) (data : Bytes) (err : Bool)
  | pcClose (pc : Nat) (err : Bool)
  | newLocalTrack (remote : Nat) (track : Option Nat)
  | addTrack (pc : Nat) (track : Nat) (sender : Option Nat)
  | goForward (remote track dst sender : Nat)
  | goDrain (sender : Nat)
  | respond (status : Nat) (reply : Reply)
  | newPeerConnection (pc : Option Nat)
  | setRemoteDescription (pc : Nat) (offer : SessionDescription) (err : Option String)
  | createAnswer (pc : Nat) (answer : Option SessionDescription)
  | setLocalDescription (pc : Nat) (answer : SessionDescription) (err : Option String)
  | localDescription (pc : Nat) (ld : Option SessionDescription)
  deriving DecidableEq, Repr

/-- What pion/webrtc answers: `true` means the call returned a non-nil error.
`Send` and `Close` may depend on everything that happened before; the two calls
of `forwardTrack` are answered per inbound track and destination peer. -/
structure Env where
  sendErr : List Event → Nat → Bytes → Bool
  closeErr : List Event → Nat → Bool
  newTrackErr : Nat → Nat → Bool
  addTrackErr : Nat → Nat → Bool

/-- Program state: the registry, the heap of rooms and of peers, the counters
that name new heap and library objects, and the trace of effects (oldest
first). -/
structure World where
  sfu : SFU
  roomAt : Nat → Room
  nextRoom : Nat
  peerAt : Nat → Peer
  nextPeer : Nat
  nextConn : Nat
  nextTrack : Nat
  nextSender : Nat
  trace : List Event

/-- Run-time panics of the Go code. -/
inductive Panic where
  | nilDeref
  | closeOfNilChannel
  | closeOfClosedChannel
  deriving DecidableEq, Repr

/-- Outcome of a method without return value: the panic it raised, if any, and
the state it left (what was written before a panic stays written). -/
structure Result where
  panic : Option Panic
  world : World

/-- Append one effect to the trace. -/
def World.emit (w : World) (e : Event) : World :=
  { w with trace := w.trace ++ [e] }

/-- Store a room object at an address. -/
def World.setRoom (w : World) (a : Nat) (r : Room) : World :=
  { w with roomAt := Function.update w.roomAt a r }

/-- Store a peer object at an address. -/
def World.setPeer (w : World) (a : Nat) (p : Peer) : World :=
  { w with peerAt := Function.update w.peerAt a p }

/-- The constructor `NewSFUServer`: a registry with an empty room map. -/
def NewSFUServer : SFU :=
  { rooms := ∅ }

/-- The state at process start: the new registry and nothing allocated. -/
def World.init : World :=
  { sfu := NewSFUServer, roomAt := fun _ => default, nextRoom := 0,
    peerAt := fun _ => default, nextPeer := 0, nextConn := 0, nextTrack := 0,
    nextSender := 0, trace := [] }

/-- The method `(s *SFU) getOrCreateRoom(roomID)`. -/
def getOrCreateRoom (roomID : String) (w : World) : Ptr × World :=
  match w.sfu.rooms.lookup roomID with
  | some r => (r, w)
  | none =>
    let w1 := w.setRoom w.nextRoom { id := roomID, peers := ∅ }
    (some w.nextRoom,
      { w1 with nextRoom := w.nextRoom + 1,
                sfu := { rooms := w.sfu.rooms.insert roomID (some w.nextRoom) } })

/-- The method `(r *Room) addPeer(p)`. -/
def addPeer (r p : Ptr) (w : World) : Result :=
  match r with
  | none => ⟨some Panic.nilDeref, w⟩
  | some a =>
    match p with
    | none => ⟨some Panic.nilDeref, w⟩
    | some q =>
      let room := w.roomAt a
      let peers := room.peers.insert (w.peerAt q).id (some q)
      let w1 := w.setRoom a { room with peers := peers }
      ⟨none, w1.emit (Event.log (LogMsg.joined room.id (w.peerAt q).id peers.entries.length))⟩

/-- The builtin `close(p.closed)` for the peer at address `q`. -/
def closeChan (q : Nat) (w : World) : Result :=
  match (w.peerAt q).closed with
  | Chan.nil => ⟨some Panic.closeOfNilChannel, w⟩
  | Chan.closed => ⟨some Panic.closeOfClosedChannel, w⟩
  | Chan.made =>
    ⟨none, (w.setPeer q { w.peerAt q with closed := Chan.closed }).emit (Event.chanClose q)⟩

/-- The method `(r *Room) removePeer(id)`. -/
def removePeer (r : Ptr) (id : String) (w : World) : Result :=
  match r with
  | none => ⟨some Panic.nilDeref, w⟩
  | some a =>
    let room := w.roomAt a
    match room.peers.lookup id with
    | none => ⟨none, w⟩
    | some p =>
      let peers := room.peers.erase id
      let w1 := w.setRoom a { room with peers := peers }
      match p with
      | none => ⟨some Panic.nilDeref, w1⟩
      | some q =>
        let res := closeChan q w1
        match res.panic with
        | some e => ⟨some e, res.world⟩
        | none =>
          ⟨none, res.world.emit (Event.log (LogMsg.removed room.id id peers.entries.length))⟩

/-- The loop of `broadcastData` over the entries still to visit. -/
def broadcastLoop (env : Env) (senderID : String) (data : Bytes) :
    List (Entry Ptr) → World → World
  | [], w => w
  | ⟨id, p⟩ :: rest, w =>
    if id = senderID then broadcastLoop env senderID data rest w
    else
      match p with
      | none => broadcastLoop env senderID data rest w
      | some q =>
        match (w.peerAt q).data with
        | none => broadcastLoop env senderID data rest w
        | some dc =>
          broadcastLoop env senderID data rest
            (w.emit (Event.send dc data (env.sendErr w.trace dc data)))

/-- The method `(r *Room) broadcastData(senderID, data)`. -/
def broadcastData (env : Env) (r : Ptr) (senderID : String) (data : Bytes) (w : World) :
    Result :=
  match r with
  | none => ⟨some Panic.nilDeref, w⟩
  | some a => ⟨none, broadcastLoop env senderID data (w.roomAt a).peers.entries w⟩

/-- The second loop of `forwardTrack`, over the snapshot still to visit. -/
def forwardLoop (env : Env) (roomID senderID : String) (remote : Nat) :
    List Ptr → World → Result
  | [], w => ⟨none, w⟩
  | none :: _, w => ⟨some Panic.nilDeref, w⟩
  | some q :: rest, w =>
    let p := w.peerAt q
    if p.id = senderID then forwardLoop env roomID senderID remote rest w
    else
      match p.pc with
      | none => forwardLoop env roomID senderID remote rest w
      | some pc =>
        if env.newTrackErr remote q then
          forwardLoop env roomID senderID remote rest
            ((w.emit (Event.newLocalTrack remote none)).emit
              (Event.log (LogMsg.newTrackError roomID p.id)))
        else
          let t := w.nextTrack
          let w1 := { w.emit (Event.newLocalTrack remote (some t)) with nextTrack := t + 1 }
          if env.addTrackErr remote q then
            forwardLoop env roomID senderID remote rest
              ((w1.emit (Event.addTrack pc t none)).emit
                (Event.log (LogMsg.addTrackError roomID p.id)))
          else
            let s := w1.nextSender
            let w2 := { w1.emit (Event.addTrack pc t (some s)) with nextSender := s + 1 }
            forwardLoop env roomID senderID remote rest
              ((w2.emit (Event.goForward remote t q s)).emit (Event.goDrain s))

/-- The method `(r *Room) forwardTrack(senderID, remote)`: the snapshot of the peer map,
then the loop over it. -/
def forwardTrack (env : Env) (r : Ptr) (senderID : String) (remote : Nat) (w : World) :
    Result :=
  match r with
  | none => ⟨some Panic.nilDeref, w⟩
  | some a =>
    let peersSnapshot := (w.roomAt a).peers.entries.map (fun e => e.2)
    forwardLoop env (w.roomAt a).id senderID remote peersSnapshot w

/-- The loop `for _, p := range room.peers` of `CloseRoom` and `CloseAll`. -/
def closePeers (env : Env) : List (Entry Ptr) → World → Result
  | [], w => ⟨none, w⟩
  | ⟨_, none⟩ :: _, w => ⟨some Panic.nilDeref, w⟩
  | ⟨_, some q⟩ :: rest, w =>
    match (w.peerAt q).pc with
    | none => closePeers env rest w
    | some pc => closePeers env rest (w.emit (Event.pcClose pc (env.closeErr w.trace pc)))

/-- The method `(s *SFU) CloseRoom(roomID)`. -/
def CloseRoom (env : Env) (roomID : String) (w : World) : Result :=
  match w.sfu.rooms.lookup roomID with
  | none => ⟨none, w⟩
  | some room =>
    let w1 := { w with sfu := { rooms := w.sfu.rooms.erase roomID } }
    match room with
    | none => ⟨some Panic.nilDeref, w1⟩
    | some a => closePeers env (w1.roomAt a).peers.entries w1

/-- The loop `for _, r := range rooms` of `CloseAll`. -/
def closeRooms (env : Env) : List (Entry Ptr) → World → Result
  | [], w => ⟨none, w⟩
  | ⟨_, none⟩ :: _, w => ⟨some Panic.nilDeref, w⟩
  | ⟨_, some a⟩ :: rest, w =>
    let res := closePeers env (w.roomAt a).peers.entries w
    match res.panic with
    | some e => ⟨some e, res.world⟩
    | none => closeRooms env rest res.world

/-- The method `(s *SFU) CloseAll()`. -/
def CloseAll (env : Env) (w : World) : Result :=
  let rooms := w.sfu.rooms
  let w1 := { w with sfu := { rooms := ∅ } }
  closeRooms env rooms.entries w1

/-- The `OnMessage` callback that `HandleJoin` installs on the data channel of
the peer `peerID` of `room`: the message bytes go to `broadcastData` as they are. -/
def onMessage (env : Env) (room : Ptr) (peerID : String) (msgData : Bytes) (w : World) :
    Result :=
  broadcastData env room peerID msgData w

/-! ## ICE configuration and the join handshake -/

/-- A `webrtc.ICEServer`; `Credential` is `nil` or a string. -/
structure ICEServer where
  URLs : List String
  Username : String
  Credential : Option String
  deriving DecidableEq, Repr

/-- A `webrtc.Configuration`, of which only the ICE servers are set. -/
structure Configuration where
  ICEServers : List ICEServer
  deriving DecidableEq, Repr

/-- Go's `unicode.IsSpace`, the white space that `strings.TrimSpace` removes. -/
def isSpace (c : Char) : Bool :=
  (9 ≤ c.toNat && c.toNat ≤ 13) || c.toNat == 32 || c.toNat == 133 || c.toNat == 160
    || c.toNat == 5760 || (8192 ≤ c.toNat && c.toNat ≤ 8202) || c.toNat == 8232
    || c.toNat == 8233 || c.toNat == 8239 || c.toNat == 8287 || c.toNat == 12288

/-- Go's `strings.TrimSpace`: the string without its leading and trailing white space. -/
def TrimSpace (s : String) : String :=
  String.mk ((s.toList.dropWhile isSpace).rdropWhile isSpace)

/-- The pieces of a list of characters between the occurrences of `sep`. -/
def splitChars (sep : Char) : List Char → List (List Char)
  | [] => [[]]
  | c :: cs =>
    if c = sep then [] :: splitChars sep cs
    else
      match splitChars sep cs with
      | [] => [[c]]
      | x :: xs => (c :: x) :: xs

/-- Go's `strings.Split(s, sep)` for a separator of one character. -/
def Split (s : String) (sep : Char) : List String :=
  (splitChars sep s.toList).map String.mk

/-- The loop of `getWebRTCConfigFromEnv` over the pieces of `STUN_URLS`. -/
def stunLoop : List String → Configuration → Configuration
  | [], cfg => cfg
  | u :: rest, cfg =>
    if TrimSpace u ≠ "" then
      stunLoop rest
        { cfg with ICEServers := cfg.ICEServers ++
            [{ URLs := [TrimSpace u], Username := "", Credential := none }] }
    else stunLoop rest cfg

/-- The first half of `getWebRTCConfigFromEnv`: the configuration after the loop
over `STUN_URLS`, before the TURN variables are read. -/
def stunConfig (getenv : String → String) : Configuration :=
  let stunEnv := getenv "STUN_URLS"
  let stunEnv := if stunEnv = "" then "stun:stun.l.google.com:19302" else stunEnv
  stunLoop (Split stunEnv ',') { ICEServers := [] }

/-- The function `getWebRTCConfigFromEnv`; `getenv` is `os.Getenv`, which gives the
empty string for a variable that is not set. -/
def getWebRTCConfigFromEnv (getenv : String → String) : Configuration :=
  let cfg := stunConfig getenv
  let turnURL := getenv "TURN_URL"
  let turnUser := getenv "TURN_USER"
  let turnPass := getenv "TURN_PASS"
  if turnURL ≠ "" ∧ turnUser ≠ "" ∧ turnPass ≠ "" then
    { cfg with ICEServers := cfg.ICEServers ++
        [{ URLs := [turnURL], Username := turnUser, Credential := some turnPass }] }
  else cfg

/-- What the process environment, the JSON decoder and pion/webrtc answer during
a join: the value of an environment variable, the decoding of a request body,
and for each call of the handshake the error it returns (`none` for success) or
its result. -/
structure JoinEnv where
  getenv : String → String
  decodeOffer : Bytes → Except String SessionDescription
  newPeerConnectionErr : List Event → Configuration → Option String
  setRemoteDescriptionErr : List Event → Nat → SessionDescription → Option String
  createAnswer : List Event → Nat → Except String SessionDescription
  setLocalDescriptionErr : List Event → Nat → SessionDescription → Option String
  localDescription : List Event → Nat → Option SessionDescription

/-- What `HandleJoin` reads of the `gin.Context`: the query parameters `room` and
`peer` (empty when absent) and the request body (`none` for a nil body). -/
structure Request where
  room : String
  peer : String
  body : Option Bytes

/-- The function `BindOfferFromContext`. -/
def BindOfferFromContext (jenv : JoinEnv) (req : Request) : Except String SessionDescription :=
  match req.body with
  | none => Except.error "missing body"
  | some b => jenv.decodeOffer b

/-- The function `createPeerConnection`: a new connection object, or the error of
`webrtc.NewPeerConnection`.  The callback it installs is `onConnectionStateChange`. -/
def createPeerConnection (jenv : JoinEnv) (cfg : Configuration) (w : World) :
    Except String Nat × World :=
  match jenv.newPeerConnectionErr w.trace cfg with
  | some err => (Except.error err, w.emit (Event.newPeerConnection none))
  | none =>
    (Except.ok w.nextConn,
      { w.emit (Event.newPeerConnection (some w.nextConn)) with nextConn := w.nextConn + 1 })

/-- The callback `OnConnectionStateChange` of a connection: a log line. -/
def onConnectionStateChange (state : String) (w : World) : World :=
  w.emit (Event.log (LogMsg.connState state))

/-- The end of the three failure branches of the handshake in `HandleJoin`:
`c.JSON(http.StatusInternalServerError, ...)`, `room.removePeer(peerID)`,
`pc.Close()`, `return`. -/
def failJoin (env : Env) (room : Ptr) (peerID : String) (pc : Nat) (msg : String)
    (w : World) : Result :=
  let res := removePeer room peerID (w.emit (Event.respond 500 (Reply.error msg)))
  match res.panic with
  | some e => ⟨some e, res.world⟩
  | none => ⟨none, res.world.emit (Event.pcClose pc (env.closeErr res.world.trace pc))⟩

/-- The second half of `HandleJoin`, from `pc.SetRemoteDescription(offer)` to the
response, for the peer `peerID` that was just added to `room` with the
connection `pc`.  An error of `SetLocalDescription` is only logged. -/
def negotiate (env : Env) (jenv : JoinEnv) (room : Ptr) (peerID : String) (pc : Nat)
    (offer : SessionDescription) (w4 : World) : Result :=
  match jenv.setRemoteDescriptionErr w4.trace pc offer with
  | some err =>
    failJoin env room peerID pc err
      ((w4.emit (Event.setRemoteDescription pc offer (some err))).emit
        (Event.log (LogMsg.setRemoteDescriptionError err)))
  | none =>
    let w5 := w4.emit (Event.setRemoteDescription pc offer none)
    match jenv.createAnswer w5.trace pc with
    | Except.error err =>
      failJoin env room peerID pc err
        ((w5.emit (Event.createAnswer pc none)).emit
          (Event.log (LogMsg.createAnswerError err)))
    | Except.ok answer =>
      let w6 := w5.emit (Event.createAnswer pc (some answer))
      let w7 :=
        match jenv.setLocalDescriptionErr w6.trace pc answer with
        | some err =>
          (w6.emit (Event.setLocalDescription pc answer (some err))).emit
            (Event.log (LogMsg.setLocalDescriptionError err))
        | none => w6.emit (Event.setLocalDescription pc answer none)
      match jenv.localDescription w7.trace pc with
      | none =>
        failJoin env room peerID pc "local description is nil"
          (w7.emit (Event.localDescription pc none))
      | some ld =>
        ⟨none, (w7.emit (Event.localDescription pc (some ld))).emit
          (Event.respond 200 (Reply.answer ld))⟩

/-- The method `(s *SFU) HandleJoin(c)`, run from its first statement to its
return without a turn of another goroutine in between (the handler itself takes
no lock: `stepJoin` is the same code turn by turn).  The callbacks it installs
on the connection run later, when the library has something to deliver. -/
def HandleJoin (env : Env) (jenv : JoinEnv) (req : Request) (w : World) : Result :=
  if req.room = "" ∨ req.peer = "" then
    ⟨none, w.emit (Event.respond 400 (Reply.error "room and peer query params required"))⟩
  else
    match BindOfferFromContext jenv req with
    | Except.error err =>
      ⟨none, w.emit (Event.respond 400 (Reply.error ("invalid offer: " ++ err)))⟩
    | Except.ok offer =>
      match createPeerConnection jenv (getWebRTCConfigFromEnv jenv.getenv) w with
      | (Except.error err, w1) =>
        ⟨none, w1.emit (Event.respond 500 (Reply.error ("pc create: " ++ err)))⟩
      | (Except.ok pc, w1) =>
        let created := getOrCreateRoom req.room w1
        let room := created.1
        let w2 := created.2
        let q := w2.nextPeer
        let w3 :=
          { w2.setPeer q
              { id := req.peer, pc := some pc, roomRef := room, data := none,
                closed := Chan.made } with nextPeer := q + 1 }
        let added := addPeer room (some q) w3
        match added.panic with
        | some e => ⟨some e, added.world⟩
        | none => negotiate env jenv room req.peer pc offer added.world

/-! ## Two goroutines in `getOrCreateRoom` -/

/-- The two goroutines that call `getOrCreateRoom` at the same time. -/
inductive Tid where
  | first
  | second
  deriving DecidableEq, Repr

/-- Where a goroutine stands in the body of `getOrCreateRoom`: before
`s.mu.Lock()`; holding the mutex before `r, ok := s.rooms[roomID]`; after the
lookup (`some r` when `ok`); after `r = &Room{...}`; after the return value is
set, with the deferred `s.mu.Unlock()` still to run; returned. -/
inductive Pc where
  | start
  | locked
  | looked (found : Option Ptr)
  | allocated (a : Nat)
  | returning (r : Ptr)
  | done (r : Ptr)
  deriving DecidableEq, Repr

/-- The program state with the mutex `s.mu` (`holder` is the goroutine inside
`Lock`/`Unlock`, if any) and the position of each goroutine. -/
structure Conc where
  world : World
  holder : Option Tid
  pcs : Tid → Pc

/-- Both goroutines are about to call `getOrCreateRoom`; the mutex is free. -/
def Conc.start (w : World) : Conc :=
  { world := w, holder := none, pcs := fun _ => Pc.start }

/-- One statement of `getOrCreateRoom roomID` run by the goroutine `t`; `none`
when `t` cannot move: it waits in `Lock` for the mutex, or it has returned. -/
def stepThread (roomID : String) (t : Tid) (c : Conc) : Option Conc :=
  match c.pcs t with
  | Pc.start =>
    match c.holder with
    | none => some { c with holder := some t, pcs := Function.update c.pcs t Pc.locked }
    | some _ => none
  | Pc.locked =>
    some { c with
      pcs := Function.update c.pcs t (Pc.looked (c.world.sfu.rooms.lookup roomID)) }
  | Pc.looked (some r) =>
    some { c with pcs := Function.update c.pcs t (Pc.returning r) }
  | Pc.looked none =>
    some { c with
      world :=
        { c.world.setRoom c.world.nextRoom { id := roomID, peers := ∅ } with
          nextRoom := c.world.nextRoom + 1 }
      pcs := Function.update c.pcs t (Pc.allocated c.world.nextRoom) }
  | Pc.allocated a =>
    some { c with
      world := { c.world with sfu := { rooms := c.world.sfu.rooms.insert roomID (some a) } }
      pcs := Function.update c.pcs t (Pc.returning (some a)) }
  | Pc.returning r =>
    some { c with holder := none, pcs := Function.update c.pcs t (Pc.done r) }
  | Pc.done _ => none

/-- An interleaving: the goroutines move in the order of the schedule; `none`
when the schedule asks a goroutine to move that cannot. -/
def runSchedule (roomID : String) : List Tid → Conc → Option Conc
  | [], c => some c
  | t :: s, c => (stepThread roomID t c).bind (runSchedule roomID s)

/-! ## The forwarding tasks of `forwardTrack` -/

/-- A forwarding task started by `forwardTrack`: the goroutine that pumps the
inbound track `remote` into the local track `track` of the destination peer
`dst`, whose connection returned `sender` for it. -/
structure Task where
  remote : Nat
  track : Nat
  dst : Nat
  sender : Nat
  deriving DecidableEq, Repr

/-- What a call `remoteTrack.Read(buf)` returns: `packet b` when it stored the
bytes `b` at the start of `buf` and returned their number with a nil error;
`io.EOF`; or another error. -/
inductive ReadResult where
  | packet (bytes : Bytes)
  | eof
  | error (msg : String)
  deriving DecidableEq, Repr

/-- Where the goroutine of a forwarding task stands: before
`remoteTrack.Read(buf)`; after a read of `n` bytes, before
`local.Write(buf[:n])`; returned. -/
inductive PumpPc where
  | reading
  | writing (n : Nat)
  | stopped
  deriving DecidableEq, Repr

/-- The goroutine `go func(remoteTrack, local, dstPeer, dstSender)` that
`forwardTrack` starts: the room `r` of its closure, its arguments, its buffer
`buf` and its position. -/
structure Pump where
  room : Nat
  task : Task
  buf : Bytes
  pc : PumpPc
  deriving DecidableEq, Repr

/-- The lines that a forwarding task logs. -/
inductive PumpLog where
  | remoteReadError (room : String) (remote : Nat) (err : String)
  | forwardWriteError (room : String) (dst : String)
  | stopForwarding (room : String) (remote : Nat) (dst : String)
  deriving DecidableEq, Repr

/-- The effects of the forwarding tasks: the calls of `Read` and `Write` with
what they returned (`err` is `true` for a non-nil error), and the log lines;
each with the index of the task that made it. -/
inductive PumpEvent where
  | read (pump : Nat) (task : Task) (res : ReadResult)
  | write (pump : Nat) (task : Task) (data : Bytes) (err : Bool)
  | log (pump : Nat) (msg : PumpLog)
  deriving DecidableEq, Repr

/-- The relay with its forwarding tasks running.  For each inbound track,
`inbound` holds what the next calls of `Read` on it return, in order, whoever
makes them: a call takes the first result away, as `Read` hands each packet of a
track out once.  When nothing is left the track has ended and `Read` returns
`io.EOF`. -/
structure Media where
  world : World
  inbound : Nat → List ReadResult
  pumps : List Pump
  effects : List PumpEvent

/-- The return of the goroutine of task `i`, after the events `evs`: its
deferred function logs `stop forwarding`. -/
def Media.stop (m : Media) (i : Nat) (p : Pump) (evs : List PumpEvent) : Media :=
  { m with
    pumps := m.pumps.set i { p with pc := PumpPc.stopped }
    effects := m.effects ++ evs ++
      [PumpEvent.log i (PumpLog.stopForwarding (m.world.roomAt p.room).id p.task.remote
        (m.world.peerAt p.task.dst).id)] }

/-- One step of the goroutine of task `i`: the call of `Read` with the check of
`readErr`, or the call of `Write` with the check of `werr`.  A task that has
returned, and an index without task, do nothing.  `writeErr` tells whether
`Write` fails, given the effects so far, the local track and the bytes. -/
def stepPump (writeErr : List PumpEvent → Nat → Bytes → Bool) (i : Nat) (m : Media) : Media :=
  match m.pumps[i]? with
  | none => m
  | some p =>
    match p.pc with
    | PumpPc.stopped => m
    | PumpPc.reading =>
      match m.inbound p.task.remote with
      | [] => m.stop i p [PumpEvent.read i p.task ReadResult.eof]
      | ReadResult.packet b :: rest =>
        { m with
          inbound := Function.update m.inbound p.task.remote rest
          pumps := m.pumps.set i
            { p with buf := b ++ p.buf.drop b.length, pc := PumpPc.writing b.length }
          effects := m.effects ++ [PumpEvent.read i p.task (ReadResult.packet b)] }
      | ReadResult.eof :: rest =>
        Media.stop { m with inbound := Function.update m.inbound p.task.remote rest } i p
          [PumpEvent.read i p.task ReadResult.eof]
      | ReadResult.error msg :: rest =>
        Media.stop { m with inbound := Function.update m.inbound p.task.remote rest } i p
          [PumpEvent.read i p.task (ReadResult.error msg),
            PumpEvent.log i (PumpLog.remoteReadError (m.world.roomAt p.room).id p.task.remote msg)]
    | PumpPc.writing n =>
      if writeErr m.effects p.task.track (p.buf.take n) then
        m.stop i p
          [PumpEvent.write i p.task (p.buf.take n) true,
            PumpEvent.log i (PumpLog.forwardWriteError (m.world.roomAt p.room).id
              (m.world.peerAt p.task.dst).id)]
      else
        { m with
          pumps := m.pumps.set i { p with pc := PumpPc.reading }
          effects := m.effects ++ [PumpEvent.write i p.task (p.buf.take n) false] }

/-- An interleaving of the forwarding tasks: they step in the order of the
schedule. -/
def runPumps (writeErr : List PumpEvent → Nat → Bytes → Bool) : List Nat → Media → Media
  | [], m => m
  | i :: s, m => runPumps writeErr s (stepPump writeErr i m)

/-- The forwarding tasks that a call of `forwardTrack` on the room at `a` has
started, each before its first `Read` with its buffer of 1500 bytes, and the
inbound tracks with what they will deliver. -/
def Media.start (w : World) (a : Nat) (tasks : List Task) (inbound : Nat → List ReadResult) :
    Media :=
  { world := w, inbound := inbound,
    pumps := tasks.map (fun t =>
      { room := a, task := t, buf := List.replicate 1500 0, pc := PumpPc.reading }),
    effects := [] }

/-! ## The room mutex in `broadcastData` and `forwardTrack` -/

/-- A step of a method of `Room` as the mutex `r.mu` sees it: `r.mu.RLock()`,
`r.mu.RUnlock()`, or an effect of the method. -/
inductive LockStep where
  | rlock (room : Nat)
  | runlock (room : Nat)
  | effect (e : Event)
  deriving DecidableEq, Repr

/-- The method `broadcastData` on the room at `a` with its mutex operations:
`r.mu.RLock()`, the loop with its `Send` calls (the effects that the call adds
to the trace), and the deferred `r.mu.RUnlock()` at the return. -/
def broadcastDataLocked (env : Env) (a : Nat) (senderID : String) (data : Bytes) (w : World) :
    List LockStep :=
  [LockStep.rlock a]
    ++ ((broadcastData env (some a) senderID data w).world.trace.drop w.trace.length).map
        LockStep.effect
    ++ [LockStep.runlock a]

/-- The method `forwardTrack` on the room at `a` with its mutex operations:
`r.mu.RLock()`, the loop that fills `peersSnapshot` (no effect),
`r.mu.RUnlock()`, and then the loop over the snapshot with its calls. -/
def forwardTrackLocked (env : Env) (a : Nat) (senderID : String) (remote : Nat) (w : World) :
    List LockStep :=
  [LockStep.rlock a, LockStep.runlock a]
    ++ ((forwardTrack env (some a) senderID remote w).world.trace.drop w.trace.length).map
        LockStep.effect

/-! ## The notification hub of `broadcast.go` -/

/-- A `map[*websocket.Conn]bool`; a connection is a `*websocket.Conn`. -/
abbrev ConnSet := AList (fun _ : Ptr => Bool)

/-- The struct `WebSocketHub` without its mutex. -/
structure WebSocketHub where
  connections : ConnSet
  channels : GoMap ConnSet

/-- What the hub prints, and the calls of `conn.Close()`. -/
inductive HubEvent where
  | printConnected (clients : Nat)
  | printRemaining (clients : Nat)
  | printSubscribed (channel : String)
  | connClose (conn : Nat)
  deriving DecidableEq, Repr

/-- The hub and the effects so far (oldest first). -/
structure HubState where
  hub : WebSocketHub
  trace : List HubEvent

/-- What a method of the hub leaves behind: the state, and the panic that ended
it, if any. -/
structure HubResult where
  panic : Option Panic
  state : HubState

/-- The function `NewHub`. -/
def NewHub : WebSocketHub :=
  { connections := ∅, channels := ∅ }

/-- The method `(h *WebSocketHub) Register(conn)`. -/
def Register (conn : Ptr) (s : HubState) : HubResult :=
  let connections := s.hub.connections.insert conn true
  ⟨none, { hub := { s.hub with connections := connections },
           trace := s.trace ++ [HubEvent.printConnected connections.entries.length] }⟩

/-- The loop `for channel := range h.channels` of `Unregister`, over the keys
still to visit.  The subscriber map of a channel is a Go reference: `delete` on
it changes the map that `h.channels` holds.  For a key without map both
`delete` calls do nothing. -/
def unregisterLoop (conn : Ptr) : List String → GoMap ConnSet → GoMap ConnSet
  | [], channels => channels
  | channel :: rest, channels =>
    match channels.lookup channel with
    | none => unregisterLoop conn rest channels
    | some subs =>
      let subs1 := subs.erase conn
      let channels1 := channels.insert channel subs1
      if subs1.entries.length = 0 then unregisterLoop conn rest (channels1.erase channel)
      else unregisterLoop conn rest channels1

/-- The method `(h *WebSocketHub) Unregister(conn)`.  `conn.Close()` on a nil
connection is a nil dereference, after the maps were updated. -/
def Unregister (conn : Ptr) (s : HubState) : HubResult :=
  let connections := s.hub.connections.erase conn
  let channels := unregisterLoop conn s.hub.channels.keys s.hub.channels
  let hub := { connections := connections, channels := channels }
  match conn with
  | none => ⟨some Panic.nilDeref, { hub := hub, trace := s.trace }⟩
  | some c =>
    ⟨none, { hub := hub,
             trace := s.trace ++
               [HubEvent.connClose c, HubEvent.printRemaining connections.entries.length] }⟩

/-- The method `(h *WebSocketHub) Subscribe(conn, channel)`: `conn` is put into
the subscriber map of the channel, which is `make`d first when
`h.channels[channel] == nil`. -/
def Subscribe (conn : Ptr) (channel : String) (s : HubState) : HubResult :=
  let subs : ConnSet :=
    match s.hub.channels.lookup channel with
    | none => ∅
    | some subs => subs
  let channels := s.hub.channels.insert channel (subs.insert conn true)
  ⟨none, { hub := { s.hub with channels := channels },
           trace := s.trace ++ [HubEvent.printSubscribed channel] }⟩

/-- The method `(h *WebSocketHub) Unsubscribe(conn, channel)`. -/
def Unsubscribe (conn : Ptr) (channel : String) (s : HubState) : HubResult :=
  match s.hub.channels.lookup channel with
  | none => ⟨none, s⟩
  | some subs =>
    let subs1 := subs.erase conn
    let channels1 := s.hub.channels.insert channel subs1
    if subs1.entries.length = 0 then
      ⟨none, { s with hub := { s.hub with channels := channels1.erase channel } }⟩
    else ⟨none, { s with hub := { s.hub with channels := channels1 } }⟩

/-! ## Joins that run concurrently

gin serves every request on a goroutine of its own, and `HandleJoin` holds no
lock from `room.addPeer(peer)` to `room.removePeer(peerID)` or to the response:
only the bodies of `getOrCreateRoom`, `addPeer` and `removePeer` are critical
sections.  Here each request is a goroutine with a program counter, a turn of
the scheduler runs one goroutine up to the end of its next critical section or
library call, and turns of different goroutines alternate in any order.  The
loop of `CloseRoom` and `CloseAll` under the read lock of a room is a turn that
may come for any room at any time, which covers every run of the two methods,
and so is each callback that `HandleJoin` installs.  Nothing else in the
repository calls `getOrCreateRoom`, `addPeer` or `removePeer`. -/

/-- What a goroutine of `HandleJoin` holds once `room.addPeer(peer)` has run: its
connection `pc`, the address of `room` and the address of `peer`. -/
structure Joined where
  conn : Nat
  room : Nat
  peer : Nat
  deriving DecidableEq, Repr

/-- Where a goroutine stands in `HandleJoin`, with its local variables. -/
inductive JoinPc where
  /-- Before the first statement. -/
  | start
  /-- After `createPeerConnection(cfg)`, before `s.getOrCreateRoom(roomID)`. -/
  | connected (offer : SessionDescription) (conn : Nat)
  /-- After `s.getOrCreateRoom(roomID)`, before `peer := &Peer{...}`. -/
  | resolved (offer : SessionDescription) (conn : Nat) (room : Ptr)
  /-- After `room.addPeer(peer)`, before `pc.SetRemoteDescription(offer)`. -/
  | added (offer : SessionDescription) (j : Joined)
  /-- Before `pc.CreateAnswer(nil)`. -/
  | remoteSet (j : Joined)
  /-- Before `pc.SetLocalDescription(answer)`. -/
  | answered (j : Joined) (answer : SessionDescription)
  /-- Before `pc.LocalDescription()`. -/
  | localSet (j : Joined)
  /-- In a failure branch after `c.JSON(500, ...)`, before `room.removePeer(peerID)`. -/
  | failing (j : Joined) (msg : String)
  /-- In a failure branch after `room.removePeer(peerID)`, before `pc.Close()`. -/
  | removed (j : Joined) (msg : String)
  /-- Returned, after the response `status`, `reply`; `j` is set when the
  goroutine got as far as `room.addPeer(peer)`. -/
  | done (status : Nat) (reply : Reply) (j : Option Joined)
  /-- Stopped by a run-time panic. -/
  | panicked (e : Panic)
  deriving DecidableEq, Repr

/-- One turn of a goroutine of `HandleJoin` for the request `req`: from its
program counter to the end of its next critical section or library call.
Statements that touch only the request and the goroutine's own variables
(`c.Query`, `BindOfferFromContext`, `log.Printf`, `c.JSON`, `&Peer{...}`) run in
the same turn as the call they precede or follow. -/
def stepJoin (env : Env) (jenv : JoinEnv) (req : Request) (pc : JoinPc) (w : World) :
    JoinPc × World :=
  match pc with
  | JoinPc.start =>
    if req.room = "" ∨ req.peer = "" then
      (JoinPc.done 400 (Reply.error "room and peer query params required") none,
        w.emit (Event.respond 400 (Reply.error "room and peer query params required")))
    else
      match BindOfferFromContext jenv req with
      | Except.error err =>
        (JoinPc.done 400 (Reply.error ("invalid offer: " ++ err)) none,
          w.emit (Event.respond 400 (Reply.error ("invalid offer: " ++ err))))
      | Except.ok offer =>
        match createPeerConnection jenv (getWebRTCConfigFromEnv jenv.getenv) w with
        | (Except.error err, w1) =>
          (JoinPc.done 500 (Reply.error ("pc create: " ++ err)) none,
            w1.emit (Event.respond 500 (Reply.error ("pc create: " ++ err))))
        | (Except.ok conn, w1) => (JoinPc.connected offer conn, w1)
  | JoinPc.connected offer conn =>
    let created := getOrCreateRoom req.room w
    (JoinPc.resolved offer conn created.1, created.2)
  | JoinPc.resolved offer conn room =>
    let q := w.nextPeer
    let w3 :=
      { w.setPeer q
          { id := req.peer, pc := some conn, roomRef := room, data := none,
            closed := Chan.made } with nextPeer := q + 1 }
    let res := addPeer room (some q) w3
    -- `addPeer` panics on a nil room, so the last case does not occur
    match res.panic, room with
    | none, some a => (JoinPc.added offer { conn := conn, room := a, peer := q }, res.world)
    | some e, _ => (JoinPc.panicked e, res.world)
    | none, none => (JoinPc.panicked Panic.nilDeref, res.world)
  | JoinPc.added offer j =>
    match jenv.setRemoteDescriptionErr w.trace j.conn offer with
    | some err =>
      (JoinPc.failing j err,
        (((w.emit (Event.setRemoteDescription j.conn offer (some err))).emit
          (Event.log (LogMsg.setRemoteDescriptionError err))).emit
          (Event.respond 500 (Reply.error err))))
    | none => (JoinPc.remoteSet j, w.emit (Event.setRemoteDescription j.conn offer none))
  | JoinPc.remoteSet j =>
    match jenv.createAnswer w.trace j.conn with
    | Except.error err =>
      (JoinPc.failing j err,
        (((w.emit (Event.createAnswer j.conn none)).emit
          (Event.log (LogMsg.createAnswerError err))).emit
          (Event.respond 500 (Reply.error err))))
    | Except.ok answer =>
      (JoinPc.answered j answer, w.emit (Event.createAnswer j.conn (some answer)))
  | JoinPc.answered j answer =>
    match jenv.setLocalDescriptionErr w.trace j.conn answer with
    | some err =>
      (JoinPc.localSet j,
        (w.emit (Event.setLocalDescription j.conn answer (some err))).emit
          (Event.log (LogMsg.setLocalDescriptionError err)))
    | none => (JoinPc.localSet j, w.emit (Event.setLocalDescription j.conn answer none))
  | JoinPc.localSet j =>
    match jenv.localDescription w.trace j.conn with
    | none =>
      (JoinPc.failing j "local description is nil",
        (w.emit (Event.localDescription j.conn none)).emit
          (Event.respond 500 (Reply.error "local description is nil")))
    | some ld =>
      (JoinPc.done 200 (Reply.answer ld) (some j),
        (w.emit (Event.localDescription j.conn (some ld))).emit
          (Event.respond 200 (Reply.answer ld)))
  | JoinPc.failing j msg =>
    let res := removePeer (some j.room) req.peer w
    match res.panic with
    | some e => (JoinPc.panicked e, res.world)
    | none => (JoinPc.removed j msg, res.world)
  | JoinPc.removed j msg =>
    (JoinPc.done 500 (Reply.error msg) (some j),
      w.emit (Event.pcClose j.conn (env.closeErr w.trace j.conn)))
  | JoinPc.done status reply j => (JoinPc.done status reply j, w)
  | JoinPc.panicked e => (JoinPc.panicked e, w)

/-- A goroutine of `HandleJoin`: the request it serves and where it stands. -/
structure JoinThread where
  req : Request
  pc : JoinPc

/-- The relay together with the goroutines of the join requests received so far. -/
structure Sys where
  world : World
  joins : List JoinThread

/-- The `OnDataChannel` callback that `HandleJoin` installs on the connection of
the peer `peerID` built at the address `q`: a log line, then `peer.data = dc`
(the `OnMessage` callback it registers on `dc` is `onMessage`). -/
def onDataChannel (peerID : String) (q dc : Nat) (w : World) : World :=
  let w1 := w.emit (Event.log (LogMsg.dataChannelOpen peerID dc))
  w1.setPeer q { w1.peerAt q with data := some dc }

/-- The `OnTrack` callback that `HandleJoin` installs on the connection of the
peer `peerID` of `room`: a log line that reads `room.id`, then
`room.forwardTrack(peerID, remote)`. -/
def onTrack (env : Env) (room : Ptr) (peerID : String) (remote : Nat) (w : World) : Result :=
  match room with
  | none => ⟨some Panic.nilDeref, w⟩
  | some a =>
    forwardTrack env (some a) peerID remote
      (w.emit (Event.log (LogMsg.incomingTrack (w.roomAt a).id remote peerID)))

/-- Who runs next: the goroutine of the `i`-th join request, a critical section
of `CloseRoom` or `CloseAll`, or a callback that the library runs on a
goroutine of its own. -/
inductive Turn where
  /-- One turn of the `i`-th join. -/
  | join (i : Nat)
  /-- The first critical section of `CloseRoom(roomID)`: lookup and `delete`
  under the mutex of the registry. -/
  | closeRoomDelete (roomID : String)
  /-- The first critical section of `CloseAll`: `s.rooms` is replaced by a new map. -/
  | closeAllSwap
  /-- The loop `for _, p := range room.peers` of `CloseRoom` or `CloseAll` under
  the read lock of the room at address `a`. -/
  | closeLoop (a : Nat)
  /-- The callback `OnDataChannel` of the peer at address `q`. -/
  | onDataChannel (peerID : String) (q dc : Nat)
  /-- The callback `OnMessage`: `room.broadcastData(peerID, msg.Data)`. -/
  | onMessage (room : Ptr) (peerID : String) (data : Bytes)
  /-- The callback `OnTrack`: `room.forwardTrack(peerID, remote)`. -/
  | onTrack (room : Ptr) (peerID : String) (remote : Nat)
  deriving DecidableEq, Repr

/-- The state after a turn that is not the turn of a join goroutine.  A callback
that panics leaves the state it has written. -/
def Turn.run (env : Env) : Turn → World → World
  | Turn.join _, w => w
  | Turn.closeRoomDelete roomID, w =>
    match w.sfu.rooms.lookup roomID with
    | none => w
    | some _ => { w with sfu := { rooms := w.sfu.rooms.erase roomID } }
  | Turn.closeAllSwap, w => { w with sfu := { rooms := ∅ } }
  | Turn.closeLoop a, w => (closePeers env (w.roomAt a).peers.entries w).world
  | Turn.onDataChannel peerID q dc, w => Sfu.onDataChannel peerID q dc w
  | Turn.onMessage room peerID data, w => (Sfu.onMessage env room peerID data w).world
  | Turn.onTrack room peerID remote, w => (Sfu.onTrack env room peerID remote w).world

/-- One turn of the scheduler.  A turn given to a goroutine that does not exist,
has returned or has panicked changes nothing. -/
def stepSys (env : Env) (jenv : JoinEnv) (t : Turn) (s : Sys) : Sys :=
  match t with
  | Turn.join i =>
    match s.joins[i]? with
    | none => s
    | some th =>
      let r := stepJoin env jenv th.req th.pc s.world
      { world := r.2, joins := s.joins.set i { req := th.req, pc := r.1 } }
  | t => { s with world := t.run env s.world }

/-- The state after the turns of a schedule, run from left to right. -/
def runSys (env : Env) (jenv : JoinEnv) : List Turn → Sys → Sys
  | [], s => s
  | t :: rest, s => runSys env jenv rest (stepSys env jenv t s)

/-- The relay at process start with the goroutines of the requests `reqs`, none
of which has run yet. -/
def Sys.start (reqs : List Request) : Sys :=
  { world := World.init, joins := reqs.map (fun r => { req := r, pc := JoinPc.start }) }

/-- A goroutine run alone: `n` turns in a row from the state `w`. -/
def soloJoin (env : Env) (jenv : JoinEnv) (req : Request) : Nat → JoinPc × World → JoinPc × World
  | 0, s => s
  | n + 1, s => soloJoin env jenv req n (stepJoin env jenv req s.1 s.2)

/-- The connection a goroutine holds. -/
def JoinPc.conn : JoinPc → Option Nat
  | JoinPc.connected _ c => some c
  | JoinPc.resolved _ c _ => some c
  | JoinPc.added _ j => some j.conn
  | JoinPc.remoteSet j => some j.conn
  | JoinPc.answered j _ => some j.conn
  | JoinPc.localSet j => some j.conn
  | JoinPc.failing j _ => some j.conn
  | JoinPc.removed j _ => some j.conn
  | JoinPc.done _ _ (some j) => some j.conn
  | _ => none

/-- What a goroutine holds when it has passed `room.addPeer(peer)`. -/
def JoinPc.joined : JoinPc → Option Joined
  | JoinPc.added _ j => some j
  | JoinPc.remoteSet j => some j
  | JoinPc.answered j _ => some j
  | JoinPc.localSet j => some j
  | JoinPc.failing j _ => some j
  | JoinPc.removed j _ => some j
  | JoinPc.done _ _ (some j) => some j
  | _ => none

/-- The goroutine has sent its response. -/
def JoinPc.responded : JoinPc → Bool
  | JoinPc.failing _ _ => true
  | JoinPc.removed _ _ => true
  | JoinPc.done _ _ _ => true
  | _ => false

/-- The goroutine has run its own `room.removePeer(peerID)`. -/
def JoinPc.cleaned : JoinPc → Bool
  | JoinPc.removed _ _ => true
  | JoinPc.done status _ (some _) => decide (status = 500)
  | _ => false

/-- An upper bound of the turns a goroutine still takes. -/
def JoinPc.rank : JoinPc → Nat
  | JoinPc.start => 9
  | JoinPc.connected _ _ => 8
  | JoinPc.resolved _ _ _ => 7
  | JoinPc.added _ _ => 6
  | JoinPc.remoteSet _ => 5
  | JoinPc.answered _ _ => 4
  | JoinPc.localSet _ => 3
  | JoinPc.failing _ _ => 2
  | JoinPc.removed _ _ => 1
  | JoinPc.done _ _ _ => 0
  | JoinPc.panicked _ => 0

/-! ## Vocabulary of the statements -/

/-- The same state with another trace. -/
def World.withTrace (w : World) (t : List Event) : World :=
  { w with trace := t }

/-- The effects that happened between the state `w` and the later state `w1`. -/
def newEvents (w w1 : World) : List Event :=
  w1.trace.drop w.trace.length

/-- The connection on which an event calls `Close`. -/
def Event.closedConn : Event → Option Nat
  | Event.pcClose pc _ => some pc
  | _ => none

/-- The connections on which the events call `Close`, in order. -/
def closeCalls (evs : List Event) : List Nat :=
  evs.filterMap Event.closedConn

/-- The channel and the bytes of a `Send` call. -/
def Event.sendCall : Event → Option (Nat × Bytes)
  | Event.send dc data _ => some (dc, data)
  | _ => none

/-- The `Send` calls among the events, in order. -/
def sendCalls (evs : List Event) : List (Nat × Bytes) :=
  evs.filterMap Event.sendCall

/-- The peer whose channel an event closes. -/
def Event.closedPeer : Event → Option Nat
  | Event.chanClose q => some q
  | _ => none

/-- The peers whose `closed` channel the events close, in order. -/
def chanCloses (evs : List Event) : List Nat :=
  evs.filterMap Event.closedPeer

/-- A registry entry holds the address of an allocated room whose id is the key. -/
def RoomEntryOk (w : World) (e : Entry Ptr) : Prop :=
  match e.2 with
  | none => False
  | some a => a < w.nextRoom ∧ (w.roomAt a).id = e.1

instance (w : World) (e : Entry Ptr) : Decidable (RoomEntryOk w e) := by
  unfold RoomEntryOk
  split <;> infer_instance

/-- Every entry of the registry holds the address of an allocated room whose id
is the key: what `getOrCreateRoom`, the only writer of the registry, stores. -/
def RegistryOk (w : World) : Prop :=
  ∀ e ∈ w.sfu.rooms.entries, RoomEntryOk w e

instance (w : World) : Decidable (RegistryOk w) := by
  unfold RegistryOk
  infer_instance

/-- No entry of the peer map of the room at `a` holds a nil pointer (`addPeer`,
the only writer of a peer map, reads `p.id` before it stores `p`). -/
def NoNilPeers (w : World) (a : Nat) : Prop :=
  ∀ e ∈ (w.roomAt a).peers.entries, e.2 ≠ none

instance (w : World) (a : Nat) : Decidable (NoNilPeers w a) := by
  unfold NoNilPeers
  infer_instance

/-- A registry entry holds a room, and that room holds no nil peer. -/
def RoomEntryLive (w : World) (e : Entry Ptr) : Prop :=
  match e.2 with
  | none => False
  | some a => NoNilPeers w a

instance (w : World) (e : Entry Ptr) : Decidable (RoomEntryLive w e) := by
  unfold RoomEntryLive
  split <;> infer_instance

/-- Neither the registry nor a registered room holds a nil pointer. -/
def NoNilRooms (w : World) : Prop :=
  ∀ e ∈ w.sfu.rooms.entries, RoomEntryLive w e

instance (w : World) : Decidable (NoNilRooms w) := by
  unfold NoNilRooms
  infer_instance

/-- The connection of the peer of a peer-map entry, when the peer has one. -/
def peerConn (w : World) (e : Entry Ptr) : Option Nat :=
  match e.2 with
  | none => none
  | some q => (w.peerAt q).pc

/-- The connections of the peers of the room at `a`, one per peer that has one. -/
def roomConns (w : World) (a : Nat) : List Nat :=
  (w.roomAt a).peers.entries.filterMap (peerConn w)

/-- The connections of the peers of the room of a registry entry. -/
def entryConns (w : World) (e : Entry Ptr) : List Nat :=
  match e.2 with
  | none => []
  | some a => roomConns w a

/-- The connections of all peers of all registered rooms, one per room and peer. -/
def registryConns (w : World) : List Nat :=
  w.sfu.rooms.entries.flatMap (entryConns w)

/-- An environment in which every library call fails. -/
def failingEnv : Env :=
  { sendErr := fun _ _ _ => true, closeErr := fun _ _ => true,
    newTrackErr := fun _ _ => true, addTrackErr := fun _ _ => true }

/-- A registry of ten rooms of five peers each; the peer at address `q` sits in
the room at address `q / 5` and has the connection and the data channel `q`. -/
def tenRooms : World :=
  { World.init with
    sfu := { rooms := List.toAList [⟨"r0", some 0⟩, ⟨"r1", some 1⟩, ⟨"r2", some 2⟩,
      ⟨"r3", some 3⟩, ⟨"r4", some 4⟩, ⟨"r5", some 5⟩, ⟨"r6", some 6⟩, ⟨"r7", some 7⟩,
      ⟨"r8", some 8⟩, ⟨"r9", some 9⟩] },
    roomAt := fun a =>
      if a < 10 then
        { id := ["r0", "r1", "r2", "r3", "r4", "r5", "r6", "r7", "r8", "r9"].getD a "",
          peers := List.toAList [⟨"p0", some (5 * a)⟩, ⟨"p1", some (5 * a + 1)⟩,
            ⟨"p2", some (5 * a + 2)⟩, ⟨"p3", some (5 * a + 3)⟩, ⟨"p4", some (5 * a + 4)⟩] }
      else default,
    nextRoom := 10,
    peerAt := fun q =>
      { id := ["p0", "p1", "p2", "p3", "p4"].getD (q % 5) "", pc := some q,
        roomRef := some (q / 5), data := some q, closed := Chan.made } }

/-- The data channel of the peer of a peer-map entry, when the peer has one. -/
def entryChan (w : World) (e : Entry Ptr) : Option Nat :=
  match e.2 with
  | none => none
  | some q => (w.peerAt q).data

/-- The data channel on which a broadcast from `senderID` reaches the peer of an
entry: none for the entry registered under `senderID`, else the peer's channel. -/
def receiverChan (w : World) (senderID : String) (e : Entry Ptr) : Option Nat :=
  if e.1 = senderID then none else entryChan w e

/-- The data channels of the peers of the room at `a` other than the one
registered under `senderID`, one per peer that has a channel. -/
def receivers (w : World) (a : Nat) (senderID : String) : List Nat :=
  (w.roomAt a).peers.entries.filterMap (receiverChan w senderID)

/-- No two peers of the room at `a` hold the same data channel (a channel is
handed by the library to the one connection it was opened on). -/
def ChannelsDistinct (w : World) (a : Nat) : Prop :=
  ((w.roomAt a).peers.entries.filterMap (entryChan w)).Nodup

instance (w : World) (a : Nat) : Decidable (ChannelsDistinct w a) := by
  unfold ChannelsDistinct
  infer_instance

/-- An environment in which no library call fails. -/
def workingEnv : Env :=
  { sendErr := fun _ _ _ => false, closeErr := fun _ _ => false,
    newTrackErr := fun _ _ => false, addTrackErr := fun _ _ => false }

/-- A call of `addPeer` or `removePeer` on a room. -/
inductive RoomOp where
  | add (r : Ptr) (p : Ptr)
  | remove (r : Ptr) (id : String)

/-- Make the call. -/
def RoomOp.run : RoomOp → World → Result
  | RoomOp.add r p, w => addPeer r p w
  | RoomOp.remove r id, w => removePeer r id w

/-- Make the calls one after the other.  A panic ends the call that raised it
(the HTTP server recovers it) and the next call runs in the state it left.
Returns the outcome of each call and the final state. -/
def runOps : List RoomOp → World → List (Option Panic) × World
  | [], w => ([], w)
  | op :: rest, w =>
    ((op.run w).panic :: (runOps rest (op.run w).world).1, (runOps rest (op.run w).world).2)

/-- The peer object that a call adds. -/
def RoomOp.added : RoomOp → Option Nat
  | RoomOp.add _ (some q) => some q
  | _ => none

/-- The peer objects that the calls add, in order. -/
def addedPeers (ops : List RoomOp) : List Nat :=
  ops.filterMap RoomOp.added

/-- Every peer registered in a room has a `closed` channel that was made and
not closed, and is registered in one room under one id only. -/
def SignalsOk (w : World) : Prop :=
  (∀ a k q, (w.roomAt a).peers.lookup k = some (some q) → (w.peerAt q).closed = Chan.made)
  ∧ (∀ a k a2 k2 q, (w.roomAt a).peers.lookup k = some (some q) →
      (w.roomAt a2).peers.lookup k2 = some (some q) → a = a2 ∧ k = k2)

/-- Each peer object is added once: the calls add pairwise distinct peers, none
of which is registered yet, each with its `closed` channel as `make` left it. -/
def AddedOnce (w : World) (ops : List RoomOp) : Prop :=
  (addedPeers ops).Nodup
  ∧ ∀ q ∈ addedPeers ops, (w.peerAt q).closed = Chan.made
      ∧ ∀ a k, (w.roomAt a).peers.lookup k ≠ some (some q)

/-- A state with one empty room `lobby` at address 0 and unregistered peers:
the peer at `q` is called `x` for even `q` and `y` for odd `q`, has the
connection and the data channel `q`, and a `closed` channel just made. -/
def lobbyWorld : World :=
  (getOrCreateRoom "lobby"
    { World.init with
      peerAt := fun q =>
        { id := if q % 2 = 0 then "x" else "y", pc := some q, roomRef := some 0,
          data := some q, closed := Chan.made } }).2

/-- Two joins under the same id, two removals of it, then a join and a removal
under another id. -/
def lobbyOps : List RoomOp :=
  [RoomOp.add (some 0) (some 0), RoomOp.add (some 0) (some 2), RoomOp.remove (some 0) "x",
   RoomOp.remove (some 0) "x", RoomOp.add (some 0) (some 1), RoomOp.remove (some 0) "y"]

/-- The forwarding task that an event starts. -/
def Event.task : Event → Option Task
  | Event.goForward r t q s => some ⟨r, t, q, s⟩
  | _ => none

/-- The forwarding tasks that the events start, in order. -/
def forwardTasks (evs : List Event) : List Task :=
  evs.filterMap Event.task

/-- The peer behind a pointer of the snapshot when `forwardTrack` gets through
to starting a task for it: the peer's id is not `senderID`, the peer has a
connection, and neither `NewTrackLocalStaticRTP` nor `AddTrack` fails for it. -/
def forwardDest (env : Env) (w : World) (senderID : String) (remote : Nat) (p : Ptr) :
    Option Nat :=
  match p with
  | none => none
  | some q =>
    if (w.peerAt q).id = senderID then none
    else
      match (w.peerAt q).pc with
      | none => none
      | some _ => if env.newTrackErr remote q || env.addTrackErr remote q then none else some q

/-- The peers of the room at `a` for which `forwardTrack` gets through, in the
order of the snapshot. -/
def forwardDests (env : Env) (w : World) (a : Nat) (senderID : String) (remote : Nat) :
    List Nat :=
  ((w.roomAt a).peers.entries.map (fun e => e.2)).filterMap (forwardDest env w senderID remote)

/-- No peer object is registered twice in the room at `a`. -/
def PeersDistinct (w : World) (a : Nat) : Prop :=
  ((w.roomAt a).peers.entries.map (fun e => e.2)).Nodup

instance (w : World) (a : Nat) : Decidable (PeersDistinct w a) := by
  unfold PeersDistinct
  infer_instance

/-- The statement that `forwardTrack` starts exactly one forwarding task for
every peer of the room whose id differs from `senderID`. -/
def ForwardsToEveryOther (env : Env) (w : World) (a : Nat) (senderID : String)
    (remote : Nat) : Prop :=
  ∀ k q, (w.roomAt a).peers.lookup k = some (some q) → (w.peerAt q).id ≠ senderID →
    ((forwardTasks (newEvents w (forwardTrack env (some a) senderID remote w).world)).map
      Task.dst).count q = 1

/-- The state `tenRooms` in which the peer at address 1 has lost its connection. -/
def pcLessWorld : World :=
  { tenRooms with
    peerAt := fun q => if q = 1 then { tenRooms.peerAt 1 with pc := none } else tenRooms.peerAt q }

/-- Every non-nil peer of the room at `a` is registered under its own id (what
`addPeer` stores: the key is `p.id`, and no code writes `id` afterwards). -/
def KeysAreIds (w : World) (a : Nat) : Prop :=
  ∀ e ∈ (w.roomAt a).peers.entries,
    match e.2 with
    | none => True
    | some q => (w.peerAt q).id = e.1

/-- The inbound track `remote` published by `senderID` is forwarded to the peer
at `q`: the call of `forwardTrack` starts a forwarding task for it. -/
def ForwardedTo (env : Env) (w : World) (a : Nat) (senderID : String) (remote q : Nat) :
    Prop :=
  q ∈ (forwardTasks (newEvents w (forwardTrack env (some a) senderID remote w).world)).map
    Task.dst

instance (env : Env) (w : World) (a : Nat) (senderID : String) (remote q : Nat) :
    Decidable (ForwardedTo env w a senderID remote q) := by
  unfold ForwardedTo
  infer_instance

/-- An environment in which `AddTrack` fails on the peer at address 6 and every
other library call succeeds. -/
def attachFailsEnv : Env :=
  { sendErr := fun _ _ _ => false, closeErr := fun _ _ => false,
    newTrackErr := fun _ _ => false, addTrackErr := fun _ q => q == 6 }

/-- An environment with two STUN servers, a blank entry between them, and a
TURN configuration that lacks its password. -/
def twoStunEnv : String → String := fun v =>
  if v = "STUN_URLS" then " stun:a.example:3478 , ,stun:b.example:3478"
  else if v = "TURN_URL" then "turn:t.example:3478"
  else if v = "TURN_USER" then "user"
  else ""

/-- The status and the body that an event sends with `c.JSON`. -/
def Event.response : Event → Option (Nat × Reply)
  | Event.respond status reply => some (status, reply)
  | _ => none

/-- The responses among the events, in order. -/
def responses (evs : List Event) : List (Nat × Reply) :=
  evs.filterMap Event.response

/-- The event records a failed step of the handshake that `HandleJoin` checks:
`SetRemoteDescription` or `CreateAnswer` returned an error, or
`LocalDescription` returned nil. -/
def Event.abortsJoin : Event → Bool
  | Event.setRemoteDescription _ _ (some _) => true
  | Event.createAnswer _ none => true
  | Event.localDescription _ none => true
  | _ => false

/-- The event creates a connection object. -/
def Event.createsConn : Event → Bool
  | Event.newPeerConnection (some _) => true
  | _ => false

/-- The state in which the handshake of a join starts, when the request is well
formed and the connection could be made: the connection exists, the room is
resolved, the peer is built and added to the room. -/
def joinedWorld (jenv : JoinEnv) (req : Request) (w : World) : World :=
  let w1 := (createPeerConnection jenv (getWebRTCConfigFromEnv jenv.getenv) w).2
  let created := getOrCreateRoom req.room w1
  (addPeer created.1 (some created.2.nextPeer)
    { created.2.setPeer created.2.nextPeer
        { id := req.peer, pc := some w.nextConn, roomRef := created.1, data := none,
          closed := Chan.made } with nextPeer := created.2.nextPeer + 1 }).world

/-- How the handshake of a join ends, for the peer `q` registered under `peerID`
in the room `a` with the connection `pc`, from the state `w4` to the result
`res`.  It returns, allocates nothing, and either it aborts (a checked step
failed: one response, an error 500; the peer removed and its channel closed; the
connection closed) or it answers (no checked step failed: one response, the
local description with status 200; nothing removed, nothing closed). -/
def JoinOutcome (a : Nat) (peerID : String) (q pc : Nat) (offer : SessionDescription)
    (w4 : World) (res : Result) : Prop :=
  res.panic = none
  ∧ res.world.sfu = w4.sfu
  ∧ res.world.nextRoom = w4.nextRoom
  ∧ res.world.nextPeer = w4.nextPeer
  ∧ res.world.nextConn = w4.nextConn
  ∧ ∃ evs, res.world.trace = w4.trace ++ evs
    ∧ (∀ e ∈ evs, e.createsConn = false)
    ∧ ((∃ msg, responses evs = [(500, Reply.error msg)]
          ∧ closeCalls evs = [pc] ∧ chanCloses evs = [q]
          ∧ (∃ e ∈ evs, e.abortsJoin = true)
          ∧ (Event.setRemoteDescription pc offer (some msg) ∈ evs
              ∨ (Event.createAnswer pc none ∈ evs
                  ∧ Event.log (LogMsg.createAnswerError msg) ∈ evs)
              ∨ (Event.localDescription pc none ∈ evs ∧ msg = "local description is nil"))
          ∧ res.world.roomAt
              = Function.update w4.roomAt a
                  { w4.roomAt a with peers := (w4.roomAt a).peers.erase peerID }
          ∧ res.world.peerAt
              = Function.update w4.peerAt q { w4.peerAt q with closed := Chan.closed })
        ∨ (∃ ld, responses evs = [(200, Reply.answer ld)]
          ∧ closeCalls evs = [] ∧ chanCloses evs = []
          ∧ (∀ e ∈ evs, e.abortsJoin = false)
          ∧ Event.localDescription pc (some ld) ∈ evs
          ∧ res.world.roomAt = w4.roomAt
          ∧ res.world.peerAt = w4.peerAt))

/-- An offer and an answer for the examples. -/
def sampleOffer : SessionDescription := { sdpType := 1, sdp := "v=0 offer" }

/-- The answer of the examples. -/
def sampleAnswer : SessionDescription := { sdpType := 3, sdp := "v=0 answer" }

/-- A library and an environment in which every step of a join succeeds. -/
def okJoinEnv : JoinEnv :=
  { getenv := fun _ => ""
    decodeOffer := fun _ => Except.ok sampleOffer
    newPeerConnectionErr := fun _ _ => none
    setRemoteDescriptionErr := fun _ _ _ => none
    createAnswer := fun _ _ => Except.ok sampleAnswer
    setLocalDescriptionErr := fun _ _ _ => none
    localDescription := fun _ _ => some sampleAnswer }

/-- A library that rejects every offer in `SetRemoteDescription`. -/
def badOfferEnv : JoinEnv :=
  { okJoinEnv with setRemoteDescriptionErr := fun _ _ _ => some "bad offer" }

/-- A library in which `SetLocalDescription` returns an error after the
description has been stored, so that `LocalDescription` is not nil. -/
def localFailsEnv : JoinEnv :=
  { okJoinEnv with setLocalDescriptionErr := fun _ _ _ => some "gather failed" }

/-- A well-formed join request: `alice` joins the room `lobby`. -/
def aliceJoins : Request := { room := "lobby", peer := "alice", body := some [123, 125] }

/-- A join request without a peer id. -/
def namelessJoin : Request := { room := "lobby", peer := "", body := some [123, 125] }

/-- The statements that a goroutine has still to run, at most. -/
def Pc.rank : Pc → Nat
  | Pc.start => 5
  | Pc.locked => 4
  | Pc.looked _ => 3
  | Pc.allocated _ => 2
  | Pc.returning _ => 1
  | Pc.done _ => 0

/-- The goroutine has returned. -/
def Pc.isDone : Pc → Bool
  | Pc.done _ => true
  | _ => false

/-- The statements that the two goroutines have still to run, at most. -/
def Conc.rank (c : Conc) : Nat :=
  (c.pcs Tid.first).rank + (c.pcs Tid.second).rank

/-- The state from which the goroutine inside the mutex started: the state
after a complete call when the other goroutine has returned, the initial state
`w` otherwise. -/
def Conc.base (roomID : String) (w : World) (c : Conc) : World :=
  if (c.pcs Tid.first).isDone || (c.pcs Tid.second).isDone then (getOrCreateRoom roomID w).2
  else w

/-- What the goroutine inside the mutex has done to the state `b` it started
from, at each position. -/
def Held (roomID : String) (b world : World) : Pc → Prop
  | Pc.locked => world = b
  | Pc.looked found => found = b.sfu.rooms.lookup roomID ∧ world = b
  | Pc.allocated a =>
    b.sfu.rooms.lookup roomID = none ∧ a = b.nextRoom
      ∧ world = { b.setRoom b.nextRoom { id := roomID, peers := ∅ } with
                  nextRoom := b.nextRoom + 1 }
  | Pc.returning r => r = (getOrCreateRoom roomID b).1 ∧ world = (getOrCreateRoom roomID b).2
  | _ => False

/-- A goroutine outside the mutex has not begun, or has returned what one call
from the initial state `w` returns. -/
def Idle (roomID : String) (w : World) (pc : Pc) : Prop :=
  pc = Pc.start ∨ pc = Pc.done (getOrCreateRoom roomID w).1

/-- The invariant of the interleavings of two calls that start in `w`. -/
def ConcInv (roomID : String) (w : World) (c : Conc) : Prop :=
  (∀ t, c.holder ≠ some t → Idle roomID w (c.pcs t))
  ∧ (∀ t, c.holder = some t → Held roomID (c.base roomID w) c.world (c.pcs t))
  ∧ (c.holder = none → c.world = c.base roomID w)

/-- An interleaving of two calls for the room `lobby`: the second goroutine takes
the mutex first. -/
def raceSchedule : List Tid :=
  [Tid.second, Tid.second, Tid.second, Tid.second, Tid.second, Tid.first, Tid.first,
    Tid.first, Tid.first]

/-- The state in which the interleaving `raceSchedule` ends, from the initial
state. -/
def raceEnd : Conc :=
  (runSchedule "lobby" raceSchedule (Conc.start World.init)).getD (Conc.start World.init)

/-- A call of one of the methods that add, remove or close peers. -/
inductive Call where
  | join (req : Request)
  | removePeer (room : Ptr) (id : String)
  | closeRoom (id : String)
  | closeAll

/-- Run one call. -/
def Call.run (env : Env) (jenv : JoinEnv) : Call → World → Result
  | Call.join req, w => HandleJoin env jenv req w
  | Call.removePeer room id, w => Sfu.removePeer room id w
  | Call.closeRoom id, w => CloseRoom env id w
  | Call.closeAll, w => CloseAll env w

/-- Run calls one after another.  A call that panics leaves the state it had
reached, and the next call starts from there. -/
def runCalls (env : Env) (jenv : JoinEnv) : List Call → World → World
  | [], w => w
  | c :: cs, w => runCalls env jenv cs (c.run env jenv w).world

/-- The registry holds the room object at address `a`. -/
def Registered (w : World) (a : Nat) : Prop :=
  ∃ id, w.sfu.rooms.lookup id = some (some a)

/-- What the calls keep true of the registered rooms: the registry holds no nil
pointer, only allocated room objects, and none of them twice; every `Close` was
on an allocated connection; a peer in the peer map of a registered room is
allocated, and its connection is allocated and was never closed; and a
connection belongs to one entry of one registered room only. -/
def RelayInv (w : World) : Prop :=
  (∀ id, w.sfu.rooms.lookup id ≠ some none)
  ∧ (∀ id a, w.sfu.rooms.lookup id = some (some a) → a < w.nextRoom)
  ∧ (∀ id1 id2 a, w.sfu.rooms.lookup id1 = some (some a) →
      w.sfu.rooms.lookup id2 = some (some a) → id1 = id2)
  ∧ (∀ c ∈ closeCalls w.trace, c < w.nextConn)
  ∧ (∀ a k q, Registered w a → (w.roomAt a).peers.lookup k = some (some q) →
      q < w.nextPeer
      ∧ ∀ c, (w.peerAt q).pc = some c → c < w.nextConn ∧ c ∉ closeCalls w.trace)
  ∧ (∀ a1 a2 k1 k2 q1 q2 c, Registered w a1 → Registered w a2 →
      (w.roomAt a1).peers.lookup k1 = some (some q1) →
      (w.roomAt a2).peers.lookup k2 = some (some q2) →
      (w.peerAt q1).pc = some c → (w.peerAt q2).pc = some c → a1 = a2 ∧ k1 = k2)

/-- The calls of the example: `alice` joins the room `lobby`, then the room is
closed. -/
def joinThenClose : List Call :=
  [Call.join aliceJoins, Call.closeRoom "lobby"]

/-- An environment in which `STUN_URLS` holds only commas and white space. -/
def blankStunEnv : String → String := fun v =>
  if v = "STUN_URLS" then " , " else ""

/-- The state after `alice` joined the room `lobby` from the initial state. -/
def aliceJoined : World :=
  (HandleJoin workingEnv okJoinEnv aliceJoins World.init).world

/-- The peer behind a pointer of the snapshot that `forwardTrack` tries to serve:
its id is not `senderID` and it has a connection. -/
def eligibleDest (w : World) (senderID : String) (p : Ptr) : Option Nat :=
  match p with
  | none => none
  | some q =>
    if (w.peerAt q).id = senderID then none
    else
      match (w.peerAt q).pc with
      | none => none
      | some _ => some q

/-- The peers of the room at `a` that `forwardTrack` tries to serve, in the order
of the snapshot. -/
def eligibleDests (w : World) (a : Nat) (senderID : String) : List Nat :=
  ((w.roomAt a).peers.entries.map (fun e => e.2)).filterMap (eligibleDest w senderID)

/-- The sender whose feedback an event starts to drain. -/
def Event.drainTask : Event → Option Nat
  | Event.goDrain s => some s
  | _ => none

/-- The feedback-drain tasks that the events start, in order. -/
def drainTasks (evs : List Event) : List Nat :=
  evs.filterMap Event.drainTask

/-- The result of the call of `NewTrackLocalStaticRTP` that an event records. -/
def Event.trackCreation : Event → Option (Option Nat)
  | Event.newLocalTrack _ t => some t
  | _ => none

/-- The results of the calls of `NewTrackLocalStaticRTP`, in order. -/
def trackCreations (evs : List Event) : List (Option Nat) :=
  evs.filterMap Event.trackCreation

/-- The connection on which an event calls `AddTrack`. -/
def Event.attachment : Event → Option Nat
  | Event.addTrack pc _ _ => some pc
  | _ => none

/-- The connections on which the events call `AddTrack`, in order. -/
def attachments (evs : List Event) : List Nat :=
  evs.filterMap Event.attachment

/-- The log lines about a failed creation or attachment among the events. -/
def Event.skipLog : Event → Option LogMsg
  | Event.log (LogMsg.newTrackError r p) => some (LogMsg.newTrackError r p)
  | Event.log (LogMsg.addTrackError r p) => some (LogMsg.addTrackError r p)
  | _ => none

/-- The log lines about skipped destinations, in order. -/
def skipLogs (evs : List Event) : List LogMsg :=
  evs.filterMap Event.skipLog

/-- A call of one of the methods of the relay. -/
inductive Action where
  | getOrCreateRoom (id : String)
  | addPeer (room p : Ptr)
  | removePeer (room : Ptr) (id : String)
  | broadcastData (room : Ptr) (senderID : String) (data : Bytes)
  | forwardTrack (room : Ptr) (senderID : String) (remote : Nat)
  | join (req : Request)
  | closeRoom (id : String)
  | closeAll

/-- The state that a call leaves, whether it returns or panics. -/
def Action.run (env : Env) (jenv : JoinEnv) : Action → World → World
  | Action.getOrCreateRoom id, w => (Sfu.getOrCreateRoom id w).2
  | Action.addPeer room p, w => (Sfu.addPeer room p w).world
  | Action.removePeer room id, w => (Sfu.removePeer room id w).world
  | Action.broadcastData room senderID data, w => (Sfu.broadcastData env room senderID data w).world
  | Action.forwardTrack room senderID remote, w => (Sfu.forwardTrack env room senderID remote w).world
  | Action.join req, w => (HandleJoin env jenv req w).world
  | Action.closeRoom id, w => (CloseRoom env id w).world
  | Action.closeAll, w => (CloseAll env w).world

/-- Run calls one after another. -/
def runActions (env : Env) (jenv : JoinEnv) : List Action → World → World
  | [], w => w
  | act :: rest, w => runActions env jenv rest (act.run env jenv w)

/-- The call is `CloseRoom` for the room id, or `CloseAll`. -/
def Action.closes (id : String) : Action → Bool
  | Action.closeRoom id1 => decide (id1 = id)
  | Action.closeAll => true
  | _ => false

/-- Calls after which the room `lobby` is empty: `alice` joins and is removed,
another room is closed, and a message and a track are relayed in the empty room. -/
def emptyingActions : List Action :=
  [Action.join aliceJoins, Action.removePeer (some 0) "alice",
    Action.closeRoom "hall", Action.broadcastData (some 0) "alice" [1, 2, 3],
    Action.forwardTrack (some 0) "alice" 7]

/-- A call of one of the four methods of the hub that change it. -/
inductive HubOp where
  | register (conn : Ptr)
  | subscribe (conn : Ptr) (channel : String)
  | unsubscribe (conn : Ptr) (channel : String)
  | unregister (conn : Ptr)

/-- Run one call of the hub. -/
def HubOp.run : HubOp → HubState → HubResult
  | HubOp.register conn, s => Register conn s
  | HubOp.subscribe conn channel, s => Subscribe conn channel s
  | HubOp.unsubscribe conn channel, s => Unsubscribe conn channel s
  | HubOp.unregister conn, s => Unregister conn s

/-- Run calls of the hub one after another; a call that panics leaves the state
it had reached. -/
def runHub : List HubOp → HubState → HubState
  | [], s => s
  | op :: rest, s => runHub rest (op.run s).state

/-- The state of a new hub. -/
def HubState.init : HubState :=
  { hub := NewHub, trace := [] }

/-- The connection is a key of the subscriber map of the channel. -/
def Subscribed (h : WebSocketHub) (conn : Ptr) (channel : String) : Prop :=
  ∃ subs, h.channels.lookup channel = some subs ∧ subs.lookup conn ≠ none

/-- No channel of the hub has an empty subscriber map. -/
def NoEmptyChannel (h : WebSocketHub) : Prop :=
  ∀ channel subs, h.channels.lookup channel = some subs → subs.entries ≠ []

/-- What `Unregister` and `Unsubscribe` leave of the subscriber map of a
channel: nothing when `conn` was its last key, the map without `conn` otherwise. -/
def prune (conn : Ptr) (subs : Option ConnSet) : Option ConnSet :=
  match subs with
  | none => none
  | some m => if (m.erase conn).entries.length = 0 then none else some (m.erase conn)

/-- The task that made a call or wrote a log line. -/
def PumpEvent.pump : PumpEvent → Nat
  | PumpEvent.read i _ _ => i
  | PumpEvent.write i _ _ _ => i
  | PumpEvent.log i _ => i

/-- The packet that the task `i` read with an event. -/
def PumpEvent.readBy (i : Nat) : PumpEvent → Option Bytes
  | PumpEvent.read j _ (ReadResult.packet b) => if j = i then some b else none
  | _ => none

/-- The packets that the task `i` read, in order. -/
def readsOf (i : Nat) (evs : List PumpEvent) : List Bytes :=
  evs.filterMap (PumpEvent.readBy i)

/-- The bytes that the task `i` passed to `Write` with an event. -/
def PumpEvent.writtenBy (i : Nat) : PumpEvent → Option Bytes
  | PumpEvent.write j _ d _ => if j = i then some d else none
  | _ => none

/-- The byte strings that the task `i` passed to `Write`, in order. -/
def writesOf (i : Nat) (evs : List PumpEvent) : List Bytes :=
  evs.filterMap (PumpEvent.writtenBy i)

/-- The packet that an event takes from the inbound track `r`. -/
def PumpEvent.readOn (r : Nat) : PumpEvent → Option Bytes
  | PumpEvent.read _ t (ReadResult.packet b) => if t.remote = r then some b else none
  | _ => none

/-- The packets taken from the inbound track `r`, in order, by whatever task. -/
def readsOn (r : Nat) (evs : List PumpEvent) : List Bytes :=
  evs.filterMap (PumpEvent.readOn r)

/-- The bytes of a read result that is a packet. -/
def ReadResult.bytes : ReadResult → Option Bytes
  | ReadResult.packet b => some b
  | _ => none

/-- The packets among read results. -/
def packets (l : List ReadResult) : List Bytes :=
  l.filterMap ReadResult.bytes

/-- The event is a call of `Read` or `Write` by the task `i`. -/
def PumpEvent.ioBy (i : Nat) : PumpEvent → Bool
  | PumpEvent.read j _ _ => decide (j = i)
  | PumpEvent.write j _ _ _ => decide (j = i)
  | PumpEvent.log _ _ => false

/-- The calls of `Read` and `Write` by the task `i`, in order. -/
def ioOf (i : Nat) (evs : List PumpEvent) : List PumpEvent :=
  evs.filter (PumpEvent.ioBy i)

/-- The call returned an error: a `Read` that returned `io.EOF` or another
error, or a `Write` that returned an error. -/
def PumpEvent.failed : PumpEvent → Bool
  | PumpEvent.read _ _ (ReadResult.packet _) => false
  | PumpEvent.read _ _ _ => true
  | PumpEvent.write _ _ _ err => err
  | PumpEvent.log _ _ => false

/-- The position of the task `i`, if there is such a task. -/
def Media.pcOf (m : Media) (i : Nat) : Option PumpPc :=
  (m.pumps[i]?).map Pump.pc

/-- A bound on the steps that the task `i` has still to make. -/
def Media.rank (m : Media) (i : Nat) : Nat :=
  match m.pumps[i]? with
  | none => 0
  | some p =>
    match p.pc with
    | PumpPc.stopped => 0
    | PumpPc.reading => 2 * (m.inbound p.task.remote).length + 2
    | PumpPc.writing _ => 2 * (m.inbound p.task.remote).length + 3

/-- A `Write` that never fails. -/
def writeOk : List PumpEvent → Nat → Bytes → Bool :=
  fun _ _ _ => false

/-- The room `lobby` with `alice`, `bob` and `carol`, after three joins. -/
def trioWorld : World :=
  runCalls workingEnv okJoinEnv
    [Call.join aliceJoins,
      Call.join { room := "lobby", peer := "bob", body := some [123, 125] },
      Call.join { room := "lobby", peer := "carol", body := some [123, 125] }] World.init

/-- The forwarding tasks that `forwardTrack` starts in `trioWorld` when `alice`
publishes the track 7, which delivers two packets and then ends. -/
def trioMedia : Media :=
  Media.start (forwardTrack workingEnv (some 0) "alice" 7 trioWorld).world 0
    (forwardTasks (newEvents trioWorld (forwardTrack workingEnv (some 0) "alice" 7 trioWorld).world))
    (fun r => if r = 7 then [ReadResult.packet [1, 2], ReadResult.packet [3, 4]] else [])

/-- The read result is a packet. -/
def ReadResult.isPacket : ReadResult → Bool
  | ReadResult.packet _ => true
  | _ => false

/-- The event is a log line of the task `i`. -/
def PumpEvent.isLogOf (i : Nat) : PumpEvent → Bool
  | PumpEvent.log j _ => decide (j = i)
  | _ => false

/-- None of the calls returned an error. -/
def NoFail (l : List PumpEvent) : Prop :=
  ∀ e ∈ l, e.failed = false

/-- The last of the calls returned an error, and none before it. -/
def FailLast (l : List PumpEvent) : Prop :=
  ∃ pre e, l = pre ++ [e] ∧ NoFail pre ∧ e.failed = true

/-- What holds of the task `i` along every interleaving: an index without task
has made no effect; the reads of a task carry its arguments; a task before a
read has written every packet it read and no call of it failed; a task before a
write has written every packet but the last one it read, which is `buf[:n]`; a
task that has returned stopped at its first failed call and has written every
packet it read. -/
def PumpInv (m : Media) (i : Nat) : Prop :=
  match m.pumps[i]? with
  | none => ∀ e ∈ m.effects, e.pump ≠ i
  | some p =>
    (∀ e ∈ m.effects, e.pump = i → ∀ j t res, e = PumpEvent.read j t res → t = p.task)
    ∧ match p.pc with
      | PumpPc.reading =>
        NoFail (ioOf i m.effects) ∧ writesOf i m.effects = readsOf i m.effects
      | PumpPc.writing n =>
        NoFail (ioOf i m.effects)
          ∧ readsOf i m.effects = writesOf i m.effects ++ [p.buf.take n]
      | PumpPc.stopped =>
        FailLast (ioOf i m.effects) ∧ writesOf i m.effects = readsOf i m.effects

/-- The effects among the steps that happen while the read lock of the room at
`a` is held, `held` being the number of read locks held before the steps. -/
def underLock (a : Nat) : Nat → List LockStep → List Event
  | _, [] => []
  | held, LockStep.rlock b :: rest => underLock a (if b = a then held + 1 else held) rest
  | held, LockStep.runlock b :: rest => underLock a (if b = a then held - 1 else held) rest
  | held, LockStep.effect e :: rest =>
    if 0 < held then e :: underLock a held rest else underLock a held rest

/-- The number of read locks of the room at `a` that are held after the steps,
`held` being the number held before.  While it is not zero, `r.mu.Lock()` of
`addPeer` and `removePeer` waits. -/
def heldAfter (a : Nat) : Nat → List LockStep → Nat
  | held, [] => held
  | held, LockStep.rlock b :: rest => heldAfter a (if b = a then held + 1 else held) rest
  | held, LockStep.runlock b :: rest => heldAfter a (if b = a then held - 1 else held) rest
  | held, LockStep.effect _ :: rest => heldAfter a held rest

/-- The connection on which an event records a failed step of the handshake that
`HandleJoin` checks. -/
def Event.failedConn : Event → Option Nat
  | Event.setRemoteDescription c _ (some _) => some c
  | Event.createAnswer c none => some c
  | Event.localDescription c none => some c
  | _ => none

/-- What the operations keep of the relay while joins run concurrently: the
registry holds allocated rooms; every entry of every peer map holds an
allocated peer whose `closed` channel is open; a peer object is stored in at
most one entry (`HandleJoin` builds a peer for the one `addPeer` it makes); and
a failed step is recorded on a connection that exists. -/
structure WorldOk (w : World) : Prop where
  rooms : ∀ id r, w.sfu.rooms.lookup id = some r → ∃ a, r = some a ∧ a < w.nextRoom
  peers : ∀ a k p, (w.roomAt a).peers.lookup k = some p →
    ∃ q, p = some q ∧ q < w.nextPeer ∧ (w.peerAt q).closed = Chan.made
  once : ∀ a k a1 k1 q, (w.roomAt a).peers.lookup k = some (some q) →
    (w.roomAt a1).peers.lookup k1 = some (some q) → a = a1 ∧ k = k1
  fails : ∀ e ∈ w.trace, ∀ c, e.failedConn = some c → c < w.nextConn

/-- How a turn of any goroutine changes the relay, seen from another goroutine:
nothing is deallocated, the connection and the id of an allocated peer stay,
an allocated peer is stored in no entry in which it was not stored before, and
the trace grows. -/
structure Evolves (w w1 : World) : Prop where
  conn : w.nextConn ≤ w1.nextConn
  room : w.nextRoom ≤ w1.nextRoom
  peer : w.nextPeer ≤ w1.nextPeer
  objs : ∀ q, q < w.nextPeer →
    (w1.peerAt q).pc = (w.peerAt q).pc ∧ (w1.peerAt q).id = (w.peerAt q).id
  maps : ∀ a k q, q < w.nextPeer → (w1.roomAt a).peers.lookup k = some (some q) →
    (w.roomAt a).peers.lookup k = some (some q)
  trace : ∃ evs, w1.trace = w.trace ++ evs

/-- A turn that leaves the peer maps, the allocations and of each peer the
connection, the id and the `closed` channel as they are, adds nothing to the
registry, and records neither a failed step of a handshake nor a response. -/
structure Quiet (w w1 : World) : Prop where
  sfu : ∀ id r, w1.sfu.rooms.lookup id = some r → w.sfu.rooms.lookup id = some r
  roomAt : w1.roomAt = w.roomAt
  nextRoom : w1.nextRoom = w.nextRoom
  peerAt : ∀ q, (w1.peerAt q).pc = (w.peerAt q).pc ∧ (w1.peerAt q).id = (w.peerAt q).id
    ∧ (w1.peerAt q).closed = (w.peerAt q).closed
  nextPeer : w1.nextPeer = w.nextPeer
  nextConn : w1.nextConn = w.nextConn
  trace : ∃ evs, w1.trace = w.trace ++ evs
    ∧ ∀ e ∈ evs, e.failedConn = none ∧ e.response = none

/-- The goroutine of the request `req` built the peer `j.peer` with the connection
`j.conn` for the room `j.room`: the objects exist, and the peer is stored
nowhere but under the peer id of the request in that room. -/
def Owns (w : World) (req : Request) (j : Joined) : Prop :=
  j.conn < w.nextConn ∧ j.room < w.nextRoom ∧ j.peer < w.nextPeer
  ∧ (w.peerAt j.peer).pc = some j.conn ∧ (w.peerAt j.peer).id = req.peer
  ∧ ∀ a k, (w.roomAt a).peers.lookup k = some (some j.peer) → a = j.room ∧ k = req.peer

/-- The peer object at `q` is in no peer map. -/
def Unlisted (w : World) (q : Nat) : Prop :=
  ∀ a k, (w.roomAt a).peers.lookup k ≠ some (some q)

/-- No checked step of the handshake has failed on the connection `c`. -/
def NoFailure (w : World) (c : Nat) : Prop :=
  ∀ e ∈ w.trace, e.failedConn ≠ some c

/-- A checked step of the handshake failed on the connection `c`, and `msg` is
the text that `HandleJoin` sends for it: the error of `SetRemoteDescription` or
of `CreateAnswer`, or the fixed text for a nil `LocalDescription`. -/
def FailedStep (w : World) (c : Nat) (msg : String) : Prop :=
  (∃ offer, Event.setRemoteDescription c offer (some msg) ∈ w.trace)
  ∨ (Event.createAnswer c none ∈ w.trace
      ∧ Event.log (LogMsg.createAnswerError msg) ∈ w.trace)
  ∨ (Event.localDescription c none ∈ w.trace ∧ msg = "local description is nil")

/-- The response of a join that ended before a peer was built: the parameters
are missing, the offer does not decode, or the connection could not be made
(`tr` is the trace at the call of `webrtc.NewPeerConnection`). -/
def EarlyReply (jenv : JoinEnv) (req : Request) (w : World) (status : Nat) (reply : Reply) :
    Prop :=
  ((req.room = "" ∨ req.peer = "") ∧ status = 400
      ∧ reply = Reply.error "room and peer query params required")
  ∨ (∃ err, BindOfferFromContext jenv req = Except.error err ∧ status = 400
      ∧ reply = Reply.error ("invalid offer: " ++ err))
  ∨ (∃ err tr rest, w.trace = tr ++ rest
      ∧ jenv.newPeerConnectionErr tr (getWebRTCConfigFromEnv jenv.getenv) = some err
      ∧ status = 500 ∧ reply = Reply.error ("pc create: " ++ err))

/-- What holds of a goroutine of `HandleJoin` at its program counter. -/
def ThreadOk (jenv : JoinEnv) (w : World) (t : JoinThread) : Prop :=
  match t.pc with
  | JoinPc.start => True
  | JoinPc.connected _ c => c < w.nextConn ∧ NoFailure w c
  | JoinPc.resolved _ c room =>
    c < w.nextConn ∧ NoFailure w c ∧ ∃ a, room = some a ∧ a < w.nextRoom
  | JoinPc.added _ j => Owns w t.req j ∧ NoFailure w j.conn
  | JoinPc.remoteSet j => Owns w t.req j ∧ NoFailure w j.conn
  | JoinPc.answered j _ => Owns w t.req j ∧ NoFailure w j.conn
  | JoinPc.localSet j => Owns w t.req j ∧ NoFailure w j.conn
  | JoinPc.failing j msg =>
    Owns w t.req j ∧ FailedStep w j.conn msg ∧ (500, Reply.error msg) ∈ responses w.trace
  | JoinPc.removed j msg =>
    Owns w t.req j ∧ FailedStep w j.conn msg ∧ (500, Reply.error msg) ∈ responses w.trace
      ∧ Unlisted w j.peer
  | JoinPc.done status reply none =>
    EarlyReply jenv t.req w status reply ∧ (status, reply) ∈ responses w.trace
  | JoinPc.done status reply (some j) =>
    Owns w t.req j ∧ (status, reply) ∈ responses w.trace
      ∧ ((status = 200 ∧ NoFailure w j.conn
            ∧ ∃ ld, reply = Reply.answer ld ∧ Event.localDescription j.conn (some ld) ∈ w.trace)
        ∨ (status = 500 ∧ ∃ msg, reply = Reply.error msg ∧ FailedStep w j.conn msg
            ∧ Unlisted w j.peer ∧ j.conn ∈ closeCalls w.trace))
  | JoinPc.panicked _ => False

/-- No two goroutines hold the same connection. -/
def ConnsDistinct (s : Sys) : Prop :=
  ∀ (i k : Nat) (ti tk : JoinThread) (c : Nat), i ≠ k → s.joins[i]? = some ti →
    s.joins[k]? = some tk → ti.pc.conn = some c → tk.pc.conn ≠ some c

/-- The responses sent so far are one per goroutine that has sent its response. -/
def Counted (s : Sys) : Prop :=
  (responses s.world.trace).length = s.joins.countP (fun t => t.pc.responded)

/-- The invariant of the relay with its join goroutines. -/
structure SysInv (jenv : JoinEnv) (s : Sys) : Prop where
  world : WorldOk s.world
  threads : ∀ (i : Nat) (t : JoinThread), s.joins[i]? = some t → ThreadOk jenv s.world t
  conns : ConnsDistinct s
  counted : Counted s

/-- What one turn of a goroutine of `HandleJoin` does, from the program counter
`pc` and the state `w` to the pair `r` of the next program counter and the next
state: the invariants of the relay and of the goroutine are kept; the
goroutine keeps its connection or gets a new one; it records no failed step on
the connection of another goroutine; it keeps what it built; it changes no
peer-map entry but the one of its own peer id in its own room; and it sends a
response exactly when it enters the state of having responded. -/
structure StepOk (jenv : JoinEnv) (req : Request) (pc : JoinPc) (w : World)
    (r : JoinPc × World) : Prop where
  world : WorldOk r.2
  evolves : Evolves w r.2
  thread : ThreadOk jenv r.2 { req := req, pc := r.1 }
  conn : r.1.conn = pc.conn
    ∨ (pc.conn = none ∧ r.1.conn = some w.nextConn ∧ w.nextConn < r.2.nextConn)
  quiet : ∀ c, r.1.conn ≠ some c → NoFailure w c → NoFailure r.2 c
  joined : ∀ j, pc.joined = some j → r.1.joined = some j
  maps : ∀ a k, a < w.nextRoom →
    (r.2.roomAt a).peers.lookup k = (w.roomAt a).peers.lookup k
      ∨ ∃ j, r.1.joined = some j ∧ j.room = a ∧ req.peer = k
  own : ∀ j, r.1.joined = some j → r.1.cleaned = false →
    (pc.joined = some j ∧ pc.cleaned = false ∧ r.2.roomAt = w.roomAt)
      ∨ (r.2.roomAt j.room).peers.lookup req.peer = some (some j.peer)
  count : (responses r.2.trace).length + (if pc.responded then 1 else 0)
    = (responses w.trace).length + (if r.1.responded then 1 else 0)
  rank : r.1.rank < pc.rank ∨ (pc.rank = 0 ∧ r.1 = pc)

/-- The turn belongs to a join request other than the `i`-th that names the peer
id `peerID`. -/
def Turn.rival (reqs : List Request) (i : Nat) (peerID : String) : Turn → Bool
  | Turn.join k =>
    match reqs[k]? with
    | some r => decide (k ≠ i) && decide (r.peer = peerID)
    | none => false
  | _ => false

/-- A library that rejects the offer on the connection 0 and accepts every other. -/
def firstOfferBadEnv : JoinEnv :=
  { okJoinEnv with
    setRemoteDescriptionErr := fun _ c _ => if c = 0 then some "bad offer" else none }

/-- Two join requests of `alice` for the room `lobby`. -/
def twoAlices : List Request := [aliceJoins, aliceJoins]

/-- A schedule of two joins that overlap: both goroutines run up to
`room.addPeer(peer)`, then the first one runs to its end, then the second. -/
def overlapSchedule : List Turn :=
  [Turn.join 0, Turn.join 0, Turn.join 0, Turn.join 1, Turn.join 1, Turn.join 1,
    Turn.join 0, Turn.join 0, Turn.join 0,
    Turn.join 1, Turn.join 1, Turn.join 1, Turn.join 1]

/-- The program counters of the goroutines. -/
def Sys.pcs (s : Sys) : List JoinPc :=
  s.joins.map (fun t => t.pc)

/-! ## Theorems -/

theorem lookup_some_mem {V : Type} {m : GoMap V} {k : String} {v : V}
    (h : m.lookup k = some v) : (⟨k, v⟩ : Entry V) ∈ m.entries :=
  (AList.mem_lookup_iff (s := m) (a := k) (b := v)).1 (by simpa using h)

/-- C1. `getOrCreateRoom` is idempotent.  The first call returns the room the
registry then holds under the id: the registered one when there was one (and
nothing changes), a new room object with that id and an empty peer map
otherwise (one entry more).  A second call returns the same pointer and changes
nothing, the registry holds exactly one entry under the id, and every other
entry, every other room object, every peer and the trace are as before. -/
theorem getOrCreateRoom_idempotent (w : World) (id : String) :
    (getOrCreateRoom id w).2.sfu.rooms.lookup id = some (getOrCreateRoom id w).1
    ∧ (w.sfu.rooms.lookup id = none →
        (getOrCreateRoom id w).1 = some w.nextRoom
        ∧ ((getOrCreateRoom id w).2.roomAt w.nextRoom).id = id
        ∧ ((getOrCreateRoom id w).2.roomAt w.nextRoom).peers = ∅
        ∧ (getOrCreateRoom id w).2.sfu.rooms.entries.length = w.sfu.rooms.entries.length + 1)
    ∧ (∀ r, w.sfu.rooms.lookup id = some r → getOrCreateRoom id w = (r, w))
    ∧ (RegistryOk w → ∃ a, (getOrCreateRoom id w).1 = some a
        ∧ ((getOrCreateRoom id w).2.roomAt a).id = id)
    ∧ getOrCreateRoom id (getOrCreateRoom id w).2 = getOrCreateRoom id w
    ∧ (getOrCreateRoom id w).2.sfu.rooms.keys.count id = 1
    ∧ (∀ k, k ≠ id → (getOrCreateRoom id w).2.sfu.rooms.lookup k = w.sfu.rooms.lookup k)
    ∧ (∀ a, a ≠ w.nextRoom → (getOrCreateRoom id w).2.roomAt a = w.roomAt a)
    ∧ (getOrCreateRoom id w).2.peerAt = w.peerAt
    ∧ (getOrCreateRoom id w).2.trace = w.trace := by
  cases h : w.sfu.rooms.lookup id with
  | some r =>
    have e : getOrCreateRoom id w = (r, w) := by simp [getOrCreateRoom, h]
    refine ⟨by simp [e, h], by simp, ?_, ?_, ?_, ?_, by simp [e], by simp [e], by simp [e], by simp [e]⟩
    · intro r1 h1; cases h1; exact e
    · intro ok
      have hm := ok _ (lookup_some_mem h)
      cases r with
      | none => exact absurd hm (by simp [RoomEntryOk])
      | some a => exact ⟨a, by simp [e], by simpa [e, RoomEntryOk] using hm.2⟩
    · simp [e, getOrCreateRoom, h]
    · rw [e]
      apply List.count_eq_one_of_mem (AList.keys_nodup _)
      exact AList.mem_keys.1 (AList.lookup_isSome.1 (by simp [h]))
  | none =>
    have hn : id ∉ w.sfu.rooms := AList.lookup_eq_none.1 h
    have e : getOrCreateRoom id w = (some w.nextRoom,
        { w.setRoom w.nextRoom { id := id, peers := ∅ } with
            nextRoom := w.nextRoom + 1,
            sfu := { rooms := w.sfu.rooms.insert id (some w.nextRoom) } }) := by
      simp [getOrCreateRoom, h]
    refine ⟨by simp [e, AList.lookup_insert], ?_, by simp, ?_, ?_, ?_, ?_, ?_, by simp [e, World.setRoom], by simp [e, World.setRoom]⟩
    · intro _
      refine ⟨by simp [e], by simp [e, World.setRoom], by simp [e, World.setRoom], ?_⟩
      rw [e]
      show (w.sfu.rooms.insert id (some w.nextRoom)).entries.length = _
      rw [AList.insert_entries_of_neg hn]
      simp
    · intro _
      exact ⟨w.nextRoom, by simp [e], by simp [e, World.setRoom]⟩
    · rw [e]
      simp [getOrCreateRoom, AList.lookup_insert]
    · rw [e]
      apply List.count_eq_one_of_mem (AList.keys_nodup _)
      simp [AList.keys_insert]
    · intro k hk
      simp [e, AList.lookup_insert_ne hk]
    · intro a ha
      simp [e, World.setRoom, Function.update_noteq ha]

theorem newEvents_append (w : World) (w1 : World) (evs : List Event)
    (h : w1.trace = w.trace ++ evs) : newEvents w w1 = evs := by
  simp [newEvents, h]

/-- The loop `closePeers` writes nothing but the trace. -/
theorem closePeers_frame (env : Env) (l : List (Entry Ptr)) (w : World) :
    (closePeers env l w).world = w.withTrace (closePeers env l w).world.trace := by
  induction l generalizing w with
  | nil => rfl
  | cons e rest ih =>
    obtain ⟨k, p⟩ := e
    cases p with
    | none => rfl
    | some q =>
      cases hpc : (w.peerAt q).pc with
      | none => simp only [closePeers, hpc]; exact ih w
      | some pc =>
        simp only [closePeers, hpc]
        rw [ih]
        rfl

/-- Without a nil peer, `closePeers` does not panic and calls `Close` once per
entry whose peer has a connection, and does nothing else. -/
theorem closePeers_calls (env : Env) (l : List (Entry Ptr)) (w : World)
    (h : ∀ e ∈ l, e.2 ≠ none) :
    (closePeers env l w).panic = none
    ∧ ∃ evs, (closePeers env l w).world.trace = w.trace ++ evs
        ∧ closeCalls evs = l.filterMap (peerConn w)
        ∧ evs.length = (l.filterMap (peerConn w)).length := by
  induction l generalizing w with
  | nil => exact ⟨rfl, [], by simp [closePeers], rfl, rfl⟩
  | cons e rest ih =>
    obtain ⟨k, p⟩ := e
    have hrest : ∀ e ∈ rest, e.2 ≠ none := fun e he => h e (List.mem_cons_of_mem _ he)
    cases p with
    | none => exact absurd rfl (h ⟨k, none⟩ (List.mem_cons_self _ _))
    | some q =>
      cases hpc : (w.peerAt q).pc with
      | none =>
        obtain ⟨h1, evs, h2, h3, h4⟩ := ih w hrest
        refine ⟨by simpa [closePeers, hpc] using h1, evs, by simpa [closePeers, hpc] using h2, ?_, ?_⟩
        · rw [h3, List.filterMap_cons_none]; simp [peerConn, hpc]
        · rw [h4, List.filterMap_cons_none]; simp [peerConn, hpc]
      | some pc =>
        obtain ⟨h1, evs, h2, h3, h4⟩ :=
          ih (w.emit (Event.pcClose pc (env.closeErr w.trace pc))) hrest
        have hpeer : peerConn (w.emit (Event.pcClose pc (env.closeErr w.trace pc))) = peerConn w := rfl
        rw [hpeer] at h3 h4
        have hc : List.filterMap (peerConn w) (⟨k, some q⟩ :: rest)
            = pc :: List.filterMap (peerConn w) rest :=
          List.filterMap_cons_some (by simp [peerConn, hpc])
        refine ⟨by simpa [closePeers, hpc] using h1,
          Event.pcClose pc (env.closeErr w.trace pc) :: evs, ?_, ?_, ?_⟩
        · simp only [closePeers, hpc]; rw [h2]; simp [World.emit]
        · rw [hc]; simp [closeCalls, Event.closedConn] at h3 ⊢; exact h3
        · rw [hc]; simp [h4]

theorem getOrCreateRoom_present (id : String) (w : World) (r : Ptr)
    (h : w.sfu.rooms.lookup id = some r) : getOrCreateRoom id w = (r, w) := by
  simp [getOrCreateRoom, h]

theorem getOrCreateRoom_absent (id : String) (w : World)
    (h : w.sfu.rooms.lookup id = none) :
    getOrCreateRoom id w = (some w.nextRoom,
      { sfu := { rooms := w.sfu.rooms.insert id (some w.nextRoom) },
        roomAt := Function.update w.roomAt w.nextRoom { id := id, peers := ∅ },
        nextRoom := w.nextRoom + 1, peerAt := w.peerAt, nextPeer := w.nextPeer,
        nextConn := w.nextConn, nextTrack := w.nextTrack,
        nextSender := w.nextSender, trace := w.trace }) := by
  simp [getOrCreateRoom, h, World.setRoom]

/-- C2. After `CloseRoom id` the id is absent from the registry (all other
entries are kept), so the next `getOrCreateRoom id` allocates a room: it returns
the address of a new room object with that id and an empty peer map and
registers it.  When the registry was well formed, the new room is a different
room object from the closed one, which keeps its own content. -/
theorem closeRoom_then_fresh (env : Env) (w : World) (id : String) :
    (CloseRoom env id w).world.sfu.rooms.lookup id = none
    ∧ id ∉ (CloseRoom env id w).world.sfu.rooms.keys
    ∧ (∀ k, k ≠ id →
        (CloseRoom env id w).world.sfu.rooms.lookup k = w.sfu.rooms.lookup k)
    ∧ (CloseRoom env id w).world.nextRoom = w.nextRoom
    ∧ (CloseRoom env id w).world.roomAt = w.roomAt
    ∧ (getOrCreateRoom id (CloseRoom env id w).world).1 = some w.nextRoom
    ∧ ((getOrCreateRoom id (CloseRoom env id w).world).2.roomAt w.nextRoom).id = id
    ∧ ((getOrCreateRoom id (CloseRoom env id w).world).2.roomAt w.nextRoom).peers = ∅
    ∧ (getOrCreateRoom id (CloseRoom env id w).world).2.sfu.rooms.lookup id = some (some w.nextRoom)
    ∧ (RegistryOk w → ∀ r, w.sfu.rooms.lookup id = some r →
        (getOrCreateRoom id (CloseRoom env id w).world).1 ≠ r
        ∧ ∀ a, r = some a →
          ((getOrCreateRoom id (CloseRoom env id w).world).2.roomAt a) = w.roomAt a) := by
  have hw : (CloseRoom env id w).world.sfu.rooms = w.sfu.rooms.erase id
      ∧ (CloseRoom env id w).world.nextRoom = w.nextRoom
      ∧ (CloseRoom env id w).world.roomAt = w.roomAt := by
    cases h : w.sfu.rooms.lookup id with
    | none =>
      have hn : id ∉ w.sfu.rooms := AList.lookup_eq_none.1 h
      have he : w.sfu.rooms.erase id = w.sfu.rooms := by
        apply AList.ext
        simp only [AList.erase]
        exact List.kerase_of_not_mem_keys hn
      simp [CloseRoom, h, he]
    | some r =>
      cases r with
      | none => simp [CloseRoom, h]
      | some a =>
        simp only [CloseRoom, h]
        rw [closePeers_frame]
        simp [World.withTrace]
  obtain ⟨h1, h2, h3⟩ := hw
  have hl : (CloseRoom env id w).world.sfu.rooms.lookup id = none := by
    rw [h1]; exact AList.lookup_erase id _
  have hg := getOrCreateRoom_absent id (CloseRoom env id w).world hl
  rw [h2, h3] at hg
  refine ⟨hl, fun hk => AList.lookup_eq_none.1 hl (AList.mem_keys.2 hk), ?_, h2, h3,
    by rw [hg], by rw [hg]; simp, by rw [hg]; simp, by rw [hg]; simp [AList.lookup_insert], ?_⟩
  · intro k hk
    rw [h1]; exact AList.lookup_erase_ne hk
  · intro ok r hr
    have hm := ok _ (lookup_some_mem hr)
    cases r with
    | none => exact absurd hm (by simp [RoomEntryOk])
    | some a =>
      have ha : a < w.nextRoom := by simpa [RoomEntryOk] using hm.1
      refine ⟨?_, ?_⟩
      · rw [hg]; simp; omega
      · intro b hb
        cases hb
        rw [hg]
        simp [Function.update_noteq (Nat.ne_of_lt ha)]

/-- The loop `closeRooms` writes nothing but the trace. -/
theorem closeRooms_frame (env : Env) (l : List (Entry Ptr)) (w : World) :
    (closeRooms env l w).world = w.withTrace (closeRooms env l w).world.trace := by
  induction l generalizing w with
  | nil => rfl
  | cons e rest ih =>
    obtain ⟨k, r⟩ := e
    cases r with
    | none => rfl
    | some a =>
      have hf := closePeers_frame env (w.roomAt a).peers.entries w
      cases hp : (closePeers env (w.roomAt a).peers.entries w).panic with
      | some e => simp only [closeRooms, hp]; exact hf
      | none =>
        simp only [closeRooms, hp]
        rw [ih, hf]
        rfl

/-- Without a nil room or peer, `closeRooms` does not panic and calls `Close`
once per room entry and peer that has a connection, and does nothing else. -/
theorem closeRooms_calls (env : Env) (l : List (Entry Ptr)) (w : World)
    (h : ∀ e ∈ l, RoomEntryLive w e) :
    (closeRooms env l w).panic = none
    ∧ ∃ evs, (closeRooms env l w).world.trace = w.trace ++ evs
        ∧ closeCalls evs = l.flatMap (entryConns w)
        ∧ evs.length = (l.flatMap (entryConns w)).length := by
  induction l generalizing w with
  | nil => exact ⟨rfl, [], by simp [closeRooms], rfl, rfl⟩
  | cons e rest ih =>
    obtain ⟨k, r⟩ := e
    have hrest : ∀ e ∈ rest, RoomEntryLive w e := fun e he => h e (List.mem_cons_of_mem _ he)
    have hhead := h ⟨k, r⟩ (List.mem_cons_self _ _)
    cases r with
    | none => exact absurd hhead (by simp [RoomEntryLive])
    | some a =>
      have hnn : NoNilPeers w a := by simpa [RoomEntryLive] using hhead
      obtain ⟨hp, evs1, ht1, hc1, hl1⟩ := closePeers_calls env (w.roomAt a).peers.entries w hnn
      have hf := closePeers_frame env (w.roomAt a).peers.entries w
      have hrest1 : ∀ e ∈ rest,
          RoomEntryLive (closePeers env (w.roomAt a).peers.entries w).world e := by
        rw [hf]; exact hrest
      have hconn : entryConns (closePeers env (w.roomAt a).peers.entries w).world
          = entryConns w := by
        rw [hf]; rfl
      obtain ⟨hp2, evs2, ht2, hc2, hl2⟩ :=
        ih (closePeers env (w.roomAt a).peers.entries w).world hrest1
      rw [hconn] at hc2 hl2
      have hflat : List.flatMap (⟨k, some a⟩ :: rest) (entryConns w)
          = roomConns w a ++ List.flatMap rest (entryConns w) := by
        simp [List.flatMap, entryConns]
      refine ⟨by simpa [closeRooms, hp] using hp2, evs1 ++ evs2, ?_, ?_, ?_⟩
      · simp only [closeRooms, hp]; rw [ht2, ht1, List.append_assoc]
      · rw [hflat]; simp only [closeCalls, List.filterMap_append] at hc1 hc2 ⊢
        rw [hc1, hc2]; rfl
      · rw [hflat, List.length_append, List.length_append, hl1, hl2]; rfl

/-- C3. `CloseAll` is a total function (it terminates on every state and for
every answer of the library), it leaves the room map of the registry empty, and
it raises no panic on a registry that holds no nil room and no nil peer. -/
theorem closeAll_terminates_empty (env : Env) (w : World) :
    (CloseAll env w).world.sfu.rooms = ∅
    ∧ (CloseAll env w).world.sfu.rooms.entries.length = 0
    ∧ (NoNilRooms w → (CloseAll env w).panic = none) := by
  have hf : (CloseAll env w).world.sfu.rooms = ∅ := by
    simp only [CloseAll]
    rw [closeRooms_frame]
    rfl
  refine ⟨hf, by rw [hf]; rfl, ?_⟩
  intro h
  exact (closeRooms_calls env w.sfu.rooms.entries { w with sfu := { rooms := ∅ } } h).1

/-- C4. On a registry without nil room or nil peer, `CloseAll` does not panic
and its effects are exactly one `Close` call per registered room and per peer of
that room that has a connection: every connection is closed as often as a peer
of a registered room holds it, exactly once when no two peers share one.  The
calls are the same whatever the earlier `Close` calls answered. -/
theorem closeAll_closes_every_connection (env : Env) (w : World) (h : NoNilRooms w) :
    (CloseAll env w).panic = none
    ∧ (CloseAll env w).world.trace = w.trace ++ newEvents w (CloseAll env w).world
    ∧ closeCalls (newEvents w (CloseAll env w).world) = registryConns w
    ∧ (newEvents w (CloseAll env w).world).length = (registryConns w).length
    ∧ (∀ c, (closeCalls (newEvents w (CloseAll env w).world)).count c
        = (registryConns w).count c)
    ∧ ((registryConns w).Nodup → ∀ c ∈ registryConns w,
        (closeCalls (newEvents w (CloseAll env w).world)).count c = 1)
    ∧ (∀ env2 : Env, closeCalls (newEvents w (CloseAll env2 w).world)
        = closeCalls (newEvents w (CloseAll env w).world)) := by
  have key : ∀ env1 : Env, (CloseAll env1 w).panic = none
      ∧ (CloseAll env1 w).world.trace = w.trace ++ newEvents w (CloseAll env1 w).world
      ∧ closeCalls (newEvents w (CloseAll env1 w).world) = registryConns w
      ∧ (newEvents w (CloseAll env1 w).world).length = (registryConns w).length := by
    intro env1
    obtain ⟨hp, evs, ht, hc, hl⟩ :=
      closeRooms_calls env1 w.sfu.rooms.entries { w with sfu := { rooms := ∅ } } h
    have hn : newEvents w (CloseAll env1 w).world = evs := newEvents_append _ _ _ ht
    refine ⟨hp, ?_, ?_, ?_⟩
    · rw [hn]; exact ht
    · rw [hn]; exact hc
    · rw [hn]; exact hl
  obtain ⟨h1, h2, h3, h4⟩ := key env
  refine ⟨h1, h2, h3, h4, fun c => by rw [h3], ?_, fun env2 => by rw [h3, (key env2).2.2.1]⟩
  intro hnd c hc
  rw [h3]
  exact List.count_eq_one_of_mem hnd hc

/-- Witness for C3: ten rooms of five peers each, every `Close` failing. -/
theorem closeAll_terminates_empty_witness :
    tenRooms.sfu.rooms.entries.length = 10
    ∧ (∀ e ∈ tenRooms.sfu.rooms.entries, ∃ a, e.2 = some a ∧ (tenRooms.roomAt a).peers.entries.length = 5)
    ∧ (CloseAll failingEnv tenRooms).panic = none
    ∧ (CloseAll failingEnv tenRooms).world.sfu.rooms = ∅ :=
  ⟨by decide, by decide,
    (closeAll_terminates_empty failingEnv tenRooms).2.2 (by decide),
    (closeAll_terminates_empty failingEnv tenRooms).1⟩

/-- Witness for C4: the fifty connections of `tenRooms` are closed once each. -/
theorem closeAll_closes_every_connection_witness :
    NoNilRooms tenRooms
    ∧ (registryConns tenRooms).length = 50
    ∧ closeCalls (newEvents tenRooms (CloseAll failingEnv tenRooms).world) = List.range 50 :=
  ⟨by decide, by decide,
   (closeAll_closes_every_connection failingEnv tenRooms (by decide)).2.2.1.trans (by decide)⟩

/-- Witness for C1: the first room of an empty registry. -/
theorem getOrCreateRoom_idempotent_witness :
    RegistryOk World.init
    ∧ ∃ a, (getOrCreateRoom "lobby" World.init).1 = some a
        ∧ ((getOrCreateRoom "lobby" World.init).2.roomAt a).id = "lobby" :=
  ⟨by decide, (getOrCreateRoom_idempotent World.init "lobby").2.2.2.1 (by decide)⟩

/-- Witness for C2: closing and reopening room `r3` of `tenRooms`. -/
theorem closeRoom_then_fresh_witness :
    RegistryOk tenRooms
    ∧ tenRooms.sfu.rooms.lookup "r3" = some (some 3)
    ∧ (getOrCreateRoom "r3" (CloseRoom failingEnv "r3" tenRooms).world).1 ≠ some 3 :=
  ⟨by decide, by decide,
    ((closeRoom_then_fresh failingEnv tenRooms "r3").2.2.2.2.2.2.2.2.2 (by decide)
      (some 3) (by decide)).1⟩

/-- The loop `broadcastLoop` writes nothing but the trace. -/
theorem broadcastLoop_frame (env : Env) (senderID : String) (data : Bytes)
    (l : List (Entry Ptr)) (w : World) :
    broadcastLoop env senderID data l w
      = w.withTrace (broadcastLoop env senderID data l w).trace := by
  induction l generalizing w with
  | nil => rfl
  | cons e rest ih =>
    obtain ⟨k, p⟩ := e
    by_cases hk : k = senderID
    · simp only [broadcastLoop, hk, if_true]; exact ih w
    · cases p with
      | none => simp only [broadcastLoop, hk, if_false]; exact ih w
      | some q =>
        cases hd : (w.peerAt q).data with
        | none => simp only [broadcastLoop, hk, if_false, hd]; exact ih w
        | some dc =>
          simp only [broadcastLoop, hk, if_false, hd]
          rw [ih]
          rfl

/-- The effects of `broadcastLoop` are one `Send` of `data` per visited entry
that is not the sender's and whose peer has a data channel, in order. -/
theorem broadcastLoop_calls (env : Env) (senderID : String) (data : Bytes)
    (l : List (Entry Ptr)) (w : World) :
    ∃ evs, (broadcastLoop env senderID data l w).trace = w.trace ++ evs
      ∧ sendCalls evs = (l.filterMap (receiverChan w senderID)).map (fun dc => (dc, data))
      ∧ evs.length = (l.filterMap (receiverChan w senderID)).length
      ∧ ∀ e ∈ evs, ∃ dc err, e = Event.send dc data err := by
  induction l generalizing w with
  | nil => exact ⟨[], by simp [broadcastLoop], rfl, rfl, by simp⟩
  | cons e rest ih =>
    obtain ⟨k, p⟩ := e
    have skip : receiverChan w senderID ⟨k, p⟩ = none →
        broadcastLoop env senderID data (⟨k, p⟩ :: rest) w
          = broadcastLoop env senderID data rest w →
        ∃ evs, (broadcastLoop env senderID data (⟨k, p⟩ :: rest) w).trace = w.trace ++ evs
          ∧ sendCalls evs = ((⟨k, p⟩ :: rest).filterMap (receiverChan w senderID)).map
              (fun dc => (dc, data))
          ∧ evs.length = ((⟨k, p⟩ :: rest).filterMap (receiverChan w senderID)).length
          ∧ ∀ e ∈ evs, ∃ dc err, e = Event.send dc data err := by
      intro hnone heq
      obtain ⟨evs, h1, h2, h3, h4⟩ := ih w
      refine ⟨evs, by rw [heq]; exact h1, ?_, ?_, h4⟩
      · rw [List.filterMap_cons_none hnone]; exact h2
      · rw [List.filterMap_cons_none hnone]; exact h3
    by_cases hk : k = senderID
    · exact skip (by simp [receiverChan, hk]) (by simp [broadcastLoop, hk])
    · cases p with
      | none => exact skip (by simp [receiverChan, entryChan]) (by simp [broadcastLoop, hk])
      | some q =>
        cases hd : (w.peerAt q).data with
        | none =>
          exact skip (by simp [receiverChan, entryChan, hd]) (by simp [broadcastLoop, hk, hd])
        | some dc =>
          obtain ⟨evs, h1, h2, h3, h4⟩ :=
            ih (w.emit (Event.send dc data (env.sendErr w.trace dc data)))
          have hrc : receiverChan (w.emit (Event.send dc data (env.sendErr w.trace dc data)))
              senderID = receiverChan w senderID := rfl
          rw [hrc] at h2 h3
          have hc : List.filterMap (receiverChan w senderID) (⟨k, some q⟩ :: rest)
              = dc :: List.filterMap (receiverChan w senderID) rest :=
            List.filterMap_cons_some (by simp [receiverChan, entryChan, hk, hd])
          refine ⟨Event.send dc data (env.sendErr w.trace dc data) :: evs, ?_, ?_, ?_, ?_⟩
          · simp only [broadcastLoop, hk, if_false, hd]; rw [h1]; simp [World.emit]
          · rw [hc]; simp only [sendCalls] at h2 ⊢
            simp [Event.sendCall, h2]
          · rw [hc]; simp [h3]
          · intro e he
            rcases List.mem_cons.1 he with h | h
            · exact ⟨dc, _, h⟩
            · exact h4 e h

/-- What `broadcastData` does on a room: no panic, only the trace grows, by one
`Send` of `data` per receiver. -/
theorem broadcastData_calls (env : Env) (w : World) (a : Nat) (senderID : String)
    (data : Bytes) :
    (broadcastData env (some a) senderID data w).panic = none
    ∧ (broadcastData env (some a) senderID data w).world
        = w.withTrace (broadcastData env (some a) senderID data w).world.trace
    ∧ (broadcastData env (some a) senderID data w).world.trace
        = w.trace ++ newEvents w (broadcastData env (some a) senderID data w).world
    ∧ sendCalls (newEvents w (broadcastData env (some a) senderID data w).world)
        = (receivers w a senderID).map (fun dc => (dc, data))
    ∧ (newEvents w (broadcastData env (some a) senderID data w).world).length
        = (receivers w a senderID).length
    ∧ (∀ e ∈ newEvents w (broadcastData env (some a) senderID data w).world,
        ∃ dc err, e = Event.send dc data err) := by
  obtain ⟨evs, h1, h2, h3, h4⟩ :=
    broadcastLoop_calls env senderID data (w.roomAt a).peers.entries w
  have hn : newEvents w (broadcastData env (some a) senderID data w).world = evs :=
    newEvents_append _ _ _ h1
  refine ⟨rfl, broadcastLoop_frame env senderID data _ w, ?_, ?_, ?_, ?_⟩
  · rw [hn]; exact h1
  · rw [hn]; exact h2
  · rw [hn]; exact h3
  · rw [hn]; exact h4

/-- Who the receivers of a broadcast are: the channels of the non-nil peers
registered under another key than the sender's. -/
theorem mem_receivers_iff (w : World) (a : Nat) (senderID : String) (dc : Nat) :
    dc ∈ receivers w a senderID ↔ ∃ k q, k ≠ senderID
      ∧ (w.roomAt a).peers.lookup k = some (some q) ∧ (w.peerAt q).data = some dc := by
  constructor
  · intro hdc
    obtain ⟨⟨k, p⟩, he, hf⟩ := List.mem_filterMap.1 hdc
    by_cases hk : k = senderID
    · simp [receiverChan, hk] at hf
    · cases p with
      | none => simp [receiverChan, entryChan, hk] at hf
      | some q =>
        refine ⟨k, q, hk, ?_, by simpa [receiverChan, entryChan, hk] using hf⟩
        have := (AList.mem_lookup_iff (s := (w.roomAt a).peers)).2 he
        simpa using this
  · rintro ⟨k, q, hk, hl, hd⟩
    exact List.mem_filterMap.2 ⟨⟨k, some q⟩, lookup_some_mem hl,
      by simp [receiverChan, entryChan, hk, hd]⟩

/-- Two entries of a list that a function sends to the same value are equal when
the values of the list are pairwise distinct. -/
theorem filterMap_nodup_inj {α β : Type} (f : α → Option β) (l : List α)
    (nd : (l.filterMap f).Nodup) {x y : α} {b : β} (hx : x ∈ l) (hy : y ∈ l)
    (fx : f x = some b) (fy : f y = some b) : x = y := by
  induction l with
  | nil => cases hx
  | cons z rest ih =>
    cases hz : f z with
    | none =>
      rw [List.filterMap_cons_none hz] at nd
      have hxr : x ∈ rest := by
        rcases List.mem_cons.1 hx with h | h
        · rw [h, hz] at fx; cases fx
        · exact h
      have hyr : y ∈ rest := by
        rcases List.mem_cons.1 hy with h | h
        · rw [h, hz] at fy; cases fy
        · exact h
      exact ih nd hxr hyr
    | some c =>
      rw [List.filterMap_cons_some hz, List.nodup_cons] at nd
      rcases List.mem_cons.1 hx with h | h <;> rcases List.mem_cons.1 hy with h2 | h2
      · rw [h, h2]
      · exfalso; apply nd.1
        rw [h, hz] at fx; cases fx
        exact List.mem_filterMap.2 ⟨y, h2, fy⟩
      · exfalso; apply nd.1
        rw [h2, hz] at fy; cases fy
        exact List.mem_filterMap.2 ⟨x, h, fx⟩
      · exact ih nd.2 h h2

/-- The receivers of a broadcast are among the channels of the room. -/
theorem receiverChan_sublist (w : World) (senderID : String) (l : List (Entry Ptr)) :
    List.Sublist (l.filterMap (receiverChan w senderID)) (l.filterMap (entryChan w)) := by
  induction l with
  | nil => exact List.Sublist.refl _
  | cons e rest ih =>
    by_cases hk : e.1 = senderID
    · rw [List.filterMap_cons_none (by simp [receiverChan, hk])]
      cases he : entryChan w e with
      | none => rw [List.filterMap_cons_none he]; exact ih
      | some c => rw [List.filterMap_cons_some he]; exact List.Sublist.cons _ ih
    · cases he : entryChan w e with
      | none =>
        rw [List.filterMap_cons_none he,
          List.filterMap_cons_none (by simp [receiverChan, hk, he])]
        exact ih
      | some c =>
        rw [List.filterMap_cons_some he,
          List.filterMap_cons_some (b := c) (by simp [receiverChan, hk, he])]
        exact List.Sublist.cons₂ _ ih

/-- C5. A broadcast from `senderID` on a room does not panic and its `Send`
calls are exactly one per peer registered in the room under another id than
`senderID` and holding a data channel, each with the payload unmodified; no call
is made for the entry of the sender.  When the peers hold distinct channels,
each such channel is the target of exactly one call and the sender's own channel
of none.  The `OnMessage` callback is that broadcast on the bytes received. -/
theorem broadcastData_delivers (env : Env) (w : World) (a : Nat) (senderID : String)
    (data : Bytes) :
    (broadcastData env (some a) senderID data w).panic = none
    ∧ sendCalls (newEvents w (broadcastData env (some a) senderID data w).world)
        = (receivers w a senderID).map (fun dc => (dc, data))
    ∧ (∀ k q dc, (w.roomAt a).peers.lookup k = some (some q) → k ≠ senderID →
        (w.peerAt q).data = some dc →
        (dc, data) ∈ sendCalls (newEvents w (broadcastData env (some a) senderID data w).world))
    ∧ (∀ c ∈ sendCalls (newEvents w (broadcastData env (some a) senderID data w).world),
        c.2 = data ∧ ∃ k q, k ≠ senderID ∧ (w.roomAt a).peers.lookup k = some (some q)
          ∧ (w.peerAt q).data = some c.1)
    ∧ (ChannelsDistinct w a →
        (∀ k q dc, (w.roomAt a).peers.lookup k = some (some q) → k ≠ senderID →
          (w.peerAt q).data = some dc →
          ((sendCalls (newEvents w (broadcastData env (some a) senderID data w).world)).map
            Prod.fst).count dc = 1)
        ∧ (∀ q dc d, (w.roomAt a).peers.lookup senderID = some (some q) →
          (w.peerAt q).data = some dc →
          (dc, d) ∉ sendCalls (newEvents w (broadcastData env (some a) senderID data w).world)))
    ∧ onMessage env (some a) senderID data w = broadcastData env (some a) senderID data w := by
  obtain ⟨hp, -, -, hc, -, -⟩ := broadcastData_calls env w a senderID data
  have hmem : ∀ k q dc, (w.roomAt a).peers.lookup k = some (some q) → k ≠ senderID →
      (w.peerAt q).data = some dc → dc ∈ receivers w a senderID :=
    fun k q dc hl hk hd => (mem_receivers_iff w a senderID dc).2 ⟨k, q, hk, hl, hd⟩
  have hrec : ∀ dc ∈ receivers w a senderID, ∃ k q, k ≠ senderID
      ∧ (w.roomAt a).peers.lookup k = some (some q) ∧ (w.peerAt q).data = some dc :=
    fun dc hdc => (mem_receivers_iff w a senderID dc).1 hdc
  refine ⟨hp, hc, ?_, ?_, ?_, rfl⟩
  · intro k q dc hl hk hd
    rw [hc]
    exact List.mem_map.2 ⟨dc, hmem k q dc hl hk hd, rfl⟩
  · intro c hcm
    rw [hc] at hcm
    obtain ⟨dc, hdc, rfl⟩ := List.mem_map.1 hcm
    exact ⟨rfl, hrec dc hdc⟩
  · intro hnd
    have hsub : (receivers w a senderID).Nodup :=
      hnd.sublist (receiverChan_sublist w senderID _)
    refine ⟨?_, ?_⟩
    · intro k q dc hl hk hd
      rw [hc]
      have hfst : ((receivers w a senderID).map (fun dc => (dc, data))).map Prod.fst
          = receivers w a senderID := by
        simp [List.map_map, Function.comp_def]
      rw [hfst]
      exact List.count_eq_one_of_mem hsub (hmem k q dc hl hk hd)
    · intro q dc d hl hd hcm
      rw [hc] at hcm
      obtain ⟨dc1, hdc1, he⟩ := List.mem_map.1 hcm
      have hdc : dc1 = dc := (Prod.mk.inj he).1
      subst hdc
      obtain ⟨k, q1, hk, hl1, hd1⟩ := hrec dc1 hdc1
      have := filterMap_nodup_inj (entryChan w) _ hnd (b := dc1) (lookup_some_mem hl1)
        (lookup_some_mem hl) (by simp [entryChan, hd1]) (by simp [entryChan, hd])
      exact hk (congrArg Sigma.fst this)

/-- C7. A broadcast is best effort: whatever the `Send` calls answer, the calls
are the same, one per eligible peer (the effects of the broadcast are as many
events as there are eligible peers, each a `Send` of the payload, so nothing is
retried and nothing is skipped), and the peer maps, the peers and the registry
are left as they were. -/
theorem broadcastData_best_effort (env : Env) (w : World) (a : Nat) (senderID : String)
    (data : Bytes) :
    (broadcastData env (some a) senderID data w).panic = none
    ∧ (∀ env2 : Env, sendCalls (newEvents w (broadcastData env2 (some a) senderID data w).world)
        = sendCalls (newEvents w (broadcastData env (some a) senderID data w).world))
    ∧ (sendCalls (newEvents w (broadcastData env (some a) senderID data w).world)).map Prod.fst
        = receivers w a senderID
    ∧ (newEvents w (broadcastData env (some a) senderID data w).world).length
        = (receivers w a senderID).length
    ∧ (∀ e ∈ newEvents w (broadcastData env (some a) senderID data w).world,
        ∃ dc err, e = Event.send dc data err)
    ∧ (broadcastData env (some a) senderID data w).world.roomAt = w.roomAt
    ∧ (broadcastData env (some a) senderID data w).world.peerAt = w.peerAt
    ∧ (broadcastData env (some a) senderID data w).world.sfu.rooms = w.sfu.rooms := by
  obtain ⟨hp, hf, -, hc, hl, hall⟩ := broadcastData_calls env w a senderID data
  refine ⟨hp, ?_, ?_, hl, hall, by rw [hf]; rfl, by rw [hf]; rfl, by rw [hf]; rfl⟩
  · intro env2
    rw [hc, (broadcastData_calls env2 w a senderID data).2.2.2.1]
  · rw [hc]; simp [List.map_map, Function.comp_def]

/-- Deleting a key that is absent leaves a map as it is. -/
theorem erase_absent {V : Type} (m : GoMap V) (k : String) (h : m.lookup k = none) :
    m.erase k = m := by
  apply AList.ext
  simp only [AList.erase]
  exact List.kerase_of_not_mem_keys (AList.lookup_eq_none.1 h)

/-- The state `removePeer` leaves, whether it returns or panics: the entry is
deleted from the room, every other room and the registry are kept, and of the
peers only `closed` fields may have changed. -/
theorem removePeer_world (w : World) (a : Nat) (id : String) :
    (removePeer (some a) id w).world.roomAt
        = Function.update w.roomAt a
            { w.roomAt a with peers := (w.roomAt a).peers.erase id }
    ∧ (removePeer (some a) id w).world.sfu = w.sfu
    ∧ (removePeer (some a) id w).world.nextRoom = w.nextRoom
    ∧ (∀ q, ((removePeer (some a) id w).world.peerAt q).data = (w.peerAt q).data
        ∧ ((removePeer (some a) id w).world.peerAt q).id = (w.peerAt q).id
        ∧ ((removePeer (some a) id w).world.peerAt q).pc = (w.peerAt q).pc) := by
  cases hl : (w.roomAt a).peers.lookup id with
  | none =>
    have e : removePeer (some a) id w = ⟨none, w⟩ := by simp [removePeer, hl]
    rw [e, erase_absent _ _ hl]
    exact ⟨by simp, rfl, rfl, fun q => ⟨rfl, rfl, rfl⟩⟩
  | some p =>
    cases p with
    | none =>
      have e : removePeer (some a) id w = ⟨some Panic.nilDeref,
          w.setRoom a { w.roomAt a with peers := (w.roomAt a).peers.erase id }⟩ := by
        simp [removePeer, hl]
      rw [e]
      exact ⟨rfl, rfl, rfl, fun q => ⟨rfl, rfl, rfl⟩⟩
    | some q0 =>
      cases hc : (w.peerAt q0).closed with
      | nil =>
        have e : removePeer (some a) id w = ⟨some Panic.closeOfNilChannel,
            w.setRoom a { w.roomAt a with peers := (w.roomAt a).peers.erase id }⟩ := by
          simp [removePeer, hl, closeChan, World.setRoom, hc]
        rw [e]
        exact ⟨rfl, rfl, rfl, fun q => ⟨rfl, rfl, rfl⟩⟩
      | closed =>
        have e : removePeer (some a) id w = ⟨some Panic.closeOfClosedChannel,
            w.setRoom a { w.roomAt a with peers := (w.roomAt a).peers.erase id }⟩ := by
          simp [removePeer, hl, closeChan, World.setRoom, hc]
        rw [e]
        exact ⟨rfl, rfl, rfl, fun q => ⟨rfl, rfl, rfl⟩⟩
      | made =>
        have e : (removePeer (some a) id w).world
            = (((w.setRoom a { w.roomAt a with peers := (w.roomAt a).peers.erase id }).setPeer q0
                { w.peerAt q0 with closed := Chan.closed }).emit (Event.chanClose q0)).emit
                (Event.log (LogMsg.removed (w.roomAt a).id id
                  ((w.roomAt a).peers.erase id).entries.length)) := by
          simp [removePeer, hl, closeChan, World.setRoom, hc]
        rw [e]
        refine ⟨rfl, rfl, rfl, fun q => ?_⟩
        by_cases hq : q = q0
        · subst hq; simp [World.emit, World.setPeer, World.setRoom]
        · simp [World.emit, World.setPeer, World.setRoom, Function.update_noteq hq]

/-- Visiting a map after `delete(m, k)` is visiting it without the entry of `k`. -/
theorem filterMap_kerase {V β : Type} (f : Entry V → Option β) (k : String) :
    ∀ (l : List (Entry V)), l.NodupKeys →
      (l.kerase k).filterMap f = l.filterMap (fun e => if e.1 = k then none else f e)
  | [], _ => rfl
  | e :: rest, nd => by
    have ndr : rest.NodupKeys := (List.nodupKeys_cons.1 nd).2
    by_cases hk : k = e.1
    · rw [List.kerase_cons_eq hk, List.filterMap_cons_none (by simp [hk])]
      have hnot : e.1 ∉ rest.keys := (List.nodupKeys_cons.1 nd).1
      apply List.filterMap_congr
      intro x hx
      have : x.1 ≠ k := by
        intro h
        apply hnot
        rw [← hk, ← h]
        exact List.mem_keys_of_mem hx
      simp [this]
    · rw [List.kerase_cons_ne hk]
      have hk2 : ¬ e.1 = k := fun h => hk h.symm
      simp only [List.filterMap_cons, hk2, if_false]
      rw [filterMap_kerase f k rest ndr]

/-- C6. After `removePeer B` on a room (whether the call returned or panicked), a
broadcast from `A` on that room does not panic, `B` is no longer in the peer
map, and the `Send` calls are exactly one per peer registered under an id other
than `A` and `B` and holding a data channel: every remaining peer gets the
payload, nobody else does.  When the peers held distinct channels, no call
targets the channel of the removed peer. -/
theorem broadcast_after_removePeer (env : Env) (w : World) (a : Nat) (A B : String)
    (data : Bytes) :
    (broadcastData env (some a) A data (removePeer (some a) B w).world).panic = none
    ∧ ((removePeer (some a) B w).world.roomAt a).peers.lookup B = none
    ∧ sendCalls (newEvents (removePeer (some a) B w).world
          (broadcastData env (some a) A data (removePeer (some a) B w).world).world)
        = ((w.roomAt a).peers.entries.filterMap
            (fun e => if e.1 = B then none else receiverChan w A e)).map (fun dc => (dc, data))
    ∧ (∀ c ∈ sendCalls (newEvents (removePeer (some a) B w).world
          (broadcastData env (some a) A data (removePeer (some a) B w).world).world),
        c.2 = data ∧ ∃ k q, k ≠ A ∧ k ≠ B ∧ (w.roomAt a).peers.lookup k = some (some q)
          ∧ (w.peerAt q).data = some c.1)
    ∧ (∀ k q dc, (w.roomAt a).peers.lookup k = some (some q) → k ≠ A → k ≠ B →
        (w.peerAt q).data = some dc →
        (dc, data) ∈ sendCalls (newEvents (removePeer (some a) B w).world
          (broadcastData env (some a) A data (removePeer (some a) B w).world).world))
    ∧ (ChannelsDistinct w a → ∀ q dc d, (w.roomAt a).peers.lookup B = some (some q) →
        (w.peerAt q).data = some dc →
        (dc, d) ∉ sendCalls (newEvents (removePeer (some a) B w).world
          (broadcastData env (some a) A data (removePeer (some a) B w).world).world)) := by
  obtain ⟨hroom, -, -, hpeer⟩ := removePeer_world w a B
  obtain ⟨hp, -, -, hc, -, -⟩ :=
    broadcastData_calls env (removePeer (some a) B w).world a A data
  have hpeers : ((removePeer (some a) B w).world.roomAt a).peers = (w.roomAt a).peers.erase B := by
    rw [hroom]; simp
  have hlook : ∀ k, ((removePeer (some a) B w).world.roomAt a).peers.lookup k
      = if k = B then none else (w.roomAt a).peers.lookup k := by
    intro k
    rw [hpeers]
    by_cases hk : k = B
    · subst hk; simp [AList.lookup_erase]
    · simp [hk, AList.lookup_erase_ne hk]
  have hrc : receiverChan (removePeer (some a) B w).world A = receiverChan w A := by
    funext e
    obtain ⟨k, p⟩ := e
    cases p with
    | none => rfl
    | some q => simp [receiverChan, entryChan, (hpeer q).1]
  have hmem : ∀ dc, dc ∈ receivers (removePeer (some a) B w).world a A ↔
      ∃ k q, k ≠ A ∧ k ≠ B ∧ (w.roomAt a).peers.lookup k = some (some q)
        ∧ (w.peerAt q).data = some dc := by
    intro dc
    rw [mem_receivers_iff]
    constructor
    · rintro ⟨k, q, hk, hl, hd⟩
      rw [hlook] at hl
      by_cases hkB : k = B
      · simp [hkB] at hl
      · exact ⟨k, q, hk, hkB, by simpa [hkB] using hl, by rw [← (hpeer q).1]; exact hd⟩
    · rintro ⟨k, q, hk, hkB, hl, hd⟩
      exact ⟨k, q, hk, by rw [hlook]; simpa [hkB] using hl, by rw [(hpeer q).1]; exact hd⟩
  refine ⟨hp, by rw [hlook]; simp, ?_, ?_, ?_, ?_⟩
  · rw [hc]
    simp only [receivers]
    rw [hpeers, hrc]
    show List.map _ (List.filterMap _ (List.kerase B (w.roomAt a).peers.entries)) = _
    rw [filterMap_kerase _ _ _ (w.roomAt a).peers.nodupKeys]
  · intro c hcm
    rw [hc] at hcm
    obtain ⟨dc, hdc, rfl⟩ := List.mem_map.1 hcm
    exact ⟨rfl, (hmem dc).1 hdc⟩
  · intro k q dc hl hk hkB hd
    rw [hc]
    exact List.mem_map.2 ⟨dc, (hmem dc).2 ⟨k, q, hk, hkB, hl, hd⟩, rfl⟩
  · intro hnd q dc d hl hd hcm
    rw [hc] at hcm
    obtain ⟨dc1, hdc1, he⟩ := List.mem_map.1 hcm
    have hdc : dc1 = dc := (Prod.mk.inj he).1
    subst hdc
    obtain ⟨k, q1, -, hkB, hl1, hd1⟩ := (hmem dc1).1 hdc1
    have := filterMap_nodup_inj (entryChan w) _ hnd (b := dc1) (lookup_some_mem hl1)
      (lookup_some_mem hl) (by simp [entryChan, hd1]) (by simp [entryChan, hd])
    exact hkB (congrArg Sigma.fst this)

/-- C8. `removePeer` of an id that is not in the peer map returns without panic
and leaves the whole state (peer maps, peers and their `closed` channels, trace)
as it was.  Hence a second `removePeer` of the same id is such a no-op: it
returns normally in exactly the state the first call left. -/
theorem removePeer_absent_noop (w : World) (a : Nat) (id : String) :
    ((w.roomAt a).peers.lookup id = none → removePeer (some a) id w = ⟨none, w⟩)
    ∧ removePeer (some a) id (removePeer (some a) id w).world
        = ⟨none, (removePeer (some a) id w).world⟩ := by
  have hno : ∀ w1 : World, (w1.roomAt a).peers.lookup id = none →
      removePeer (some a) id w1 = ⟨none, w1⟩ := by
    intro w1 h
    simp [removePeer, h]
  refine ⟨hno w, hno _ ?_⟩
  rw [(removePeer_world w a id).1]
  simp [AList.lookup_erase]

/-- The result of `removePeer` for a registered peer whose channel is not closed yet. -/
theorem removePeer_present (w : World) (a : Nat) (id : String) (q : Nat)
    (hl : (w.roomAt a).peers.lookup id = some (some q))
    (hc : (w.peerAt q).closed = Chan.made) :
    removePeer (some a) id w = ⟨none,
      { sfu := w.sfu,
        roomAt := Function.update w.roomAt a
          { w.roomAt a with peers := (w.roomAt a).peers.erase id },
        nextRoom := w.nextRoom,
        peerAt := Function.update w.peerAt q { w.peerAt q with closed := Chan.closed },
        nextPeer := w.nextPeer, nextConn := w.nextConn,
        nextTrack := w.nextTrack, nextSender := w.nextSender,
        trace := w.trace ++ [Event.chanClose q, Event.log (LogMsg.removed (w.roomAt a).id id
          ((w.roomAt a).peers.erase id).entries.length)] }⟩ := by
  simp [removePeer, hl, closeChan, World.setRoom, World.setPeer, World.emit, hc]

/-- What `removePeer` does to the peers: only the peer registered under the id
is written, and a double close is a close of that peer's closed channel. -/
theorem removePeer_signals (w : World) (a : Nat) (id : String) :
    (∀ q, (w.roomAt a).peers.lookup id ≠ some (some q) →
        (removePeer (some a) id w).world.peerAt q = w.peerAt q)
    ∧ ((removePeer (some a) id w).panic = some Panic.closeOfClosedChannel →
        ∃ q, (w.roomAt a).peers.lookup id = some (some q)
          ∧ (w.peerAt q).closed = Chan.closed) := by
  cases hl : (w.roomAt a).peers.lookup id with
  | none =>
    have e : removePeer (some a) id w = ⟨none, w⟩ := by simp [removePeer, hl]
    rw [e]; exact ⟨fun _ _ => rfl, fun h => by cases h⟩
  | some p =>
    cases p with
    | none =>
      have e : removePeer (some a) id w = ⟨some Panic.nilDeref,
          w.setRoom a { w.roomAt a with peers := (w.roomAt a).peers.erase id }⟩ := by
        simp [removePeer, hl]
      rw [e]; exact ⟨fun _ _ => rfl, fun h => by cases h⟩
    | some q0 =>
      cases hc : (w.peerAt q0).closed with
      | nil =>
        have e : removePeer (some a) id w = ⟨some Panic.closeOfNilChannel,
            w.setRoom a { w.roomAt a with peers := (w.roomAt a).peers.erase id }⟩ := by
          simp [removePeer, hl, closeChan, World.setRoom, hc]
        rw [e]; exact ⟨fun _ _ => rfl, fun h => by cases h⟩
      | closed =>
        have e : removePeer (some a) id w = ⟨some Panic.closeOfClosedChannel,
            w.setRoom a { w.roomAt a with peers := (w.roomAt a).peers.erase id }⟩ := by
          simp [removePeer, hl, closeChan, World.setRoom, hc]
        rw [e]; exact ⟨fun _ _ => rfl, fun _ => ⟨q0, rfl, hc⟩⟩
      | made =>
        rw [removePeer_present w a id q0 hl hc]
        refine ⟨fun q hq => ?_, fun h => by cases h⟩
        have : q ≠ q0 := fun h => hq (by rw [h])
        simp [Function.update_noteq this]

/-- The entries of a room after `removePeer` were entries before, and the entry
of the removed id is gone. -/
theorem removePeer_lookup (w : World) (a : Nat) (id : String) (a2 : Nat) (k : String)
    (v : Ptr)
    (h : ((removePeer (some a) id w).world.roomAt a2).peers.lookup k = some v) :
    (w.roomAt a2).peers.lookup k = some v ∧ ¬ (a2 = a ∧ k = id) := by
  rw [(removePeer_world w a id).1] at h
  by_cases ha : a2 = a
  · subst ha
    simp only [Function.update_same] at h
    by_cases hk : k = id
    · subst hk; simp [AList.lookup_erase] at h
    · rw [AList.lookup_erase_ne hk] at h
      exact ⟨h, fun hh => hk hh.2⟩
  · rw [Function.update_noteq ha] at h
    exact ⟨h, fun hh => ha hh.1⟩

/-- The entries of a room after `addPeer`: the new one, or an entry from before. -/
theorem addPeer_lookup (w : World) (a q a2 : Nat) (k : String) (v : Ptr)
    (h : ((addPeer (some a) (some q) w).world.roomAt a2).peers.lookup k = some v) :
    (a2 = a ∧ k = (w.peerAt q).id ∧ v = some q) ∨ (w.roomAt a2).peers.lookup k = some v := by
  have e : (addPeer (some a) (some q) w).world.roomAt
      = Function.update w.roomAt a
          { w.roomAt a with peers := (w.roomAt a).peers.insert (w.peerAt q).id (some q) } := rfl
  rw [e] at h
  by_cases ha : a2 = a
  · subst ha
    simp only [Function.update_same] at h
    by_cases hk : k = (w.peerAt q).id
    · subst hk
      rw [AList.lookup_insert] at h
      exact Or.inl ⟨rfl, rfl, (Option.some.inj h).symm⟩
    · rw [AList.lookup_insert_ne hk] at h
      exact Or.inr h
  · rw [Function.update_noteq ha] at h
    exact Or.inr h

/-- One call keeps the invariant of the signals, keeps the peers still to be
added fresh, and is not a double close. -/
theorem step_signals (op : RoomOp) (ops : List RoomOp) (w : World)
    (h1 : SignalsOk w) (h2 : AddedOnce w (op :: ops)) :
    SignalsOk (op.run w).world ∧ AddedOnce (op.run w).world ops
    ∧ (op.run w).panic ≠ some Panic.closeOfClosedChannel := by
  have htail : (addedPeers ops).Nodup ∧ ∀ q ∈ addedPeers ops, (w.peerAt q).closed = Chan.made
      ∧ ∀ a k, (w.roomAt a).peers.lookup k ≠ some (some q) := by
    have hs : List.Sublist (addedPeers ops) (addedPeers (op :: ops)) := by
      simp only [addedPeers]
      exact List.Sublist.filterMap _ (List.sublist_cons_self _ _)
    exact ⟨h2.1.sublist hs, fun q hq => h2.2 q (hs.subset hq)⟩
  cases op with
  | add r p =>
    cases r with
    | none => exact ⟨h1, htail, by simp [RoomOp.run, addPeer]⟩
    | some a =>
      cases p with
      | none => exact ⟨h1, htail, by simp [RoomOp.run, addPeer]⟩
      | some q =>
        have hadd : addedPeers (RoomOp.add (some a) (some q) :: ops) = q :: addedPeers ops := by
          simp [addedPeers, RoomOp.added]
        unfold AddedOnce at h2
        rw [hadd] at h2
        have hq := h2.2 q (List.mem_cons_self _ _)
        have hnd := List.nodup_cons.1 h2.1
        have hpeer : (addPeer (some a) (some q) w).world.peerAt = w.peerAt := rfl
        refine ⟨⟨?_, ?_⟩, ⟨hnd.2, ?_⟩, by simp [RoomOp.run, addPeer]⟩
        · intro a2 k q2 hl
          show ((addPeer (some a) (some q) w).world.peerAt q2).closed = Chan.made
          rw [hpeer]
          rcases addPeer_lookup w a q a2 k _ hl with ⟨-, -, hv⟩ | hold
          · cases hv; exact hq.1
          · exact h1.1 a2 k q2 hold
        · intro a2 k a3 k3 q2 hl hl3
          rcases addPeer_lookup w a q a2 k _ hl with ⟨e1, e2, hv⟩ | hold
          · rcases addPeer_lookup w a q a3 k3 _ hl3 with ⟨e3, e4, -⟩ | hold3
            · exact ⟨e1.trans e3.symm, e2.trans e4.symm⟩
            · cases hv; exact absurd hold3 (hq.2 a3 k3)
          · rcases addPeer_lookup w a q a3 k3 _ hl3 with ⟨-, -, hv⟩ | hold3
            · cases hv; exact absurd hold (hq.2 a2 k)
            · exact h1.2 a2 k a3 k3 q2 hold hold3
        · intro q2 hq2
          have hq2w := htail.2 q2 hq2
          refine ⟨by show ((addPeer (some a) (some q) w).world.peerAt q2).closed = _
                     rw [hpeer]; exact hq2w.1, ?_⟩
          intro a2 k hl
          rcases addPeer_lookup w a q a2 k _ hl with ⟨-, -, hv⟩ | hold
          · cases hv; exact hnd.1 hq2
          · exact hq2w.2 a2 k hold
  | remove r id =>
    cases r with
    | none => exact ⟨h1, htail, by simp [RoomOp.run, removePeer]⟩
    | some a =>
      obtain ⟨hkeep, hdouble⟩ := removePeer_signals w a id
      have hkeep2 : ∀ a2 k q2,
          ((removePeer (some a) id w).world.roomAt a2).peers.lookup k = some (some q2) →
          (removePeer (some a) id w).world.peerAt q2 = w.peerAt q2 := by
        intro a2 k q2 hl
        obtain ⟨hold, hne⟩ := removePeer_lookup w a id a2 k _ hl
        apply hkeep
        intro hid
        exact hne (h1.2 a2 k a id q2 hold hid)
      refine ⟨⟨?_, ?_⟩, ⟨htail.1, ?_⟩, ?_⟩
      · intro a2 k q2 hl
        show ((removePeer (some a) id w).world.peerAt q2).closed = Chan.made
        rw [hkeep2 a2 k q2 hl]
        exact h1.1 a2 k q2 (removePeer_lookup w a id a2 k _ hl).1
      · intro a2 k a3 k3 q2 hl hl3
        exact h1.2 a2 k a3 k3 q2 (removePeer_lookup w a id a2 k _ hl).1
          (removePeer_lookup w a id a3 k3 _ hl3).1
      · intro q2 hq2
        have hq2w := htail.2 q2 hq2
        refine ⟨?_, fun a2 k hl => hq2w.2 a2 k (removePeer_lookup w a id a2 k _ hl).1⟩
        show ((removePeer (some a) id w).world.peerAt q2).closed = Chan.made
        rw [hkeep q2 (hq2w.2 a id)]
        exact hq2w.1
      · intro hp
        obtain ⟨q, hl, hc⟩ := hdouble hp
        have := h1.1 a id q hl
        rw [hc] at this
        cases this

/-- Over a run of calls that add each peer object once, the invariant of the
signals is kept and no call is a double close. -/
theorem runOps_signals (ops : List RoomOp) (w : World)
    (h1 : SignalsOk w) (h2 : AddedOnce w ops) :
    SignalsOk (runOps ops w).2
    ∧ some Panic.closeOfClosedChannel ∉ (runOps ops w).1 := by
  induction ops generalizing w with
  | nil => exact ⟨h1, by simp [runOps]⟩
  | cons op rest ih =>
    obtain ⟨s1, s2, s3⟩ := step_signals op rest w h1 h2
    obtain ⟨i1, i2⟩ := ih (op.run w).world s1 s2
    refine ⟨i1, ?_⟩
    simp only [runOps, List.mem_cons, not_or]
    exact ⟨fun h => s3 h.symm, i2⟩



/-- The trace only grows over a run, and no peer's channel is closed twice: a
channel that is not open when the run starts is not closed in the run. -/
theorem step_closes (op : RoomOp) (w : World) :
    ∃ evs, (op.run w).world.trace = w.trace ++ evs
      ∧ ((chanCloses evs = []
            ∧ ∀ q, ((op.run w).world.peerAt q).closed = (w.peerAt q).closed)
          ∨ ∃ q0, chanCloses evs = [q0] ∧ (w.peerAt q0).closed = Chan.made
              ∧ ((op.run w).world.peerAt q0).closed = Chan.closed
              ∧ ∀ q, q ≠ q0 → ((op.run w).world.peerAt q).closed = (w.peerAt q).closed) := by
  have same : ∀ p : Option Panic, ∃ evs, (Result.mk p w).world.trace = w.trace ++ evs
      ∧ ((chanCloses evs = []
            ∧ ∀ q, ((Result.mk p w).world.peerAt q).closed = (w.peerAt q).closed)
          ∨ ∃ q0, chanCloses evs = [q0] ∧ (w.peerAt q0).closed = Chan.made
              ∧ ((Result.mk p w).world.peerAt q0).closed = Chan.closed
              ∧ ∀ q, q ≠ q0 →
                ((Result.mk p w).world.peerAt q).closed = (w.peerAt q).closed) :=
    fun p => ⟨[], by simp, Or.inl ⟨rfl, fun _ => rfl⟩⟩
  cases op with
  | add r p =>
    cases r with
    | none => exact same _
    | some a =>
      cases p with
      | none => exact same _
      | some q =>
        exact ⟨[Event.log (LogMsg.joined (w.roomAt a).id (w.peerAt q).id
          ((w.roomAt a).peers.insert (w.peerAt q).id (some q)).entries.length)], rfl,
          Or.inl ⟨rfl, fun _ => rfl⟩⟩
  | remove r id =>
    cases r with
    | none => exact same _
    | some a =>
      cases hl : (w.roomAt a).peers.lookup id with
      | none =>
        have e : (RoomOp.remove (some a) id).run w = ⟨none, w⟩ := by
          simp [RoomOp.run, removePeer, hl]
        rw [e]; exact same _
      | some p =>
        cases p with
        | none =>
          have e : removePeer (some a) id w = ⟨some Panic.nilDeref,
              w.setRoom a { w.roomAt a with peers := (w.roomAt a).peers.erase id }⟩ := by
            simp [removePeer, hl]
          simp only [RoomOp.run, e]
          exact ⟨[], by simp [World.setRoom], Or.inl ⟨rfl, fun _ => rfl⟩⟩
        | some q0 =>
          cases hc : (w.peerAt q0).closed with
          | nil =>
            have e : removePeer (some a) id w = ⟨some Panic.closeOfNilChannel,
                w.setRoom a { w.roomAt a with peers := (w.roomAt a).peers.erase id }⟩ := by
              simp [removePeer, hl, closeChan, World.setRoom, hc]
            simp only [RoomOp.run, e]
            exact ⟨[], by simp [World.setRoom], Or.inl ⟨rfl, fun _ => rfl⟩⟩
          | closed =>
            have e : removePeer (some a) id w = ⟨some Panic.closeOfClosedChannel,
                w.setRoom a { w.roomAt a with peers := (w.roomAt a).peers.erase id }⟩ := by
              simp [removePeer, hl, closeChan, World.setRoom, hc]
            simp only [RoomOp.run, e]
            exact ⟨[], by simp [World.setRoom], Or.inl ⟨rfl, fun _ => rfl⟩⟩
          | made =>
            simp only [RoomOp.run, removePeer_present w a id q0 hl hc]
            refine ⟨_, rfl, Or.inr ⟨q0, rfl, hc, by simp, fun q hq => ?_⟩⟩
            simp [Function.update_noteq hq]

/-- Over any run of calls, the closes of peer channels in the trace name each
peer at most once, and never a peer whose channel was not open at the start. -/
theorem runOps_closes (ops : List RoomOp) (w : World) :
    ∃ evs, (runOps ops w).2.trace = w.trace ++ evs
      ∧ ∀ q, (chanCloses evs).count q ≤ 1
          ∧ ((w.peerAt q).closed ≠ Chan.made → (chanCloses evs).count q = 0) := by
  induction ops generalizing w with
  | nil => exact ⟨[], by simp [runOps], fun q => by simp [chanCloses]⟩
  | cons op rest ih =>
    obtain ⟨evs1, ht1, hstep⟩ := step_closes op w
    obtain ⟨evs2, ht2, hrest⟩ := ih (op.run w).world
    refine ⟨evs1 ++ evs2, ?_, ?_⟩
    · simp only [runOps]; rw [ht2, ht1, List.append_assoc]
    · intro q
      have hcount : (chanCloses (evs1 ++ evs2)).count q
          = (chanCloses evs1).count q + (chanCloses evs2).count q := by
        simp [chanCloses, List.filterMap_append, List.count_append]
      rw [hcount]
      rcases hstep with ⟨hnil, hsame⟩ | ⟨q0, hone, hmade, hclosed, hsame⟩
      · rw [hnil, ← hsame q]
        simpa using hrest q
      · by_cases hq : q = q0
        · subst hq
          have h0 := (hrest q).2 (by rw [hclosed]; decide)
          rw [hone, h0]
          exact ⟨by simp, fun h => absurd hmade h⟩
        · rw [hone, ← hsame q hq]
          have : List.count q [q0] = 0 := by
            simp [List.count_cons, List.count_nil]
            exact fun h => hq h.symm
          rw [this]
          simpa using hrest q

/-- C9. In a state where every registered peer has an open `closed` channel and
is registered once, `removePeer i` on a room that holds peer `q` under `i`
returns normally, deletes exactly that entry, closes the channel of `q` (one
close event, for `q`) and leaves every other room, entry and peer untouched.
Over any sequence of `addPeer` and `removePeer` calls that adds each peer object
once, that state invariant is kept, no call is a close of a closed channel, and
the trace closes each peer's channel at most once. -/
theorem closed_signal_once (w : World) (ops : List RoomOp)
    (h1 : SignalsOk w) (h2 : AddedOnce w ops) :
    (∀ a i q, (w.roomAt a).peers.lookup i = some (some q) →
        (removePeer (some a) i w).panic = none
        ∧ ((removePeer (some a) i w).world.roomAt a).peers.lookup i = none
        ∧ (∀ k, k ≠ i → ((removePeer (some a) i w).world.roomAt a).peers.lookup k
            = (w.roomAt a).peers.lookup k)
        ∧ (∀ b, b ≠ a → (removePeer (some a) i w).world.roomAt b = w.roomAt b)
        ∧ (removePeer (some a) i w).world.peerAt q = { w.peerAt q with closed := Chan.closed }
        ∧ (∀ q2, q2 ≠ q → (removePeer (some a) i w).world.peerAt q2 = w.peerAt q2)
        ∧ chanCloses (newEvents w (removePeer (some a) i w).world) = [q])
    ∧ SignalsOk (runOps ops w).2
    ∧ some Panic.closeOfClosedChannel ∉ (runOps ops w).1
    ∧ (∀ q, (chanCloses (newEvents w (runOps ops w).2)).count q ≤ 1) := by
  obtain ⟨r1, r2⟩ := runOps_signals ops w h1 h2
  obtain ⟨evs, ht, hcount⟩ := runOps_closes ops w
  refine ⟨?_, r1, r2, ?_⟩
  · intro a i q hl
    have hc := h1.1 a i q hl
    rw [removePeer_present w a i q hl hc]
    refine ⟨rfl, by simp [AList.lookup_erase], ?_, ?_, by simp, ?_, ?_⟩
    · intro k hk; simp [AList.lookup_erase_ne hk]
    · intro b hb; simp [Function.update_noteq hb]
    · intro q2 hq2; simp [Function.update_noteq hq2]
    · simp [newEvents, chanCloses, Event.closedPeer]
  · intro q
    rw [newEvents_append _ _ _ ht]
    exact (hcount q).1

/-- Witness for C9: in `lobbyOps` peer 2 shadows peer 0 under id `x`; the run
closes the channels of peers 2 and 1, each once, and never panics on a close. -/
theorem closed_signal_once_witness :
    SignalsOk lobbyWorld ∧ AddedOnce lobbyWorld lobbyOps
    ∧ some Panic.closeOfClosedChannel ∉ (runOps lobbyOps lobbyWorld).1
    ∧ chanCloses (newEvents lobbyWorld (runOps lobbyOps lobbyWorld).2) = [2, 1] :=
  have hempty : ∀ a k, (lobbyWorld.roomAt a).peers.lookup k = none := by
    intro a k
    by_cases ha : a = 0
    · subst ha; rfl
    · simp [lobbyWorld, getOrCreateRoom, World.setRoom, World.init, NewSFUServer,
        Function.update_noteq ha]
      rfl
  have hs : SignalsOk lobbyWorld :=
    ⟨fun a k q h => absurd h (by rw [hempty]; simp),
     fun a k a2 k2 q h => absurd h (by rw [hempty]; simp)⟩
  have ha : AddedOnce lobbyWorld lobbyOps :=
    ⟨by decide, fun q _ => ⟨rfl, fun a k h => absurd h (by rw [hempty]; simp)⟩⟩
  ⟨hs, ha, (closed_signal_once lobbyWorld lobbyOps hs ha).2.2.1, by decide⟩

theorem forwardTasks_append (e1 e2 : List Event) :
    forwardTasks (e1 ++ e2) = forwardTasks e1 ++ forwardTasks e2 := by
  simp [forwardTasks, List.filterMap_append]

/-- What the loop of `forwardTrack` does on a snapshot without nil pointer. -/
theorem forwardLoop_spec (env : Env) (roomID senderID : String) (remote : Nat)
    (l : List Ptr) (w : World) (hl : ∀ p ∈ l, p ≠ none) :
    (forwardLoop env roomID senderID remote l w).panic = none
    ∧ (forwardLoop env roomID senderID remote l w).world.peerAt = w.peerAt
    ∧ (forwardLoop env roomID senderID remote l w).world.roomAt = w.roomAt
    ∧ (forwardLoop env roomID senderID remote l w).world.sfu = w.sfu
    ∧ ∃ evs, (forwardLoop env roomID senderID remote l w).world.trace = w.trace ++ evs
      ∧ (forwardTasks evs).map Task.dst = l.filterMap (forwardDest env w senderID remote)
      ∧ (∀ t ∈ forwardTasks evs, t.remote = remote ∧ w.nextTrack ≤ t.track
          ∧ Event.newLocalTrack remote (some t.track) ∈ evs
          ∧ (∃ pc, (w.peerAt t.dst).pc = some pc
              ∧ Event.addTrack pc t.track (some t.sender) ∈ evs)
          ∧ Event.goDrain t.sender ∈ evs)
      ∧ ((forwardTasks evs).map Task.track).Nodup := by
  induction l generalizing w with
  | nil =>
    exact ⟨rfl, rfl, rfl, rfl, [], by simp [forwardLoop], rfl, by simp [forwardTasks],
      by simp [forwardTasks]⟩
  | cons p rest ih =>
    have hrest : ∀ p ∈ rest, p ≠ none := fun p hp => hl p (List.mem_cons_of_mem _ hp)
    cases p with
    | none => exact absurd rfl (hl none (List.mem_cons_self _ _))
    | some q =>
      -- a step that starts no task: the loop goes on in a state `w1` that
      -- differs from `w` by the counters and by events that start no task
      have skip : ∀ (w1 : World) (chunk : List Event),
          forwardLoop env roomID senderID remote (some q :: rest) w
            = forwardLoop env roomID senderID remote rest w1 →
          w1.peerAt = w.peerAt → w1.roomAt = w.roomAt → w1.sfu = w.sfu →
          w1.trace = w.trace ++ chunk → forwardTasks chunk = [] →
          w.nextTrack ≤ w1.nextTrack →
          forwardDest env w senderID remote (some q) = none →
          (forwardLoop env roomID senderID remote (some q :: rest) w).panic = none
          ∧ (forwardLoop env roomID senderID remote (some q :: rest) w).world.peerAt = w.peerAt
          ∧ (forwardLoop env roomID senderID remote (some q :: rest) w).world.roomAt = w.roomAt
          ∧ (forwardLoop env roomID senderID remote (some q :: rest) w).world.sfu = w.sfu
          ∧ ∃ evs, (forwardLoop env roomID senderID remote (some q :: rest) w).world.trace
                = w.trace ++ evs
            ∧ (forwardTasks evs).map Task.dst
                = (some q :: rest).filterMap (forwardDest env w senderID remote)
            ∧ (∀ t ∈ forwardTasks evs, t.remote = remote ∧ w.nextTrack ≤ t.track
                ∧ Event.newLocalTrack remote (some t.track) ∈ evs
                ∧ (∃ pc, (w.peerAt t.dst).pc = some pc
                    ∧ Event.addTrack pc t.track (some t.sender) ∈ evs)
                ∧ Event.goDrain t.sender ∈ evs)
            ∧ ((forwardTasks evs).map Task.track).Nodup := by
        intro w1 chunk heq hpe hro hsf htr hno hnt hdest
        obtain ⟨i1, i2, i3, i4, evs, i5, i6, i7, i8⟩ := ih w1 hrest
        have hfd : forwardDest env w1 senderID remote = forwardDest env w senderID remote := by
          funext p; simp only [forwardDest, hpe]
        rw [heq]
        refine ⟨i1, i2.trans hpe, i3.trans hro, i4.trans hsf, chunk ++ evs, ?_, ?_, ?_, ?_⟩
        · rw [i5, htr, List.append_assoc]
        · rw [forwardTasks_append, hno, List.nil_append, i6, hfd,
            List.filterMap_cons_none hdest]
        · intro t ht
          rw [forwardTasks_append, hno, List.nil_append] at ht
          obtain ⟨j1, j2, j3, ⟨pc, j4, j5⟩, j6⟩ := i7 t ht
          exact ⟨j1, le_trans hnt j2, List.mem_append_right _ j3,
            ⟨pc, by rw [← hpe]; exact j4, List.mem_append_right _ j5⟩,
            List.mem_append_right _ j6⟩
        · rw [forwardTasks_append, hno, List.nil_append]; exact i8
      by_cases hid : (w.peerAt q).id = senderID
      · exact skip w [] (by simp [forwardLoop, hid]) rfl rfl rfl (by simp) rfl (le_refl _)
          (by simp [forwardDest, hid])
      · cases hpc : (w.peerAt q).pc with
        | none =>
          exact skip w [] (by simp [forwardLoop, hid, hpc]) rfl rfl rfl (by simp) rfl
            (le_refl _) (by simp [forwardDest, hid, hpc])
        | some pc =>
          by_cases hnew : env.newTrackErr remote q = true
          · exact skip
              ((w.emit (Event.newLocalTrack remote none)).emit
                (Event.log (LogMsg.newTrackError roomID (w.peerAt q).id)))
              [Event.newLocalTrack remote none,
                Event.log (LogMsg.newTrackError roomID (w.peerAt q).id)]
              (by simp [forwardLoop, hid, hpc, hnew]) rfl rfl rfl
              (by simp [World.emit]) rfl (le_refl _)
              (by simp [forwardDest, hid, hpc, hnew])
          · by_cases hadd : env.addTrackErr remote q = true
            · exact skip
                (({ w.emit (Event.newLocalTrack remote (some w.nextTrack)) with
                    nextTrack := w.nextTrack + 1 }.emit
                  (Event.addTrack pc w.nextTrack none)).emit
                  (Event.log (LogMsg.addTrackError roomID (w.peerAt q).id)))
                [Event.newLocalTrack remote (some w.nextTrack),
                  Event.addTrack pc w.nextTrack none,
                  Event.log (LogMsg.addTrackError roomID (w.peerAt q).id)]
                (by simp [forwardLoop, hid, hpc, hnew, hadd]) rfl rfl rfl
                (by simp [World.emit]) rfl (Nat.le_succ _)
                (by simp [forwardDest, hid, hpc, hnew, hadd])
            · have heq : forwardLoop env roomID senderID remote (some q :: rest) w
                  = forwardLoop env roomID senderID remote rest
                      (({ { w.emit (Event.newLocalTrack remote (some w.nextTrack)) with
                            nextTrack := w.nextTrack + 1 }.emit
                          (Event.addTrack pc w.nextTrack (some w.nextSender)) with
                          nextSender := w.nextSender + 1 }.emit
                        (Event.goForward remote w.nextTrack q w.nextSender)).emit
                        (Event.goDrain w.nextSender)) := by
                simp [forwardLoop, hid, hpc, hnew, hadd, World.emit]
              obtain ⟨i1, i2, i3, i4, evs, i5, i6, i7, i8⟩ := ih _ hrest
              rw [heq]
              have hdest : forwardDest env w senderID remote (some q) = some q := by
                simp [forwardDest, hid, hpc, hnew, hadd]
              have htasks : forwardTasks
                  ([Event.newLocalTrack remote (some w.nextTrack),
                    Event.addTrack pc w.nextTrack (some w.nextSender),
                    Event.goForward remote w.nextTrack q w.nextSender,
                    Event.goDrain w.nextSender] ++ evs)
                  = ⟨remote, w.nextTrack, q, w.nextSender⟩ :: forwardTasks evs := by
                rw [forwardTasks_append]; rfl
              refine ⟨i1, i2, i3, i4,
                [Event.newLocalTrack remote (some w.nextTrack),
                  Event.addTrack pc w.nextTrack (some w.nextSender),
                  Event.goForward remote w.nextTrack q w.nextSender,
                  Event.goDrain w.nextSender] ++ evs, ?_, ?_, ?_, ?_⟩
              · rw [i5]; simp [World.emit]
              · rw [htasks, List.map_cons, i6, List.filterMap_cons_some hdest]
                rfl
              · intro t ht
                rw [htasks] at ht
                rcases List.mem_cons.1 ht with h | h
                · subst h
                  exact ⟨rfl, le_refl _, by simp, ⟨pc, hpc, by simp⟩, by simp⟩
                · obtain ⟨j1, j2, j3, ⟨pc2, j4, j5⟩, j6⟩ := i7 t h
                  exact ⟨j1, le_trans (Nat.le_succ _) j2, List.mem_append_right _ j3,
                    ⟨pc2, j4, List.mem_append_right _ j5⟩, List.mem_append_right _ j6⟩
              · rw [htasks, List.map_cons, List.nodup_cons]
                refine ⟨?_, i8⟩
                intro hmem
                obtain ⟨t, ht, htr⟩ := List.mem_map.1 hmem
                have := (i7 t ht).2.1
                rw [htr] at this
                exact Nat.not_succ_le_self _ this



/-- When `forwardTrack` gets through for a pointer of the snapshot. -/
theorem forwardDest_eq_some (env : Env) (w : World) (senderID : String) (remote : Nat)
    (p : Ptr) (q : Nat) :
    forwardDest env w senderID remote p = some q ↔
      p = some q ∧ (w.peerAt q).id ≠ senderID ∧ (∃ pc, (w.peerAt q).pc = some pc)
        ∧ env.newTrackErr remote q = false ∧ env.addTrackErr remote q = false := by
  cases p with
  | none => simp [forwardDest]
  | some q0 =>
    by_cases hid : (w.peerAt q0).id = senderID
    · simp only [forwardDest, hid, if_true]
      constructor
      · intro h; cases h
      · rintro ⟨h, h2, -⟩; cases h; exact absurd hid h2
    · cases hpc : (w.peerAt q0).pc with
      | none =>
        simp only [forwardDest, hid, if_false, hpc]
        constructor
        · intro h; cases h
        · rintro ⟨h, -, ⟨pc, h3⟩, -⟩; cases h; rw [hpc] at h3; cases h3
      | some pc =>
        constructor
        · intro h
          cases hn : env.newTrackErr remote q0 with
          | true => simp [forwardDest, hid, hpc, hn] at h
          | false =>
            cases ha : env.addTrackErr remote q0 with
            | true => simp [forwardDest, hid, hpc, hn, ha] at h
            | false =>
              simp [forwardDest, hid, hpc, hn, ha] at h
              subst h
              exact ⟨rfl, hid, ⟨pc, hpc⟩, hn, ha⟩
        · rintro ⟨h1, -, -, h4, h5⟩
          cases h1
          simp [forwardDest, hid, hpc, h4, h5]

/-- A `filterMap` that drops nothing keeps the length. -/
theorem length_filterMap_of_isSome {α β : Type} (f : α → Option β) (l : List α)
    (h : ∀ x ∈ l, f x ≠ none) : (l.filterMap f).length = l.length := by
  induction l with
  | nil => rfl
  | cons x rest ih =>
    cases hx : f x with
    | none => exact absurd hx (h x (List.mem_cons_self _ _))
    | some b =>
      rw [List.filterMap_cons_some hx, List.length_cons, List.length_cons,
        ih (fun y hy => h y (List.mem_cons_of_mem _ hy))]

/-- Deleting a present key makes the map one entry shorter. -/
theorem length_kerase_of_mem {V : Type} (k : String) (l : List (Entry V))
    (h : k ∈ l.keys) : (l.kerase k).length = l.length - 1 := by
  have h1 : (l.kerase k).keys = l.keys.erase k := List.keys_kerase
  have h2 : (l.kerase k).length = (l.kerase k).keys.length := by simp [List.keys]
  have h3 : l.length = l.keys.length := by simp [List.keys]
  rw [h2, h1, h3, List.length_erase_of_mem h]

/-- C10, as amended.  On a room without nil peer, `forwardTrack` does not
panic, leaves the peer maps as they are, and starts forwarding tasks exactly for
the peers of the snapshot whose id differs from `senderID`, that have a
connection, and for which neither the creation of the local track nor its
attachment fails: each of them gets a task, and every task is for such a peer
(none for the sender), pumps the inbound track into a local track of its own
that was created and attached to the connection of its destination, and has its
feedback drain.  A peer registered once gets at most one task; there are room
size minus one tasks when the sender is a member and no other peer is skipped. -/
theorem forwardTrack_fans_out (env : Env) (w : World) (a : Nat) (senderID : String)
    (remote : Nat) (h : NoNilPeers w a) :
    (forwardTrack env (some a) senderID remote w).panic = none
    ∧ (forwardTrack env (some a) senderID remote w).world.roomAt = w.roomAt
    ∧ (forwardTasks (newEvents w (forwardTrack env (some a) senderID remote w).world)).map
        Task.dst = forwardDests env w a senderID remote
    ∧ (∀ k q pc, (w.roomAt a).peers.lookup k = some (some q) → (w.peerAt q).id ≠ senderID →
        (w.peerAt q).pc = some pc → env.newTrackErr remote q = false →
        env.addTrackErr remote q = false →
        ∃ t ∈ forwardTasks (newEvents w (forwardTrack env (some a) senderID remote w).world),
          t.dst = q)
    ∧ (∀ t ∈ forwardTasks (newEvents w (forwardTrack env (some a) senderID remote w).world),
        t.remote = remote
        ∧ (w.peerAt t.dst).id ≠ senderID
        ∧ (∃ k, (w.roomAt a).peers.lookup k = some (some t.dst))
        ∧ env.newTrackErr remote t.dst = false ∧ env.addTrackErr remote t.dst = false
        ∧ Event.newLocalTrack remote (some t.track)
            ∈ newEvents w (forwardTrack env (some a) senderID remote w).world
        ∧ (∃ pc, (w.peerAt t.dst).pc = some pc ∧ Event.addTrack pc t.track (some t.sender)
            ∈ newEvents w (forwardTrack env (some a) senderID remote w).world)
        ∧ Event.goDrain t.sender
            ∈ newEvents w (forwardTrack env (some a) senderID remote w).world)
    ∧ ((forwardTasks (newEvents w (forwardTrack env (some a) senderID remote w).world)).map
        Task.track).Nodup
    ∧ (PeersDistinct w a →
        ((forwardTasks (newEvents w (forwardTrack env (some a) senderID remote w).world)).map
          Task.dst).Nodup)
    ∧ (KeysAreIds w a → senderID ∈ (w.roomAt a).peers →
        (∀ k q, (w.roomAt a).peers.lookup k = some (some q) → k ≠ senderID →
          (∃ pc, (w.peerAt q).pc = some pc) ∧ env.newTrackErr remote q = false
            ∧ env.addTrackErr remote q = false) →
        (forwardTasks (newEvents w (forwardTrack env (some a) senderID remote w).world)).length
          = (w.roomAt a).peers.entries.length - 1) := by
  have hsnap : ∀ p ∈ (w.roomAt a).peers.entries.map (fun e => e.2), p ≠ none := by
    intro p hp
    obtain ⟨e, he, rfl⟩ := List.mem_map.1 hp
    exact h e he
  obtain ⟨s1, -, s3, -, evs, s5, s6, s7, s8⟩ :=
    forwardLoop_spec env (w.roomAt a).id senderID remote _ w hsnap
  have hn : newEvents w (forwardTrack env (some a) senderID remote w).world = evs :=
    newEvents_append _ _ _ s5
  rw [hn]
  have hdst : ∀ q, q ∈ (forwardTasks evs).map Task.dst ↔
      (∃ k, (w.roomAt a).peers.lookup k = some (some q)) ∧ (w.peerAt q).id ≠ senderID
        ∧ (∃ pc, (w.peerAt q).pc = some pc)
        ∧ env.newTrackErr remote q = false ∧ env.addTrackErr remote q = false := by
    intro q
    rw [s6, List.mem_filterMap]
    constructor
    · rintro ⟨p, hp, hf⟩
      obtain ⟨e, he, rfl⟩ := List.mem_map.1 hp
      obtain ⟨f1, f2, f3, f4, f5⟩ := (forwardDest_eq_some env w senderID remote _ q).1 hf
      obtain ⟨k, v⟩ := e
      simp only at f1
      subst f1
      refine ⟨⟨k, ?_⟩, f2, f3, f4, f5⟩
      have := (AList.mem_lookup_iff (s := (w.roomAt a).peers)).2 he
      simpa using this
    · rintro ⟨⟨k, hk⟩, f2, f3, f4, f5⟩
      exact ⟨some q, List.mem_map.2 ⟨⟨k, some q⟩, lookup_some_mem hk, rfl⟩,
        (forwardDest_eq_some env w senderID remote _ q).2 ⟨rfl, f2, f3, f4, f5⟩⟩
  refine ⟨s1, s3, s6, ?_, ?_, s8, ?_, ?_⟩
  · intro k q pc hl hid hpc hnew hadd
    have := (hdst q).2 ⟨⟨k, hl⟩, hid, ⟨pc, hpc⟩, hnew, hadd⟩
    obtain ⟨t, ht, hq⟩ := List.mem_map.1 this
    exact ⟨t, ht, hq⟩
  · intro t ht
    obtain ⟨j1, -, j3, j4, j5⟩ := s7 t ht
    obtain ⟨d1, d2, -, d4, d5⟩ := (hdst t.dst).1 (List.mem_map.2 ⟨t, ht, rfl⟩)
    exact ⟨j1, d2, d1, d4, d5, j3, j4, j5⟩
  · intro hnd
    rw [s6]
    apply List.Nodup.filterMap _ hnd
    intro p1 p2 q h1 h2
    rw [Option.mem_def] at h1 h2
    rw [((forwardDest_eq_some env w senderID remote p1 q).1 h1).1,
      ((forwardDest_eq_some env w senderID remote p2 q).1 h2).1]
  · intro hkeys hsender hall
    have hlen : (forwardTasks evs).length = ((forwardTasks evs).map Task.dst).length := by simp
    rw [hlen, s6, List.filterMap_map]
    have hfun : ∀ e ∈ (w.roomAt a).peers.entries,
        (forwardDest env w senderID remote ∘ fun e => e.2) e
          = (fun e : Entry Ptr => if e.1 = senderID then none else e.2) e := by
      intro e he
      obtain ⟨k, p⟩ := e
      cases p with
      | none => exact absurd rfl (h _ he)
      | some q =>
        have hkid : (w.peerAt q).id = k := hkeys _ he
        have hl : (w.roomAt a).peers.lookup k = some (some q) := by
          have := (AList.mem_lookup_iff (s := (w.roomAt a).peers)).2 he
          simpa using this
        by_cases hk : k = senderID
        · simp [forwardDest, hkid, hk]
        · obtain ⟨⟨pc, hpc⟩, hnew, hadd⟩ := hall k q hl hk
          simp [forwardDest, hkid, hk, hpc, hnew, hadd]
    rw [List.filterMap_congr hfun,
      ← filterMap_kerase (fun e : Entry Ptr => e.2) senderID _ (w.roomAt a).peers.nodupKeys,
      length_filterMap_of_isSome _ _
        (fun e he => h e ((List.kerase_sublist _ _).subset he)),
      length_kerase_of_mem _ _ (AList.mem_keys.1 hsender)]

/-- C10, counterexample: in room 0 of `tenRooms` the peer `p1` differs from the
sender `p0`, yet it gets no forwarding task when the creation of the local
track fails, nor, with a working library, when it has no connection. -/
theorem forwardTrack_every_other_counterexample :
    ¬ ForwardsToEveryOther failingEnv tenRooms 0 "p0" 7
    ∧ ¬ ForwardsToEveryOther workingEnv pcLessWorld 0 "p0" 7 :=
  ⟨fun h => absurd (h "p1" 1 (by decide) (by decide)) (by decide),
   fun h => absurd (h "p1" 1 (by decide) (by decide)) (by decide)⟩

/-- Witness for C10 as amended: a track of `p0` fans out to the four others. -/
theorem forwardTrack_fans_out_witness :
    NoNilPeers tenRooms 0
    ∧ (forwardTasks (newEvents tenRooms
        (forwardTrack workingEnv (some 0) "p0" 7 tenRooms).world)).map Task.dst = [1, 2, 3, 4] :=
  ⟨by decide,
    (forwardTrack_fans_out workingEnv tenRooms 0 "p0" 7 (by decide)).2.2.1.trans (by decide)⟩



/-- Witness for C5: peer `p0` of room 0 of `tenRooms` broadcasts three bytes. -/
theorem broadcastData_delivers_witness :
    ChannelsDistinct tenRooms 0
    ∧ sendCalls (newEvents tenRooms
        (broadcastData failingEnv (some 0) "p0" [1, 2, 3] tenRooms).world)
        = [(1, [1, 2, 3]), (2, [1, 2, 3]), (3, [1, 2, 3]), (4, [1, 2, 3])]
    ∧ (0, [1, 2, 3]) ∉ sendCalls (newEvents tenRooms
        (broadcastData failingEnv (some 0) "p0" [1, 2, 3] tenRooms).world) :=
  ⟨by decide,
    (broadcastData_delivers failingEnv tenRooms 0 "p0" [1, 2, 3]).2.1.trans (by decide),
    ((broadcastData_delivers failingEnv tenRooms 0 "p0" [1, 2, 3]).2.2.2.2.1 (by decide)).2
      0 0 [1, 2, 3] (by decide) (by decide)⟩

/-- Witness for C6: after `p2` left room 0 of `tenRooms`, `p0` broadcasts. -/
theorem broadcast_after_removePeer_witness :
    ChannelsDistinct tenRooms 0
    ∧ sendCalls (newEvents (removePeer (some 0) "p2" tenRooms).world
        (broadcastData failingEnv (some 0) "p0" [9]
          (removePeer (some 0) "p2" tenRooms).world).world)
        = [(1, [9]), (3, [9]), (4, [9])]
    ∧ (2, [9]) ∉ sendCalls (newEvents (removePeer (some 0) "p2" tenRooms).world
        (broadcastData failingEnv (some 0) "p0" [9]
          (removePeer (some 0) "p2" tenRooms).world).world) :=
  ⟨by decide,
    (broadcast_after_removePeer failingEnv tenRooms 0 "p0" "p2" [9]).2.2.1.trans (by decide),
    (broadcast_after_removePeer failingEnv tenRooms 0 "p0" "p2" [9]).2.2.2.2.2 (by decide)
      2 2 [9] (by decide) (by decide)⟩

/-- Witness for C8: nobody is registered under `p9` in room 0 of `tenRooms`. -/
theorem removePeer_absent_noop_witness :
    (tenRooms.roomAt 0).peers.lookup "p9" = none
    ∧ removePeer (some 0) "p9" tenRooms = ⟨none, tenRooms⟩ :=
  ⟨by decide, (removePeer_absent_noop tenRooms 0 "p9").1 (by decide)⟩

/-! ### The hypotheses of the statements are invariants of the operations -/

/-- The start state is well formed. -/
theorem init_wellformed :
    RegistryOk World.init ∧ NoNilRooms World.init
    ∧ ∀ a, NoNilPeers World.init a ∧ KeysAreIds World.init a := by
  refine ⟨by decide, by decide, fun a => ⟨?_, ?_⟩⟩
  · intro e he; cases he
  · intro e he; cases he

/-- The registry stays well formed and free of nil under `getOrCreateRoom`. -/
theorem getOrCreateRoom_wellformed (id : String) (w : World) :
    (RegistryOk w → RegistryOk (getOrCreateRoom id w).2)
    ∧ (NoNilRooms w → NoNilRooms (getOrCreateRoom id w).2) := by
  cases hl : w.sfu.rooms.lookup id with
  | some r => rw [getOrCreateRoom_present id w r hl]; exact ⟨fun h => h, fun h => h⟩
  | none =>
    have hn : id ∉ w.sfu.rooms := AList.lookup_eq_none.1 hl
    rw [getOrCreateRoom_absent id w hl]
    constructor
    · intro ok e he
      simp only [AList.insert_entries_of_neg hn, List.mem_cons] at he
      rcases he with rfl | he
      · simp [RoomEntryOk]
      · have := ok e he
        obtain ⟨k, r⟩ := e
        cases r with
        | none => exact absurd this (by simp [RoomEntryOk])
        | some a =>
          have ha : a < w.nextRoom := by simpa [RoomEntryOk] using this.1
          have hid : (w.roomAt a).id = k := by simpa [RoomEntryOk] using this.2
          simp only [RoomEntryOk]
          exact ⟨Nat.lt_succ_of_lt ha, by rw [Function.update_noteq (Nat.ne_of_lt ha)]; exact hid⟩
    · intro ok e he
      simp only [AList.insert_entries_of_neg hn, List.mem_cons] at he
      rcases he with rfl | he
      · simp only [RoomEntryLive, NoNilPeers]
        intro e he; simp at he
      · have := ok e he
        obtain ⟨k, r⟩ := e
        cases r with
        | none => exact absurd this (by simp [RoomEntryLive])
        | some a =>
          simp only [RoomEntryLive, NoNilPeers] at this ⊢
          by_cases ha : a = w.nextRoom
          · subst ha; intro e he; simp at he
          · rw [Function.update_noteq ha]; exact this

/-- No nil pointer is stored by `addPeer`, and the peer is stored under its id. -/
theorem addPeer_wellformed (w : World) (r p : Ptr) (b : Nat) :
    (NoNilPeers w b → NoNilPeers (addPeer r p w).world b)
    ∧ (KeysAreIds w b → KeysAreIds (addPeer r p w).world b) := by
  cases r with
  | none => exact ⟨id, id⟩
  | some a =>
    cases p with
    | none => exact ⟨id, id⟩
    | some q =>
      have hroom : (addPeer (some a) (some q) w).world.roomAt
          = Function.update w.roomAt a
              { w.roomAt a with
                peers := (w.roomAt a).peers.insert (w.peerAt q).id (some q) } := rfl
      have hpeer : (addPeer (some a) (some q) w).world.peerAt = w.peerAt := rfl
      have hmem : ∀ e ∈ ((addPeer (some a) (some q) w).world.roomAt b).peers.entries,
          e = ⟨(w.peerAt q).id, some q⟩ ∨ e ∈ (w.roomAt b).peers.entries := by
        intro e he
        rw [hroom] at he
        by_cases hb : b = a
        · subst hb
          simp only [Function.update_same, AList.insert_entries, List.mem_cons] at he
          rcases he with h | h
          · exact Or.inl h
          · exact Or.inr ((List.kerase_sublist _ _).subset h)
        · rw [Function.update_noteq hb] at he
          exact Or.inr he
      constructor
      · intro ok e he
        rcases hmem e he with rfl | h
        · simp
        · exact ok e h
      · intro ok e he
        rcases hmem e he with rfl | h
        · simp [hpeer]
        · have := ok e h
          simpa [hpeer] using this

/-- Nothing is stored by `removePeer`, and no peer's id changes. -/
theorem removePeer_wellformed (w : World) (a : Nat) (id : String) (b : Nat) :
    (NoNilPeers w b → NoNilPeers (removePeer (some a) id w).world b)
    ∧ (KeysAreIds w b → KeysAreIds (removePeer (some a) id w).world b) := by
  obtain ⟨hroom, -, -, hpeer⟩ := removePeer_world w a id
  have hmem : ∀ e ∈ ((removePeer (some a) id w).world.roomAt b).peers.entries,
      e ∈ (w.roomAt b).peers.entries := by
    intro e he
    rw [hroom] at he
    by_cases hb : b = a
    · subst hb
      simp only [Function.update_same] at he
      exact (List.kerase_sublist _ _).subset he
    · rw [Function.update_noteq hb] at he
      exact he
  constructor
  · intro ok e he
    exact ok e (hmem e he)
  · intro ok e he
    have := ok e (hmem e he)
    obtain ⟨k, p⟩ := e
    cases p with
    | none => trivial
    | some q =>
      show ((removePeer (some a) id w).world.peerAt q).id = k
      rw [(hpeer q).2.1]
      exact this

/-! ### Snapshot of the membership in `forwardTrack` -/


/-- The loop of `forwardTrack` attaches tracks only to connections of peers of
the snapshot whose id is not the sender's, and starts tasks only for such peers. -/
theorem forwardLoop_attach (env : Env) (roomID senderID : String) (remote : Nat)
    (l : List Ptr) (w : World) :
    (forwardLoop env roomID senderID remote l w).world.peerAt = w.peerAt
    ∧ ∃ evs, (forwardLoop env roomID senderID remote l w).world.trace = w.trace ++ evs
      ∧ (∀ pc t s, Event.addTrack pc t s ∈ evs →
          ∃ q, some q ∈ l ∧ (w.peerAt q).pc = some pc ∧ (w.peerAt q).id ≠ senderID)
      ∧ (∀ r t q s, Event.goForward r t q s ∈ evs →
          some q ∈ l ∧ (w.peerAt q).id ≠ senderID) := by
  induction l generalizing w with
  | nil => exact ⟨rfl, [], by simp [forwardLoop], by simp, by simp⟩
  | cons p rest ih =>
    cases p with
    | none => exact ⟨rfl, [], by simp [forwardLoop], by simp, by simp⟩
    | some q =>
      have step : ∀ (w1 : World) (chunk : List Event),
          forwardLoop env roomID senderID remote (some q :: rest) w
            = forwardLoop env roomID senderID remote rest w1 →
          w1.peerAt = w.peerAt → w1.trace = w.trace ++ chunk →
          (∀ pc t s, Event.addTrack pc t s ∈ chunk →
            (w.peerAt q).pc = some pc ∧ (w.peerAt q).id ≠ senderID) →
          (∀ r t q2 s, Event.goForward r t q2 s ∈ chunk →
            q2 = q ∧ (w.peerAt q).id ≠ senderID) →
          (forwardLoop env roomID senderID remote (some q :: rest) w).world.peerAt = w.peerAt
          ∧ ∃ evs, (forwardLoop env roomID senderID remote (some q :: rest) w).world.trace
                = w.trace ++ evs
            ∧ (∀ pc t s, Event.addTrack pc t s ∈ evs →
                ∃ q2, some q2 ∈ some q :: rest ∧ (w.peerAt q2).pc = some pc
                  ∧ (w.peerAt q2).id ≠ senderID)
            ∧ (∀ r t q2 s, Event.goForward r t q2 s ∈ evs →
                some q2 ∈ some q :: rest ∧ (w.peerAt q2).id ≠ senderID) := by
        intro w1 chunk heq hpe htr hchunk hgo
        obtain ⟨i1, evs, i2, i3, i4⟩ := ih w1
        rw [heq]
        refine ⟨i1.trans hpe, chunk ++ evs, by rw [i2, htr, List.append_assoc], ?_, ?_⟩
        · intro pc t s hmem
          rcases List.mem_append.1 hmem with h | h
          · exact ⟨q, List.mem_cons_self _ _, hchunk pc t s h⟩
          · obtain ⟨q2, hq2, h1, h2⟩ := i3 pc t s h
            exact ⟨q2, List.mem_cons_of_mem _ hq2, by rw [← hpe]; exact h1,
              by rw [← hpe]; exact h2⟩
        · intro r t q2 s hmem
          rcases List.mem_append.1 hmem with h | h
          · obtain ⟨e1, e2⟩ := hgo r t q2 s h
            subst e1
            exact ⟨List.mem_cons_self _ _, e2⟩
          · obtain ⟨h1, h2⟩ := i4 r t q2 s h
            exact ⟨List.mem_cons_of_mem _ h1, by rw [← hpe]; exact h2⟩
      by_cases hid : (w.peerAt q).id = senderID
      · exact step w [] (by simp [forwardLoop, hid]) rfl (by simp) (by simp) (by simp)
      · cases hpc : (w.peerAt q).pc with
        | none =>
          exact step w [] (by simp [forwardLoop, hid, hpc]) rfl (by simp) (by simp) (by simp)
        | some pc =>
          by_cases hnew : env.newTrackErr remote q = true
          · exact step
              ((w.emit (Event.newLocalTrack remote none)).emit
                (Event.log (LogMsg.newTrackError roomID (w.peerAt q).id)))
              [Event.newLocalTrack remote none,
                Event.log (LogMsg.newTrackError roomID (w.peerAt q).id)]
              (by simp [forwardLoop, hid, hpc, hnew]) rfl (by simp [World.emit]) (by simp)
              (by simp)
          · by_cases hadd : env.addTrackErr remote q = true
            · exact step
                (({ w.emit (Event.newLocalTrack remote (some w.nextTrack)) with
                    nextTrack := w.nextTrack + 1 }.emit
                  (Event.addTrack pc w.nextTrack none)).emit
                  (Event.log (LogMsg.addTrackError roomID (w.peerAt q).id)))
                [Event.newLocalTrack remote (some w.nextTrack),
                  Event.addTrack pc w.nextTrack none,
                  Event.log (LogMsg.addTrackError roomID (w.peerAt q).id)]
                (by simp [forwardLoop, hid, hpc, hnew, hadd]) rfl (by simp [World.emit])
                (by
                  intro pc2 t s hmem
                  simp at hmem
                  exact ⟨by rw [hmem.1]; exact hpc, hid⟩)
                (by simp)
            · exact step
                (({ { w.emit (Event.newLocalTrack remote (some w.nextTrack)) with
                      nextTrack := w.nextTrack + 1 }.emit
                    (Event.addTrack pc w.nextTrack (some w.nextSender)) with
                    nextSender := w.nextSender + 1 }.emit
                  (Event.goForward remote w.nextTrack q w.nextSender)).emit
                  (Event.goDrain w.nextSender))
                [Event.newLocalTrack remote (some w.nextTrack),
                  Event.addTrack pc w.nextTrack (some w.nextSender),
                  Event.goForward remote w.nextTrack q w.nextSender,
                  Event.goDrain w.nextSender]
                (by simp [forwardLoop, hid, hpc, hnew, hadd, World.emit]) rfl
                (by simp [World.emit])
                (by
                  intro pc2 t s hmem
                  simp at hmem
                  exact ⟨by rw [hmem.1]; exact hpc, hid⟩)
                (by
                  intro r t q2 s hmem
                  simp at hmem
                  exact ⟨hmem.2.2.1, hid⟩)

/-- The tracks that `forwardTrack` attaches go to connections of peers that are
registered in the room at call time under an id other than the sender's. -/
theorem forwardTrack_attach (env : Env) (w : World) (a : Nat) (senderID : String)
    (remote : Nat) (pc t : Nat) (s : Option Nat)
    (h : Event.addTrack pc t s
      ∈ newEvents w (forwardTrack env (some a) senderID remote w).world) :
    ∃ k q, (w.roomAt a).peers.lookup k = some (some q) ∧ (w.peerAt q).pc = some pc
      ∧ (w.peerAt q).id ≠ senderID := by
  obtain ⟨-, evs, h1, h2, -⟩ := forwardLoop_attach env (w.roomAt a).id senderID remote
    ((w.roomAt a).peers.entries.map (fun e => e.2)) w
  have hn : newEvents w (forwardTrack env (some a) senderID remote w).world = evs :=
    newEvents_append _ _ _ h1
  rw [hn] at h
  obtain ⟨q, hq, hpc, hid⟩ := h2 pc t s h
  obtain ⟨⟨k, v⟩, he, hv⟩ := List.mem_map.1 hq
  simp only at hv
  subst hv
  refine ⟨k, q, ?_, hpc, hid⟩
  have := (AList.mem_lookup_iff (s := (w.roomAt a).peers)).2 he
  simpa using this



/-- The destinations of the tasks that `forwardTrack` starts on a room without
nil peer: the peers registered at call time under an id other than the
sender's, with a connection, for which no library call fails. -/
theorem forwardTrack_dests (env : Env) (w : World) (a : Nat) (senderID : String)
    (remote : Nat) (h : NoNilPeers w a) :
    (forwardTrack env (some a) senderID remote w).panic = none
    ∧ (forwardTasks (newEvents w (forwardTrack env (some a) senderID remote w).world)).map
        Task.dst = forwardDests env w a senderID remote
    ∧ (∀ t ∈ forwardTasks (newEvents w (forwardTrack env (some a) senderID remote w).world),
        t.remote = remote)
    ∧ ∀ q, q ∈ (forwardTasks
          (newEvents w (forwardTrack env (some a) senderID remote w).world)).map Task.dst ↔
        (∃ k, (w.roomAt a).peers.lookup k = some (some q)) ∧ (w.peerAt q).id ≠ senderID
          ∧ (∃ pc, (w.peerAt q).pc = some pc)
          ∧ env.newTrackErr remote q = false ∧ env.addTrackErr remote q = false := by
  have hsnap : ∀ p ∈ (w.roomAt a).peers.entries.map (fun e => e.2), p ≠ none := by
    intro p hp
    obtain ⟨e, he, rfl⟩ := List.mem_map.1 hp
    exact h e he
  obtain ⟨s1, -, -, -, evs, s5, s6, s7, -⟩ :=
    forwardLoop_spec env (w.roomAt a).id senderID remote _ w hsnap
  have hn : newEvents w (forwardTrack env (some a) senderID remote w).world = evs :=
    newEvents_append _ _ _ s5
  rw [hn]
  refine ⟨s1, s6, fun t ht => (s7 t ht).1, ?_⟩
  intro q
  rw [s6, List.mem_filterMap]
  constructor
  · rintro ⟨p, hp, hf⟩
    obtain ⟨e, he, rfl⟩ := List.mem_map.1 hp
    obtain ⟨f1, f2, f3, f4, f5⟩ := (forwardDest_eq_some env w senderID remote _ q).1 hf
    obtain ⟨k, v⟩ := e
    simp only at f1
    subst f1
    refine ⟨⟨k, ?_⟩, f2, f3, f4, f5⟩
    have := (AList.mem_lookup_iff (s := (w.roomAt a).peers)).2 he
    simpa using this
  · rintro ⟨⟨k, hk⟩, f2, f3, f4, f5⟩
    exact ⟨some q, List.mem_map.2 ⟨⟨k, some q⟩, lookup_some_mem hk, rfl⟩,
      (forwardDest_eq_some env w senderID remote _ q).2 ⟨rfl, f2, f3, f4, f5⟩⟩

/-- The effects between `w` and the state after `forwardTrack` and a later
`addPeer` are those of `forwardTrack` followed by the log line of `addPeer`. -/
theorem newEvents_forwardTrack_addPeer (env : Env) (w : World) (a : Nat)
    (senderID : String) (remote d : Nat) :
    ∃ m, newEvents w (addPeer (some a) (some d)
          (forwardTrack env (some a) senderID remote w).world).world
      = newEvents w (forwardTrack env (some a) senderID remote w).world ++ [Event.log m] := by
  obtain ⟨-, evs, h1, -, -⟩ := forwardLoop_attach env (w.roomAt a).id senderID remote
    ((w.roomAt a).peers.entries.map (fun e => e.2)) w
  have hn : newEvents w (forwardTrack env (some a) senderID remote w).world = evs :=
    newEvents_append _ _ _ h1
  refine ⟨LogMsg.joined ((forwardTrack env (some a) senderID remote w).world.roomAt a).id
    ((forwardTrack env (some a) senderID remote w).world.peerAt d).id
    (((forwardTrack env (some a) senderID remote w).world.roomAt a).peers.insert
      ((forwardTrack env (some a) senderID remote w).world.peerAt d).id
      (some d)).entries.length, ?_⟩
  rw [hn]
  apply newEvents_append
  show (forwardTrack env (some a) senderID remote w).world.trace ++ [_] = _
  have h1b : (forwardTrack env (some a) senderID remote w).world.trace = w.trace ++ evs := h1
  rw [h1b, List.append_assoc]

/-- A call that does not add the peer `q1` does not write it and does not
register it, when it is registered nowhere. -/
theorem step_unregistered (op : RoomOp) (w : World) (q1 : Nat)
    (hreg : ∀ a k, (w.roomAt a).peers.lookup k ≠ some (some q1))
    (hadd : op.added ≠ some q1) :
    (op.run w).world.peerAt q1 = w.peerAt q1
    ∧ ∀ a k, ((op.run w).world.roomAt a).peers.lookup k ≠ some (some q1) := by
  cases op with
  | add r p =>
    cases r with
    | none => exact ⟨rfl, hreg⟩
    | some a =>
      cases p with
      | none => exact ⟨rfl, hreg⟩
      | some q =>
        refine ⟨rfl, fun a2 k hl => ?_⟩
        rcases addPeer_lookup w a q a2 k _ hl with ⟨-, -, hv⟩ | hold
        · exact hadd (by simp only [RoomOp.added]; exact hv.symm)
        · exact hreg a2 k hold
  | remove r id =>
    cases r with
    | none => exact ⟨rfl, hreg⟩
    | some a =>
      exact ⟨(removePeer_signals w a id).1 q1 (hreg a id),
        fun a2 k hl => hreg a2 k (removePeer_lookup w a id a2 k _ hl).1⟩

/-- A peer that is registered nowhere and that no call adds is never written, is
never registered, and its channel is never closed, over any run of calls. -/
theorem runOps_unregistered (ops : List RoomOp) (w : World) (q1 : Nat)
    (hreg : ∀ a k, (w.roomAt a).peers.lookup k ≠ some (some q1))
    (hadd : q1 ∉ addedPeers ops) :
    (runOps ops w).2.peerAt q1 = w.peerAt q1
    ∧ (∀ a k, ((runOps ops w).2.roomAt a).peers.lookup k ≠ some (some q1))
    ∧ ∃ evs, (runOps ops w).2.trace = w.trace ++ evs ∧ q1 ∉ chanCloses evs := by
  induction ops generalizing w with
  | nil => exact ⟨rfl, hreg, [], by simp [runOps], by simp [chanCloses]⟩
  | cons op rest ih =>
    have hop : op.added ≠ some q1 := by
      intro h
      apply hadd
      simp only [addedPeers]
      exact List.mem_filterMap.2 ⟨op, List.mem_cons_self _ _, h⟩
    have hrest : q1 ∉ addedPeers rest := by
      intro h
      apply hadd
      simp only [addedPeers] at h ⊢
      obtain ⟨o, ho, ho2⟩ := List.mem_filterMap.1 h
      exact List.mem_filterMap.2 ⟨o, List.mem_cons_of_mem _ ho, ho2⟩
    obtain ⟨s1, s2⟩ := step_unregistered op w q1 hreg hop
    obtain ⟨i1, i2, evs2, i3, i4⟩ := ih (op.run w).world s2 hrest
    obtain ⟨evs1, ht1, hstep⟩ := step_closes op w
    refine ⟨by simp only [runOps]; rw [i1, s1], by simpa only [runOps] using i2,
      evs1 ++ evs2, by simp only [runOps]; rw [i3, ht1, List.append_assoc], ?_⟩
    simp only [chanCloses, List.filterMap_append, List.mem_append, not_or]
    refine ⟨?_, i4⟩
    rcases hstep with ⟨hnil, -⟩ | ⟨q0, hone, hmade, hclosed, -⟩
    · simp only [chanCloses] at hnil; rw [hnil]; simp
    · simp only [chanCloses] at hone; rw [hone]
      simp only [List.mem_singleton]
      intro h
      subst h
      rw [s1, hmade] at hclosed
      cases hclosed

/-- C15. `addPeer p` on a room returns normally; afterwards the room maps the id
of `p` to `p`, every other entry, every other room and every peer object is as
before, and the one effect is the log line with the new number of entries.
That number is the old one plus one when the id was new, and the old one when
the id was taken.  A peer `p1` that was registered under the id is replaced: it
is not written, no channel is closed, and a `removePeer` of the id afterwards
does not write it either.  When `p1` was registered nowhere else it is
registered nowhere afterwards, and no later run of `addPeer` and `removePeer`
calls that does not add `p1` again writes it or closes its channel. -/
theorem addPeer_registers (w : World) (a q : Nat) :
    (addPeer (some a) (some q) w).panic = none
    ∧ ((addPeer (some a) (some q) w).world.roomAt a).peers.lookup (w.peerAt q).id
        = some (some q)
    ∧ (∀ k, k ≠ (w.peerAt q).id →
        ((addPeer (some a) (some q) w).world.roomAt a).peers.lookup k
          = (w.roomAt a).peers.lookup k)
    ∧ (∀ b, b ≠ a → (addPeer (some a) (some q) w).world.roomAt b = w.roomAt b)
    ∧ (addPeer (some a) (some q) w).world.peerAt = w.peerAt
    ∧ newEvents w (addPeer (some a) (some q) w).world
        = [Event.log (LogMsg.joined (w.roomAt a).id (w.peerAt q).id
            ((addPeer (some a) (some q) w).world.roomAt a).peers.entries.length)]
    ∧ ((w.roomAt a).peers.lookup (w.peerAt q).id = none →
        ((addPeer (some a) (some q) w).world.roomAt a).peers.entries.length
          = (w.roomAt a).peers.entries.length + 1)
    ∧ (∀ p1, (w.roomAt a).peers.lookup (w.peerAt q).id = some p1 →
        ((addPeer (some a) (some q) w).world.roomAt a).peers.entries.length
          = (w.roomAt a).peers.entries.length)
    ∧ (∀ q1, (w.roomAt a).peers.lookup (w.peerAt q).id = some (some q1) → q1 ≠ q →
        (addPeer (some a) (some q) w).world.peerAt q1 = w.peerAt q1
        ∧ chanCloses (newEvents w (addPeer (some a) (some q) w).world) = []
        ∧ (removePeer (some a) (w.peerAt q).id
            (addPeer (some a) (some q) w).world).world.peerAt q1 = w.peerAt q1)
    ∧ (∀ q1, (w.roomAt a).peers.lookup (w.peerAt q).id = some (some q1) → q1 ≠ q →
        (∀ a2 k2, (w.roomAt a2).peers.lookup k2 = some (some q1) →
          a2 = a ∧ k2 = (w.peerAt q).id) →
        (∀ a2 k2, ((addPeer (some a) (some q) w).world.roomAt a2).peers.lookup k2
          ≠ some (some q1))
        ∧ ∀ ops, q1 ∉ addedPeers ops →
            (runOps ops (addPeer (some a) (some q) w).world).2.peerAt q1 = w.peerAt q1
            ∧ q1 ∉ chanCloses (newEvents w
                (runOps ops (addPeer (some a) (some q) w).world).2)) := by
  have hroom : (addPeer (some a) (some q) w).world.roomAt
      = Function.update w.roomAt a
          { w.roomAt a with
            peers := (w.roomAt a).peers.insert (w.peerAt q).id (some q) } := rfl
  have htrace : (addPeer (some a) (some q) w).world.trace
      = w.trace ++ [Event.log (LogMsg.joined (w.roomAt a).id (w.peerAt q).id
          ((w.roomAt a).peers.insert (w.peerAt q).id (some q)).entries.length)] := rfl
  have hpeers : ((addPeer (some a) (some q) w).world.roomAt a).peers
      = (w.roomAt a).peers.insert (w.peerAt q).id (some q) := by
    rw [hroom]; simp
  have hlook : ((addPeer (some a) (some q) w).world.roomAt a).peers.lookup (w.peerAt q).id
      = some (some q) := by
    rw [hpeers]; exact AList.lookup_insert _
  refine ⟨rfl, hlook, ?_, ?_, rfl, ?_, ?_, ?_, ?_, ?_⟩
  · intro k hk; rw [hpeers]; exact AList.lookup_insert_ne hk
  · intro b hb; rw [hroom]; exact Function.update_noteq hb _ _
  · rw [hpeers]; exact newEvents_append _ _ _ htrace
  · intro hnone
    rw [hpeers, AList.insert_entries_of_neg (AList.lookup_eq_none.1 hnone)]
    rfl
  · intro p1 hsome
    have hmem : (w.peerAt q).id ∈ (w.roomAt a).peers.entries.keys :=
      AList.mem_keys.1 (AList.lookup_isSome.1 (by rw [hsome]; rfl))
    have hpos : 0 < (w.roomAt a).peers.entries.length := by
      have : 0 < (w.roomAt a).peers.entries.keys.length := List.length_pos_of_mem hmem
      simpa [List.keys] using this
    rw [hpeers, AList.insert_entries, List.length_cons, length_kerase_of_mem _ _ hmem]
    omega
  · intro q1 _ hne
    refine ⟨rfl, by rw [newEvents_append _ _ _ htrace]; rfl, ?_⟩
    have hk := (removePeer_signals (addPeer (some a) (some q) w).world a (w.peerAt q).id).1 q1
      (by rw [hlook]; intro h; exact hne (Option.some.inj (Option.some.inj h)).symm)
    rw [hk]; rfl
  · intro q1 hl hne honly
    have hunreg : ∀ a2 k2,
        ((addPeer (some a) (some q) w).world.roomAt a2).peers.lookup k2 ≠ some (some q1) := by
      intro a2 k2 hl2
      rcases addPeer_lookup w a q a2 k2 _ hl2 with ⟨-, -, hv⟩ | hold
      · exact hne (Option.some.inj hv)
      · obtain ⟨e1, e2⟩ := honly a2 k2 hold
        subst e1 e2
        rw [hpeers, AList.lookup_insert] at hl2
        exact hne (Option.some.inj (Option.some.inj hl2)).symm
    refine ⟨hunreg, fun ops hops => ?_⟩
    obtain ⟨r1, -, evs, r3, r4⟩ :=
      runOps_unregistered ops (addPeer (some a) (some q) w).world q1 hunreg hops
    refine ⟨r1, ?_⟩
    have hall : (runOps ops (addPeer (some a) (some q) w).world).2.trace
        = w.trace ++ ([Event.log (LogMsg.joined (w.roomAt a).id (w.peerAt q).id
          ((w.roomAt a).peers.insert (w.peerAt q).id (some q)).entries.length)] ++ evs) := by
      rw [r3, htrace, List.append_assoc]
    rw [newEvents_append _ _ _ hall]
    simpa [chanCloses, Event.closedPeer] using r4

/-- Witness for C15: in the lobby, peer 2 joins under the id `x` of peer 0. -/
theorem addPeer_registers_witness :
    ((addPeer (some 0) (some 0) lobbyWorld).world.roomAt 0).peers.lookup
        ((addPeer (some 0) (some 0) lobbyWorld).world.peerAt 2).id = some (some 0)
    ∧ (removePeer (some 0) "x" (addPeer (some 0) (some 2)
        (addPeer (some 0) (some 0) lobbyWorld).world).world).world.peerAt 0
        = (addPeer (some 0) (some 0) lobbyWorld).world.peerAt 0 :=
  ⟨by decide,
    ((addPeer_registers (addPeer (some 0) (some 0) lobbyWorld).world 0 2).2.2.2.2.2.2.2.2.1
      0 (by decide) (by decide)).2.2⟩

/-! ### ICE configuration -/

/-- The pieces of `splitChars`, put together with the separator, are the input. -/
theorem intercalate_splitChars (sep : Char) (cs : List Char) :
    List.intercalate [sep] (splitChars sep cs) = cs
    ∧ splitChars sep cs ≠ [] := by
  induction cs with
  | nil => exact ⟨rfl, by simp [splitChars]⟩
  | cons c rest ih =>
    obtain ⟨ih1, ih2⟩ := ih
    by_cases hc : c = sep
    · subst hc
      simp only [splitChars, if_true]
      refine ⟨?_, by simp⟩
      cases hs : splitChars c rest with
      | nil => exact absurd hs ih2
      | cons x xs =>
        rw [hs] at ih1
        simp only [List.intercalate, List.intersperse] at ih1 ⊢
        simpa using ih1
    · cases hs : splitChars sep rest with
      | nil => exact absurd hs ih2
      | cons x xs =>
        rw [hs] at ih1
        simp only [splitChars, hc, if_false, hs]
        refine ⟨?_, by simp⟩
        cases xs with
        | nil =>
          simp only [List.intercalate, List.intersperse] at ih1 ⊢
          simpa using ih1
        | cons y ys =>
          simp only [List.intercalate, List.intersperse] at ih1 ⊢
          simpa using ih1

/-- No piece of `splitChars` holds the separator. -/
theorem splitChars_no_sep (sep : Char) (cs : List Char) :
    ∀ p ∈ splitChars sep cs, sep ∉ p := by
  induction cs with
  | nil => intro p hp; simp [splitChars] at hp; subst hp; simp
  | cons c rest ih =>
    intro p hp
    by_cases hc : c = sep
    · simp only [splitChars, hc, if_true, List.mem_cons] at hp
      rcases hp with rfl | hp
      · simp
      · exact ih p hp
    · cases hs : splitChars sep rest with
      | nil =>
        simp only [splitChars, hc, if_false, hs, List.mem_singleton] at hp
        subst hp
        simpa using fun h => hc h.symm
      | cons x xs =>
        simp only [splitChars, hc, if_false, hs, List.mem_cons] at hp
        rw [hs] at ih
        rcases hp with rfl | hp
        · intro hmem
          rcases List.mem_cons.1 hmem with h | h
          · exact hc h.symm
          · exact ih x (List.mem_cons_self _ _) h
        · exact ih p (List.mem_cons_of_mem _ hp)

/-- What `strings.TrimSpace` removes is white space at both ends, and what it
leaves neither starts nor ends with white space. -/
theorem TrimSpace_spec (s : String) :
    (∃ pre post, s.toList = pre ++ (TrimSpace s).toList ++ post
      ∧ (∀ c ∈ pre, isSpace c = true) ∧ (∀ c ∈ post, isSpace c = true))
    ∧ (∀ c rest, (TrimSpace s).toList = c :: rest → isSpace c = false)
    ∧ (∀ init c, (TrimSpace s).toList = init ++ [c] → isSpace c = false) := by
  have htrim : (TrimSpace s).toList = (s.toList.dropWhile isSpace).rdropWhile isSpace := rfl
  have hsplit : ∀ l : List Char,
      l = l.rdropWhile isSpace ++ l.rtakeWhile isSpace := by
    intro l
    have := List.takeWhile_append_dropWhile isSpace l.reverse
    have h2 := congrArg List.reverse this
    simp only [List.reverse_append, List.reverse_reverse] at h2
    simpa [List.rdropWhile, List.rtakeWhile] using h2.symm
  refine ⟨⟨s.toList.takeWhile isSpace, (s.toList.dropWhile isSpace).rtakeWhile isSpace, ?_,
    fun c hc => List.mem_takeWhile_imp hc, fun c hc => List.mem_rtakeWhile_imp hc⟩, ?_, ?_⟩
  · rw [htrim, List.append_assoc, ← hsplit]
    exact (List.takeWhile_append_dropWhile isSpace s.toList).symm
  · intro c rest hc
    rw [htrim] at hc
    obtain ⟨post, hpost⟩ := List.rdropWhile_prefix (p := isSpace)
      (l := s.toList.dropWhile isSpace)
    rw [hc] at hpost
    have hhead := List.head?_dropWhile_not isSpace s.toList
    rw [← hpost] at hhead
    simpa using hhead
  · intro init c hc
    rw [htrim] at hc
    have hne : (s.toList.dropWhile isSpace).rdropWhile isSpace ≠ [] := by
      rw [hc]; simp
    have := List.rdropWhile_last_not (p := isSpace) (l := s.toList.dropWhile isSpace) hne
    simp only [hc, List.getLast_append_singleton] at this
    simpa using this

/-- The loop over the pieces appends one server per piece that is not blank. -/
theorem stunLoop_eq (l : List String) (cfg : Configuration) :
    (stunLoop l cfg).ICEServers = cfg.ICEServers ++
      (((l.map TrimSpace).filter (fun u => decide (u ≠ ""))).map
        (fun u => ({ URLs := [u], Username := "", Credential := none } : ICEServer))) := by
  induction l generalizing cfg with
  | nil => simp [stunLoop]
  | cons u rest ih =>
    by_cases hu : TrimSpace u = ""
    · simp [stunLoop, hu, ih]
    · simp [stunLoop, hu, ih]

/-- C16. The configuration after the loop over `STUN_URLS` holds, for a value
that is not empty, one server per comma-separated piece of the value that is not
blank, in order, with the trimmed piece as its single URL; for an empty (or
unset) value it holds exactly the default server `stun:stun.l.google.com:19302`.
These servers come first in the result of `getWebRTCConfigFromEnv`.  The pieces
are the comma-separated entries: joined with commas they give the value back and
none holds a comma.  Trimming removes white space at both ends and nothing else. -/
theorem stun_servers (getenv : String → String) :
    (getenv "STUN_URLS" ≠ "" →
      (stunConfig getenv).ICEServers
        = ((((Split (getenv "STUN_URLS") ',').map TrimSpace).filter
            (fun u => decide (u ≠ ""))).map
            (fun u => ({ URLs := [u], Username := "", Credential := none } : ICEServer))))
    ∧ (getenv "STUN_URLS" = "" →
      (stunConfig getenv).ICEServers
        = [{ URLs := ["stun:stun.l.google.com:19302"], Username := "", Credential := none }])
    ∧ (∃ turn, (getWebRTCConfigFromEnv getenv).ICEServers
        = (stunConfig getenv).ICEServers ++ turn
        ∧ ∀ srv ∈ turn, srv.Credential ≠ none)
    ∧ (∀ s : String,
        List.intercalate [','] ((Split s ',').map String.toList) = s.toList
        ∧ ∀ p ∈ Split s ',', ',' ∉ p.toList)
    ∧ (∀ s : String,
        (∃ pre post, s.toList = pre ++ (TrimSpace s).toList ++ post
          ∧ (∀ c ∈ pre, isSpace c = true) ∧ (∀ c ∈ post, isSpace c = true))
        ∧ (∀ c rest, (TrimSpace s).toList = c :: rest → isSpace c = false)
        ∧ (∀ init c, (TrimSpace s).toList = init ++ [c] → isSpace c = false)) := by
  refine ⟨?_, ?_, ?_, ?_, TrimSpace_spec⟩
  · intro h
    simp only [stunConfig, h, if_false]
    rw [stunLoop_eq]
    rfl
  · intro h
    simp only [stunConfig, h, if_true]
    decide
  · by_cases ht : getenv "TURN_URL" ≠ "" ∧ getenv "TURN_USER" ≠ "" ∧ getenv "TURN_PASS" ≠ ""
    · refine ⟨[ICEServer.mk [getenv "TURN_URL"] (getenv "TURN_USER")
        (some (getenv "TURN_PASS"))], ?_, by simp⟩
      simp only [getWebRTCConfigFromEnv]
      rw [if_pos ht]
    · refine ⟨[], ?_, by simp⟩
      simp only [getWebRTCConfigFromEnv]
      rw [if_neg ht, List.append_nil]
  · intro s
    constructor
    · have hmap : (Split s ',').map String.toList = splitChars ',' s.toList := by
        simp only [Split, List.map_map]
        have : (String.toList ∘ String.mk) = id := by funext l; rfl
        rw [this, List.map_id]
      rw [hmap]
      exact (intercalate_splitChars ',' s.toList).1
    · intro p hp
      simp only [Split, List.mem_map] at hp
      obtain ⟨l, hl, rfl⟩ := hp
      exact splitChars_no_sep ',' s.toList l hl

/-- C17. When `TURN_URL`, `TURN_USER` and `TURN_PASS` are all non-empty, the
servers are the STUN servers followed by one server with that URL, user name and
credential.  Otherwise the servers are the STUN servers alone, the same list as
with no TURN variable set.  The STUN servers carry no credential, so the list
holds a server with a credential exactly when the three variables are set. -/
theorem turn_server (getenv : String → String) :
    (getenv "TURN_URL" ≠ "" ∧ getenv "TURN_USER" ≠ "" ∧ getenv "TURN_PASS" ≠ "" →
      (getWebRTCConfigFromEnv getenv).ICEServers
        = (stunConfig getenv).ICEServers ++
          [{ URLs := [getenv "TURN_URL"], Username := getenv "TURN_USER",
             Credential := some (getenv "TURN_PASS") }])
    ∧ (¬ (getenv "TURN_URL" ≠ "" ∧ getenv "TURN_USER" ≠ "" ∧ getenv "TURN_PASS" ≠ "") →
      (getWebRTCConfigFromEnv getenv).ICEServers = (stunConfig getenv).ICEServers
      ∧ ∀ getenv2 : String → String, getenv2 "STUN_URLS" = getenv "STUN_URLS" →
          getenv2 "TURN_URL" = "" → getenv2 "TURN_USER" = "" → getenv2 "TURN_PASS" = "" →
          (getWebRTCConfigFromEnv getenv).ICEServers
            = (getWebRTCConfigFromEnv getenv2).ICEServers)
    ∧ (∀ srv ∈ (stunConfig getenv).ICEServers, srv.Credential = none ∧ srv.Username = "")
    ∧ ((∃ srv ∈ (getWebRTCConfigFromEnv getenv).ICEServers, srv.Credential ≠ none) ↔
        (getenv "TURN_URL" ≠ "" ∧ getenv "TURN_USER" ≠ "" ∧ getenv "TURN_PASS" ≠ "")) := by
  have hstun : ∀ srv ∈ (stunConfig getenv).ICEServers,
      srv.Credential = none ∧ srv.Username = "" := by
    intro srv hsrv
    simp only [stunConfig] at hsrv
    rw [stunLoop_eq] at hsrv
    simp only [List.nil_append, List.mem_map] at hsrv
    obtain ⟨u, -, rfl⟩ := hsrv
    exact ⟨rfl, rfl⟩
  have hyes : getenv "TURN_URL" ≠ "" ∧ getenv "TURN_USER" ≠ "" ∧ getenv "TURN_PASS" ≠ "" →
      (getWebRTCConfigFromEnv getenv).ICEServers
        = (stunConfig getenv).ICEServers ++
          [{ URLs := [getenv "TURN_URL"], Username := getenv "TURN_USER",
             Credential := some (getenv "TURN_PASS") }] := by
    intro ht
    simp only [getWebRTCConfigFromEnv]
    rw [if_pos ht]
  have hno : ∀ g : String → String,
      ¬ (g "TURN_URL" ≠ "" ∧ g "TURN_USER" ≠ "" ∧ g "TURN_PASS" ≠ "") →
      (getWebRTCConfigFromEnv g).ICEServers = (stunConfig g).ICEServers := by
    intro g ht
    simp only [getWebRTCConfigFromEnv]
    rw [if_neg ht]
  refine ⟨hyes, ?_, hstun, ?_⟩
  · intro ht
    refine ⟨hno getenv ht, fun g hs h1 h2 h3 => ?_⟩
    rw [hno getenv ht, hno g (by simp [h1])]
    simp only [stunConfig, hs]
  · constructor
    · rintro ⟨srv, hsrv, hc⟩
      by_contra ht
      rw [hno getenv ht] at hsrv
      exact hc (hstun srv hsrv).1
    · intro ht
      rw [hyes ht]
      exact ⟨_, List.mem_append_right _ (List.mem_singleton_self _), by simp⟩

/-- Witness for C16: two servers, the blank entry between them dropped. -/
theorem stun_servers_witness :
    (stunConfig twoStunEnv).ICEServers
      = [{ URLs := ["stun:a.example:3478"], Username := "", Credential := none },
         { URLs := ["stun:b.example:3478"], Username := "", Credential := none }] :=
  ((stun_servers twoStunEnv).1 (by decide)).trans (by decide)

/-- Witness for C17: a TURN configuration without password is ignored. -/
theorem turn_server_witness :
    ¬ (twoStunEnv "TURN_URL" ≠ "" ∧ twoStunEnv "TURN_USER" ≠ "" ∧ twoStunEnv "TURN_PASS" ≠ "")
    ∧ (getWebRTCConfigFromEnv twoStunEnv).ICEServers = (stunConfig twoStunEnv).ICEServers :=
  ⟨by decide, ((turn_server twoStunEnv).2.1 (by decide)).1⟩

/-! ### Relay within a room -/

/-- The tasks that `forwardTrack` starts are for peers registered in the room at
call time under an id other than the sender's. -/
theorem forwardTrack_targets (env : Env) (w : World) (a : Nat) (senderID : String)
    (remote : Nat) (t : Task)
    (h : t ∈ forwardTasks (newEvents w (forwardTrack env (some a) senderID remote w).world)) :
    (∃ k, (w.roomAt a).peers.lookup k = some (some t.dst))
      ∧ (w.peerAt t.dst).id ≠ senderID := by
  obtain ⟨-, evs, h1, -, h3⟩ := forwardLoop_attach env (w.roomAt a).id senderID remote
    ((w.roomAt a).peers.entries.map (fun e => e.2)) w
  have hn : newEvents w (forwardTrack env (some a) senderID remote w).world = evs :=
    newEvents_append _ _ _ h1
  rw [hn] at h
  obtain ⟨e, he, het⟩ := List.mem_filterMap.1 h
  cases e with
  | goForward r tr q s =>
    simp only [Event.task, Option.some.injEq] at het
    subst het
    obtain ⟨hq, hid⟩ := h3 r tr q s he
    obtain ⟨⟨k, v⟩, hmem, hv⟩ := List.mem_map.1 hq
    simp only at hv
    subst hv
    refine ⟨⟨k, ?_⟩, hid⟩
    have := (AList.mem_lookup_iff (s := (w.roomAt a).peers)).2 hmem
    simpa using this
  | _ => simp [Event.task] at het

/-- The loop of `forwardTrack` writes neither a room nor the registry. -/
theorem forwardLoop_frame (env : Env) (roomID senderID : String) (remote : Nat)
    (l : List Ptr) (w : World) :
    (forwardLoop env roomID senderID remote l w).world.roomAt = w.roomAt
    ∧ (forwardLoop env roomID senderID remote l w).world.sfu = w.sfu := by
  induction l generalizing w with
  | nil => exact ⟨rfl, rfl⟩
  | cons p rest ih =>
    cases p with
    | none => exact ⟨rfl, rfl⟩
    | some q =>
      by_cases hid : (w.peerAt q).id = senderID
      · simp only [forwardLoop, hid, if_true]; exact ih w
      · cases hpc : (w.peerAt q).pc with
        | none => simp only [forwardLoop, hid, if_false, hpc]; exact ih w
        | some pc =>
          by_cases hnew : env.newTrackErr remote q = true
          · simp only [forwardLoop, hid, if_false, hpc, hnew, if_true]
            exact ⟨(ih _).1.trans rfl, (ih _).2.trans rfl⟩
          · by_cases hadd : env.addTrackErr remote q = true
            · simp only [forwardLoop, hid, if_false, hpc, hnew, hadd, if_true]
              exact ⟨(ih _).1.trans rfl, (ih _).2.trans rfl⟩
            · simp only [forwardLoop, hid, if_false, hpc, hnew, hadd]
              exact ⟨(ih _).1.trans rfl, (ih _).2.trans rfl⟩

/-- C18. For two distinct room objects `a1` and `a2`: every `Send` of a
broadcast on `a1` goes to the data channel of a peer registered in `a1`, so a
channel that no peer of `a1` holds gets nothing; every forwarding task of a
`forwardTrack` on `a1` is for a peer registered in `a1` and every track is
attached to the connection of such a peer, so a peer that is not registered in
`a1`, and a connection that no peer of `a1` holds, get nothing, whatever the
peer ids in the other room are; and `addPeer`, `removePeer`, `broadcastData`
and `forwardTrack` on `a1` leave the room `a2` as it is. -/
theorem relay_within_room (env : Env) (w : World) (a1 a2 : Nat) (senderID : String)
    (data : Bytes) (remote : Nat) (h : a1 ≠ a2) :
    (∀ c ∈ sendCalls (newEvents w (broadcastData env (some a1) senderID data w).world),
        ∃ k q, (w.roomAt a1).peers.lookup k = some (some q) ∧ (w.peerAt q).data = some c.1)
    ∧ (∀ dc, (∀ k q, (w.roomAt a1).peers.lookup k = some (some q) →
          (w.peerAt q).data ≠ some dc) →
        ∀ d, (dc, d) ∉ sendCalls
          (newEvents w (broadcastData env (some a1) senderID data w).world))
    ∧ (∀ t ∈ forwardTasks (newEvents w (forwardTrack env (some a1) senderID remote w).world),
        ∃ k, (w.roomAt a1).peers.lookup k = some (some t.dst))
    ∧ (∀ q2, (∀ k, (w.roomAt a1).peers.lookup k ≠ some (some q2)) →
        ∀ t ∈ forwardTasks
          (newEvents w (forwardTrack env (some a1) senderID remote w).world), t.dst ≠ q2)
    ∧ (∀ pc t s, Event.addTrack pc t s
          ∈ newEvents w (forwardTrack env (some a1) senderID remote w).world →
        ∃ k q, (w.roomAt a1).peers.lookup k = some (some q) ∧ (w.peerAt q).pc = some pc)
    ∧ (∀ pc2, (∀ k q, (w.roomAt a1).peers.lookup k = some (some q) →
          (w.peerAt q).pc ≠ some pc2) →
        ∀ t s, Event.addTrack pc2 t s
          ∉ newEvents w (forwardTrack env (some a1) senderID remote w).world)
    ∧ (∀ p, (addPeer (some a1) p w).world.roomAt a2 = w.roomAt a2)
    ∧ (∀ id, (removePeer (some a1) id w).world.roomAt a2 = w.roomAt a2)
    ∧ (broadcastData env (some a1) senderID data w).world.roomAt = w.roomAt
    ∧ (forwardTrack env (some a1) senderID remote w).world.roomAt = w.roomAt := by
  obtain ⟨-, hf, -, hc, -, -⟩ := broadcastData_calls env w a1 senderID data
  have hsend : ∀ c ∈ sendCalls (newEvents w (broadcastData env (some a1) senderID data w).world),
      ∃ k q, (w.roomAt a1).peers.lookup k = some (some q)
        ∧ (w.peerAt q).data = some c.1 := by
    intro c hcm
    rw [hc] at hcm
    obtain ⟨dc, hdc, rfl⟩ := List.mem_map.1 hcm
    obtain ⟨k, q, -, hl, hd⟩ := (mem_receivers_iff w a1 senderID dc).1 hdc
    exact ⟨k, q, hl, hd⟩
  refine ⟨hsend, ?_, ?_, ?_, ?_, ?_, ?_, ?_, by rw [hf]; rfl, ?_⟩
  · intro dc hown d hmem
    obtain ⟨k, q, hl, hd⟩ := hsend _ hmem
    exact hown k q hl hd
  · intro t ht
    exact (forwardTrack_targets env w a1 senderID remote t ht).1
  · intro q2 hq2 t ht hdst
    obtain ⟨k, hk⟩ := (forwardTrack_targets env w a1 senderID remote t ht).1
    rw [hdst] at hk
    exact hq2 k hk
  · intro pc t s hmem
    obtain ⟨k, q, hl, hpc, -⟩ := forwardTrack_attach env w a1 senderID remote pc t s hmem
    exact ⟨k, q, hl, hpc⟩
  · intro pc2 hown t s hmem
    obtain ⟨k, q, hl, hpc, -⟩ := forwardTrack_attach env w a1 senderID remote pc2 t s hmem
    exact hown k q hl hpc
  · intro p
    cases p with
    | none => rfl
    | some q =>
      show Function.update w.roomAt a1 _ a2 = w.roomAt a2
      exact Function.update_noteq (Ne.symm h) _ _
  · intro id
    rw [(removePeer_world w a1 id).1]
    exact Function.update_noteq (Ne.symm h) _ _
  · exact (forwardLoop_frame env (w.roomAt a1).id senderID remote _ w).1

/-- Witness for C18: rooms 0 and 1 of `tenRooms` both have peers `p0` to `p4`;
a broadcast of `p0` in room 0 reaches no channel of room 1, and its track no
peer of room 1. -/
theorem relay_within_room_witness :
    (tenRooms.roomAt 1).peers.lookup "p1" = some (some 6)
    ∧ (tenRooms.peerAt 6).data = some 6
    ∧ (6, [1]) ∉ sendCalls
        (newEvents tenRooms (broadcastData workingEnv (some 0) "p0" [1] tenRooms).world)
    ∧ (∀ t ∈ forwardTasks
        (newEvents tenRooms (forwardTrack workingEnv (some 0) "p0" 7 tenRooms).world),
        t.dst ≠ 6) :=
  have hchan : ∀ k q, (tenRooms.roomAt 0).peers.lookup k = some (some q) →
      (tenRooms.peerAt q).data ≠ some 6 := by
    intro k q hl
    have hall : ∀ e ∈ (tenRooms.roomAt 0).peers.entries, entryChan tenRooms e ≠ some 6 := by
      decide
    exact hall _ (lookup_some_mem hl)
  have hpeer : ∀ k, (tenRooms.roomAt 0).peers.lookup k ≠ some (some 6) := by
    intro k hk
    have hall : ∀ e ∈ (tenRooms.roomAt 0).peers.entries, e.2 ≠ some 6 := by decide
    exact hall _ (lookup_some_mem hk) rfl
  ⟨by decide, by decide,
    (relay_within_room workingEnv tenRooms 0 1 "p0" [1] 7 (by decide)).2.1 6 hchan [1],
    (relay_within_room workingEnv tenRooms 0 1 "p0" [1] 7 (by decide)).2.2.2.1 6 hpeer⟩

/-! ### The join handshake -/

/-- The failure branch of the handshake for a peer that is registered under
`peerID` with an open channel: it answers 500, removes the peer, closes its
channel and closes the connection. -/
theorem failJoin_spec (env : Env) (a : Nat) (peerID : String) (q pc : Nat) (msg : String)
    (w : World) (hl : (w.roomAt a).peers.lookup peerID = some (some q))
    (hc : (w.peerAt q).closed = Chan.made) :
    (failJoin env (some a) peerID pc msg w).panic = none
    ∧ (failJoin env (some a) peerID pc msg w).world.sfu = w.sfu
    ∧ (failJoin env (some a) peerID pc msg w).world.roomAt
        = Function.update w.roomAt a
            { w.roomAt a with peers := (w.roomAt a).peers.erase peerID }
    ∧ (failJoin env (some a) peerID pc msg w).world.peerAt
        = Function.update w.peerAt q { w.peerAt q with closed := Chan.closed }
    ∧ (failJoin env (some a) peerID pc msg w).world.nextRoom = w.nextRoom
    ∧ (failJoin env (some a) peerID pc msg w).world.nextPeer = w.nextPeer
    ∧ (failJoin env (some a) peerID pc msg w).world.nextConn = w.nextConn
    ∧ ∃ n b, (failJoin env (some a) peerID pc msg w).world.trace
        = w.trace ++ [Event.respond 500 (Reply.error msg), Event.chanClose q,
            Event.log (LogMsg.removed (w.roomAt a).id peerID n), Event.pcClose pc b] := by
  have hr := removePeer_present (w.emit (Event.respond 500 (Reply.error msg))) a peerID q hl hc
  have e : failJoin env (some a) peerID pc msg w
      = ⟨none, (removePeer (some a) peerID
          (w.emit (Event.respond 500 (Reply.error msg)))).world.emit
          (Event.pcClose pc (env.closeErr (removePeer (some a) peerID
            (w.emit (Event.respond 500 (Reply.error msg)))).world.trace pc))⟩ := by
    simp only [failJoin, hr]
  rw [e, hr]
  refine ⟨rfl, rfl, rfl, rfl, rfl, rfl, rfl,
    ((w.roomAt a).peers.erase peerID).entries.length,
    env.closeErr (w.trace ++ [Event.respond 500 (Reply.error msg), Event.chanClose q,
      Event.log (LogMsg.removed (w.roomAt a).id peerID
        ((w.roomAt a).peers.erase peerID).entries.length)]) pc, ?_⟩
  simp [World.emit]



/-- The handshake for a peer `q` that is registered in the room `a` under
`peerID` with an open channel ends as `JoinOutcome` says. -/
theorem negotiate_spec (env : Env) (jenv : JoinEnv) (a : Nat) (peerID : String)
    (q pc : Nat) (offer : SessionDescription) (w4 : World)
    (hl : (w4.roomAt a).peers.lookup peerID = some (some q))
    (hc : (w4.peerAt q).closed = Chan.made) :
    JoinOutcome a peerID q pc offer w4 (negotiate env jenv (some a) peerID pc offer w4) := by
  -- a path that ends in the failure branch, entered in the state `w1` after the
  -- events `pre`
  have abort : ∀ (w1 : World) (pre : List Event) (msg : String),
      negotiate env jenv (some a) peerID pc offer w4
        = failJoin env (some a) peerID pc msg w1 →
      w1 = w4.withTrace (w4.trace ++ pre) →
      responses pre = [] → closeCalls pre = [] → chanCloses pre = [] →
      (∀ e ∈ pre, e.createsConn = false) → (∃ e ∈ pre, e.abortsJoin = true) →
      (Event.setRemoteDescription pc offer (some msg) ∈ pre
        ∨ (Event.createAnswer pc none ∈ pre ∧ Event.log (LogMsg.createAnswerError msg) ∈ pre)
        ∨ (Event.localDescription pc none ∈ pre ∧ msg = "local description is nil")) →
      JoinOutcome a peerID q pc offer w4
        (negotiate env jenv (some a) peerID pc offer w4) := by
    intro w1 pre msg heq hw hresp hclose hchan hconn hab hmsg
    have hro : w1.roomAt = w4.roomAt := by rw [hw]; rfl
    have hpe : w1.peerAt = w4.peerAt := by rw [hw]; rfl
    have hsf : w1.sfu = w4.sfu := by rw [hw]; rfl
    have hnr : w1.nextRoom = w4.nextRoom := by rw [hw]; rfl
    have hnp : w1.nextPeer = w4.nextPeer := by rw [hw]; rfl
    have hnc : w1.nextConn = w4.nextConn := by rw [hw]; rfl
    have htr : w1.trace = w4.trace ++ pre := by rw [hw]; rfl
    obtain ⟨f1, f2, f3, f4, f5, f6, f7, n, b, f8⟩ :=
      failJoin_spec env a peerID q pc msg w1 (by rw [hro]; exact hl) (by rw [hpe]; exact hc)
    rw [heq]
    refine ⟨f1, f2.trans hsf, f5.trans hnr, f6.trans hnp, f7.trans hnc,
      pre ++ [Event.respond 500 (Reply.error msg), Event.chanClose q,
        Event.log (LogMsg.removed (w1.roomAt a).id peerID n), Event.pcClose pc b],
      by rw [f8, htr, List.append_assoc], ?_, Or.inl ⟨msg, ?_, ?_, ?_, ?_, ?_, ?_, ?_⟩⟩
    · intro e he
      rcases List.mem_append.1 he with h | h
      · exact hconn e h
      · simp only [List.mem_cons, List.mem_singleton, List.not_mem_nil, or_false] at h
        rcases h with rfl | rfl | rfl | rfl <;> rfl
    · simp only [responses, List.filterMap_append] at hresp ⊢
      rw [hresp]; rfl
    · simp only [closeCalls, List.filterMap_append] at hclose ⊢
      rw [hclose]; rfl
    · simp only [chanCloses, List.filterMap_append] at hchan ⊢
      rw [hchan]; rfl
    · obtain ⟨e, he, h⟩ := hab
      exact ⟨e, List.mem_append_left _ he, h⟩
    · rcases hmsg with h | ⟨h1, h2⟩ | ⟨h1, h2⟩
      · exact Or.inl (List.mem_append_left _ h)
      · exact Or.inr (Or.inl ⟨List.mem_append_left _ h1, List.mem_append_left _ h2⟩)
      · exact Or.inr (Or.inr ⟨List.mem_append_left _ h1, h2⟩)
    · rw [f3, hro]
    · rw [f4, hpe]
  cases h1 : jenv.setRemoteDescriptionErr w4.trace pc offer with
  | some err =>
    have heq : negotiate env jenv (some a) peerID pc offer w4
        = failJoin env (some a) peerID pc err
            ((w4.emit (Event.setRemoteDescription pc offer (some err))).emit
              (Event.log (LogMsg.setRemoteDescriptionError err))) := by
      simp only [negotiate, h1]
    exact abort _ [Event.setRemoteDescription pc offer (some err),
        Event.log (LogMsg.setRemoteDescriptionError err)] err
      heq (by simp [World.emit, World.withTrace])
      rfl rfl rfl (by simp [Event.createsConn])
      ⟨_, List.mem_cons_self _ _, rfl⟩ (Or.inl (List.mem_cons_self _ _))
  | none =>
    cases h2 : jenv.createAnswer (w4.emit (Event.setRemoteDescription pc offer none)).trace pc with
    | error err =>
      have heq : negotiate env jenv (some a) peerID pc offer w4
          = failJoin env (some a) peerID pc err
              (((w4.emit (Event.setRemoteDescription pc offer none)).emit
                (Event.createAnswer pc none)).emit
                (Event.log (LogMsg.createAnswerError err))) := by
        simp only [negotiate, h1, h2]
      exact abort _ [Event.setRemoteDescription pc offer none, Event.createAnswer pc none,
          Event.log (LogMsg.createAnswerError err)] err
        heq (by simp [World.emit, World.withTrace])
        rfl rfl rfl (by simp [Event.createsConn])
        ⟨Event.createAnswer pc none, by simp, rfl⟩ (Or.inr (Or.inl ⟨by simp, by simp⟩))
    | ok answer =>
      -- the answer path in the state `w7` after the events `pre`
      have answered : ∀ (w7 : World) (pre : List Event) (ld : SessionDescription),
          negotiate env jenv (some a) peerID pc offer w4
            = ⟨none, (w7.emit (Event.localDescription pc (some ld))).emit
                (Event.respond 200 (Reply.answer ld))⟩ →
          w7 = w4.withTrace (w4.trace ++ pre) →
          responses pre = [] → closeCalls pre = [] → chanCloses pre = [] →
          (∀ e ∈ pre, e.createsConn = false) → (∀ e ∈ pre, e.abortsJoin = false) →
          JoinOutcome a peerID q pc offer w4
            (negotiate env jenv (some a) peerID pc offer w4) := by
        intro w7 pre ld heq hw hresp hclose hchan hconn hab
        have hro : w7.roomAt = w4.roomAt := by rw [hw]; rfl
        have hpe : w7.peerAt = w4.peerAt := by rw [hw]; rfl
        have hsf : w7.sfu = w4.sfu := by rw [hw]; rfl
        have hnr : w7.nextRoom = w4.nextRoom := by rw [hw]; rfl
        have hnp : w7.nextPeer = w4.nextPeer := by rw [hw]; rfl
        have hnc : w7.nextConn = w4.nextConn := by rw [hw]; rfl
        have htr : w7.trace = w4.trace ++ pre := by rw [hw]; rfl
        rw [heq]
        refine ⟨rfl, hsf, hnr, hnp, hnc,
          pre ++ [Event.localDescription pc (some ld), Event.respond 200 (Reply.answer ld)],
          by simp [World.emit, htr], ?_, Or.inr ⟨ld, ?_, ?_, ?_, ?_, by simp, hro, hpe⟩⟩
        · intro e he
          rcases List.mem_append.1 he with h | h
          · exact hconn e h
          · simp only [List.mem_cons, List.mem_singleton, List.not_mem_nil, or_false] at h
            rcases h with rfl | rfl <;> rfl
        · simp only [responses, List.filterMap_append] at hresp ⊢
          rw [hresp]; rfl
        · simp only [closeCalls, List.filterMap_append] at hclose ⊢
          rw [hclose]; rfl
        · simp only [chanCloses, List.filterMap_append] at hchan ⊢
          rw [hchan]; rfl
        · intro e he
          rcases List.mem_append.1 he with h | h
          · exact hab e h
          · simp only [List.mem_cons, List.mem_singleton, List.not_mem_nil, or_false] at h
            rcases h with rfl | rfl <;> rfl
      cases h3 : jenv.setLocalDescriptionErr
          ((w4.emit (Event.setRemoteDescription pc offer none)).emit
            (Event.createAnswer pc (some answer))).trace pc answer with
      | some e3 =>
        cases h4 : jenv.localDescription
            ((((w4.emit (Event.setRemoteDescription pc offer none)).emit
              (Event.createAnswer pc (some answer))).emit
              (Event.setLocalDescription pc answer (some e3))).emit
              (Event.log (LogMsg.setLocalDescriptionError e3))).trace pc with
        | none =>
          have heq : negotiate env jenv (some a) peerID pc offer w4
              = failJoin env (some a) peerID pc "local description is nil"
                  (((((w4.emit (Event.setRemoteDescription pc offer none)).emit
                    (Event.createAnswer pc (some answer))).emit
                    (Event.setLocalDescription pc answer (some e3))).emit
                    (Event.log (LogMsg.setLocalDescriptionError e3))).emit
                    (Event.localDescription pc none)) := by
            simp only [negotiate, h1, h2, h3, h4]
          exact abort _ [Event.setRemoteDescription pc offer none,
              Event.createAnswer pc (some answer),
              Event.setLocalDescription pc answer (some e3),
              Event.log (LogMsg.setLocalDescriptionError e3),
              Event.localDescription pc none] "local description is nil"
            heq (by simp [World.emit, World.withTrace])
            rfl rfl rfl (by simp [Event.createsConn])
            ⟨Event.localDescription pc none, by simp, rfl⟩
            (Or.inr (Or.inr ⟨by simp, rfl⟩))
        | some ld =>
          have heq : negotiate env jenv (some a) peerID pc offer w4
              = ⟨none, ((((((w4.emit (Event.setRemoteDescription pc offer none)).emit
                    (Event.createAnswer pc (some answer))).emit
                    (Event.setLocalDescription pc answer (some e3))).emit
                    (Event.log (LogMsg.setLocalDescriptionError e3))).emit
                    (Event.localDescription pc (some ld))).emit
                    (Event.respond 200 (Reply.answer ld)))⟩ := by
            simp only [negotiate, h1, h2, h3, h4]
          exact answered _ [Event.setRemoteDescription pc offer none,
              Event.createAnswer pc (some answer),
              Event.setLocalDescription pc answer (some e3),
              Event.log (LogMsg.setLocalDescriptionError e3)] ld
            heq (by simp [World.emit, World.withTrace])
            rfl rfl rfl (by simp [Event.createsConn]) (by simp [Event.abortsJoin])
      | none =>
        cases h4 : jenv.localDescription
            (((w4.emit (Event.setRemoteDescription pc offer none)).emit
              (Event.createAnswer pc (some answer))).emit
              (Event.setLocalDescription pc answer none)).trace pc with
        | none =>
          have heq : negotiate env jenv (some a) peerID pc offer w4
              = failJoin env (some a) peerID pc "local description is nil"
                  ((((w4.emit (Event.setRemoteDescription pc offer none)).emit
                    (Event.createAnswer pc (some answer))).emit
                    (Event.setLocalDescription pc answer none)).emit
                    (Event.localDescription pc none)) := by
            simp only [negotiate, h1, h2, h3, h4]
          exact abort _ [Event.setRemoteDescription pc offer none,
              Event.createAnswer pc (some answer),
              Event.setLocalDescription pc answer none,
              Event.localDescription pc none] "local description is nil"
            heq (by simp [World.emit, World.withTrace])
            rfl rfl rfl (by simp [Event.createsConn])
            ⟨Event.localDescription pc none, by simp, rfl⟩
            (Or.inr (Or.inr ⟨by simp, rfl⟩))
        | some ld =>
          have heq : negotiate env jenv (some a) peerID pc offer w4
              = ⟨none, (((((w4.emit (Event.setRemoteDescription pc offer none)).emit
                    (Event.createAnswer pc (some answer))).emit
                    (Event.setLocalDescription pc answer none)).emit
                    (Event.localDescription pc (some ld))).emit
                    (Event.respond 200 (Reply.answer ld)))⟩ := by
            simp only [negotiate, h1, h2, h3, h4]
          exact answered _ [Event.setRemoteDescription pc offer none,
              Event.createAnswer pc (some answer),
              Event.setLocalDescription pc answer none] ld
            heq (by simp [World.emit, World.withTrace])
            rfl rfl rfl (by simp [Event.createsConn]) (by simp [Event.abortsJoin])



/-- The room that `getOrCreateRoom` returns and what it writes depend on the
registry and the room heap only. -/
theorem getOrCreateRoom_congr (id : String) (w w1 : World)
    (h1 : w1.sfu = w.sfu) (h2 : w1.roomAt = w.roomAt) (h3 : w1.nextRoom = w.nextRoom) :
    (getOrCreateRoom id w1).1 = (getOrCreateRoom id w).1
    ∧ (getOrCreateRoom id w1).2.sfu = (getOrCreateRoom id w).2.sfu
    ∧ (getOrCreateRoom id w1).2.roomAt = (getOrCreateRoom id w).2.roomAt
    ∧ (getOrCreateRoom id w1).2.nextRoom = (getOrCreateRoom id w).2.nextRoom
    ∧ (getOrCreateRoom id w1).2.peerAt = w1.peerAt
    ∧ (getOrCreateRoom id w1).2.nextPeer = w1.nextPeer
    ∧ (getOrCreateRoom id w1).2.nextConn = w1.nextConn
    ∧ (getOrCreateRoom id w1).2.trace = w1.trace := by
  cases hl : w.sfu.rooms.lookup id with
  | some r =>
    rw [getOrCreateRoom_present id w r hl, getOrCreateRoom_present id w1 r (by rw [h1]; exact hl)]
    exact ⟨rfl, h1, h2, h3, rfl, rfl, rfl, rfl⟩
  | none =>
    rw [getOrCreateRoom_absent id w hl, getOrCreateRoom_absent id w1 (by rw [h1]; exact hl)]
    exact ⟨by simp only [h3], by simp only [h1, h3], by simp only [h2, h3],
      by simp only [h3], rfl, rfl, rfl, rfl⟩

/-- The room that `getOrCreateRoom` returns is in the registry afterwards; the
other room objects are as before; a new room object is empty. -/
theorem getOrCreateRoom_room (id : String) (w : World) (a : Nat)
    (h : (getOrCreateRoom id w).1 = some a) :
    (getOrCreateRoom id w).2.sfu.rooms.lookup id = some (some a)
    ∧ (getOrCreateRoom id w).2.peerAt = w.peerAt
    ∧ (getOrCreateRoom id w).2.nextPeer = w.nextPeer
    ∧ (getOrCreateRoom id w).2.nextConn = w.nextConn
    ∧ (getOrCreateRoom id w).2.trace = w.trace
    ∧ ((w.sfu.rooms.lookup id = some (some a) ∧ (getOrCreateRoom id w).2 = w)
        ∨ (w.sfu.rooms.lookup id = none ∧ a = w.nextRoom
            ∧ (getOrCreateRoom id w).2.sfu.rooms = w.sfu.rooms.insert id (some a)
            ∧ (getOrCreateRoom id w).2.roomAt
                = Function.update w.roomAt a { id := id, peers := ∅ }
            ∧ (getOrCreateRoom id w).2.nextRoom = w.nextRoom + 1)) := by
  cases hl : w.sfu.rooms.lookup id with
  | some r =>
    rw [getOrCreateRoom_present id w r hl] at h ⊢
    simp only at h
    subst h
    exact ⟨hl, rfl, rfl, rfl, rfl, Or.inl ⟨rfl, rfl⟩⟩
  | none =>
    rw [getOrCreateRoom_absent id w hl] at h ⊢
    simp only [Option.some.injEq] at h
    subst h
    exact ⟨by simp [AList.lookup_insert], rfl, rfl, rfl, rfl, Or.inr ⟨rfl, rfl, rfl, rfl, rfl⟩⟩

/-- What `createPeerConnection` does when the library makes the connection. -/
theorem createPeerConnection_ok (jenv : JoinEnv) (cfg : Configuration) (w : World)
    (hpc : jenv.newPeerConnectionErr w.trace cfg = none) :
    createPeerConnection jenv cfg w
        = (Except.ok w.nextConn, (createPeerConnection jenv cfg w).2)
    ∧ (createPeerConnection jenv cfg w).2.sfu = w.sfu
    ∧ (createPeerConnection jenv cfg w).2.roomAt = w.roomAt
    ∧ (createPeerConnection jenv cfg w).2.nextRoom = w.nextRoom
    ∧ (createPeerConnection jenv cfg w).2.peerAt = w.peerAt
    ∧ (createPeerConnection jenv cfg w).2.nextPeer = w.nextPeer
    ∧ (createPeerConnection jenv cfg w).2.nextConn = w.nextConn + 1
    ∧ (createPeerConnection jenv cfg w).2.trace
        = w.trace ++ [Event.newPeerConnection (some w.nextConn)] := by
  have e : createPeerConnection jenv cfg w
      = (Except.ok w.nextConn,
          { w.emit (Event.newPeerConnection (some w.nextConn)) with
            nextConn := w.nextConn + 1 }) := by
    simp only [createPeerConnection, hpc]
  rw [e]
  exact ⟨rfl, rfl, rfl, rfl, rfl, rfl, rfl, rfl⟩

/-- The state in which the handshake starts: one connection and one peer more,
the peer registered under its id in the room of the request. -/
theorem joinedWorld_spec (jenv : JoinEnv) (req : Request) (w : World) (a : Nat)
    (hpc : jenv.newPeerConnectionErr w.trace (getWebRTCConfigFromEnv jenv.getenv) = none)
    (hroom : (getOrCreateRoom req.room w).1 = some a) :
    (joinedWorld jenv req w).sfu = (getOrCreateRoom req.room w).2.sfu
    ∧ (joinedWorld jenv req w).roomAt
        = Function.update (getOrCreateRoom req.room w).2.roomAt a
            { (getOrCreateRoom req.room w).2.roomAt a with
              peers := ((getOrCreateRoom req.room w).2.roomAt a).peers.insert req.peer
                (some w.nextPeer) }
    ∧ (joinedWorld jenv req w).peerAt
        = Function.update w.peerAt w.nextPeer
            { id := req.peer, pc := some w.nextConn, roomRef := some a, data := none,
              closed := Chan.made }
    ∧ (joinedWorld jenv req w).nextRoom = (getOrCreateRoom req.room w).2.nextRoom
    ∧ (joinedWorld jenv req w).nextPeer = w.nextPeer + 1
    ∧ (joinedWorld jenv req w).nextConn = w.nextConn + 1
    ∧ ∃ n, (joinedWorld jenv req w).trace
        = w.trace ++ [Event.newPeerConnection (some w.nextConn),
            Event.log (LogMsg.joined ((getOrCreateRoom req.room w).2.roomAt a).id req.peer n)] := by
  obtain ⟨-, p2, p3, p4, p5, p6, p7, p8⟩ :=
    createPeerConnection_ok jenv (getWebRTCConfigFromEnv jenv.getenv) w hpc
  obtain ⟨c1, c2, c3, c4, c5, c6, c7, c8⟩ := getOrCreateRoom_congr req.room w
    (createPeerConnection jenv (getWebRTCConfigFromEnv jenv.getenv) w).2 p2 p3 p4
  simp only [joinedWorld]
  rw [c1, hroom]
  simp only [addPeer, World.setRoom, World.setPeer, World.emit, Function.update_same]
  rw [c2, c3, c4, c5, c6, c7, c8, p5, p6, p7, p8]
  exact ⟨rfl, rfl, rfl, rfl, rfl, rfl, _, List.append_assoc _ _ _⟩

/-- A join with a well-formed request, a connection and a room runs the
handshake from `joinedWorld`. -/
theorem HandleJoin_valid (env : Env) (jenv : JoinEnv) (req : Request) (w : World)
    (offer : SessionDescription) (a : Nat)
    (hreq : req.room ≠ "" ∧ req.peer ≠ "")
    (hbind : BindOfferFromContext jenv req = Except.ok offer)
    (hpc : jenv.newPeerConnectionErr w.trace (getWebRTCConfigFromEnv jenv.getenv) = none)
    (hroom : (getOrCreateRoom req.room w).1 = some a) :
    HandleJoin env jenv req w
      = negotiate env jenv (some a) req.peer w.nextConn offer (joinedWorld jenv req w) := by
  have hcond : ¬ (req.room = "" ∨ req.peer = "") := by
    rintro (h | h)
    · exact hreq.1 h
    · exact hreq.2 h
  obtain ⟨p1, p2, p3, p4, -⟩ :=
    createPeerConnection_ok jenv (getWebRTCConfigFromEnv jenv.getenv) w hpc
  obtain ⟨c1, -⟩ := getOrCreateRoom_congr req.room w
    (createPeerConnection jenv (getWebRTCConfigFromEnv jenv.getenv) w).2 p2 p3 p4
  unfold HandleJoin joinedWorld
  rw [if_neg hcond]
  simp only [hbind]
  rw [p1]
  simp only [c1, hroom]
  rfl

/-- C12: a join request whose room id or peer id is empty, whose body is missing,
or whose body does not decode is answered with status 400 and nothing else
happens: `HandleJoin` returns, the registry, every room object and every peer
object are as before, no connection, room or peer is allocated, and the only new
effect is the response. -/
theorem handleJoin_rejects (env : Env) (jenv : JoinEnv) (req : Request) (w : World)
    (h : req.room = "" ∨ req.peer = "" ∨ req.body = none
      ∨ ∃ b err, req.body = some b ∧ jenv.decodeOffer b = Except.error err) :
    (HandleJoin env jenv req w).panic = none
    ∧ (HandleJoin env jenv req w).world.sfu = w.sfu
    ∧ (HandleJoin env jenv req w).world.roomAt = w.roomAt
    ∧ (HandleJoin env jenv req w).world.peerAt = w.peerAt
    ∧ (HandleJoin env jenv req w).world.nextRoom = w.nextRoom
    ∧ (HandleJoin env jenv req w).world.nextPeer = w.nextPeer
    ∧ (HandleJoin env jenv req w).world.nextConn = w.nextConn
    ∧ ∃ msg, (HandleJoin env jenv req w).world.trace
        = w.trace ++ [Event.respond 400 (Reply.error msg)] := by
  by_cases hcond : req.room = "" ∨ req.peer = ""
  · have e : HandleJoin env jenv req w
        = ⟨none, w.emit (Event.respond 400
            (Reply.error "room and peer query params required"))⟩ := by
      simp only [HandleJoin, if_pos hcond]
    rw [e]
    exact ⟨rfl, rfl, rfl, rfl, rfl, rfl, rfl, _, rfl⟩
  · have hb : ∃ err, BindOfferFromContext jenv req = Except.error err := by
      rcases h with h | h | h | ⟨b, err, hb, hd⟩
      · exact absurd (Or.inl h) hcond
      · exact absurd (Or.inr h) hcond
      · exact ⟨"missing body", by simp only [BindOfferFromContext, h]⟩
      · exact ⟨err, by simp only [BindOfferFromContext, hb, hd]⟩
    obtain ⟨err, hb⟩ := hb
    have e : HandleJoin env jenv req w
        = ⟨none, w.emit (Event.respond 400 (Reply.error ("invalid offer: " ++ err)))⟩ := by
      simp only [HandleJoin, if_neg hcond, hb]
    rw [e]
    exact ⟨rfl, rfl, rfl, rfl, rfl, rfl, rfl, _, rfl⟩

/-- The request without a peer id is rejected with status 400 in the initial
state. -/
theorem handleJoin_rejects_witness :
    (namelessJoin.room = "" ∨ namelessJoin.peer = "" ∨ namelessJoin.body = none
      ∨ ∃ b err, namelessJoin.body = some b ∧ okJoinEnv.decodeOffer b = Except.error err)
    ∧ (HandleJoin workingEnv okJoinEnv namelessJoin World.init).world.nextConn = 0
    ∧ ∃ msg, (HandleJoin workingEnv okJoinEnv namelessJoin World.init).world.trace
        = World.init.trace ++ [Event.respond 400 (Reply.error msg)] :=
  ⟨Or.inr (Or.inl rfl),
    (handleJoin_rejects workingEnv okJoinEnv namelessJoin World.init
      (Or.inr (Or.inl rfl))).2.2.2.2.2.2.1,
    (handleJoin_rejects workingEnv okJoinEnv namelessJoin World.init
      (Or.inr (Or.inl rfl))).2.2.2.2.2.2.2⟩

/-- The room that `getOrCreateRoom` returns when the registry holds no nil
pointer under the id. -/
theorem getOrCreateRoom_some (id : String) (w : World)
    (h : w.sfu.rooms.lookup id ≠ some none) :
    ∃ a, (getOrCreateRoom id w).1 = some a := by
  cases hl : w.sfu.rooms.lookup id with
  | some r =>
    cases r with
    | none => exact absurd hl h
    | some a => exact ⟨a, by rw [getOrCreateRoom_present id w (some a) hl]⟩
  | none => exact ⟨w.nextRoom, by rw [getOrCreateRoom_absent id w hl]⟩

/-- A join with a well-formed request, a connection and a room ends as
`JoinOutcome` says, for the new peer `w.nextPeer` and the new connection
`w.nextConn`. -/
theorem HandleJoin_outcome (env : Env) (jenv : JoinEnv) (req : Request) (w : World)
    (offer : SessionDescription) (a : Nat)
    (hreq : req.room ≠ "" ∧ req.peer ≠ "")
    (hbind : BindOfferFromContext jenv req = Except.ok offer)
    (hpc : jenv.newPeerConnectionErr w.trace (getWebRTCConfigFromEnv jenv.getenv) = none)
    (hroom : (getOrCreateRoom req.room w).1 = some a) :
    JoinOutcome a req.peer w.nextPeer w.nextConn offer (joinedWorld jenv req w)
      (HandleJoin env jenv req w) := by
  rw [HandleJoin_valid env jenv req w offer a hreq hbind hpc hroom]
  obtain ⟨-, j2, j3, -⟩ := joinedWorld_spec jenv req w a hpc hroom
  apply negotiate_spec
  · rw [j2]
    simp only [Function.update_same, AList.lookup_insert]
  · rw [j3]
    simp only [Function.update_same]




/-- The two ways in which a join with a well-formed request, a connection and a
room ends, in terms of everything that happened since the call: it aborts (a
checked step failed) or it answers (no checked step failed). -/
theorem HandleJoin_cases (env : Env) (jenv : JoinEnv) (req : Request) (w : World)
    (offer : SessionDescription) (a : Nat)
    (hreq : req.room ≠ "" ∧ req.peer ≠ "")
    (hbind : BindOfferFromContext jenv req = Except.ok offer)
    (hpc : jenv.newPeerConnectionErr w.trace (getWebRTCConfigFromEnv jenv.getenv) = none)
    (hroom : (getOrCreateRoom req.room w).1 = some a) :
    (HandleJoin env jenv req w).panic = none
    ∧ (HandleJoin env jenv req w).world.sfu = (getOrCreateRoom req.room w).2.sfu
    ∧ (HandleJoin env jenv req w).world.nextRoom = (getOrCreateRoom req.room w).2.nextRoom
    ∧ (HandleJoin env jenv req w).world.nextPeer = w.nextPeer + 1
    ∧ (HandleJoin env jenv req w).world.nextConn = w.nextConn + 1
    ∧ (∃ evs, (HandleJoin env jenv req w).world.trace = w.trace ++ evs)
    ∧ ((∃ msg, responses (newEvents w (HandleJoin env jenv req w).world)
            = [(500, Reply.error msg)]
          ∧ closeCalls (newEvents w (HandleJoin env jenv req w).world) = [w.nextConn]
          ∧ chanCloses (newEvents w (HandleJoin env jenv req w).world) = [w.nextPeer]
          ∧ (∃ e ∈ newEvents w (HandleJoin env jenv req w).world, e.abortsJoin = true)
          ∧ (Event.setRemoteDescription w.nextConn offer (some msg)
                ∈ newEvents w (HandleJoin env jenv req w).world
              ∨ (Event.createAnswer w.nextConn none
                    ∈ newEvents w (HandleJoin env jenv req w).world
                  ∧ Event.log (LogMsg.createAnswerError msg)
                    ∈ newEvents w (HandleJoin env jenv req w).world)
              ∨ (Event.localDescription w.nextConn none
                    ∈ newEvents w (HandleJoin env jenv req w).world
                  ∧ msg = "local description is nil"))
          ∧ (HandleJoin env jenv req w).world.roomAt
              = Function.update (getOrCreateRoom req.room w).2.roomAt a
                  { (getOrCreateRoom req.room w).2.roomAt a with
                    peers := (((getOrCreateRoom req.room w).2.roomAt a).peers.insert req.peer
                      (some w.nextPeer)).erase req.peer }
          ∧ (HandleJoin env jenv req w).world.peerAt
              = Function.update w.peerAt w.nextPeer
                  { id := req.peer, pc := some w.nextConn, roomRef := some a, data := none,
                    closed := Chan.closed })
        ∨ (∃ ld, responses (newEvents w (HandleJoin env jenv req w).world)
            = [(200, Reply.answer ld)]
          ∧ closeCalls (newEvents w (HandleJoin env jenv req w).world) = []
          ∧ chanCloses (newEvents w (HandleJoin env jenv req w).world) = []
          ∧ (∀ e ∈ newEvents w (HandleJoin env jenv req w).world, e.abortsJoin = false)
          ∧ Event.localDescription w.nextConn (some ld)
              ∈ newEvents w (HandleJoin env jenv req w).world
          ∧ (HandleJoin env jenv req w).world.roomAt
              = Function.update (getOrCreateRoom req.room w).2.roomAt a
                  { (getOrCreateRoom req.room w).2.roomAt a with
                    peers := ((getOrCreateRoom req.room w).2.roomAt a).peers.insert req.peer
                      (some w.nextPeer) }
          ∧ (HandleJoin env jenv req w).world.peerAt
              = Function.update w.peerAt w.nextPeer
                  { id := req.peer, pc := some w.nextConn, roomRef := some a, data := none,
                    closed := Chan.made })) := by
  obtain ⟨j1, j2, j3, j4, j5, j6, n, j7⟩ := joinedWorld_spec jenv req w a hpc hroom
  obtain ⟨o1, o2, o3, o4, o5, evs, o6, o7, o8⟩ :=
    HandleJoin_outcome env jenv req w offer a hreq hbind hpc hroom
  have ht : (HandleJoin env jenv req w).world.trace
      = w.trace ++ ([Event.newPeerConnection (some w.nextConn),
          Event.log (LogMsg.joined ((getOrCreateRoom req.room w).2.roomAt a).id req.peer n)]
          ++ evs) := by
    rw [o6, j7, List.append_assoc]
  have hn := newEvents_append w _ _ ht
  rw [hn]
  refine ⟨o1, by rw [o2, j1], by rw [o3, j4], by rw [o4, j5], by rw [o5, j6], ⟨_, ht⟩, ?_⟩
  rcases o8 with ⟨msg, r1, r2, r3, ⟨e, he, hab⟩, r5, r6, r7⟩ | ⟨ld, r1, r2, r3, r4, r5, r6, r7⟩
  · refine Or.inl ⟨msg, ?_, ?_, ?_, ⟨e, by simp [he], hab⟩, ?_, ?_, ?_⟩
    · simpa [responses, Event.response] using r1
    · simpa [closeCalls, Event.closedConn] using r2
    · simpa [chanCloses, Event.closedPeer] using r3
    · rcases r5 with h | ⟨h1, h2⟩ | ⟨h1, h2⟩
      · exact Or.inl (by simp [h])
      · exact Or.inr (Or.inl ⟨by simp [h1], by simp [h2]⟩)
      · exact Or.inr (Or.inr ⟨by simp [h1], h2⟩)
    · rw [r6, j2]
      simp only [Function.update_same, Function.update_idem]
    · rw [r7, j3]
      simp only [Function.update_same, Function.update_idem]
  · refine Or.inr ⟨ld, ?_, ?_, ?_, ?_, by simp [r5], by rw [r6, j2], by rw [r7, j3]⟩
    · simpa [responses, Event.response] using r1
    · simpa [closeCalls, Event.closedConn] using r2
    · simpa [chanCloses, Event.closedPeer] using r3
    · intro e he
      simp only [List.mem_append, List.mem_cons, List.mem_singleton, List.not_mem_nil,
        or_false] at he
      rcases he with (rfl | rfl) | he
      · rfl
      · rfl
      · exact r4 e he

/-- After a call of `getOrCreateRoom` the registry holds what the call returned,
so a second call returns the same and changes nothing. -/
theorem getOrCreateRoom_fixed (id : String) (w : World) :
    (getOrCreateRoom id w).2.sfu.rooms.lookup id = some (getOrCreateRoom id w).1
    ∧ getOrCreateRoom id (getOrCreateRoom id w).2
        = ((getOrCreateRoom id w).1, (getOrCreateRoom id w).2) := by
  have h : (getOrCreateRoom id w).2.sfu.rooms.lookup id = some (getOrCreateRoom id w).1 := by
    cases hl : w.sfu.rooms.lookup id with
    | some r => rw [getOrCreateRoom_present id w r hl]; exact hl
    | none =>
      rw [getOrCreateRoom_absent id w hl]
      simp only [AList.lookup_insert]
  exact ⟨h, getOrCreateRoom_present id _ _ h⟩

/-- Every statement that a goroutine runs brings it closer to its return. -/
theorem stepThread_rank (id : String) (t : Tid) (c c1 : Conc)
    (h : stepThread id t c = some c1) : c1.rank + 1 ≤ c.rank := by
  unfold stepThread at h
  cases t <;> split at h <;> (try split at h) <;>
    simp only [Option.some.injEq, reduceCtorEq] at h <;> subst h <;>
    simp_all [Conc.rank, Pc.rank, Function.update] <;> omega




/-- The base state depends only on which goroutines have returned. -/
theorem Conc.base_congr (id : String) (w : World) (c c1 : Conc)
    (h : ∀ t, (c1.pcs t).isDone = (c.pcs t).isDone) : c1.base id w = c.base id w := by
  simp only [Conc.base, h]

/-- The base state is the initial state or the state after one call, and one
call from it ends in the state after one call. -/
theorem Conc.base_call (id : String) (w : World) (c : Conc) :
    (getOrCreateRoom id (c.base id w)).1 = (getOrCreateRoom id w).1
    ∧ (getOrCreateRoom id (c.base id w)).2 = (getOrCreateRoom id w).2 := by
  unfold Conc.base
  split
  · rw [(getOrCreateRoom_fixed id w).2]
    exact ⟨rfl, rfl⟩
  · exact ⟨rfl, rfl⟩

/-- A goroutine between `Lock` and `Unlock` is the holder of the mutex. -/
theorem ConcInv.holder_of (id : String) (w : World) (c : Conc) (t : Tid)
    (hinv : ConcInv id w c) (h1 : c.pcs t ≠ Pc.start) (h2 : (c.pcs t).isDone = false) :
    c.holder = some t := by
  by_contra hne
  rcases hinv.1 t hne with h | h
  · exact h1 h
  · rw [h] at h2
    cases h2

/-- A step that keeps the mutex with the goroutine `t` and moves only `t`, to a
position that fits the new state, keeps the invariant. -/
theorem ConcInv.move (id : String) (w : World) (c : Conc) (t : Tid) (world : World) (pc : Pc)
    (hinv : ConcInv id w c) (hh : c.holder = some t)
    (hd : (c.pcs t).isDone = false) (hd1 : pc.isDone = false)
    (hheld : Held id (c.base id w) world pc) :
    ConcInv id w { c with world := world, pcs := Function.update c.pcs t pc } := by
  have hb : Conc.base id w { c with world := world, pcs := Function.update c.pcs t pc }
      = c.base id w := by
    apply Conc.base_congr
    intro t1
    by_cases e : t1 = t
    · subst e
      simp only [Function.update_same, hd, hd1]
    · simp only [Function.update_noteq e]
  refine ⟨?_, ?_, ?_⟩
  · intro t1 h1
    have e : t1 ≠ t := fun e => h1 (by rw [e]; exact hh)
    simp only [Function.update_noteq e]
    exact hinv.1 t1 h1
  · intro t1 h1
    have e : t1 = t := by
      have h2 : c.holder = some t1 := h1
      rw [hh] at h2
      exact (Option.some.inj h2).symm
    subst e
    rw [hb]
    simp only [Function.update_same]
    exact hheld
  · intro h1
    have h2 : c.holder = none := h1
    rw [hh] at h2
    cases h2

/-- Every statement that a goroutine runs keeps the invariant. -/
theorem stepThread_inv (id : String) (w : World) (t : Tid) (c c1 : Conc)
    (hinv : ConcInv id w c) (h : stepThread id t c = some c1) : ConcInv id w c1 := by
  unfold stepThread at h
  cases hp : c.pcs t with
  | start =>
    rw [hp] at h
    cases hh : c.holder with
    | some t1 => rw [hh] at h; cases h
    | none =>
      rw [hh] at h
      simp only [Option.some.injEq] at h
      subst h
      have hb : Conc.base id w
          { c with holder := some t, pcs := Function.update c.pcs t Pc.locked }
          = c.base id w := by
        apply Conc.base_congr
        intro t1
        by_cases e : t1 = t
        · subst e
          simp only [Function.update_same, hp, Pc.isDone]
        · simp only [Function.update_noteq e]
      refine ⟨?_, ?_, ?_⟩
      · intro t1 h1
        have e : t1 ≠ t := fun e => h1 (by rw [e])
        simp only [Function.update_noteq e]
        exact hinv.1 t1 (by rw [hh]; exact fun h => Option.noConfusion h)
      · intro t1 h1
        have e : t = t1 := Option.some.inj h1
        subst e
        rw [hb]
        simp only [Function.update_same]
        exact hinv.2.2 hh
      · intro h1
        cases h1
  | locked =>
    rw [hp] at h
    simp only [Option.some.injEq] at h
    subst h
    have hh := ConcInv.holder_of id w c t hinv (by rw [hp]; exact fun h => Pc.noConfusion h)
      (by rw [hp]; rfl)
    have hheld := hinv.2.1 t hh
    rw [hp] at hheld
    have hw : c.world = c.base id w := hheld
    exact ConcInv.move id w c t c.world _ hinv hh (by rw [hp]; rfl) rfl
      ⟨by rw [hw], hw⟩
  | looked found =>
    rw [hp] at h
    have hh := ConcInv.holder_of id w c t hinv (by rw [hp]; exact fun h => Pc.noConfusion h)
      (by rw [hp]; rfl)
    have hheld := hinv.2.1 t hh
    rw [hp] at hheld
    obtain ⟨hf, hw⟩ : found = (c.base id w).sfu.rooms.lookup id ∧ c.world = c.base id w :=
      hheld
    cases found with
    | some r =>
      simp only [Option.some.injEq] at h
      subst h
      refine ConcInv.move id w c t c.world _ hinv hh (by rw [hp]; rfl) rfl ?_
      show r = (getOrCreateRoom id (c.base id w)).1
        ∧ c.world = (getOrCreateRoom id (c.base id w)).2
      rw [getOrCreateRoom_present id _ r hf.symm]
      exact ⟨rfl, hw⟩
    | none =>
      simp only [Option.some.injEq] at h
      subst h
      refine ConcInv.move id w c t _ _ hinv hh (by rw [hp]; rfl) rfl ?_
      rw [hw]
      exact ⟨hf.symm, rfl, rfl⟩
  | allocated a =>
    rw [hp] at h
    simp only [Option.some.injEq] at h
    subst h
    have hh := ConcInv.holder_of id w c t hinv (by rw [hp]; exact fun h => Pc.noConfusion h)
      (by rw [hp]; rfl)
    have hheld := hinv.2.1 t hh
    rw [hp] at hheld
    obtain ⟨hf, ha, hw⟩ : (c.base id w).sfu.rooms.lookup id = none ∧ a = (c.base id w).nextRoom
        ∧ c.world = { (c.base id w).setRoom (c.base id w).nextRoom { id := id, peers := ∅ } with
                  nextRoom := (c.base id w).nextRoom + 1 } := hheld
    refine ConcInv.move id w c t _ _ hinv hh (by rw [hp]; rfl) rfl ?_
    show some a = (getOrCreateRoom id (c.base id w)).1 ∧ _ = (getOrCreateRoom id (c.base id w)).2
    rw [getOrCreateRoom_absent id _ hf, hw, ha]
    exact ⟨rfl, rfl⟩
  | returning r =>
    rw [hp] at h
    simp only [Option.some.injEq] at h
    subst h
    have hh := ConcInv.holder_of id w c t hinv (by rw [hp]; exact fun h => Pc.noConfusion h)
      (by rw [hp]; rfl)
    have hheld := hinv.2.1 t hh
    rw [hp] at hheld
    obtain ⟨hr, hw⟩ : r = (getOrCreateRoom id (c.base id w)).1
        ∧ c.world = (getOrCreateRoom id (c.base id w)).2 := hheld
    rw [(Conc.base_call id w c).1] at hr
    rw [(Conc.base_call id w c).2] at hw
    have hb : Conc.base id w
        { c with holder := none, pcs := Function.update c.pcs t (Pc.done r) }
        = (getOrCreateRoom id w).2 := by
      cases t <;> simp [Conc.base, Function.update, Pc.isDone]
    refine ⟨?_, ?_, ?_⟩
    · intro t1 _
      by_cases e : t1 = t
      · subst e
        simp only [Function.update_same]
        exact Or.inr (by rw [hr])
      · simp only [Function.update_noteq e]
        exact hinv.1 t1 (by rw [hh]; exact fun h => e (Option.some.inj h).symm)
    · intro t1 h1
      cases h1
    · intro _
      rw [hb]
      exact hw
  | done r =>
    rw [hp] at h
    cases h

/-- The invariant holds before the two calls and along every interleaving. -/
theorem runSchedule_inv (id : String) (w : World) (s : List Tid) (c c1 : Conc)
    (hinv : ConcInv id w c) (h : runSchedule id s c = some c1) :
    ConcInv id w c1 ∧ c1.rank + s.length ≤ c.rank := by
  induction s generalizing c with
  | nil =>
    simp only [runSchedule, Option.some.injEq] at h
    subst h
    exact ⟨hinv, Nat.le_refl _⟩
  | cons t s ih =>
    simp only [runSchedule] at h
    cases hs : stepThread id t c with
    | none => rw [hs] at h; cases h
    | some c2 =>
      rw [hs] at h
      obtain ⟨i1, i2⟩ := ih c2 (stepThread_inv id w t c c2 hinv hs) h
      have := stepThread_rank id t c c2 hs
      exact ⟨i1, by simp only [List.length_cons]; omega⟩

/-- The invariant holds before the two calls. -/
theorem ConcInv_start (id : String) (w : World) : ConcInv id w (Conc.start w) := by
  refine ⟨fun _ _ => Or.inl rfl, ?_, fun _ => rfl⟩
  intro t h
  cases h

/-- The entries of a map under a key that it holds are exactly one. -/
theorem filter_key_of_dlookup {V : Type} (k : String) (v : V) (l : List (Entry V))
    (hn : l.NodupKeys) (h : List.dlookup k l = some v) :
    l.filter (fun e => decide (e.1 = k)) = [⟨k, v⟩] := by
  induction l with
  | nil => cases h
  | cons e l ih =>
    obtain ⟨k1, v1⟩ := e
    rw [List.nodupKeys_cons] at hn
    by_cases hk : k1 = k
    · subst hk
      rw [List.dlookup_cons_eq] at h
      have hv : v1 = v := Option.some.inj h
      subst hv
      have hnil : l.filter (fun e => decide (e.1 = k1)) = [] := by
        rw [List.filter_eq_nil_iff]
        intro e he hd
        obtain ⟨k2, v2⟩ := e
        have hk2 : k2 = k1 := of_decide_eq_true hd
        subst hk2
        exact hn.1 (List.mem_keys.2 ⟨v2, he⟩)
      simp only [List.filter_cons, decide_True, if_true, hnil]
    · rw [List.dlookup_cons_ne _ _ (fun e => hk e.symm)] at h
      simp only [List.filter_cons, hk, decide_False, Bool.false_eq_true, if_false]
      exact ih hn.2 h

/-- C19: two goroutines call `getOrCreateRoom` with the same id at the same time,
each statement of the body being one step and `s.mu` a mutex.  Every
interleaving has at most ten steps; as long as a goroutine has not returned,
some goroutine can move, so every interleaving can be run to the end; and when
both have returned, they returned the same pointer, the registry holds exactly
that pointer under the id, at most one room object was allocated, and the state
and the pointer are those of a single call. -/
theorem getOrCreateRoom_concurrent (roomID : String) (w : World) (s : List Tid) (c : Conc)
    (h : runSchedule roomID s (Conc.start w) = some c) :
    s.length ≤ 10
    ∧ ((∃ t, (c.pcs t).isDone = false) → ∃ t c1, stepThread roomID t c = some c1)
    ∧ ∀ r1 r2, c.pcs Tid.first = Pc.done r1 → c.pcs Tid.second = Pc.done r2 →
        r1 = r2
        ∧ c.world.sfu.rooms.lookup roomID = some r1
        ∧ (c.world.sfu.rooms.entries.filter (fun e => decide (e.1 = roomID))).map Sigma.snd
            = [r1]
        ∧ c.world.nextRoom ≤ w.nextRoom + 1
        ∧ c.world = (getOrCreateRoom roomID w).2
        ∧ r1 = (getOrCreateRoom roomID w).1 := by
  obtain ⟨hinv, hrank⟩ := runSchedule_inv roomID w s (Conc.start w) c (ConcInv_start roomID w) h
  refine ⟨?_, ?_, ?_⟩
  · have : (Conc.start w).rank = 10 := rfl
    omega
  · rintro ⟨t, ht⟩
    cases hh : c.holder with
    | none =>
      rcases hinv.1 t (by rw [hh]; exact fun h => Option.noConfusion h) with hp | hp
      · refine ⟨t, ?_⟩
        simp only [stepThread, hp, hh]
        exact ⟨_, rfl⟩
      · rw [hp] at ht
        cases ht
    | some t1 =>
      have hheld := hinv.2.1 t1 hh
      refine ⟨t1, ?_⟩
      cases hp : c.pcs t1 with
      | start => rw [hp] at hheld; exact hheld.elim
      | locked => simp only [stepThread, hp]; exact ⟨_, rfl⟩
      | looked found =>
        cases found with
        | none => simp only [stepThread, hp]; exact ⟨_, rfl⟩
        | some r => simp only [stepThread, hp]; exact ⟨_, rfl⟩
      | allocated a => simp only [stepThread, hp]; exact ⟨_, rfl⟩
      | returning r => simp only [stepThread, hp]; exact ⟨_, rfl⟩
      | done r => rw [hp] at hheld; exact hheld.elim
  · intro r1 r2 h1 h2
    have hnone : c.holder = none := by
      cases hh : c.holder with
      | none => rfl
      | some t =>
        have hheld := hinv.2.1 t hh
        cases t
        · rw [h1] at hheld; exact hheld.elim
        · rw [h2] at hheld; exact hheld.elim
    have hi : ∀ t r, c.pcs t = Pc.done r → r = (getOrCreateRoom roomID w).1 := by
      intro t r hp
      rcases hinv.1 t (by rw [hnone]; exact fun h => Option.noConfusion h) with hq | hq
      · rw [hp] at hq; cases hq
      · rw [hp] at hq
        exact Pc.done.inj hq
    have e1 := hi _ _ h1
    have e2 := hi _ _ h2
    have hw : c.world = (getOrCreateRoom roomID w).2 := by
      rw [hinv.2.2 hnone]
      simp only [Conc.base, h1, Pc.isDone, Bool.true_or, if_true]
    have hl : c.world.sfu.rooms.lookup roomID = some r1 := by
      rw [hw, e1]
      exact (getOrCreateRoom_fixed roomID w).1
    refine ⟨by rw [e1, e2], hl, ?_, ?_, hw, e1⟩
    · rw [filter_key_of_dlookup roomID r1 _ c.world.sfu.rooms.nodupKeys hl]
      rfl
    · rw [hw]
      cases hl0 : w.sfu.rooms.lookup roomID with
      | some r =>
        rw [getOrCreateRoom_present roomID w r hl0]
        exact Nat.le_succ _
      | none =>
        rw [getOrCreateRoom_absent roomID w hl0]

/-- The interleaving `raceSchedule` of two calls for `lobby` in the initial state
is an interleaving, and both goroutines return the room object at address 0. -/
theorem getOrCreateRoom_concurrent_witness :
    runSchedule "lobby" raceSchedule (Conc.start World.init) = some raceEnd
    ∧ raceEnd.pcs Tid.first = Pc.done (some 0)
    ∧ raceEnd.pcs Tid.second = Pc.done (some 0)
    ∧ raceEnd.world.sfu.rooms.lookup "lobby" = some (some 0) :=
  ⟨rfl, rfl, rfl,
    ((getOrCreateRoom_concurrent "lobby" World.init raceSchedule raceEnd rfl).2.2
      (some 0) (some 0) rfl rfl).2.1⟩

/-- The invariant passes to a state with fewer registry entries and fewer map
entries in which every newly closed connection belongs to no registered peer. -/
theorem RelayInv_mono (w1 w2 : World) (hinv : RelayInv w1)
    (hreg : ∀ id r, w2.sfu.rooms.lookup id = some r → w1.sfu.rooms.lookup id = some r)
    (hmem : ∀ a k q, Registered w2 a → (w2.roomAt a).peers.lookup k = some (some q) →
      (w1.roomAt a).peers.lookup k = some (some q))
    (hpc : ∀ q, (w2.peerAt q).pc = (w1.peerAt q).pc)
    (hnr : w1.nextRoom ≤ w2.nextRoom) (hnp : w1.nextPeer ≤ w2.nextPeer)
    (hnc : w1.nextConn ≤ w2.nextConn)
    (hclose : ∀ c ∈ closeCalls w2.trace, c ∈ closeCalls w1.trace
      ∨ (c < w2.nextConn ∧ ∀ a k q, Registered w2 a →
          (w2.roomAt a).peers.lookup k = some (some q) → (w2.peerAt q).pc ≠ some c)) :
    RelayInv w2 := by
  obtain ⟨i0, i1, i2, i3, i4, i5⟩ := hinv
  have hR : ∀ a, Registered w2 a → Registered w1 a := fun a ⟨id, h⟩ => ⟨id, hreg id _ h⟩
  refine ⟨?_, ?_, ?_, ?_, ?_, ?_⟩
  · intro id h
    exact i0 id (hreg id _ h)
  · intro id a h
    exact Nat.lt_of_lt_of_le (i1 id a (hreg id _ h)) hnr
  · intro id1 id2 a h1 h2
    exact i2 id1 id2 a (hreg _ _ h1) (hreg _ _ h2)
  · intro c hc
    rcases hclose c hc with h | h
    · exact Nat.lt_of_lt_of_le (i3 c h) hnc
    · exact h.1
  · intro a k q ha hk
    obtain ⟨j1, j2⟩ := i4 a k q (hR a ha) (hmem a k q ha hk)
    refine ⟨Nat.lt_of_lt_of_le j1 hnp, ?_⟩
    intro c hc
    have hc1 : (w1.peerAt q).pc = some c := by rw [← hpc]; exact hc
    refine ⟨Nat.lt_of_lt_of_le (j2 c hc1).1 hnc, ?_⟩
    intro hcl
    rcases hclose c hcl with h | h
    · exact (j2 c hc1).2 h
    · exact h.2 a k q ha hk hc
  · intro a1 a2 k1 k2 q1 q2 c ha1 ha2 hk1 hk2 hc1 hc2
    exact i5 a1 a2 k1 k2 q1 q2 c (hR _ ha1) (hR _ ha2) (hmem _ _ _ ha1 hk1)
      (hmem _ _ _ ha2 hk2) (by rw [← hpc]; exact hc1) (by rw [← hpc]; exact hc2)

/-- The invariant holds in the initial state. -/
theorem RelayInv_init : RelayInv World.init := by
  refine ⟨?_, ?_, ?_, ?_, ?_, ?_⟩
  · intro id h
    cases h
  · intro id a h
    cases h
  · intro id1 id2 a h
    cases h
  · intro c hc
    cases hc
  · intro a k q ha
    obtain ⟨id, h⟩ := ha
    cases h
  · intro a1 a2 k1 k2 q1 q2 c ha
    obtain ⟨id, h⟩ := ha
    cases h

/-- The lookup `getOrCreateRoom` keeps the invariant. -/
theorem RelayInv_getOrCreateRoom (id : String) (w : World) (hinv : RelayInv w) :
    RelayInv (getOrCreateRoom id w).2 := by
  cases hl : w.sfu.rooms.lookup id with
  | some r =>
    rw [getOrCreateRoom_present id w r hl]
    exact hinv
  | none =>
    rw [getOrCreateRoom_absent id w hl]
    obtain ⟨i0, i1, i2, i3, i4, i5⟩ := hinv
    have hlk : ∀ id1 r, (w.sfu.rooms.insert id (some w.nextRoom)).lookup id1 = some r →
        (id1 = id ∧ r = some w.nextRoom) ∨ (id1 ≠ id ∧ w.sfu.rooms.lookup id1 = some r) := by
      intro id1 r h
      by_cases e : id1 = id
      · subst e
        rw [AList.lookup_insert] at h
        exact Or.inl ⟨rfl, (Option.some.inj h).symm⟩
      · rw [AList.lookup_insert_ne e] at h
        exact Or.inr ⟨e, h⟩
    have hR : ∀ a, Registered
        { sfu := { rooms := w.sfu.rooms.insert id (some w.nextRoom) },
          roomAt := Function.update w.roomAt w.nextRoom { id := id, peers := ∅ },
          nextRoom := w.nextRoom + 1, peerAt := w.peerAt, nextPeer := w.nextPeer,
          nextConn := w.nextConn, nextTrack := w.nextTrack,
          nextSender := w.nextSender, trace := w.trace } a →
        a = w.nextRoom ∨ (a ≠ w.nextRoom ∧ Registered w a) := by
      rintro a ⟨id1, h⟩
      rcases hlk id1 _ h with ⟨-, h2⟩ | ⟨-, h2⟩
      · exact Or.inl (Option.some.inj h2)
      · exact Or.inr ⟨Nat.ne_of_lt (i1 id1 a h2), id1, h2⟩
    have hM : ∀ a k q, Registered
        { sfu := { rooms := w.sfu.rooms.insert id (some w.nextRoom) },
          roomAt := Function.update w.roomAt w.nextRoom { id := id, peers := ∅ },
          nextRoom := w.nextRoom + 1, peerAt := w.peerAt, nextPeer := w.nextPeer,
          nextConn := w.nextConn, nextTrack := w.nextTrack,
          nextSender := w.nextSender, trace := w.trace } a →
        (Function.update w.roomAt w.nextRoom { id := id, peers := ∅ } a).peers.lookup k
          = some (some q) →
        Registered w a ∧ (w.roomAt a).peers.lookup k = some (some q) := by
      intro a k q ha hk
      rcases hR a ha with e | ⟨e, hr⟩
      · subst e
        simp only [Function.update_same] at hk
        cases hk
      · rw [Function.update_noteq e] at hk
        exact ⟨hr, hk⟩
    refine ⟨?_, ?_, ?_, i3, ?_, ?_⟩
    · intro id1 h
      rcases hlk id1 _ h with ⟨-, h2⟩ | ⟨-, h2⟩
      · cases h2
      · exact i0 id1 h2
    · intro id1 a h
      rcases hlk id1 _ h with ⟨-, h2⟩ | ⟨-, h2⟩
      · rw [Option.some.inj h2]
        exact Nat.lt_succ_self _
      · exact Nat.lt_succ_of_lt (i1 id1 a h2)
    · intro id1 id2 a h1 h2
      rcases hlk id1 _ h1 with ⟨e1, r1⟩ | ⟨e1, r1⟩
      · rcases hlk id2 _ h2 with ⟨e2, r2⟩ | ⟨e2, r2⟩
        · rw [e1, e2]
        · have := i1 id2 a r2
          rw [Option.some.inj r1] at this
          exact absurd this (Nat.lt_irrefl _)
      · rcases hlk id2 _ h2 with ⟨e2, r2⟩ | ⟨e2, r2⟩
        · have := i1 id1 a r1
          rw [Option.some.inj r2] at this
          exact absurd this (Nat.lt_irrefl _)
        · exact i2 id1 id2 a r1 r2
    · intro a k q ha hk
      obtain ⟨hr, hk1⟩ := hM a k q ha hk
      exact i4 a k q hr hk1
    · intro a1 a2 k1 k2 q1 q2 c ha1 ha2 hk1 hk2 hc1 hc2
      obtain ⟨hr1, hm1⟩ := hM a1 k1 q1 ha1 hk1
      obtain ⟨hr2, hm2⟩ := hM a2 k2 q2 ha2 hk2
      exact i5 a1 a2 k1 k2 q1 q2 c hr1 hr2 hm1 hm2 hc1 hc2

/-- The `Close` calls of a trace with more events. -/
theorem closeCalls_append (t evs : List Event) :
    closeCalls (t ++ evs) = closeCalls t ++ closeCalls evs := by
  simp only [closeCalls, List.filterMap_append]

/-- Adding a new peer with a new connection to a room keeps the invariant. -/
theorem RelayInv_join (w1 w2 : World) (a : Nat) (kp : String) (p : Peer)
    (hinv : RelayInv w1)
    (hsfu : w2.sfu = w1.sfu) (hnr : w2.nextRoom = w1.nextRoom)
    (hnp : w2.nextPeer = w1.nextPeer + 1) (hnc : w2.nextConn = w1.nextConn + 1)
    (hroom : w2.roomAt = Function.update w1.roomAt a
      { w1.roomAt a with peers := (w1.roomAt a).peers.insert kp (some w1.nextPeer) })
    (hpeer : w2.peerAt = Function.update w1.peerAt w1.nextPeer p)
    (hp : p.pc = some w1.nextConn)
    (hcl : closeCalls w2.trace = closeCalls w1.trace) : RelayInv w2 := by
  obtain ⟨i0, i1, i2, i3, i4, i5⟩ := hinv
  have hR : ∀ a1, Registered w2 a1 → Registered w1 a1 := by
    rintro a1 ⟨id, h⟩
    exact ⟨id, by rw [← hsfu]; exact h⟩
  have hM : ∀ a1 k q, (w2.roomAt a1).peers.lookup k = some (some q) →
      (a1 = a ∧ k = kp ∧ q = w1.nextPeer)
      ∨ (w1.roomAt a1).peers.lookup k = some (some q) := by
    intro a1 k q h
    rw [hroom] at h
    by_cases e : a1 = a
    · subst e
      simp only [Function.update_same] at h
      by_cases ek : k = kp
      · subst ek
        rw [AList.lookup_insert] at h
        exact Or.inl ⟨rfl, rfl, (Option.some.inj (Option.some.inj h)).symm⟩
      · rw [AList.lookup_insert_ne ek] at h
        exact Or.inr h
    · rw [Function.update_noteq e] at h
      exact Or.inr h
  have hnew : (w2.peerAt w1.nextPeer).pc = some w1.nextConn := by
    rw [hpeer]
    simp only [Function.update_same]
    exact hp
  have hold : ∀ q, q < w1.nextPeer → (w2.peerAt q).pc = (w1.peerAt q).pc := by
    intro q hq
    rw [hpeer, Function.update_noteq (Nat.ne_of_lt hq)]
  refine ⟨?_, ?_, ?_, ?_, ?_, ?_⟩
  · intro id
    rw [hsfu]
    exact i0 id
  · intro id a1
    rw [hsfu, hnr]
    exact i1 id a1
  · intro id1 id2 a1
    rw [hsfu]
    exact i2 id1 id2 a1
  · intro c hc
    rw [hcl] at hc
    rw [hnc]
    exact Nat.lt_succ_of_lt (i3 c hc)
  · intro a1 k q ha hk
    rw [hnp, hnc, hcl]
    rcases hM a1 k q hk with ⟨-, -, e⟩ | h
    · subst e
      refine ⟨Nat.lt_succ_self _, ?_⟩
      intro c hc
      rw [hnew] at hc
      have e : w1.nextConn = c := Option.some.inj hc
      subst e
      exact ⟨Nat.lt_succ_self _, fun h => Nat.lt_irrefl _ (i3 _ h)⟩
    · obtain ⟨j1, j2⟩ := i4 a1 k q (hR a1 ha) h
      refine ⟨Nat.lt_succ_of_lt j1, ?_⟩
      intro c hc
      rw [hold q j1] at hc
      exact ⟨Nat.lt_succ_of_lt (j2 c hc).1, (j2 c hc).2⟩
  · intro a1 a2 k1 k2 q1 q2 c ha1 ha2 hk1 hk2 hc1 hc2
    rcases hM a1 k1 q1 hk1 with ⟨e1, e2, e3⟩ | h1
    · subst e3
      rw [hnew] at hc1
      have ec : w1.nextConn = c := Option.some.inj hc1
      subst ec
      rcases hM a2 k2 q2 hk2 with ⟨f1, f2, -⟩ | h2
      · exact ⟨by rw [e1, f1], by rw [e2, f2]⟩
      · obtain ⟨j1, j2⟩ := i4 a2 k2 q2 (hR a2 ha2) h2
        rw [hold q2 j1] at hc2
        exact absurd (j2 _ hc2).1 (Nat.lt_irrefl _)
    · obtain ⟨j1, j2⟩ := i4 a1 k1 q1 (hR a1 ha1) h1
      rw [hold q1 j1] at hc1
      rcases hM a2 k2 q2 hk2 with ⟨-, -, f3⟩ | h2
      · subst f3
        rw [hnew] at hc2
        have ec : w1.nextConn = c := Option.some.inj hc2
        subst ec
        exact absurd (j2 _ hc1).1 (Nat.lt_irrefl _)
      · obtain ⟨l1, l2⟩ := i4 a2 k2 q2 (hR a2 ha2) h2
        rw [hold q2 l1] at hc2
        exact i5 a1 a2 k1 k2 q1 q2 c (hR a1 ha1) (hR a2 ha2) h1 h2 hc1 hc2

/-- Every connection that `closePeers` closes is the connection of a peer of the
list. -/
theorem closePeers_sub (env : Env) (l : List (Entry Ptr)) (w : World) :
    ∀ c ∈ closeCalls (closePeers env l w).world.trace, c ∈ closeCalls w.trace
      ∨ ∃ k q, (⟨k, some q⟩ : Entry Ptr) ∈ l ∧ (w.peerAt q).pc = some c := by
  induction l generalizing w with
  | nil => intro c hc; exact Or.inl hc
  | cons e rest ih =>
    obtain ⟨k, p⟩ := e
    cases p with
    | none => intro c hc; exact Or.inl hc
    | some q =>
      cases hpc : (w.peerAt q).pc with
      | none =>
        intro c hc
        simp only [closePeers, hpc] at hc
        rcases ih w c hc with h | ⟨k1, q1, h1, h2⟩
        · exact Or.inl h
        · exact Or.inr ⟨k1, q1, List.mem_cons_of_mem _ h1, h2⟩
      | some pc =>
        intro c hc
        simp only [closePeers, hpc] at hc
        rcases ih _ c hc with h | ⟨k1, q1, h1, h2⟩
        · simp only [World.emit, closeCalls_append, List.mem_append] at h
          rcases h with h | h
          · exact Or.inl h
          · simp only [closeCalls, List.filterMap_cons, Event.closedConn,
              List.filterMap_nil, List.mem_singleton] at h
            subst h
            exact Or.inr ⟨k, q, List.mem_cons_self _ _, hpc⟩
        · exact Or.inr ⟨k1, q1, List.mem_cons_of_mem _ h1, h2⟩

/-- Every connection that `closeRooms` closes is the connection of a peer of a
room of the list. -/
theorem closeRooms_sub (env : Env) (l : List (Entry Ptr)) (w : World) :
    ∀ c ∈ closeCalls (closeRooms env l w).world.trace, c ∈ closeCalls w.trace
      ∨ ∃ id a k q, (⟨id, some a⟩ : Entry Ptr) ∈ l
          ∧ (⟨k, some q⟩ : Entry Ptr) ∈ (w.roomAt a).peers.entries
          ∧ (w.peerAt q).pc = some c := by
  induction l generalizing w with
  | nil => intro c hc; exact Or.inl hc
  | cons e rest ih =>
    obtain ⟨id, r⟩ := e
    cases r with
    | none => intro c hc; exact Or.inl hc
    | some a =>
      have hf := closePeers_frame env (w.roomAt a).peers.entries w
      have hs := closePeers_sub env (w.roomAt a).peers.entries w
      intro c hc
      cases hp : (closePeers env (w.roomAt a).peers.entries w).panic with
      | some e =>
        simp only [closeRooms, hp] at hc
        rcases hs c hc with h | ⟨k, q, h1, h2⟩
        · exact Or.inl h
        · exact Or.inr ⟨id, a, k, q, List.mem_cons_self _ _, h1, h2⟩
      | none =>
        simp only [closeRooms, hp] at hc
        rcases ih _ c hc with h | ⟨id1, a1, k, q, h1, h2, h3⟩
        · rcases hs c h with h | ⟨k, q, h1, h2⟩
          · exact Or.inl h
          · exact Or.inr ⟨id, a, k, q, List.mem_cons_self _ _, h1, h2⟩
        · rw [hf] at h2 h3
          exact Or.inr ⟨id1, a1, k, q, List.mem_cons_of_mem _ h1, h2, h3⟩

/-- A state that differs only by events that close nothing has the invariant. -/
theorem RelayInv_trace (w : World) (evs : List Event) (hinv : RelayInv w)
    (h : closeCalls evs = []) : RelayInv (w.withTrace (w.trace ++ evs)) := by
  refine RelayInv_mono w _ hinv (fun _ _ h => h) (fun _ _ _ _ h => h) (fun _ => rfl)
    (Nat.le_refl _) (Nat.le_refl _) (Nat.le_refl _) ?_
  intro c hc
  have e : (w.withTrace (w.trace ++ evs)).trace = w.trace ++ evs := rfl
  rw [e, closeCalls_append, h, List.append_nil] at hc
  exact Or.inl hc

/-- The method `CloseRoom` keeps the invariant, whether it returns or panics. -/
theorem RelayInv_CloseRoom (env : Env) (id : String) (w : World) (hinv : RelayInv w) :
    RelayInv (CloseRoom env id w).world := by
  have herase : ∀ id1 r, (w.sfu.rooms.erase id).lookup id1 = some r →
      id1 ≠ id ∧ w.sfu.rooms.lookup id1 = some r := by
    intro id1 r h
    by_cases e : id1 = id
    · subst e
      rw [AList.lookup_erase] at h
      cases h
    · rw [AList.lookup_erase_ne e] at h
      exact ⟨e, h⟩
  cases hl : w.sfu.rooms.lookup id with
  | none =>
    have e : CloseRoom env id w = ⟨none, w⟩ := by simp only [CloseRoom, hl]
    rw [e]
    exact hinv
  | some room =>
    cases room with
    | none => exact absurd hl (hinv.1 id)
    | some a =>
      have e : CloseRoom env id w
          = closePeers env (w.roomAt a).peers.entries
              { w with sfu := { rooms := w.sfu.rooms.erase id } } := by
        simp only [CloseRoom, hl]
      rw [e]
      have hf := closePeers_frame env (w.roomAt a).peers.entries
        { w with sfu := { rooms := w.sfu.rooms.erase id } }
      have hs := closePeers_sub env (w.roomAt a).peers.entries
        { w with sfu := { rooms := w.sfu.rooms.erase id } }
      rw [hf]
      refine RelayInv_mono w _ hinv ?_ (fun _ _ _ _ h => h) (fun _ => rfl)
        (Nat.le_refl _) (Nat.le_refl _) (Nat.le_refl _) ?_
      · intro id1 r h
        exact (herase id1 r h).2
      · intro c hc
        rcases hs c hc with h | ⟨k, q, h1, h2⟩
        · exact Or.inl h
        · right
          have hk : (w.roomAt a).peers.lookup k = some (some q) :=
            (AList.mem_lookup_iff (s := (w.roomAt a).peers)).2 h1
          obtain ⟨i0, i1, i2, i3, i4, i5⟩ := hinv
          refine ⟨((i4 a k q ⟨id, hl⟩ hk).2 c h2).1, ?_⟩
          rintro a1 k1 q1 ⟨id1, hr1⟩ hk1 hc1
          obtain ⟨hne, hr⟩ := herase id1 _ hr1
          have ea := (i5 a1 a k1 k q1 q c ⟨id1, hr⟩ ⟨id, hl⟩ hk1 hk hc1 h2).1
          subst ea
          exact hne (i2 id1 id a1 hr hl)

/-- The method `CloseAll` keeps the invariant, whether it returns or panics. -/
theorem RelayInv_CloseAll (env : Env) (w : World) (hinv : RelayInv w) :
    RelayInv (CloseAll env w).world := by
  have e : CloseAll env w
      = closeRooms env w.sfu.rooms.entries { w with sfu := { rooms := ∅ } } := rfl
  rw [e]
  have hf := closeRooms_frame env w.sfu.rooms.entries { w with sfu := { rooms := ∅ } }
  have hs := closeRooms_sub env w.sfu.rooms.entries { w with sfu := { rooms := ∅ } }
  rw [hf]
  refine RelayInv_mono w _ hinv ?_ ?_ (fun _ => rfl)
    (Nat.le_refl _) (Nat.le_refl _) (Nat.le_refl _) ?_
  · intro id1 r h
    cases h
  · rintro a k q ⟨id1, h⟩
    cases h
  · intro c hc
    rcases hs c hc with h | ⟨id1, a, k, q, h0, h1, h2⟩
    · exact Or.inl h
    · right
      have hr : w.sfu.rooms.lookup id1 = some (some a) :=
        (AList.mem_lookup_iff (s := w.sfu.rooms)).2 h0
      have hk : (w.roomAt a).peers.lookup k = some (some q) :=
        (AList.mem_lookup_iff (s := (w.roomAt a).peers)).2 h1
      refine ⟨((hinv.2.2.2.2.1 a k q ⟨id1, hr⟩ hk).2 c h2).1, ?_⟩
      rintro a1 k1 q1 ⟨id2, h⟩
      cases h

/-- What `removePeer` leaves of the counters and of the `Close` calls. -/
theorem removePeer_counters (r : Ptr) (id : String) (w : World) :
    (removePeer r id w).world.nextPeer = w.nextPeer
    ∧ (removePeer r id w).world.nextConn = w.nextConn
    ∧ closeCalls (removePeer r id w).world.trace = closeCalls w.trace := by
  cases r with
  | none => exact ⟨rfl, rfl, rfl⟩
  | some a =>
    cases hl : (w.roomAt a).peers.lookup id with
    | none =>
      have e : removePeer (some a) id w = ⟨none, w⟩ := by simp only [removePeer, hl]
      rw [e]
      exact ⟨rfl, rfl, rfl⟩
    | some p =>
      cases p with
      | none =>
        simp only [removePeer, hl]
        exact ⟨rfl, rfl, rfl⟩
      | some q =>
        cases hc : (w.peerAt q).closed <;>
          simp [removePeer, hl, closeChan, World.setRoom, World.setPeer, World.emit, hc,
            closeCalls, Event.closedConn]

/-- The method `removePeer` keeps the invariant, whether it returns or panics. -/
theorem RelayInv_removePeer (r : Ptr) (id : String) (w : World) (hinv : RelayInv w) :
    RelayInv (removePeer r id w).world := by
  cases r with
  | none => exact hinv
  | some a =>
    obtain ⟨h1, h2, h3, h4⟩ := removePeer_world w a id
    obtain ⟨c1, c2, c3⟩ := removePeer_counters (some a) id w
    refine RelayInv_mono w _ hinv ?_ ?_ (fun q => (h4 q).2.2)
      (Nat.le_of_eq h3.symm) (Nat.le_of_eq c1.symm) (Nat.le_of_eq c2.symm) ?_
    · intro id1 r1 h
      rw [h2] at h
      exact h
    · intro a1 k q _ h
      exact (removePeer_lookup w a id a1 k (some q) h).1
    · intro c hc
      rw [c3] at hc
      exact Or.inl hc

/-- The method `HandleJoin` keeps the invariant. -/
theorem RelayInv_HandleJoin (env : Env) (jenv : JoinEnv) (req : Request) (w : World)
    (hinv : RelayInv w) : RelayInv (HandleJoin env jenv req w).world := by
  by_cases hcond : req.room = "" ∨ req.peer = ""
  · have e : HandleJoin env jenv req w
        = ⟨none, w.emit (Event.respond 400
            (Reply.error "room and peer query params required"))⟩ := by
      simp only [HandleJoin, if_pos hcond]
    rw [e]
    exact RelayInv_trace w [_] hinv rfl
  · have hreq : req.room ≠ "" ∧ req.peer ≠ "" :=
      ⟨fun h => hcond (Or.inl h), fun h => hcond (Or.inr h)⟩
    cases hb : BindOfferFromContext jenv req with
    | error err =>
      have e : HandleJoin env jenv req w
          = ⟨none, w.emit (Event.respond 400 (Reply.error ("invalid offer: " ++ err)))⟩ := by
        simp only [HandleJoin, if_neg hcond, hb]
      rw [e]
      exact RelayInv_trace w [_] hinv rfl
    | ok offer =>
      cases hpc : jenv.newPeerConnectionErr w.trace (getWebRTCConfigFromEnv jenv.getenv) with
      | some err =>
        have e : HandleJoin env jenv req w
            = ⟨none, w.withTrace (w.trace ++ [Event.newPeerConnection none,
                Event.respond 500 (Reply.error ("pc create: " ++ err))])⟩ := by
          simp [HandleJoin, if_neg hcond, hb, createPeerConnection, hpc, World.emit,
            World.withTrace]
        rw [e]
        exact RelayInv_trace w _ hinv rfl
      | none =>
        obtain ⟨a, hroom⟩ := getOrCreateRoom_some req.room w (hinv.1 req.room)
        obtain ⟨g1, g2, g3, g4, g5, -⟩ := getOrCreateRoom_room req.room w a hroom
        obtain ⟨j1, j2, j3, j4, j5, j6, n, j7⟩ := joinedWorld_spec jenv req w a hpc hroom
        have hW := RelayInv_getOrCreateRoom req.room w hinv
        have hJ : RelayInv (joinedWorld jenv req w) := by
          refine RelayInv_join (getOrCreateRoom req.room w).2 _ a req.peer
            { id := req.peer, pc := some w.nextConn, roomRef := some a, data := none,
              closed := Chan.made } hW j1 j4 (by rw [j5, g3]) (by rw [j6, g4]) ?_ ?_
            (by rw [g4]) ?_
          · rw [j2, g3]
          · rw [j3, g2, g3]
          · rw [j7, g5, closeCalls_append]
            simp [closeCalls, Event.closedConn]
        have hRa : Registered (joinedWorld jenv req w) a := ⟨req.room, by rw [j1]; exact g1⟩
        have hka : ((joinedWorld jenv req w).roomAt a).peers.lookup req.peer
            = some (some w.nextPeer) := by
          rw [j2]
          simp only [Function.update_same, AList.lookup_insert]
        have hpa : ((joinedWorld jenv req w).peerAt w.nextPeer).pc = some w.nextConn := by
          rw [j3]
          simp only [Function.update_same]
        obtain ⟨-, o2, o3, o4, o5, evs, o6, -, o8⟩ :=
          HandleJoin_outcome env jenv req w offer a hreq hb hpc hroom
        rcases o8 with ⟨msg, -, r2, -, -, -, r6, r7⟩ | ⟨ld, -, r2, -, -, -, r6, r7⟩
        · have hpcs : ∀ q, ((HandleJoin env jenv req w).world.peerAt q).pc
              = ((joinedWorld jenv req w).peerAt q).pc := by
            intro q
            rw [r7]
            by_cases e : q = w.nextPeer
            · subst e
              simp only [Function.update_same]
            · rw [Function.update_noteq e]
          have hmem : ∀ a1 k q,
              ((HandleJoin env jenv req w).world.roomAt a1).peers.lookup k = some (some q) →
              ((joinedWorld jenv req w).roomAt a1).peers.lookup k = some (some q)
              ∧ ¬ (a1 = a ∧ k = req.peer) := by
            intro a1 k q h
            rw [r6] at h
            by_cases e : a1 = a
            · subst e
              simp only [Function.update_same] at h
              by_cases ek : k = req.peer
              · subst ek
                rw [AList.lookup_erase] at h
                cases h
              · rw [AList.lookup_erase_ne ek] at h
                exact ⟨h, fun hh => ek hh.2⟩
            · rw [Function.update_noteq e] at h
              exact ⟨h, fun hh => e hh.1⟩
          have hR : ∀ a1, Registered (HandleJoin env jenv req w).world a1 →
              Registered (joinedWorld jenv req w) a1 := by
            rintro a1 ⟨id1, h⟩
            exact ⟨id1, by rw [← o2]; exact h⟩
          refine RelayInv_mono _ _ hJ ?_ ?_ hpcs (Nat.le_of_eq o3.symm)
            (Nat.le_of_eq o4.symm) (Nat.le_of_eq o5.symm) ?_
          · intro id1 r h
            rw [o2] at h
            exact h
          · intro a1 k q _ h
            exact (hmem a1 k q h).1
          · intro c hc
            rw [o6, closeCalls_append, r2, List.mem_append, List.mem_singleton] at hc
            rcases hc with h | h
            · exact Or.inl h
            · subst h
              right
              refine ⟨by rw [o5, j6]; exact Nat.lt_succ_self _, ?_⟩
              intro a1 k q ha1 hk hc
              obtain ⟨m1, m2⟩ := hmem a1 k q hk
              rw [hpcs] at hc
              exact m2 (hJ.2.2.2.2.2 a1 a k req.peer q w.nextPeer _ (hR a1 ha1) hRa m1 hka hc hpa)
        · refine RelayInv_mono _ _ hJ ?_ ?_ (fun q => by rw [r7]) (Nat.le_of_eq o3.symm)
            (Nat.le_of_eq o4.symm) (Nat.le_of_eq o5.symm) ?_
          · intro id1 r h
            rw [o2] at h
            exact h
          · intro a1 k q _ h
            rw [r6] at h
            exact h
          · intro c hc
            rw [o6, closeCalls_append, r2, List.append_nil] at hc
            exact Or.inl hc

/-- Every call keeps the invariant, so it holds in every state that calls reach
from the initial state. -/
theorem runCalls_inv (env : Env) (jenv : JoinEnv) (calls : List Call) (w : World)
    (hinv : RelayInv w) : RelayInv (runCalls env jenv calls w) := by
  induction calls generalizing w with
  | nil => exact hinv
  | cons c cs ih =>
    apply ih
    cases c with
    | join req => exact RelayInv_HandleJoin env jenv req w hinv
    | removePeer room id => exact RelayInv_removePeer room id w hinv
    | closeRoom id => exact RelayInv_CloseRoom env id w hinv
    | closeAll => exact RelayInv_CloseAll env w hinv

/-- Every character of a piece of `splitChars` is a character of the input. -/
theorem splitChars_subset (sep : Char) (cs : List Char) :
    ∀ p ∈ splitChars sep cs, ∀ c ∈ p, c ∈ cs := by
  induction cs with
  | nil =>
    intro p hp c hc
    simp only [splitChars, List.mem_singleton] at hp
    subst hp
    exact hc
  | cons d rest ih =>
    intro p hp c hc
    by_cases hd : d = sep
    · simp only [splitChars, hd, if_true, List.mem_cons] at hp
      rcases hp with rfl | hp
      · cases hc
      · exact List.mem_cons_of_mem _ (ih p hp c hc)
    · cases hs : splitChars sep rest with
      | nil =>
        simp only [splitChars, hd, if_false, hs, List.mem_singleton] at hp
        subst hp
        rcases List.mem_singleton.1 hc with rfl
        exact List.mem_cons_self _ _
      | cons x xs =>
        simp only [splitChars, hd, if_false, hs, List.mem_cons] at hp
        rw [hs] at ih
        rcases hp with rfl | hp
        · rcases List.mem_cons.1 hc with h | h
          · rw [h]; exact List.mem_cons_self _ _
          · exact List.mem_cons_of_mem _ (ih x (List.mem_cons_self _ _) c h)
        · exact List.mem_cons_of_mem _ (ih p (List.mem_cons_of_mem _ hp) c hc)

/-- Trimming a string of white space leaves the empty string. -/
theorem TrimSpace_blank (s : String) (h : ∀ c ∈ s.toList, isSpace c = true) :
    TrimSpace s = "" := by
  have e : s.toList.dropWhile isSpace = [] := by
    rw [List.dropWhile_eq_nil_iff]
    exact h
  simp only [TrimSpace, e, List.rdropWhile_nil]

/-- C28: when `STUN_URLS` is not empty and holds only commas and white space, the
loop over its pieces adds no server and the default server is not used: the
configuration holds no STUN server, so its server list is empty unless the three
TURN variables are set, in which case it holds the TURN server alone. -/
theorem stun_blank_no_server (getenv : String → String)
    (hne : getenv "STUN_URLS" ≠ "")
    (hblank : ∀ c ∈ (getenv "STUN_URLS").toList, c = ',' ∨ isSpace c = true) :
    (stunConfig getenv).ICEServers = []
    ∧ (¬ (getenv "TURN_URL" ≠ "" ∧ getenv "TURN_USER" ≠ "" ∧ getenv "TURN_PASS" ≠ "") →
        (getWebRTCConfigFromEnv getenv).ICEServers = [])
    ∧ (getenv "TURN_URL" ≠ "" ∧ getenv "TURN_USER" ≠ "" ∧ getenv "TURN_PASS" ≠ "" →
        (getWebRTCConfigFromEnv getenv).ICEServers
          = [{ URLs := [getenv "TURN_URL"], Username := getenv "TURN_USER",
               Credential := some (getenv "TURN_PASS") }]) := by
  have hpieces : ∀ u ∈ Split (getenv "STUN_URLS") ',', TrimSpace u = "" := by
    intro u hu
    simp only [Split, List.mem_map] at hu
    obtain ⟨p, hp, rfl⟩ := hu
    apply TrimSpace_blank
    intro c hc
    have hc1 : c ∈ p := hc
    rcases hblank c (splitChars_subset ',' _ p hp c hc1) with h | h
    · rw [h] at hc1
      exact absurd hc1 (splitChars_no_sep ',' _ p hp)
    · exact h
  have hstun : (stunConfig getenv).ICEServers = [] := by
    simp only [stunConfig, if_neg hne]
    rw [stunLoop_eq]
    simp only [List.nil_append, List.map_eq_nil_iff, List.filter_eq_nil_iff, List.mem_map]
    rintro u ⟨v, hv, rfl⟩
    simp [hpieces v hv]
  refine ⟨hstun, ?_, ?_⟩
  · intro ht
    simp only [getWebRTCConfigFromEnv]
    rw [if_neg ht]
    exact hstun
  · intro ht
    simp only [getWebRTCConfigFromEnv]
    rw [if_pos ht]
    simp only [hstun, List.nil_append]

/-- With `STUN_URLS` set to a comma between two blanks and no TURN variable, the
configuration holds no server at all. -/
theorem stun_blank_no_server_witness :
    blankStunEnv "STUN_URLS" ≠ ""
    ∧ (∀ c ∈ (blankStunEnv "STUN_URLS").toList, c = ',' ∨ isSpace c = true)
    ∧ (getWebRTCConfigFromEnv blankStunEnv).ICEServers = [] :=
  ⟨by decide, by decide,
    (stun_blank_no_server blankStunEnv (by decide) (by decide)).2.1 (by decide)⟩

/-- One turn of the second loop of `forwardTrack`: the loop goes on with the
rest of the snapshot whatever happened, and of the calls of the turn the
creation is made for a peer that is served, the attachment when the creation
succeeded, and the two tasks are started together. -/
theorem forwardLoop_turn (env : Env) (roomID senderID : String) (remote : Nat)
    (q : Nat) (rest : List Ptr) (w : World) :
    ∃ w1 chunk,
      forwardLoop env roomID senderID remote (some q :: rest) w
        = forwardLoop env roomID senderID remote rest w1
      ∧ w1.peerAt = w.peerAt ∧ w1.trace = w.trace ++ chunk
      ∧ drainTasks chunk = (forwardTasks chunk).map Task.sender
      ∧ (trackCreations chunk).length = (eligibleDest w senderID (some q)).toList.length
      ∧ (attachments chunk).map some
          = ((eligibleDest w senderID (some q)).toList.filter
              (fun d => !env.newTrackErr remote d)).map (fun d => (w.peerAt d).pc)
      ∧ (skipLogs chunk).length
          = ((eligibleDest w senderID (some q)).toList.filter
              (fun d => env.newTrackErr remote d || env.addTrackErr remote d)).length := by
  by_cases hid : (w.peerAt q).id = senderID
  · exact ⟨w, [], by simp [forwardLoop, hid], rfl, by simp, rfl,
      by simp [eligibleDest, hid, trackCreations],
      by simp [eligibleDest, hid, attachments],
      by simp [eligibleDest, hid, skipLogs]⟩
  · cases hpc : (w.peerAt q).pc with
    | none =>
      exact ⟨w, [], by simp [forwardLoop, hid, hpc], rfl, by simp, rfl,
        by simp [eligibleDest, hid, hpc, trackCreations],
        by simp [eligibleDest, hid, hpc, attachments],
        by simp [eligibleDest, hid, hpc, skipLogs]⟩
    | some pc =>
      by_cases hnew : env.newTrackErr remote q = true
      · exact ⟨(w.emit (Event.newLocalTrack remote none)).emit
            (Event.log (LogMsg.newTrackError roomID (w.peerAt q).id)),
          [Event.newLocalTrack remote none,
            Event.log (LogMsg.newTrackError roomID (w.peerAt q).id)],
          by simp [forwardLoop, hid, hpc, hnew], rfl, by simp [World.emit],
          by simp [drainTasks, forwardTasks, Event.drainTask, Event.task],
          by simp [eligibleDest, hid, hpc, trackCreations, Event.trackCreation],
          by simp [eligibleDest, hid, hpc, attachments, Event.attachment, hnew],
          by simp [eligibleDest, hid, hpc, skipLogs, Event.skipLog, hnew]⟩
      · by_cases hadd : env.addTrackErr remote q = true
        · exact ⟨({ w.emit (Event.newLocalTrack remote (some w.nextTrack)) with
                nextTrack := w.nextTrack + 1 }.emit
              (Event.addTrack pc w.nextTrack none)).emit
              (Event.log (LogMsg.addTrackError roomID (w.peerAt q).id)),
            [Event.newLocalTrack remote (some w.nextTrack),
              Event.addTrack pc w.nextTrack none,
              Event.log (LogMsg.addTrackError roomID (w.peerAt q).id)],
            by simp [forwardLoop, hid, hpc, hnew, hadd], rfl, by simp [World.emit],
            by simp [drainTasks, forwardTasks, Event.drainTask, Event.task],
            by simp [eligibleDest, hid, hpc, trackCreations, Event.trackCreation],
            by simp [eligibleDest, hid, hpc, attachments, Event.attachment, hnew],
            by simp [eligibleDest, hid, hpc, skipLogs, Event.skipLog, hnew, hadd]⟩
        · exact ⟨({ { w.emit (Event.newLocalTrack remote (some w.nextTrack)) with
                  nextTrack := w.nextTrack + 1 }.emit
                (Event.addTrack pc w.nextTrack (some w.nextSender)) with
                nextSender := w.nextSender + 1 }.emit
              (Event.goForward remote w.nextTrack q w.nextSender)).emit
              (Event.goDrain w.nextSender),
            [Event.newLocalTrack remote (some w.nextTrack),
              Event.addTrack pc w.nextTrack (some w.nextSender),
              Event.goForward remote w.nextTrack q w.nextSender,
              Event.goDrain w.nextSender],
            by simp [forwardLoop, hid, hpc, hnew, hadd, World.emit], rfl,
            by simp [World.emit],
            by simp [drainTasks, forwardTasks, Event.drainTask, Event.task],
            by simp [eligibleDest, hid, hpc, trackCreations, Event.trackCreation],
            by simp [eligibleDest, hid, hpc, attachments, Event.attachment, hnew],
            by simp [eligibleDest, hid, hpc, skipLogs, Event.skipLog, hnew, hadd]⟩

/-- Which peers `forwardTrack` tries to serve depends on the peer objects only. -/
theorem eligibleDest_congr (w w1 : World) (senderID : String) (h : w1.peerAt = w.peerAt) :
    eligibleDest w1 senderID = eligibleDest w senderID := by
  funext p
  cases p with
  | none => rfl
  | some q => simp only [eligibleDest, h]

/-- The peers for which `forwardTrack` gets through are the peers it tries to
serve for which neither library call fails. -/
theorem forwardDest_filter (env : Env) (w : World) (senderID : String) (remote : Nat)
    (l : List Ptr) :
    l.filterMap (forwardDest env w senderID remote)
      = (l.filterMap (eligibleDest w senderID)).filter
          (fun d => !env.newTrackErr remote d && !env.addTrackErr remote d) := by
  induction l with
  | nil => rfl
  | cons p rest ih =>
    cases p with
    | none => simpa [forwardDest, eligibleDest] using ih
    | some q =>
      by_cases hid : (w.peerAt q).id = senderID
      · simpa [forwardDest, eligibleDest, hid] using ih
      · cases hpc : (w.peerAt q).pc with
        | none => simpa [forwardDest, eligibleDest, hid, hpc] using ih
        | some pc =>
          cases hn : env.newTrackErr remote q <;> cases ha : env.addTrackErr remote q <;>
            simp [forwardDest, eligibleDest, hid, hpc, hn, ha, ih]

/-- The calls of the second loop of `forwardTrack` on a snapshot without nil
pointer: one creation per peer that is served, one attachment per creation that
succeeded, one log line per failure, one drain task per forwarding task. -/
theorem forwardLoop_attempts (env : Env) (roomID senderID : String) (remote : Nat)
    (l : List Ptr) (w : World) (hl : ∀ p ∈ l, p ≠ none) :
    ∃ evs, (forwardLoop env roomID senderID remote l w).world.trace = w.trace ++ evs
      ∧ drainTasks evs = (forwardTasks evs).map Task.sender
      ∧ (trackCreations evs).length = (l.filterMap (eligibleDest w senderID)).length
      ∧ (attachments evs).map some
          = ((l.filterMap (eligibleDest w senderID)).filter
              (fun d => !env.newTrackErr remote d)).map (fun d => (w.peerAt d).pc)
      ∧ (skipLogs evs).length
          = ((l.filterMap (eligibleDest w senderID)).filter
              (fun d => env.newTrackErr remote d || env.addTrackErr remote d)).length := by
  induction l generalizing w with
  | nil => exact ⟨[], by simp [forwardLoop], rfl, rfl, rfl, rfl⟩
  | cons p rest ih =>
    have hrest : ∀ p ∈ rest, p ≠ none := fun p hp => hl p (List.mem_cons_of_mem _ hp)
    cases p with
    | none => exact absurd rfl (hl none (List.mem_cons_self _ _))
    | some q =>
      obtain ⟨w1, chunk, heq, hpe, htr, t1, t2, t3, t4⟩ :=
        forwardLoop_turn env roomID senderID remote q rest w
      obtain ⟨evs, i1, i2, i3, i4, i5⟩ := ih w1 hrest
      rw [eligibleDest_congr w w1 senderID hpe] at i3 i4 i5
      rw [hpe] at i4
      have hcons : (some q :: rest).filterMap (eligibleDest w senderID)
          = (eligibleDest w senderID (some q)).toList
              ++ rest.filterMap (eligibleDest w senderID) := by
        cases h : eligibleDest w senderID (some q) <;> simp [List.filterMap_cons, h]
      rw [heq, hcons]
      refine ⟨chunk ++ evs, by rw [i1, htr, List.append_assoc], ?_, ?_, ?_, ?_⟩
      · simp only [drainTasks, forwardTasks, List.filterMap_append, List.map_append] at t1 i2 ⊢
        rw [t1, i2]
      · simp only [trackCreations, List.filterMap_append, List.length_append] at t2 i3 ⊢
        rw [t2, i3]
      · simp only [attachments, List.filterMap_append, List.map_append,
          List.filter_append] at t3 i4 ⊢
        rw [t3, i4]
      · simp only [skipLogs, List.filterMap_append, List.length_append,
          List.filter_append] at t4 i5 ⊢
        rw [t4, i5]

/-- C24: on a room without nil peer and for every pattern of failures of
`NewTrackLocalStaticRTP` and `AddTrack`, `forwardTrack` returns; it calls
`NewTrackLocalStaticRTP` once for every peer of the snapshot that it serves (id
other than the sender's, with a connection), whatever failed for the peers
before; it calls `AddTrack` on the connections of exactly those for which the
creation succeeded; it logs one line per failure; the forwarding tasks are for
exactly the peers for which both calls succeeded, in the order of the snapshot;
and with every forwarding task it starts the drain task of the same sender. -/
theorem forwardTrack_skips_failed (env : Env) (w : World) (a : Nat) (senderID : String)
    (remote : Nat) (h : NoNilPeers w a) :
    (forwardTrack env (some a) senderID remote w).panic = none
    ∧ (forwardTasks (newEvents w (forwardTrack env (some a) senderID remote w).world)).map
        Task.dst
        = (eligibleDests w a senderID).filter
            (fun d => !env.newTrackErr remote d && !env.addTrackErr remote d)
    ∧ drainTasks (newEvents w (forwardTrack env (some a) senderID remote w).world)
        = (forwardTasks (newEvents w (forwardTrack env (some a) senderID remote w).world)).map
            Task.sender
    ∧ (trackCreations (newEvents w (forwardTrack env (some a) senderID remote w).world)).length
        = (eligibleDests w a senderID).length
    ∧ (attachments (newEvents w (forwardTrack env (some a) senderID remote w).world)).map some
        = ((eligibleDests w a senderID).filter (fun d => !env.newTrackErr remote d)).map
            (fun d => (w.peerAt d).pc)
    ∧ (skipLogs (newEvents w (forwardTrack env (some a) senderID remote w).world)).length
        = ((eligibleDests w a senderID).filter
            (fun d => env.newTrackErr remote d || env.addTrackErr remote d)).length := by
  have hsnap : ∀ p ∈ (w.roomAt a).peers.entries.map (fun e => e.2), p ≠ none := by
    intro p hp
    obtain ⟨e, he, rfl⟩ := List.mem_map.1 hp
    exact h e he
  obtain ⟨s1, -, -, -, evs, s5, s6, -⟩ :=
    forwardLoop_spec env (w.roomAt a).id senderID remote _ w hsnap
  obtain ⟨evs2, a1, a2, a3, a4, a5⟩ :=
    forwardLoop_attempts env (w.roomAt a).id senderID remote _ w hsnap
  have hn : newEvents w (forwardTrack env (some a) senderID remote w).world = evs :=
    newEvents_append _ _ _ s5
  have he : evs2 = evs := by
    have := s5.symm.trans a1
    exact (List.append_cancel_left this).symm
  subst he
  rw [hn]
  exact ⟨s1, by rw [s6, forwardDest_filter]; rfl, a2, a3, a4, a5⟩

/-- In room 1 of `tenRooms`, with `AddTrack` failing for the peer at address 6,
the track of `p0` goes to the peers at 7, 8 and 9, each with its drain task, and
all four other peers got their call of `NewTrackLocalStaticRTP`. -/
theorem forwardTrack_skips_failed_witness :
    NoNilPeers tenRooms 1
    ∧ (forwardTasks (newEvents tenRooms
        (forwardTrack attachFailsEnv (some 1) "p0" 7 tenRooms).world)).map Task.dst = [7, 8, 9]
    ∧ (trackCreations (newEvents tenRooms
        (forwardTrack attachFailsEnv (some 1) "p0" 7 tenRooms).world)).length = 4 :=
  ⟨by decide,
    ((forwardTrack_skips_failed attachFailsEnv tenRooms 1 "p0" 7 (by decide)).2.1).trans
      (by decide),
    ((forwardTrack_skips_failed attachFailsEnv tenRooms 1 "p0" 7 (by decide)).2.2.2.1).trans
      (by decide)⟩

/-- The registry after a join is the registry before it, or the registry after
the lookup `getOrCreateRoom` of the join. -/
theorem HandleJoin_registry (env : Env) (jenv : JoinEnv) (req : Request) (w : World) :
    (HandleJoin env jenv req w).world.sfu = w.sfu
    ∨ (HandleJoin env jenv req w).world.sfu = (getOrCreateRoom req.room w).2.sfu := by
  by_cases hcond : req.room = "" ∨ req.peer = ""
  · left
    simp only [HandleJoin, if_pos hcond]
    rfl
  · have hreq : req.room ≠ "" ∧ req.peer ≠ "" :=
      ⟨fun h => hcond (Or.inl h), fun h => hcond (Or.inr h)⟩
    cases hb : BindOfferFromContext jenv req with
    | error err =>
      left
      simp only [HandleJoin, if_neg hcond, hb]
      rfl
    | ok offer =>
      cases hpc : jenv.newPeerConnectionErr w.trace (getWebRTCConfigFromEnv jenv.getenv) with
      | some err =>
        left
        simp only [HandleJoin, if_neg hcond, hb, createPeerConnection, hpc]
        rfl
      | none =>
        right
        cases hroom : (getOrCreateRoom req.room w).1 with
        | some a =>
          exact (HandleJoin_cases env jenv req w offer a hreq hb hpc hroom).2.1
        | none =>
          obtain ⟨p1, p2, p3, p4, -⟩ :=
            createPeerConnection_ok jenv (getWebRTCConfigFromEnv jenv.getenv) w hpc
          obtain ⟨c1, c2, -⟩ := getOrCreateRoom_congr req.room w
            (createPeerConnection jenv (getWebRTCConfigFromEnv jenv.getenv) w).2 p2 p3 p4
          rw [← c2]
          unfold HandleJoin
          rw [if_neg hcond]
          simp only [hb]
          rw [p1]
          simp only [c1, hroom, addPeer]
          rfl

/-- A call other than `CloseRoom` for the id and `CloseAll` keeps the entry of
the id in the registry. -/
theorem actionRun_keeps (env : Env) (jenv : JoinEnv) (id : String) (r : Ptr)
    (act : Action) (w : World) (h : w.sfu.rooms.lookup id = some r)
    (hact : act.closes id = false) :
    (act.run env jenv w).sfu.rooms.lookup id = some r := by
  have hget : ∀ id1, (getOrCreateRoom id1 w).2.sfu.rooms.lookup id = some r := by
    intro id1
    cases hl : w.sfu.rooms.lookup id1 with
    | some r1 => rw [getOrCreateRoom_present id1 w r1 hl]; exact h
    | none =>
      rw [getOrCreateRoom_absent id1 w hl]
      have hne : id ≠ id1 := by
        intro e
        rw [e, hl] at h
        cases h
      simp only [AList.lookup_insert_ne hne]
      exact h
  cases act with
  | getOrCreateRoom id1 => exact hget id1
  | addPeer room p =>
    cases room with
    | none => exact h
    | some a =>
      cases p with
      | none => exact h
      | some q => exact h
  | removePeer room id1 =>
    cases room with
    | none => exact h
    | some a =>
      show (removePeer (some a) id1 w).world.sfu.rooms.lookup id = some r
      rw [(removePeer_world w a id1).2.1]
      exact h
  | broadcastData room senderID data =>
    cases room with
    | none => exact h
    | some a =>
      show (broadcastLoop env senderID data (w.roomAt a).peers.entries w).sfu.rooms.lookup id
        = some r
      rw [broadcastLoop_frame]
      exact h
  | forwardTrack room senderID remote =>
    cases room with
    | none => exact h
    | some a =>
      show (forwardLoop env (w.roomAt a).id senderID remote
        ((w.roomAt a).peers.entries.map (fun e => e.2)) w).world.sfu.rooms.lookup id = some r
      rw [(forwardLoop_frame env _ senderID remote _ w).2]
      exact h
  | join req =>
    show (HandleJoin env jenv req w).world.sfu.rooms.lookup id = some r
    rcases HandleJoin_registry env jenv req w with e | e
    · rw [e]; exact h
    · rw [e]; exact hget req.room
  | closeRoom id1 =>
    have hne : id ≠ id1 := by
      intro e
      simp [Action.closes, e] at hact
    show (CloseRoom env id1 w).world.sfu.rooms.lookup id = some r
    cases hl : w.sfu.rooms.lookup id1 with
    | none =>
      have e : CloseRoom env id1 w = ⟨none, w⟩ := by simp only [CloseRoom, hl]
      rw [e]
      exact h
    | some room =>
      cases room with
      | none =>
        have e : CloseRoom env id1 w
            = ⟨some Panic.nilDeref, { w with sfu := { rooms := w.sfu.rooms.erase id1 } }⟩ := by
          simp only [CloseRoom, hl]
        rw [e]
        simp only [AList.lookup_erase_ne hne]
        exact h
      | some a =>
        have e : CloseRoom env id1 w
            = closePeers env (w.roomAt a).peers.entries
                { w with sfu := { rooms := w.sfu.rooms.erase id1 } } := by
          simp only [CloseRoom, hl]
        rw [e, closePeers_frame]
        show (w.sfu.rooms.erase id1).lookup id = some r
        rw [AList.lookup_erase_ne hne]
        exact h
  | closeAll => simp [Action.closes] at hact

/-- Calls none of which is `CloseRoom` for the id or `CloseAll` keep the entry of
the id in the registry. -/
theorem runActions_keeps (env : Env) (jenv : JoinEnv) (id : String) (r : Ptr)
    (acts : List Action) (w : World) (h : w.sfu.rooms.lookup id = some r)
    (hacts : ∀ act ∈ acts, act.closes id = false) :
    (runActions env jenv acts w).sfu.rooms.lookup id = some r := by
  induction acts generalizing w with
  | nil => exact h
  | cons act rest ih =>
    exact ih _ (actionRun_keeps env jenv id r act w h (hacts act (List.mem_cons_self _ _)))
      (fun b hb => hacts b (List.mem_cons_of_mem _ hb))

/-- C26: after `getOrCreateRoom id`, the registry holds the returned room under
the id, and it still holds the same pointer after every sequence of calls of
`getOrCreateRoom`, `addPeer`, `removePeer`, `broadcastData`, `forwardTrack`,
`HandleJoin` (answered, rejected or aborted) and `CloseRoom` for other ids,
whether they return or panic and however many peers the room has left; a
`CloseRoom` for the id, and `CloseAll`, remove the entry. -/
theorem rooms_never_reaped (env : Env) (jenv : JoinEnv) (id : String) (w : World)
    (acts : List Action) (hacts : ∀ act ∈ acts, act.closes id = false) :
    (runActions env jenv acts (getOrCreateRoom id w).2).sfu.rooms.lookup id
      = some (getOrCreateRoom id w).1
    ∧ (CloseRoom env id
        (runActions env jenv acts (getOrCreateRoom id w).2)).world.sfu.rooms.lookup id = none
    ∧ (CloseAll env
        (runActions env jenv acts (getOrCreateRoom id w).2)).world.sfu.rooms.lookup id = none := by
  have hkeep := runActions_keeps env jenv id (getOrCreateRoom id w).1 acts
    (getOrCreateRoom id w).2 (getOrCreateRoom_fixed id w).1 hacts
  refine ⟨hkeep, ?_, ?_⟩
  · cases hr : (getOrCreateRoom id w).1 with
    | none =>
      rw [hr] at hkeep
      have e : CloseRoom env id (runActions env jenv acts (getOrCreateRoom id w).2)
          = ⟨some Panic.nilDeref,
              { runActions env jenv acts (getOrCreateRoom id w).2 with
                sfu := { rooms :=
                  (runActions env jenv acts (getOrCreateRoom id w).2).sfu.rooms.erase id } }⟩ := by
        simp only [CloseRoom, hkeep]
      rw [e]
      simp only [AList.lookup_erase]
    | some a =>
      rw [hr] at hkeep
      have e : CloseRoom env id (runActions env jenv acts (getOrCreateRoom id w).2)
          = closePeers env ((runActions env jenv acts (getOrCreateRoom id w).2).roomAt a).peers.entries
              { runActions env jenv acts (getOrCreateRoom id w).2 with
                sfu := { rooms :=
                  (runActions env jenv acts (getOrCreateRoom id w).2).sfu.rooms.erase id } } := by
        simp only [CloseRoom, hkeep]
      rw [e, closePeers_frame]
      show ((runActions env jenv acts (getOrCreateRoom id w).2).sfu.rooms.erase id).lookup id = none
      simp only [AList.lookup_erase]
  · have e : CloseAll env (runActions env jenv acts (getOrCreateRoom id w).2)
        = closeRooms env (runActions env jenv acts (getOrCreateRoom id w).2).sfu.rooms.entries
            { runActions env jenv acts (getOrCreateRoom id w).2 with sfu := { rooms := ∅ } } := rfl
    rw [e, closeRooms_frame]
    rfl

/-- The room `lobby` stays registered at address 0 through the calls of
`emptyingActions`, after which it has no peer. -/
theorem rooms_never_reaped_witness :
    (∀ act ∈ emptyingActions, act.closes "lobby" = false)
    ∧ ((runActions workingEnv okJoinEnv emptyingActions
        (getOrCreateRoom "lobby" World.init).2).roomAt 0).peers.entries = []
    ∧ (runActions workingEnv okJoinEnv emptyingActions
        (getOrCreateRoom "lobby" World.init).2).sfu.rooms.lookup "lobby" = some (some 0) :=
  ⟨by decide, by decide,
    (rooms_never_reaped workingEnv okJoinEnv "lobby" World.init emptyingActions (by decide)).1⟩

/-- Deleting a connection that is not a key leaves a subscriber map as it is. -/
theorem connSet_erase_absent (m : ConnSet) (conn : Ptr) (h : m.lookup conn = none) :
    m.erase conn = m := by
  apply AList.ext
  simp only [AList.erase]
  exact List.kerase_of_not_mem_keys (AList.lookup_eq_none.1 h)

/-- A subscriber map with a key has an entry. -/
theorem connSet_entries_ne_nil (m : ConnSet) (conn : Ptr) (h : m.lookup conn ≠ none) :
    m.entries ≠ [] := by
  intro e
  apply h
  rw [AList.lookup_eq_none, AList.mem_keys, AList.keys, e]
  simp

/-- Pruning twice is pruning once. -/
theorem prune_prune (conn : Ptr) (o : Option ConnSet) :
    prune conn (prune conn o) = prune conn o := by
  cases o with
  | none => rfl
  | some m =>
    by_cases h : (m.erase conn).entries.length = 0
    · simp only [prune, h, if_true]
    · have e : (m.erase conn).erase conn = m.erase conn :=
        connSet_erase_absent _ _ (by simp only [AList.lookup_erase])
      simp only [prune, h, if_false, e]

/-- What the loop of `Unregister` leaves under each channel: the pruned map for a
channel of the list, the map from before for any other. -/
theorem unregisterLoop_lookup (conn : Ptr) (l : List String) (channels : GoMap ConnSet)
    (ch : String) :
    (unregisterLoop conn l channels).lookup ch
      = if ch ∈ l then prune conn (channels.lookup ch) else channels.lookup ch := by
  induction l generalizing channels with
  | nil => simp [unregisterLoop]
  | cons c rest ih =>
    have hstep : ∀ channels1 : GoMap ConnSet,
        unregisterLoop conn (c :: rest) channels = unregisterLoop conn rest channels1 →
        (∀ k, channels1.lookup k
          = if k = c then prune conn (channels.lookup c) else channels.lookup k) →
        (unregisterLoop conn (c :: rest) channels).lookup ch
          = if ch ∈ c :: rest then prune conn (channels.lookup ch) else channels.lookup ch := by
      intro channels1 heq hk
      rw [heq, ih channels1, hk ch]
      by_cases e : ch = c
      · subst e
        simp only [if_true, List.mem_cons, true_or, prune_prune]
        split <;> rfl
      · simp only [e, if_false, List.mem_cons, false_or]
    cases hl : channels.lookup c with
    | none =>
      apply hstep channels (by simp only [unregisterLoop, hl])
      intro k
      by_cases e : k = c
      · subst e
        simp only [if_true, hl, prune]
      · simp only [e, if_false]
    | some subs =>
      by_cases hlen : (subs.erase conn).entries.length = 0
      · apply hstep ((channels.insert c (subs.erase conn)).erase c)
          (by simp only [unregisterLoop, hl, hlen, if_true])
        intro k
        by_cases e : k = c
        · subst e
          simp only [if_true, hl, prune, hlen, AList.lookup_erase]
        · simp only [e, if_false, AList.lookup_erase_ne e, AList.lookup_insert_ne e]
      · apply hstep (channels.insert c (subs.erase conn))
          (by simp only [unregisterLoop, hl, hlen, if_false])
        intro k
        by_cases e : k = c
        · subst e
          simp only [if_true, hl, prune, hlen, if_false, AList.lookup_insert]
        · simp only [e, if_false, AList.lookup_insert_ne e]

/-- After `Unregister`, every channel holds its pruned subscriber map. -/
theorem Unregister_lookup (conn : Ptr) (s : HubState) (ch : String) :
    (Unregister conn s).state.hub.channels.lookup ch = prune conn (s.hub.channels.lookup ch)
    ∧ (Unregister conn s).state.hub.connections = s.hub.connections.erase conn := by
  have e : (Unregister conn s).state.hub
      = { connections := s.hub.connections.erase conn,
          channels := unregisterLoop conn s.hub.channels.keys s.hub.channels } := by
    cases conn <;> rfl
  rw [e]
  refine ⟨?_, rfl⟩
  show (unregisterLoop conn s.hub.channels.keys s.hub.channels).lookup ch = _
  rw [unregisterLoop_lookup]
  by_cases hk : ch ∈ s.hub.channels.keys
  · rw [if_pos hk]
  · rw [if_neg hk]
    have : s.hub.channels.lookup ch = none := AList.lookup_eq_none.2 hk
    rw [this]
    rfl

/-- After `Unsubscribe`, the channel holds its pruned subscriber map, and every
other channel its map from before. -/
theorem Unsubscribe_lookup (conn : Ptr) (channel : String) (s : HubState) (ch : String) :
    (Unsubscribe conn channel s).state.hub.channels.lookup ch
      = if ch = channel then prune conn (s.hub.channels.lookup ch)
        else s.hub.channels.lookup ch := by
  cases hl : s.hub.channels.lookup channel with
  | none =>
    have e : Unsubscribe conn channel s = ⟨none, s⟩ := by simp only [Unsubscribe, hl]
    rw [e]
    by_cases hc : ch = channel
    · subst hc
      simp only [if_true, hl, prune]
    · simp only [hc, if_false]
  | some subs =>
    by_cases hlen : (subs.erase conn).entries.length = 0
    · have e : Unsubscribe conn channel s
          = ⟨none, { s with hub := { s.hub with
              channels := (s.hub.channels.insert channel (subs.erase conn)).erase channel } }⟩ := by
        simp only [Unsubscribe, hl, hlen, if_true]
      rw [e]
      by_cases hc : ch = channel
      · subst hc
        simp only [if_true, hl, prune, hlen, AList.lookup_erase]
      · simp only [hc, if_false, AList.lookup_erase_ne hc, AList.lookup_insert_ne hc]
    · have e : Unsubscribe conn channel s
          = ⟨none, { s with hub := { s.hub with
              channels := s.hub.channels.insert channel (subs.erase conn) } }⟩ := by
        simp only [Unsubscribe, hl, hlen, if_false]
      rw [e]
      by_cases hc : ch = channel
      · subst hc
        simp only [if_true, hl, prune, hlen, if_false, AList.lookup_insert]
      · simp only [hc, if_false, AList.lookup_insert_ne hc]

/-- A pruned subscriber map is not empty. -/
theorem prune_nonempty (conn : Ptr) (o : Option ConnSet) (subs : ConnSet)
    (h : prune conn o = some subs) : subs.entries ≠ [] ∧ ∃ m, o = some m ∧ subs = m.erase conn := by
  cases o with
  | none => cases h
  | some m =>
    by_cases hlen : (m.erase conn).entries.length = 0
    · simp only [prune, hlen, if_true] at h
      cases h
    · simp only [prune, hlen, if_false, Option.some.injEq] at h
      subst h
      exact ⟨fun e => hlen (by rw [e]; rfl), m, rfl, rfl⟩

/-- Every call of the hub keeps its channels non-empty. -/
theorem HubOp.run_keeps (op : HubOp) (s : HubState) (h : NoEmptyChannel s.hub) :
    NoEmptyChannel (op.run s).state.hub := by
  cases op with
  | register conn => exact h
  | subscribe conn channel =>
    intro ch subs hl
    have e : (HubOp.run (HubOp.subscribe conn channel) s).state.hub.channels
        = s.hub.channels.insert channel
            ((match s.hub.channels.lookup channel with
              | none => (∅ : ConnSet)
              | some subs => subs).insert conn true) := rfl
    rw [e] at hl
    by_cases hc : ch = channel
    · subst hc
      rw [AList.lookup_insert] at hl
      have := Option.some.inj hl
      subst this
      exact connSet_entries_ne_nil _ conn (by simp only [AList.lookup_insert]; simp)
    · rw [AList.lookup_insert_ne hc] at hl
      exact h ch subs hl
  | unsubscribe conn channel =>
    intro ch subs hl
    have e := Unsubscribe_lookup conn channel s ch
    have hl1 : (Unsubscribe conn channel s).state.hub.channels.lookup ch = some subs := hl
    rw [e] at hl1
    by_cases hc : ch = channel
    · rw [if_pos hc] at hl1
      exact (prune_nonempty conn _ subs hl1).1
    · rw [if_neg hc] at hl1
      exact h ch subs hl1
  | unregister conn =>
    intro ch subs hl
    have hl1 : (Unregister conn s).state.hub.channels.lookup ch = some subs := hl
    rw [(Unregister_lookup conn s ch).1] at hl1
    exact (prune_nonempty conn _ subs hl1).1

/-- Every sequence of calls of the hub keeps its channels non-empty. -/
theorem runHub_keeps (ops : List HubOp) (s : HubState) (h : NoEmptyChannel s.hub) :
    NoEmptyChannel (runHub ops s).hub := by
  induction ops generalizing s with
  | nil => exact h
  | cons op rest ih => exact ih _ (HubOp.run_keeps op s h)

/-- C29: from a new hub, after every sequence of `Register`, `Subscribe`,
`Unsubscribe` and `Unregister` calls no channel has an empty subscriber map; and
an `Unregister(conn)` in that state leaves `conn` neither in the connection map
nor in the subscriber map of any channel, while every other connection is
registered as before and subscribed to the same channels as before. -/
theorem hub_channels_nonempty (ops : List HubOp) :
    NoEmptyChannel (runHub ops HubState.init).hub
    ∧ ∀ conn,
      NoEmptyChannel (Unregister conn (runHub ops HubState.init)).state.hub
      ∧ (Unregister conn (runHub ops HubState.init)).state.hub.connections.lookup conn = none
      ∧ (∀ ch subs,
          (Unregister conn (runHub ops HubState.init)).state.hub.channels.lookup ch = some subs →
          subs.lookup conn = none)
      ∧ ∀ other, other ≠ conn →
          (Unregister conn (runHub ops HubState.init)).state.hub.connections.lookup other
            = (runHub ops HubState.init).hub.connections.lookup other
          ∧ ∀ ch, Subscribed (Unregister conn (runHub ops HubState.init)).state.hub other ch
              ↔ Subscribed (runHub ops HubState.init).hub other ch := by
  have hinit : NoEmptyChannel HubState.init.hub := by
    intro ch subs h
    cases h
  have hinv := runHub_keeps ops HubState.init hinit
  refine ⟨hinv, ?_⟩
  intro conn
  refine ⟨HubOp.run_keeps (HubOp.unregister conn) _ hinv, ?_, ?_, ?_⟩
  · rw [(Unregister_lookup conn _ "").2]
    simp only [AList.lookup_erase]
  · intro ch subs hl
    rw [(Unregister_lookup conn _ ch).1] at hl
    obtain ⟨-, m, -, rfl⟩ := prune_nonempty conn _ subs hl
    simp only [AList.lookup_erase]
  · intro other hne
    refine ⟨?_, ?_⟩
    · rw [(Unregister_lookup conn _ "").2, AList.lookup_erase_ne hne]
    · intro ch
      constructor
      · rintro ⟨subs, hl, hs⟩
        rw [(Unregister_lookup conn _ ch).1] at hl
        obtain ⟨-, m, hm, rfl⟩ := prune_nonempty conn _ subs hl
        rw [AList.lookup_erase_ne hne] at hs
        exact ⟨m, hm, hs⟩
      · rintro ⟨m, hm, hs⟩
        have hs1 : (m.erase conn).lookup other ≠ none := by
          rw [AList.lookup_erase_ne hne]
          exact hs
        have hlen : ¬ (m.erase conn).entries.length = 0 := by
          intro e
          exact connSet_entries_ne_nil _ other hs1 (List.length_eq_zero.1 e)
        refine ⟨m.erase conn, ?_, hs1⟩
        rw [(Unregister_lookup conn _ ch).1, hm]
        simp only [prune, hlen, if_false]

/-- The cases of one step of a forwarding task: there is no such task, or it has
returned (nothing happens); it reads a packet; its read fails and it returns; its
write succeeds; its write fails and it returns. -/
theorem stepPump_elim (writeErr : List PumpEvent → Nat → Bytes → Bool) (i : Nat) (m : Media)
    (P : Media → Prop)
    (hnone : m.pumps[i]? = none → P m)
    (hstopped : ∀ p, m.pumps[i]? = some p → p.pc = PumpPc.stopped → P m)
    (hpacket : ∀ p b rest, m.pumps[i]? = some p → p.pc = PumpPc.reading →
      m.inbound p.task.remote = ReadResult.packet b :: rest →
      P { world := m.world, inbound := Function.update m.inbound p.task.remote rest,
          pumps := m.pumps.set i
            { p with buf := b ++ p.buf.drop b.length, pc := PumpPc.writing b.length },
          effects := m.effects ++ [PumpEvent.read i p.task (ReadResult.packet b)] })
    (hreadfail : ∀ p res inb logs, m.pumps[i]? = some p → p.pc = PumpPc.reading →
      res.isPacket = false → (∀ e ∈ logs, PumpEvent.isLogOf i e = true) →
      ((m.inbound p.task.remote = [] ∧ inb = m.inbound)
        ∨ ∃ rest, m.inbound p.task.remote = res :: rest
            ∧ inb = Function.update m.inbound p.task.remote rest) →
      P { world := m.world, inbound := inb,
          pumps := m.pumps.set i { p with pc := PumpPc.stopped },
          effects := m.effects ++ PumpEvent.read i p.task res :: logs })
    (hwrite : ∀ p n, m.pumps[i]? = some p → p.pc = PumpPc.writing n →
      writeErr m.effects p.task.track (p.buf.take n) = false →
      P { world := m.world, inbound := m.inbound,
          pumps := m.pumps.set i { p with pc := PumpPc.reading },
          effects := m.effects ++ [PumpEvent.write i p.task (p.buf.take n) false] })
    (hwritefail : ∀ p n logs, m.pumps[i]? = some p → p.pc = PumpPc.writing n →
      writeErr m.effects p.task.track (p.buf.take n) = true →
      (∀ e ∈ logs, PumpEvent.isLogOf i e = true) →
      P { world := m.world, inbound := m.inbound,
          pumps := m.pumps.set i { p with pc := PumpPc.stopped },
          effects := m.effects ++ PumpEvent.write i p.task (p.buf.take n) true :: logs }) :
    P (stepPump writeErr i m) := by
  cases hp : m.pumps[i]? with
  | none =>
    have e : stepPump writeErr i m = m := by simp only [stepPump, hp]
    rw [e]
    exact hnone hp
  | some p =>
    cases hpc : p.pc with
    | stopped =>
      have e : stepPump writeErr i m = m := by simp only [stepPump, hp, hpc]
      rw [e]
      exact hstopped p hp hpc
    | reading =>
      cases hq : m.inbound p.task.remote with
      | nil =>
        have e : stepPump writeErr i m
            = { world := m.world, inbound := m.inbound,
                pumps := m.pumps.set i { p with pc := PumpPc.stopped },
                effects := m.effects ++ PumpEvent.read i p.task ReadResult.eof ::
                  [PumpEvent.log i (PumpLog.stopForwarding (m.world.roomAt p.room).id
                    p.task.remote (m.world.peerAt p.task.dst).id)] } := by
          simp [stepPump, hp, hpc, hq, Media.stop]
        rw [e]
        exact hreadfail p _ _ _ hp hpc rfl (by simp [PumpEvent.isLogOf]) (Or.inl ⟨hq, rfl⟩)
      | cons res rest =>
        cases res with
        | packet b =>
          have e : stepPump writeErr i m
              = { world := m.world, inbound := Function.update m.inbound p.task.remote rest,
                  pumps := m.pumps.set i
                    { p with buf := b ++ p.buf.drop b.length, pc := PumpPc.writing b.length },
                  effects := m.effects ++ [PumpEvent.read i p.task (ReadResult.packet b)] } := by
            simp [stepPump, hp, hpc, hq]
          rw [e]
          exact hpacket p b rest hp hpc hq
        | eof =>
          have e : stepPump writeErr i m
              = { world := m.world, inbound := Function.update m.inbound p.task.remote rest,
                  pumps := m.pumps.set i { p with pc := PumpPc.stopped },
                  effects := m.effects ++ PumpEvent.read i p.task ReadResult.eof ::
                    [PumpEvent.log i (PumpLog.stopForwarding (m.world.roomAt p.room).id
                      p.task.remote (m.world.peerAt p.task.dst).id)] } := by
            simp [stepPump, hp, hpc, hq, Media.stop]
          rw [e]
          exact hreadfail p _ _ _ hp hpc rfl (by simp [PumpEvent.isLogOf])
            (Or.inr ⟨rest, hq, rfl⟩)
        | error msg =>
          have e : stepPump writeErr i m
              = { world := m.world, inbound := Function.update m.inbound p.task.remote rest,
                  pumps := m.pumps.set i { p with pc := PumpPc.stopped },
                  effects := m.effects ++ PumpEvent.read i p.task (ReadResult.error msg) ::
                    [PumpEvent.log i (PumpLog.remoteReadError (m.world.roomAt p.room).id
                      p.task.remote msg),
                     PumpEvent.log i (PumpLog.stopForwarding (m.world.roomAt p.room).id
                      p.task.remote (m.world.peerAt p.task.dst).id)] } := by
            simp [stepPump, hp, hpc, hq, Media.stop]
          rw [e]
          exact hreadfail p _ _ _ hp hpc rfl (by simp [PumpEvent.isLogOf])
            (Or.inr ⟨rest, hq, rfl⟩)
    | writing n =>
      cases hw : writeErr m.effects p.task.track (p.buf.take n) with
      | false =>
        have e : stepPump writeErr i m
            = { world := m.world, inbound := m.inbound,
                pumps := m.pumps.set i { p with pc := PumpPc.reading },
                effects := m.effects ++ [PumpEvent.write i p.task (p.buf.take n) false] } := by
          simp [stepPump, hp, hpc, hw]
        rw [e]
        exact hwrite p n hp hpc hw
      | true =>
        have e : stepPump writeErr i m
            = { world := m.world, inbound := m.inbound,
                pumps := m.pumps.set i { p with pc := PumpPc.stopped },
                effects := m.effects ++ PumpEvent.write i p.task (p.buf.take n) true ::
                  [PumpEvent.log i (PumpLog.forwardWriteError (m.world.roomAt p.room).id
                      (m.world.peerAt p.task.dst).id),
                   PumpEvent.log i (PumpLog.stopForwarding (m.world.roomAt p.room).id
                      p.task.remote (m.world.peerAt p.task.dst).id)] } := by
          simp [stepPump, hp, hpc, hw, Media.stop]
        rw [e]
        exact hwritefail p n _ hp hpc hw (by simp [PumpEvent.isLogOf])

/-- Events of other tasks do not show in what is recorded of the task `i`. -/
theorem proj_append_other (i : Nat) (l evs : List PumpEvent) (h : ∀ e ∈ evs, e.pump ≠ i) :
    ioOf i (l ++ evs) = ioOf i l ∧ readsOf i (l ++ evs) = readsOf i l
    ∧ writesOf i (l ++ evs) = writesOf i l := by
  have h1 : evs.filter (PumpEvent.ioBy i) = [] := by
    rw [List.filter_eq_nil_iff]
    intro e he
    have := h e he
    cases e <;> simp_all [PumpEvent.ioBy, PumpEvent.pump]
  have h2 : evs.filterMap (PumpEvent.readBy i) = [] := by
    rw [List.filterMap_eq_nil_iff]
    intro e he
    have := h e he
    cases e with
    | read j t res => cases res <;> simp_all [PumpEvent.readBy, PumpEvent.pump]
    | write j t d err => rfl
    | log j msg => rfl
  have h3 : evs.filterMap (PumpEvent.writtenBy i) = [] := by
    rw [List.filterMap_eq_nil_iff]
    intro e he
    have := h e he
    cases e <;> simp_all [PumpEvent.writtenBy, PumpEvent.pump]
  simp only [ioOf, readsOf, writesOf, List.filter_append, List.filterMap_append, h1, h2, h3,
    List.append_nil, and_self]

/-- Log lines are neither reads nor writes. -/
theorem proj_logs (i k r : Nat) (logs : List PumpEvent)
    (h : ∀ e ∈ logs, PumpEvent.isLogOf i e = true) :
    ioOf k logs = [] ∧ readsOf k logs = [] ∧ writesOf k logs = [] ∧ readsOn r logs = []
    ∧ ∀ e ∈ logs, e.pump = i := by
  refine ⟨?_, ?_, ?_, ?_, ?_⟩
  · simp only [ioOf, List.filter_eq_nil_iff]
    intro e he
    have := h e he
    cases e <;> simp_all [PumpEvent.ioBy, PumpEvent.isLogOf]
  · simp only [readsOf, List.filterMap_eq_nil_iff]
    intro e he
    have := h e he
    cases e <;> simp_all [PumpEvent.readBy, PumpEvent.isLogOf]
  · simp only [writesOf, List.filterMap_eq_nil_iff]
    intro e he
    have := h e he
    cases e <;> simp_all [PumpEvent.writtenBy, PumpEvent.isLogOf]
  · simp only [readsOn, List.filterMap_eq_nil_iff]
    intro e he
    have := h e he
    cases e <;> simp_all [PumpEvent.readOn, PumpEvent.isLogOf]
  · intro e he
    have := h e he
    cases e <;> simp_all [PumpEvent.pump, PumpEvent.isLogOf]

/-- The cases of one step of a forwarding task, as equations. -/
theorem stepPump_cases (writeErr : List PumpEvent → Nat → Bytes → Bool) (i : Nat) (m : Media) :
    (stepPump writeErr i m = m
      ∧ (m.pumps[i]? = none ∨ ∃ p, m.pumps[i]? = some p ∧ p.pc = PumpPc.stopped))
    ∨ (∃ p b rest, m.pumps[i]? = some p ∧ p.pc = PumpPc.reading
        ∧ m.inbound p.task.remote = ReadResult.packet b :: rest
        ∧ stepPump writeErr i m
          = { world := m.world, inbound := Function.update m.inbound p.task.remote rest,
              pumps := m.pumps.set i
                { p with buf := b ++ p.buf.drop b.length, pc := PumpPc.writing b.length },
              effects := m.effects ++ [PumpEvent.read i p.task (ReadResult.packet b)] })
    ∨ (∃ p res inb logs, m.pumps[i]? = some p ∧ p.pc = PumpPc.reading
        ∧ res.isPacket = false ∧ (∀ e ∈ logs, PumpEvent.isLogOf i e = true)
        ∧ ((m.inbound p.task.remote = [] ∧ inb = m.inbound)
            ∨ ∃ rest, m.inbound p.task.remote = res :: rest
                ∧ inb = Function.update m.inbound p.task.remote rest)
        ∧ stepPump writeErr i m
          = { world := m.world, inbound := inb,
              pumps := m.pumps.set i { p with pc := PumpPc.stopped },
              effects := m.effects ++ PumpEvent.read i p.task res :: logs })
    ∨ (∃ p n, m.pumps[i]? = some p ∧ p.pc = PumpPc.writing n
        ∧ writeErr m.effects p.task.track (p.buf.take n) = false
        ∧ stepPump writeErr i m
          = { world := m.world, inbound := m.inbound,
              pumps := m.pumps.set i { p with pc := PumpPc.reading },
              effects := m.effects ++ [PumpEvent.write i p.task (p.buf.take n) false] })
    ∨ (∃ p n logs, m.pumps[i]? = some p ∧ p.pc = PumpPc.writing n
        ∧ writeErr m.effects p.task.track (p.buf.take n) = true
        ∧ (∀ e ∈ logs, PumpEvent.isLogOf i e = true)
        ∧ stepPump writeErr i m
          = { world := m.world, inbound := m.inbound,
              pumps := m.pumps.set i { p with pc := PumpPc.stopped },
              effects := m.effects ++ PumpEvent.write i p.task (p.buf.take n) true :: logs }) := by
  refine stepPump_elim writeErr i m (fun m1 =>
    (m1 = m
      ∧ (m.pumps[i]? = none ∨ ∃ p, m.pumps[i]? = some p ∧ p.pc = PumpPc.stopped))
    ∨ (∃ p b rest, m.pumps[i]? = some p ∧ p.pc = PumpPc.reading
        ∧ m.inbound p.task.remote = ReadResult.packet b :: rest
        ∧ m1
          = { world := m.world, inbound := Function.update m.inbound p.task.remote rest,
              pumps := m.pumps.set i
                { p with buf := b ++ p.buf.drop b.length, pc := PumpPc.writing b.length },
              effects := m.effects ++ [PumpEvent.read i p.task (ReadResult.packet b)] })
    ∨ (∃ p res inb logs, m.pumps[i]? = some p ∧ p.pc = PumpPc.reading
        ∧ res.isPacket = false ∧ (∀ e ∈ logs, PumpEvent.isLogOf i e = true)
        ∧ ((m.inbound p.task.remote = [] ∧ inb = m.inbound)
            ∨ ∃ rest, m.inbound p.task.remote = res :: rest
                ∧ inb = Function.update m.inbound p.task.remote rest)
        ∧ m1
          = { world := m.world, inbound := inb,
              pumps := m.pumps.set i { p with pc := PumpPc.stopped },
              effects := m.effects ++ PumpEvent.read i p.task res :: logs })
    ∨ (∃ p n, m.pumps[i]? = some p ∧ p.pc = PumpPc.writing n
        ∧ writeErr m.effects p.task.track (p.buf.take n) = false
        ∧ m1
          = { world := m.world, inbound := m.inbound,
              pumps := m.pumps.set i { p with pc := PumpPc.reading },
              effects := m.effects ++ [PumpEvent.write i p.task (p.buf.take n) false] })
    ∨ (∃ p n logs, m.pumps[i]? = some p ∧ p.pc = PumpPc.writing n
        ∧ writeErr m.effects p.task.track (p.buf.take n) = true
        ∧ (∀ e ∈ logs, PumpEvent.isLogOf i e = true)
        ∧ m1
          = { world := m.world, inbound := m.inbound,
              pumps := m.pumps.set i { p with pc := PumpPc.stopped },
              effects := m.effects ++ PumpEvent.write i p.task (p.buf.take n) true :: logs }))
    ?_ ?_ ?_ ?_ ?_ ?_
  · intro h
    exact Or.inl ⟨rfl, Or.inl h⟩
  · intro p hp hpc
    exact Or.inl ⟨rfl, Or.inr ⟨p, hp, hpc⟩⟩
  · intro p b rest hp hpc hq
    exact Or.inr (Or.inl ⟨p, b, rest, hp, hpc, hq, rfl⟩)
  · intro p res inb logs hp hpc hres hlogs hinb
    exact Or.inr (Or.inr (Or.inl ⟨p, res, inb, logs, hp, hpc, hres, hlogs, hinb, rfl⟩))
  · intro p n hp hpc hw
    exact Or.inr (Or.inr (Or.inr (Or.inl ⟨p, n, hp, hpc, hw, rfl⟩)))
  · intro p n logs hp hpc hw hlogs
    exact Or.inr (Or.inr (Or.inr (Or.inr ⟨p, n, logs, hp, hpc, hw, hlogs, rfl⟩)))

/-- What a step of the task `i` leaves untouched: the relay state, the other
tasks, the number of tasks; its effects are effects of `i`; and the packets that
it takes from an inbound track, followed by what the track has left, are what the
track had left before. -/
theorem stepPump_frame (writeErr : List PumpEvent → Nat → Bytes → Bool) (i : Nat) (m : Media) :
    (stepPump writeErr i m).world = m.world
    ∧ (∀ j : Nat, j ≠ i → (stepPump writeErr i m).pumps[j]? = m.pumps[j]?)
    ∧ (stepPump writeErr i m).pumps.length = m.pumps.length
    ∧ (∀ j : Nat,
        ((stepPump writeErr i m).pumps[j]?).map Pump.task = (m.pumps[j]?).map Pump.task)
    ∧ ∃ evs, (stepPump writeErr i m).effects = m.effects ++ evs
        ∧ (∀ e ∈ evs, e.pump = i)
        ∧ (∀ r, readsOn r evs ++ packets ((stepPump writeErr i m).inbound r)
            = packets (m.inbound r))
        ∧ (∀ r, ((stepPump writeErr i m).inbound r).length ≤ (m.inbound r).length) := by
  have htask : ∀ (p p1 : Pump), m.pumps[i]? = some p → p1.task = p.task →
      ∀ j : Nat, ((m.pumps.set i p1)[j]?).map Pump.task = (m.pumps[j]?).map Pump.task := by
    intro p p1 hp ht j
    by_cases e : i = j
    · subst e
      rw [List.getElem?_set_self', hp]
      simp [ht]
    · rw [List.getElem?_set_ne e]
  have hupd : ∀ (p : Pump) (res : ReadResult) (rest : List ReadResult),
      m.inbound p.task.remote = res :: rest →
      ∀ r, packets (m.inbound r) =
        (if p.task.remote = r then packets [res] else [])
          ++ packets (Function.update m.inbound p.task.remote rest r)
        ∧ (Function.update m.inbound p.task.remote rest r).length ≤ (m.inbound r).length := by
    intro p res rest hq r
    by_cases e : p.task.remote = r
    · subst e
      simp only [if_true, Function.update_same, hq, List.length_cons]
      refine ⟨?_, Nat.le_succ _⟩
      cases res <;> simp [packets, ReadResult.bytes]
    · have e1 : r ≠ p.task.remote := fun h => e h.symm
      simp only [e, if_false, Function.update_noteq e1, List.nil_append, Nat.le_refl, and_self]
  rcases stepPump_cases writeErr i m with ⟨e, -⟩ | ⟨p, b, rest, hp, -, hq, e⟩
    | ⟨p, res, inb, logs, hp, -, hres, hlogs, hinb, e⟩ | ⟨p, n, hp, -, -, e⟩
    | ⟨p, n, logs, hp, -, -, hlogs, e⟩
  · rw [e]
    exact ⟨rfl, fun _ _ => rfl, rfl, fun _ => rfl, [], by simp, by simp,
      fun r => rfl, fun r => Nat.le_refl _⟩
  · rw [e]
    refine ⟨rfl, fun j hj => List.getElem?_set_ne (fun e => hj e.symm), List.length_set _ _ _,
      htask p _ hp rfl, _, rfl, by simp [PumpEvent.pump], ?_, fun r => (hupd p _ rest hq r).2⟩
    intro r
    rw [(hupd p _ rest hq r).1]
    by_cases e : p.task.remote = r <;> simp [readsOn, PumpEvent.readOn, e, packets,
      ReadResult.bytes]
  · rw [e]
    obtain ⟨-, -, -, l4, l5⟩ := proj_logs i 0 0 logs hlogs
    refine ⟨rfl, fun j hj => List.getElem?_set_ne (fun e => hj e.symm), List.length_set _ _ _,
      htask p _ hp rfl, _, rfl, ?_, ?_, ?_⟩
    · intro e he
      rcases List.mem_cons.1 he with rfl | he
      · rfl
      · exact l5 e he
    · intro r
      have hr : readsOn r (PumpEvent.read i p.task res :: logs) = [] := by
        have := (proj_logs i 0 r logs hlogs).2.2.2.1
        cases res <;> simp_all [readsOn, PumpEvent.readOn, ReadResult.isPacket]
      rw [hr, List.nil_append]
      rcases hinb with ⟨-, rfl⟩ | ⟨rest, hq, rfl⟩
      · rfl
      · rw [(hupd p _ rest hq r).1]
        cases res <;> simp_all [packets, ReadResult.isPacket, ReadResult.bytes]
    · intro r
      rcases hinb with ⟨-, rfl⟩ | ⟨rest, hq, rfl⟩
      · exact Nat.le_refl _
      · exact (hupd p _ rest hq r).2
  · rw [e]
    exact ⟨rfl, fun j hj => List.getElem?_set_ne (fun e => hj e.symm), List.length_set _ _ _,
      htask p _ hp rfl, _, rfl, by simp [PumpEvent.pump],
      fun r => by simp [readsOn, PumpEvent.readOn], fun r => Nat.le_refl _⟩
  · rw [e]
    obtain ⟨-, -, -, -, l5⟩ := proj_logs i 0 0 logs hlogs
    refine ⟨rfl, fun j hj => List.getElem?_set_ne (fun e => hj e.symm), List.length_set _ _ _,
      htask p _ hp rfl, _, rfl, ?_, ?_, fun r => Nat.le_refl _⟩
    · intro e he
      rcases List.mem_cons.1 he with rfl | he
      · rfl
      · exact l5 e he
    · intro r
      have := (proj_logs i 0 r logs hlogs).2.2.2.1
      simp_all [readsOn, PumpEvent.readOn]

/-- The invariant of the task `i` is kept by the steps of every other task. -/
theorem PumpInv_other (m m1 : Media) (i : Nat) (evs : List PumpEvent)
    (hp : m1.pumps[i]? = m.pumps[i]?) (he : m1.effects = m.effects ++ evs)
    (hev : ∀ e ∈ evs, e.pump ≠ i) (h : PumpInv m i) : PumpInv m1 i := by
  obtain ⟨p1, p2, p3⟩ := proj_append_other i m.effects evs hev
  unfold PumpInv at h ⊢
  rw [hp, he, p1, p2, p3]
  cases hq : m.pumps[i]? with
  | none =>
    rw [hq] at h
    intro e hmem
    rcases List.mem_append.1 hmem with h1 | h1
    · exact h e h1
    · exact hev e h1
  | some p =>
    rw [hq] at h
    refine ⟨?_, h.2⟩
    intro e hmem hi
    rcases List.mem_append.1 hmem with h1 | h1
    · exact h.1 e h1 hi
    · exact absurd hi (hev e h1)

/-- Appending a call that did not fail to calls without failure. -/
theorem NoFail_snoc (l : List PumpEvent) (e : PumpEvent) (h : NoFail l)
    (he : e.failed = false) : NoFail (l ++ [e]) := by
  intro x hx
  rcases List.mem_append.1 hx with h1 | h1
  · exact h x h1
  · rw [List.mem_singleton.1 h1]
    exact he

/-- Every step of every task keeps the invariant of the task `i`. -/
theorem PumpInv_step (writeErr : List PumpEvent → Nat → Bytes → Bool) (i j : Nat) (m : Media)
    (h : PumpInv m i) : PumpInv (stepPump writeErr j m) i := by
  by_cases hij : i = j
  · subst hij
    have hset : ∀ (p p1 : Pump), m.pumps[i]? = some p → (m.pumps.set i p1)[i]? = some p1 := by
      intro p p1 hp
      rw [List.getElem?_set_self', hp]
      rfl
    have hlab : ∀ (p : Pump) (evs : List PumpEvent),
        (∀ e ∈ m.effects, e.pump = i → ∀ j t res, e = PumpEvent.read j t res → t = p.task) →
        (∀ e ∈ evs, ∀ j t res, e = PumpEvent.read j t res → t = p.task) →
        ∀ e ∈ m.effects ++ evs, e.pump = i → ∀ j t res, e = PumpEvent.read j t res →
          t = p.task := by
      intro p evs h1 h2 e hmem hi j t res he
      rcases List.mem_append.1 hmem with h3 | h3
      · exact h1 e h3 hi j t res he
      · exact h2 e h3 j t res he
    rcases stepPump_cases writeErr i m with ⟨e, -⟩ | ⟨p, b, rest, hp, hpc, hq, e⟩
      | ⟨p, res, inb, logs, hp, hpc, hres, hlogs, hinb, e⟩ | ⟨p, n, hp, hpc, hw, e⟩
      | ⟨p, n, logs, hp, hpc, hw, hlogs, e⟩
    · rw [e]
      exact h
    · rw [e]
      unfold PumpInv at h ⊢
      rw [hp] at h
      simp only [hpc] at h
      obtain ⟨h0, h1, h2⟩ := h
      simp only [hset p _ hp]
      refine ⟨hlab p _ h0 ?_, ?_, ?_⟩
      · intro e he j t res hr
        rw [List.mem_singleton.1 he] at hr
        cases hr
        rfl
      · have : ioOf i (m.effects ++ [PumpEvent.read i p.task (ReadResult.packet b)])
            = ioOf i m.effects ++ [PumpEvent.read i p.task (ReadResult.packet b)] := by
          simp [ioOf, List.filter_append, PumpEvent.ioBy]
        rw [this]
        exact NoFail_snoc _ _ h1 rfl
      · simp only [readsOf, writesOf, List.filterMap_append] at h2 ⊢
        simp [PumpEvent.readBy, PumpEvent.writtenBy, h2]
    · rw [e]
      unfold PumpInv at h ⊢
      rw [hp] at h
      simp only [hpc] at h
      obtain ⟨h0, h1, h2⟩ := h
      obtain ⟨l1, l2, l3, -, -⟩ := proj_logs i i 0 logs hlogs
      simp only [hset p _ hp]
      refine ⟨hlab p _ h0 ?_, ?_, ?_⟩
      · intro e he j t res0 hr
        rcases List.mem_cons.1 he with h3 | h3
        · rw [h3] at hr
          cases hr
          rfl
        · have := hlogs e h3
          rw [hr] at this
          cases this
      · refine ⟨ioOf i m.effects, PumpEvent.read i p.task res, ?_, h1, ?_⟩
        · simp only [ioOf, List.filter_append, List.filter_cons] at l1 ⊢
          simp [PumpEvent.ioBy, l1]
        · cases res with
          | packet b => cases hres
          | eof => rfl
          | error msg => rfl
      · simp only [readsOf, writesOf, List.filterMap_append, List.filterMap_cons] at l2 l3 h2 ⊢
        cases res with
        | packet b => cases hres
        | eof => simp [PumpEvent.readBy, PumpEvent.writtenBy, h2, l2, l3]
        | error msg => simp [PumpEvent.readBy, PumpEvent.writtenBy, h2, l2, l3]
    · rw [e]
      unfold PumpInv at h ⊢
      rw [hp] at h
      simp only [hpc] at h
      obtain ⟨h0, h1, h2⟩ := h
      simp only [hset p _ hp]
      refine ⟨hlab p _ h0 ?_, ?_, ?_⟩
      · intro e he j t res hr
        rw [List.mem_singleton.1 he] at hr
        cases hr
      · have : ioOf i (m.effects ++ [PumpEvent.write i p.task (p.buf.take n) false])
            = ioOf i m.effects ++ [PumpEvent.write i p.task (p.buf.take n) false] := by
          simp [ioOf, List.filter_append, PumpEvent.ioBy]
        rw [this]
        exact NoFail_snoc _ _ h1 rfl
      · simp only [readsOf, writesOf, List.filterMap_append] at h2 ⊢
        simp [PumpEvent.readBy, PumpEvent.writtenBy, h2]
    · rw [e]
      unfold PumpInv at h ⊢
      rw [hp] at h
      simp only [hpc] at h
      obtain ⟨h0, h1, h2⟩ := h
      obtain ⟨l1, l2, l3, -, -⟩ := proj_logs i i 0 logs hlogs
      simp only [hset p _ hp]
      refine ⟨hlab p _ h0 ?_, ?_, ?_⟩
      · intro e he j t res0 hr
        rcases List.mem_cons.1 he with h3 | h3
        · rw [h3] at hr
          cases hr
        · have := hlogs e h3
          rw [hr] at this
          cases this
      · refine ⟨ioOf i m.effects, PumpEvent.write i p.task (p.buf.take n) true, ?_, h1, rfl⟩
        simp only [ioOf, List.filter_append, List.filter_cons] at l1 ⊢
        simp [PumpEvent.ioBy, l1]
      · simp only [readsOf, writesOf, List.filterMap_append, List.filterMap_cons] at l2 l3 h2 ⊢
        simp [PumpEvent.readBy, PumpEvent.writtenBy, h2, l2, l3]
  · obtain ⟨-, f2, -, -, evs, f5, f6, -⟩ := stepPump_frame writeErr j m
    exact PumpInv_other m _ i evs (f2 i hij) f5
      (fun e he => by rw [f6 e he]; exact fun h => hij h.symm) h

/-- The invariant holds for every index when the tasks start. -/
theorem PumpInv_start (w : World) (a : Nat) (tasks : List Task)
    (inbound : Nat → List ReadResult) (i : Nat) : PumpInv (Media.start w a tasks inbound) i := by
  unfold PumpInv
  cases h : (Media.start w a tasks inbound).pumps[i]? with
  | none =>
    intro e he
    cases he
  | some p =>
    have hpc : p.pc = PumpPc.reading := by
      simp only [Media.start, List.getElem?_map] at h
      cases ht : tasks[i]? with
      | none => rw [ht] at h; cases h
      | some t =>
        rw [ht] at h
        simp only [Option.map_some', Option.some.injEq] at h
        rw [← h]
    simp only [hpc]
    refine ⟨?_, ?_, rfl⟩
    · intro e he
      cases he
    · intro e he
      cases he

/-- The invariant holds along every interleaving. -/
theorem runPumps_inv (writeErr : List PumpEvent → Nat → Bytes → Bool) (s : List Nat)
    (m : Media) (i : Nat) (h : PumpInv m i) : PumpInv (runPumps writeErr s m) i := by
  induction s generalizing m with
  | nil => exact h
  | cons j s ih => exact ih _ (PumpInv_step writeErr i j m h)

/-- What an interleaving leaves untouched: the relay state and the arguments of
the tasks; and the packets it takes from an inbound track, followed by what the
track has left, are what the track had left before. -/
theorem runPumps_frame (writeErr : List PumpEvent → Nat → Bytes → Bool) (s : List Nat)
    (m : Media) :
    (runPumps writeErr s m).world = m.world
    ∧ (∀ j : Nat,
        ((runPumps writeErr s m).pumps[j]?).map Pump.task = (m.pumps[j]?).map Pump.task)
    ∧ ∃ evs, (runPumps writeErr s m).effects = m.effects ++ evs
        ∧ ∀ r, readsOn r evs ++ packets ((runPumps writeErr s m).inbound r)
            = packets (m.inbound r) := by
  induction s generalizing m with
  | nil => exact ⟨rfl, fun _ => rfl, [], by simp [runPumps], fun r => rfl⟩
  | cons j s ih =>
    obtain ⟨f1, -, -, f4, evs, f5, -, f7, -⟩ := stepPump_frame writeErr j m
    obtain ⟨i1, i2, evs2, i3, i4⟩ := ih (stepPump writeErr j m)
    refine ⟨i1.trans f1, fun k => (i2 k).trans (f4 k), evs ++ evs2,
      by rw [show runPumps writeErr (j :: s) m = runPumps writeErr s (stepPump writeErr j m)
            from rfl, i3, f5, List.append_assoc], ?_⟩
    intro r
    show readsOn r (evs ++ evs2) ++ packets ((runPumps writeErr s (stepPump writeErr j m)).inbound r)
      = packets (m.inbound r)
    rw [← f7 r, ← i4 r]
    simp only [readsOn, List.filterMap_append, List.append_assoc]

/-- A state with the same task `i` and shorter inbound tracks has a smaller
bound for `i`. -/
theorem rank_mono (m m1 : Media) (i : Nat) (hp : m1.pumps[i]? = m.pumps[i]?)
    (hl : ∀ r, (m1.inbound r).length ≤ (m.inbound r).length) : m1.rank i ≤ m.rank i := by
  unfold Media.rank
  rw [hp]
  cases m.pumps[i]? with
  | none => exact Nat.le_refl _
  | some p =>
    have := hl p.task.remote
    cases hpc : p.pc with
    | reading => simp only [hpc]; omega
    | writing n => simp only [hpc]; omega
    | stopped => simp only [hpc]; exact Nat.le_refl _

/-- No step raises the bound of a task, and a step of a task that has not
returned lowers its bound. -/
theorem stepPump_rank (writeErr : List PumpEvent → Nat → Bytes → Bool) (i j : Nat) (m : Media) :
    (stepPump writeErr j m).rank i ≤ m.rank i
    ∧ (j = i → m.rank i ≠ 0 → (stepPump writeErr j m).rank i + 1 ≤ m.rank i) := by
  by_cases hij : j = i
  · subst hij
    have hset : ∀ (p p1 : Pump), m.pumps[j]? = some p → (m.pumps.set j p1)[j]? = some p1 := by
      intro p p1 hp
      rw [List.getElem?_set_self', hp]
      rfl
    have key : m.rank j = 0 ∨ (stepPump writeErr j m).rank j + 1 ≤ m.rank j := by
      rcases stepPump_cases writeErr j m with ⟨-, h | ⟨p, hp, hpc⟩⟩ | ⟨p, b, rest, hp, hpc, hq, e⟩
        | ⟨p, res, inb, logs, hp, hpc, -, -, -, e⟩ | ⟨p, n, hp, hpc, -, e⟩
        | ⟨p, n, logs, hp, hpc, -, -, e⟩
      · left
        simp only [Media.rank, h]
      · left
        simp only [Media.rank, hp, hpc]
      · right
        rw [e]
        simp only [Media.rank, hset p _ hp, hp, hpc, hq, Function.update_same, List.length_cons]
        omega
      · right
        rw [e]
        simp only [Media.rank, hset p _ hp, hp, hpc]
        omega
      · right
        rw [e]
        simp only [Media.rank, hset p _ hp, hp, hpc]
        omega
      · right
        rw [e]
        simp only [Media.rank, hset p _ hp, hp, hpc]
        omega
    rcases key with h | h
    · obtain ⟨-, -, -, -, -⟩ := stepPump_frame writeErr j m
      refine ⟨?_, fun _ hne => absurd h hne⟩
      rcases stepPump_cases writeErr j m with ⟨e, -⟩ | ⟨p, b, rest, hp, hpc, hq, e⟩
        | ⟨p, res, inb, logs, hp, hpc, -, -, -, e⟩ | ⟨p, n, hp, hpc, -, e⟩
        | ⟨p, n, logs, hp, hpc, -, -, e⟩
      · rw [e]
      · simp only [Media.rank, hp, hpc] at h
        omega
      · simp only [Media.rank, hp, hpc] at h
        omega
      · simp only [Media.rank, hp, hpc] at h
        omega
      · simp only [Media.rank, hp, hpc] at h
        omega
    · exact ⟨by omega, fun _ _ => h⟩
  · obtain ⟨-, f2, -, -, -, -, -, -, f8⟩ := stepPump_frame writeErr j m
    exact ⟨rank_mono m _ i (f2 i (fun h => hij h.symm)) f8, fun h => absurd h hij⟩

/-- A task that is scheduled as often as its bound says has returned. -/
theorem runPumps_rank (writeErr : List PumpEvent → Nat → Bytes → Bool) (s : List Nat)
    (m : Media) (i : Nat) :
    (runPumps writeErr s m).rank i = 0 ∨ (runPumps writeErr s m).rank i + s.count i ≤ m.rank i := by
  induction s generalizing m with
  | nil => exact Or.inr (by simp [runPumps])
  | cons j s ih =>
    obtain ⟨r1, r2⟩ := stepPump_rank writeErr i j m
    rcases ih (stepPump writeErr j m) with h | h
    · exact Or.inl h
    · by_cases hji : j = i
      · subst hji
        by_cases h0 : m.rank j = 0
        · left
          have h1 : (stepPump writeErr j m).rank j = 0 := by omega
          show (runPumps writeErr s (stepPump writeErr j m)).rank j = 0
          omega
        · right
          have := r2 rfl h0
          show (runPumps writeErr s (stepPump writeErr j m)).rank j + (j :: s).count j ≤ m.rank j
          rw [List.count_cons_self]
          omega
      · right
        show (runPumps writeErr s (stepPump writeErr j m)).rank i + (j :: s).count i ≤ m.rank i
        rw [List.count_cons_of_ne (fun h => hji h.symm)]
        omega

/-- A selection that another selection always agrees with gives a sublist. -/
theorem filterMap_sublist_of_imp {α β : Type} (f g : α → Option β) (l : List α)
    (h : ∀ e ∈ l, ∀ b, f e = some b → g e = some b) :
    List.Sublist (l.filterMap f) (l.filterMap g) := by
  induction l with
  | nil => exact List.Sublist.slnil
  | cons e rest ih =>
    have ih1 := ih (fun x hx => h x (List.mem_cons_of_mem _ hx))
    cases hf : f e with
    | none =>
      rw [List.filterMap_cons_none hf]
      cases hg : g e with
      | none => rw [List.filterMap_cons_none hg]; exact ih1
      | some c => rw [List.filterMap_cons_some hg]; exact List.Sublist.cons _ ih1
    | some b =>
      rw [List.filterMap_cons_some hf, List.filterMap_cons_some (h e (List.mem_cons_self _ _) b hf)]
      exact List.Sublist.cons₂ _ ih1

/-- What the invariant says of a task in an interleaving from the start: its
arguments are those it was started with, its reads carry them, and its position
fixes how its writes stand to its reads. -/
theorem runPumps_task (writeErr : List PumpEvent → Nat → Bytes → Bool) (s : List Nat)
    (w : World) (a : Nat) (tasks : List Task) (inbound : Nat → List ReadResult) (i : Nat)
    (t : Task) (ht : tasks[i]? = some t) :
    ∃ p, (runPumps writeErr s (Media.start w a tasks inbound)).pumps[i]? = some p
      ∧ p.task = t
      ∧ (∀ e ∈ (runPumps writeErr s (Media.start w a tasks inbound)).effects, e.pump = i →
          ∀ j t1 res, e = PumpEvent.read j t1 res → t1 = t) := by
  obtain ⟨-, f2, -⟩ := runPumps_frame writeErr s (Media.start w a tasks inbound)
  have h0 : ((Media.start w a tasks inbound).pumps[i]?).map Pump.task = some t := by
    simp only [Media.start, List.getElem?_map, ht, Option.map_some']
  have h1 := (f2 i).trans h0
  cases hp : (runPumps writeErr s (Media.start w a tasks inbound)).pumps[i]? with
  | none => rw [hp] at h1; cases h1
  | some p =>
    rw [hp] at h1
    have hpt : p.task = t := by simpa using h1
    have hinv := runPumps_inv writeErr s _ i (PumpInv_start w a tasks inbound i)
    unfold PumpInv at hinv
    rw [hp] at hinv
    exact ⟨p, rfl, hpt, by rw [← hpt]; exact hinv.1⟩

/-- C22: in every interleaving of the forwarding tasks that `forwardTrack`
started, whatever the reads and writes return, the byte strings that a task
passes to `Write` are, in order, the packets that it read, each passed once and
unchanged: all of them when the task stands before a read or has returned, all
but the last one, which is `buf[:n]`, when it stands before the write.  The
packets that it read are packets of its inbound track, in the order in which the
track delivers them. -/
theorem pump_passes_through (writeErr : List PumpEvent → Nat → Bytes → Bool) (w : World)
    (a : Nat) (tasks : List Task) (inbound : Nat → List ReadResult) (s : List Nat) (i : Nat) :
    List.IsPrefix (writesOf i (runPumps writeErr s (Media.start w a tasks inbound)).effects)
      (readsOf i (runPumps writeErr s (Media.start w a tasks inbound)).effects)
    ∧ (readsOf i (runPumps writeErr s (Media.start w a tasks inbound)).effects).length
        ≤ (writesOf i (runPumps writeErr s (Media.start w a tasks inbound)).effects).length + 1
    ∧ ((∀ n, (runPumps writeErr s (Media.start w a tasks inbound)).pcOf i
          ≠ some (PumpPc.writing n)) →
        writesOf i (runPumps writeErr s (Media.start w a tasks inbound)).effects
          = readsOf i (runPumps writeErr s (Media.start w a tasks inbound)).effects)
    ∧ (∀ p n, (runPumps writeErr s (Media.start w a tasks inbound)).pumps[i]? = some p →
        p.pc = PumpPc.writing n →
        readsOf i (runPumps writeErr s (Media.start w a tasks inbound)).effects
          = writesOf i (runPumps writeErr s (Media.start w a tasks inbound)).effects
            ++ [p.buf.take n])
    ∧ (∀ t, tasks[i]? = some t →
        List.Sublist (readsOf i (runPumps writeErr s (Media.start w a tasks inbound)).effects)
          (packets (inbound t.remote))) := by
  have hinv := runPumps_inv writeErr s _ i (PumpInv_start w a tasks inbound i)
  have hfacts : (writesOf i (runPumps writeErr s (Media.start w a tasks inbound)).effects
        = readsOf i (runPumps writeErr s (Media.start w a tasks inbound)).effects
        ∧ ∀ n, (runPumps writeErr s (Media.start w a tasks inbound)).pcOf i
          ≠ some (PumpPc.writing n))
      ∨ ∃ p n, (runPumps writeErr s (Media.start w a tasks inbound)).pumps[i]? = some p
          ∧ p.pc = PumpPc.writing n
          ∧ readsOf i (runPumps writeErr s (Media.start w a tasks inbound)).effects
            = writesOf i (runPumps writeErr s (Media.start w a tasks inbound)).effects
              ++ [p.buf.take n] := by
    unfold PumpInv at hinv
    cases hp : (runPumps writeErr s (Media.start w a tasks inbound)).pumps[i]? with
    | none =>
      rw [hp] at hinv
      left
      have := proj_append_other i [] _ hinv
      simp only [List.nil_append] at this
      refine ⟨by rw [this.2.1, this.2.2]; rfl, ?_⟩
      intro n
      simp only [Media.pcOf, hp]
      exact fun h => Option.noConfusion h
    | some p =>
      rw [hp] at hinv
      cases hpc : p.pc with
      | reading =>
        simp only [hpc] at hinv
        exact Or.inl ⟨hinv.2.2, by simp [Media.pcOf, hp, hpc]⟩
      | writing n =>
        simp only [hpc] at hinv
        exact Or.inr ⟨p, n, rfl, hpc, hinv.2.2⟩
      | stopped =>
        simp only [hpc] at hinv
        exact Or.inl ⟨hinv.2.2, by simp [Media.pcOf, hp, hpc]⟩
  refine ⟨?_, ?_, ?_, ?_, ?_⟩
  · rcases hfacts with ⟨h, -⟩ | ⟨p, n, -, -, h⟩
    · rw [h]
    · rw [h]
      exact List.prefix_append _ _
  · rcases hfacts with ⟨h, -⟩ | ⟨p, n, -, -, h⟩
    · rw [h]
      exact Nat.le_succ _
    · rw [h]
      simp
  · intro hn
    rcases hfacts with ⟨h, -⟩ | ⟨p, n, hp, hpc, -⟩
    · exact h
    · exact absurd (by simp [Media.pcOf, hp, hpc]) (hn n)
  · intro p n hp hpc
    rcases hfacts with ⟨-, h⟩ | ⟨p1, n1, hp1, hpc1, h⟩
    · exact absurd (by simp [Media.pcOf, hp, hpc]) (h n)
    · rw [hp] at hp1
      cases hp1
      rw [hpc] at hpc1
      cases hpc1
      exact h
  · intro t ht
    obtain ⟨p, -, -, hlab⟩ := runPumps_task writeErr s w a tasks inbound i t ht
    obtain ⟨-, -, evs, f3, f4⟩ := runPumps_frame writeErr s (Media.start w a tasks inbound)
    have he : (runPumps writeErr s (Media.start w a tasks inbound)).effects = evs := by
      rw [f3]
      rfl
    have hsub : List.Sublist (readsOf i evs) (readsOn t.remote evs) := by
      apply filterMap_sublist_of_imp
      intro e hmem b hb
      rw [← he] at hmem
      cases e with
      | read j t1 res =>
        cases res with
        | packet b1 =>
          by_cases hj : j = i
          · have := hlab _ hmem hj j t1 _ rfl
            simp only [PumpEvent.readBy, hj, if_true, Option.some.injEq] at hb
            simp [PumpEvent.readOn, this, hb]
          · simp [PumpEvent.readBy, hj] at hb
        | eof => cases hb
        | error msg => cases hb
      | write j t1 d err => cases hb
      | log j msg => cases hb
    rw [he]
    refine hsub.trans ?_
    have := f4 t.remote
    show List.Sublist (readsOn t.remote evs) (packets (inbound t.remote))
    have h2 : packets ((Media.start w a tasks inbound).inbound t.remote)
        = packets (inbound t.remote) := rfl
    rw [← h2, ← this]
    exact List.sublist_append_left _ _

/-- In calls of which only the last one failed, a failed call has none after it. -/
theorem FailLast_split (l pre post : List PumpEvent) (e : PumpEvent) (h : FailLast l)
    (hl : l = pre ++ e :: post) (he : e.failed = true) : post = [] := by
  obtain ⟨pre1, e1, h1, h2, -⟩ := h
  rcases List.eq_nil_or_concat post with hp | ⟨post1, x, hp⟩
  · exact hp
  · exfalso
    rw [hp, h1] at hl
    have e2 : pre1 ++ [e1] = (pre ++ e :: post1) ++ [x] := by
      rw [hl]
      simp
    have e3 := (List.append_inj' e2 rfl).1
    have hmem : e ∈ pre1 := by
      rw [e3]
      simp
    rw [h2 e hmem] at he
    cases he

/-- C23: in every interleaving of the forwarding tasks that `forwardTrack`
started, a call of `Read` or `Write` of a task that returned an error (`io.EOF`
included) is the last call of that task, which has returned; a task returns only
so; a task that is scheduled twice for every result its inbound track has left,
and twice more, has returned, since a track that has delivered everything reports
`io.EOF`; and no step of a task, its return included, changes the relay state or
another task. -/
theorem pump_stops_at_first_failure (writeErr : List PumpEvent → Nat → Bytes → Bool)
    (w : World) (a : Nat) (tasks : List Task) (inbound : Nat → List ReadResult)
    (s : List Nat) (i : Nat) :
    (∀ pre e post,
        ioOf i (runPumps writeErr s (Media.start w a tasks inbound)).effects
          = pre ++ e :: post →
        e.failed = true →
        post = []
        ∧ (runPumps writeErr s (Media.start w a tasks inbound)).pcOf i = some PumpPc.stopped)
    ∧ ((runPumps writeErr s (Media.start w a tasks inbound)).pcOf i = some PumpPc.stopped →
        FailLast (ioOf i (runPumps writeErr s (Media.start w a tasks inbound)).effects))
    ∧ (∀ t, tasks[i]? = some t → 2 * (inbound t.remote).length + 2 ≤ s.count i →
        (runPumps writeErr s (Media.start w a tasks inbound)).pcOf i = some PumpPc.stopped)
    ∧ (runPumps writeErr s (Media.start w a tasks inbound)).world = w
    ∧ (∀ j : Nat,
        (stepPump writeErr j (runPumps writeErr s (Media.start w a tasks inbound))).world
          = (runPumps writeErr s (Media.start w a tasks inbound)).world
        ∧ ∀ k : Nat, k ≠ j →
          (stepPump writeErr j (runPumps writeErr s (Media.start w a tasks inbound))).pumps[k]?
            = (runPumps writeErr s (Media.start w a tasks inbound)).pumps[k]?) := by
  have hinv := runPumps_inv writeErr s _ i (PumpInv_start w a tasks inbound i)
  unfold PumpInv at hinv
  refine ⟨?_, ?_, ?_, (runPumps_frame writeErr s _).1, ?_⟩
  · intro pre e post hsplit he
    have hmem : e ∈ ioOf i (runPumps writeErr s (Media.start w a tasks inbound)).effects := by
      rw [hsplit]
      simp
    cases hp : (runPumps writeErr s (Media.start w a tasks inbound)).pumps[i]? with
    | none =>
      rw [hp] at hinv
      have := (proj_append_other i [] _ hinv).1
      simp only [List.nil_append] at this
      rw [this] at hmem
      cases hmem
    | some p =>
      rw [hp] at hinv
      cases hpc : p.pc with
      | reading =>
        simp only [hpc] at hinv
        rw [hinv.2.1 e hmem] at he
        cases he
      | writing n =>
        simp only [hpc] at hinv
        rw [hinv.2.1 e hmem] at he
        cases he
      | stopped =>
        simp only [hpc] at hinv
        exact ⟨FailLast_split _ pre post e hinv.2.1 hsplit he, by simp [Media.pcOf, hp, hpc]⟩
  · intro hstop
    cases hp : (runPumps writeErr s (Media.start w a tasks inbound)).pumps[i]? with
    | none => simp [Media.pcOf, hp] at hstop
    | some p =>
      rw [hp] at hinv
      have hpc : p.pc = PumpPc.stopped := by simpa [Media.pcOf, hp] using hstop
      simp only [hpc] at hinv
      exact hinv.2.1
  · intro t ht hcount
    obtain ⟨p, hp, -, -⟩ := runPumps_task writeErr s w a tasks inbound i t ht
    have h0 : (Media.start w a tasks inbound).rank i = 2 * (inbound t.remote).length + 2 := by
      have e : (Media.start w a tasks inbound).pumps[i]?
          = some { room := a, task := t, buf := List.replicate 1500 0, pc := PumpPc.reading } := by
        simp only [Media.start, List.getElem?_map, ht, Option.map_some']
      unfold Media.rank
      rw [e]
      rfl
    have hr : (runPumps writeErr s (Media.start w a tasks inbound)).rank i = 0 := by
      rcases runPumps_rank writeErr s (Media.start w a tasks inbound) i with h | h
      · exact h
      · omega
    simp only [Media.rank, hp] at hr
    cases hpc : p.pc with
    | reading => rw [hpc] at hr; simp at hr
    | writing n => rw [hpc] at hr; simp at hr
    | stopped => simp [Media.pcOf, hp, hpc]
  · intro j
    obtain ⟨f1, f2, -⟩ := stepPump_frame writeErr j
      (runPumps writeErr s (Media.start w a tasks inbound))
    exact ⟨f1, f2⟩

/-- Two tasks on the same inbound track read different packets of it: together
they read no more packets than were taken from the track. -/
theorem reads_disjoint (i j r : Nat) (hij : i ≠ j) (l : List PumpEvent)
    (hlab : ∀ e ∈ l, (e.pump = i ∨ e.pump = j) → ∀ k t res, e = PumpEvent.read k t res →
      t.remote = r) :
    (readsOf i l).length + (readsOf j l).length ≤ (readsOn r l).length := by
  induction l with
  | nil => exact Nat.le_refl _
  | cons e rest ih =>
    have ih1 := ih (fun x hx => hlab x (List.mem_cons_of_mem _ hx))
    have he := hlab e (List.mem_cons_self _ _)
    cases e with
    | read k t res =>
      cases res with
      | packet b =>
        by_cases hk : k = i
        · have hr : t.remote = r := he (Or.inl hk) k t _ rfl
          have hkj : k ≠ j := fun h => hij (hk.symm.trans h)
          simp only [readsOf, readsOn, List.filterMap_cons, PumpEvent.readBy, PumpEvent.readOn,
            hk, hr, if_true, List.length_cons] at ih1 ⊢
          rw [if_neg (fun h => hij h)]
          simp only
          omega
        · by_cases hkj : k = j
          · have hr : t.remote = r := he (Or.inr hkj) k t _ rfl
            simp only [readsOf, readsOn, List.filterMap_cons, PumpEvent.readBy, PumpEvent.readOn,
              hkj, hr, if_true, List.length_cons] at ih1 ⊢
            rw [if_neg (fun h => hij h.symm)]
            simp only
            omega
          · simp only [readsOf, readsOn, List.filterMap_cons, PumpEvent.readBy,
              PumpEvent.readOn, hk, hkj, if_false] at ih1 ⊢
            split
            · exact ih1
            · simp only [List.length_cons]
              omega
      | eof => simpa [readsOf, readsOn, PumpEvent.readBy, PumpEvent.readOn] using ih1
      | error msg => simpa [readsOf, readsOn, PumpEvent.readBy, PumpEvent.readOn] using ih1
    | write k t d err => simpa [readsOf, readsOn, PumpEvent.readBy, PumpEvent.readOn] using ih1
    | log k msg => simpa [readsOf, readsOn, PumpEvent.readBy, PumpEvent.readOn] using ih1

/-- Two forwarding tasks that read the same inbound track share its packets: in
every interleaving, the number of byte strings that the two pass to `Write`,
taken together, is at most the number of packets of the track. -/
theorem pumps_share_stream (writeErr : List PumpEvent → Nat → Bytes → Bool) (w : World)
    (a : Nat) (tasks : List Task) (inbound : Nat → List ReadResult) (s : List Nat)
    (i j : Nat) (ti tj : Task) (hij : i ≠ j) (hti : tasks[i]? = some ti)
    (htj : tasks[j]? = some tj) (hr : tj.remote = ti.remote) :
    (writesOf i (runPumps writeErr s (Media.start w a tasks inbound)).effects).length
      + (writesOf j (runPumps writeErr s (Media.start w a tasks inbound)).effects).length
      ≤ (packets (inbound ti.remote)).length := by
  obtain ⟨pi, -, -, labi⟩ := runPumps_task writeErr s w a tasks inbound i ti hti
  obtain ⟨pj, -, -, labj⟩ := runPumps_task writeErr s w a tasks inbound j tj htj
  obtain ⟨-, -, evs, f3, f4⟩ := runPumps_frame writeErr s (Media.start w a tasks inbound)
  have hwi : ∀ k, (writesOf k (runPumps writeErr s (Media.start w a tasks inbound)).effects).length
      ≤ (readsOf k (runPumps writeErr s (Media.start w a tasks inbound)).effects).length := by
    intro k
    have hinv := runPumps_inv writeErr s _ k (PumpInv_start w a tasks inbound k)
    unfold PumpInv at hinv
    cases hp : (runPumps writeErr s (Media.start w a tasks inbound)).pumps[k]? with
    | none =>
      rw [hp] at hinv
      have := proj_append_other k [] _ hinv
      simp only [List.nil_append] at this
      rw [this.2.1, this.2.2]
      exact Nat.le_refl _
    | some p =>
      rw [hp] at hinv
      cases hpc : p.pc with
      | reading => simp only [hpc] at hinv; rw [hinv.2.2]
      | writing n => simp only [hpc] at hinv; rw [hinv.2.2]; simp
      | stopped => simp only [hpc] at hinv; rw [hinv.2.2]
  have hd := reads_disjoint i j ti.remote hij
    (runPumps writeErr s (Media.start w a tasks inbound)).effects (by
      intro e he hor k t res hread
      rcases hor with h | h
      · rw [labi e he h k t res hread]
      · rw [labj e he h k t res hread, hr])
  have hlen : (readsOn ti.remote (runPumps writeErr s (Media.start w a tasks inbound)).effects).length
      ≤ (packets (inbound ti.remote)).length := by
    have e1 : (runPumps writeErr s (Media.start w a tasks inbound)).effects = evs := by
      rw [f3]
      rfl
    have e2 : packets ((Media.start w a tasks inbound).inbound ti.remote)
        = packets (inbound ti.remote) := rfl
    rw [e1, ← e2, ← f4 ti.remote, List.length_append]
    exact Nat.le_add_right _ _
  have h1 := hwi i
  have h2 := hwi j
  omega

/-- C21, evaluated: `alice` publishes the track 7 in the room with `bob` and
`carol`; `forwardTrack` starts one task for `carol` and one for `bob`, both
reading the track 7, which delivers two packets.  In every interleaving and
whatever `Write` returns, the two tasks together pass at most two byte strings
to `Write`, so the two packets never both reach both destinations; in the
interleaving given, `carol` gets the first packet only and `bob` the second
only, and both tasks have returned. -/
theorem fanout_splits_stream :
    (forwardTasks (newEvents trioWorld
        (forwardTrack workingEnv (some 0) "alice" 7 trioWorld).world)).map
          (fun t => (t.remote, t.dst)) = [(7, 2), (7, 1)]
    ∧ (∀ (writeErr : List PumpEvent → Nat → Bytes → Bool) (s : List Nat),
        (writesOf 0 (runPumps writeErr s trioMedia).effects).length
          + (writesOf 1 (runPumps writeErr s trioMedia).effects).length ≤ 2)
    ∧ writesOf 0 (runPumps writeOk [0, 0, 1, 1, 0, 1] trioMedia).effects = [[1, 2]]
    ∧ writesOf 1 (runPumps writeOk [0, 0, 1, 1, 0, 1] trioMedia).effects = [[3, 4]]
    ∧ (runPumps writeOk [0, 0, 1, 1, 0, 1] trioMedia).pcOf 0 = some PumpPc.stopped
    ∧ (runPumps writeOk [0, 0, 1, 1, 0, 1] trioMedia).pcOf 1 = some PumpPc.stopped := by
  refine ⟨by decide, ?_, by decide, by decide, by decide, by decide⟩
  intro writeErr s
  exact pumps_share_stream writeErr _ 0 _
    (fun r => if r = 7 then [ReadResult.packet [1, 2], ReadResult.packet [3, 4]] else [])
    s 0 1 ⟨7, 0, 2, 0⟩ ⟨7, 1, 1, 1⟩ (by decide) (by decide) (by decide) rfl

/-- Effects that happen while a read lock is held are all under the lock, and
effects that happen while none is held are not. -/
theorem underLock_effects (a : Nat) (evs : List Event) (rest : List LockStep) (held : Nat) :
    underLock a (held + 1) (evs.map LockStep.effect ++ rest)
      = evs ++ underLock a (held + 1) rest
    ∧ underLock a 0 (evs.map LockStep.effect ++ rest) = underLock a 0 rest := by
  induction evs with
  | nil => exact ⟨rfl, rfl⟩
  | cons e evs ih =>
    constructor
    · have e1 : underLock a (held + 1) ((e :: evs).map LockStep.effect ++ rest)
          = e :: underLock a (held + 1) (evs.map LockStep.effect ++ rest) := by
        simp [underLock]
      rw [e1, ih.1]
      rfl
    · have e1 : underLock a 0 ((e :: evs).map LockStep.effect ++ rest)
          = underLock a 0 (evs.map LockStep.effect ++ rest) := by
        simp [underLock]
      rw [e1, ih.2]

/-- C25, evaluated: `broadcastData` makes every one of its `Send` calls while it
holds the read lock of the room, and `forwardTrack` makes none of its calls
under the lock, in every state and for every room.  In room 1 of `tenRooms` the
broadcast of `p0` makes four `Send` calls under the lock, and after the first of
them the read lock is held, so that an `addPeer` or `removePeer` on the room
waits as long as that `Send` does not return. -/
theorem broadcastData_sends_under_lock :
    (∀ (env : Env) (a : Nat) (senderID : String) (data : Bytes) (w : World),
        underLock a 0 (broadcastDataLocked env a senderID data w)
          = newEvents w (broadcastData env (some a) senderID data w).world)
    ∧ (∀ (env : Env) (a : Nat) (senderID : String) (remote : Nat) (w : World),
        underLock a 0 (forwardTrackLocked env a senderID remote w) = [])
    ∧ sendCalls (underLock 1 0 (broadcastDataLocked workingEnv 1 "p0" [1, 2, 3] tenRooms))
        = sendCalls (newEvents tenRooms
            (broadcastData workingEnv (some 1) "p0" [1, 2, 3] tenRooms).world)
    ∧ (sendCalls (underLock 1 0
        (broadcastDataLocked workingEnv 1 "p0" [1, 2, 3] tenRooms))).length = 4
    ∧ heldAfter 1 0 ((broadcastDataLocked workingEnv 1 "p0" [1, 2, 3] tenRooms).take 2) = 1 := by
  refine ⟨?_, ?_, by decide, by decide, by decide⟩
  · intro env a senderID data w
    have e1 : underLock a 0 (broadcastDataLocked env a senderID data w)
        = underLock a (0 + 1)
            ((newEvents w (broadcastData env (some a) senderID data w).world).map
              LockStep.effect ++ [LockStep.runlock a]) := by
      simp [broadcastDataLocked, underLock, newEvents]
    rw [e1, (underLock_effects a _ _ 0).1]
    simp [underLock]
  · intro env a senderID remote w
    have e1 : underLock a 0 (forwardTrackLocked env a senderID remote w)
        = underLock a 0
            ((newEvents w (forwardTrack env (some a) senderID remote w).world).map
              LockStep.effect ++ []) := by
      simp [forwardTrackLocked, underLock, newEvents]
    rw [e1, (underLock_effects a _ _ 0).2]
    rfl

/-! ### Joins that run concurrently -/

theorem Evolves_refl (w : World) : Evolves w w :=
  ⟨le_refl _, le_refl _, le_refl _, fun _ _ => ⟨rfl, rfl⟩, fun _ _ _ _ h => h, [], by simp⟩

theorem Owns_evolves (w w1 : World) (req : Request) (j : Joined) (h : Evolves w w1)
    (ho : Owns w req j) : Owns w1 req j := by
  obtain ⟨o1, o2, o3, o4, o5, o6⟩ := ho
  refine ⟨lt_of_lt_of_le o1 h.conn, lt_of_lt_of_le o2 h.room, lt_of_lt_of_le o3 h.peer, ?_, ?_,
    fun a k hl => o6 a k (h.maps a k j.peer o3 hl)⟩
  · rw [(h.objs j.peer o3).1]; exact o4
  · rw [(h.objs j.peer o3).2]; exact o5

theorem Unlisted_evolves (w w1 : World) (q : Nat) (h : Evolves w w1) (hq : q < w.nextPeer)
    (hu : Unlisted w q) : Unlisted w1 q :=
  fun a k hl => hu a k (h.maps a k q hq hl)

theorem FailedStep_evolves (w w1 : World) (c : Nat) (msg : String) (h : Evolves w w1)
    (hf : FailedStep w c msg) : FailedStep w1 c msg := by
  obtain ⟨evs, he⟩ := h.trace
  rcases hf with ⟨offer, h1⟩ | ⟨h1, h2⟩ | ⟨h1, h2⟩
  · exact Or.inl ⟨offer, by rw [he]; exact List.mem_append_left _ h1⟩
  · exact Or.inr (Or.inl ⟨by rw [he]; exact List.mem_append_left _ h1,
      by rw [he]; exact List.mem_append_left _ h2⟩)
  · exact Or.inr (Or.inr ⟨by rw [he]; exact List.mem_append_left _ h1, h2⟩)

theorem responses_evolves (w w1 : World) (x : Nat × Reply) (h : Evolves w w1)
    (hx : x ∈ responses w.trace) : x ∈ responses w1.trace := by
  obtain ⟨evs, he⟩ := h.trace
  rw [he]
  simp only [responses, List.filterMap_append, List.mem_append]
  exact Or.inl hx

theorem closeCalls_evolves (w w1 : World) (c : Nat) (h : Evolves w w1)
    (hx : c ∈ closeCalls w.trace) : c ∈ closeCalls w1.trace := by
  obtain ⟨evs, he⟩ := h.trace
  rw [he]
  simp only [closeCalls, List.filterMap_append, List.mem_append]
  exact Or.inl hx

theorem mem_evolves (w w1 : World) (e : Event) (h : Evolves w w1)
    (hx : e ∈ w.trace) : e ∈ w1.trace := by
  obtain ⟨evs, he⟩ := h.trace
  rw [he]
  exact List.mem_append_left _ hx

theorem EarlyReply_evolves (jenv : JoinEnv) (req : Request) (w w1 : World) (status : Nat)
    (reply : Reply) (h : Evolves w w1) (hr : EarlyReply jenv req w status reply) :
    EarlyReply jenv req w1 status reply := by
  obtain ⟨evs, he⟩ := h.trace
  rcases hr with h1 | h1 | ⟨err, tr, rest, h1, h2, h3, h4⟩
  · exact Or.inl h1
  · exact Or.inr (Or.inl h1)
  · exact Or.inr (Or.inr ⟨err, tr, rest ++ evs, by rw [he, h1, List.append_assoc], h2, h3, h4⟩)

/-- What holds of a goroutine keeps holding while the others take their turns. -/
theorem ThreadOk_evolves (jenv : JoinEnv) (w w1 : World) (t : JoinThread) (h : Evolves w w1)
    (hq : ∀ c, t.pc.conn = some c → NoFailure w c → NoFailure w1 c)
    (ht : ThreadOk jenv w t) : ThreadOk jenv w1 t := by
  obtain ⟨req, pc⟩ := t
  cases pc with
  | start => trivial
  | connected offer c =>
    exact ⟨lt_of_lt_of_le ht.1 h.conn, hq c rfl ht.2⟩
  | resolved offer c room =>
    obtain ⟨h1, h2, a, h3, h4⟩ := ht
    exact ⟨lt_of_lt_of_le h1 h.conn, hq c rfl h2, a, h3, lt_of_lt_of_le h4 h.room⟩
  | added offer j => exact ⟨Owns_evolves w w1 req j h ht.1, hq j.conn rfl ht.2⟩
  | remoteSet j => exact ⟨Owns_evolves w w1 req j h ht.1, hq j.conn rfl ht.2⟩
  | answered j answer => exact ⟨Owns_evolves w w1 req j h ht.1, hq j.conn rfl ht.2⟩
  | localSet j => exact ⟨Owns_evolves w w1 req j h ht.1, hq j.conn rfl ht.2⟩
  | failing j msg =>
    obtain ⟨h1, h2, h3⟩ := ht
    exact ⟨Owns_evolves w w1 req j h h1, FailedStep_evolves w w1 _ _ h h2,
      responses_evolves w w1 _ h h3⟩
  | removed j msg =>
    obtain ⟨h1, h2, h3, h4⟩ := ht
    exact ⟨Owns_evolves w w1 req j h h1, FailedStep_evolves w w1 _ _ h h2,
      responses_evolves w w1 _ h h3, Unlisted_evolves w w1 _ h h1.2.2.1 h4⟩
  | done status reply jo =>
    cases jo with
    | none =>
      exact ⟨EarlyReply_evolves jenv req w w1 status reply h ht.1,
        responses_evolves w w1 _ h ht.2⟩
    | some j =>
      obtain ⟨h1, h2, h3⟩ := ht
      refine ⟨Owns_evolves w w1 req j h h1, responses_evolves w w1 _ h h2, ?_⟩
      rcases h3 with ⟨s1, s2, ld, s3, s4⟩ | ⟨s1, msg, s2, s3, s4, s5⟩
      · exact Or.inl ⟨s1, hq j.conn rfl s2, ld, s3, mem_evolves w w1 _ h s4⟩
      · exact Or.inr ⟨s1, msg, s2, FailedStep_evolves w w1 _ _ h s3,
          Unlisted_evolves w w1 _ h h1.2.2.1 s4, closeCalls_evolves w w1 _ h s5⟩
  | panicked e => exact ht

/-- The connection a goroutine holds exists. -/
theorem ThreadOk_conn (jenv : JoinEnv) (w : World) (t : JoinThread) (c : Nat)
    (ht : ThreadOk jenv w t) (hc : t.pc.conn = some c) : c < w.nextConn := by
  obtain ⟨req, pc⟩ := t
  cases pc with
  | start => cases hc
  | connected offer c1 => cases hc; exact ht.1
  | resolved offer c1 room => cases hc; exact ht.1
  | added offer j => cases hc; exact ht.1.1
  | remoteSet j => cases hc; exact ht.1.1
  | answered j answer => cases hc; exact ht.1.1
  | localSet j => cases hc; exact ht.1.1
  | failing j msg => cases hc; exact ht.1.1
  | removed j msg => cases hc; exact ht.1.1
  | done status reply jo =>
    cases jo with
    | none => cases hc
    | some j => cases hc; exact ht.1.1
  | panicked e => cases hc

/-- A goroutine that has passed `room.addPeer(peer)` holds what it built. -/
theorem ThreadOk_joined (jenv : JoinEnv) (w : World) (t : JoinThread) (j : Joined)
    (ht : ThreadOk jenv w t) (hj : t.pc.joined = some j) : Owns w t.req j := by
  obtain ⟨req, pc⟩ := t
  cases pc with
  | start => cases hj
  | connected offer c1 => cases hj
  | resolved offer c1 room => cases hj
  | added offer j => cases hj; exact ht.1
  | remoteSet j => cases hj; exact ht.1
  | answered j answer => cases hj; exact ht.1
  | localSet j => cases hj; exact ht.1
  | failing j msg => cases hj; exact ht.1
  | removed j msg => cases hj; exact ht.1
  | done status reply jo =>
    cases jo with
    | none => cases hj
    | some j => cases hj; exact ht.1
  | panicked e => cases hj


/-- A turn that writes only the trace and the counter of connections keeps the
invariant of the relay. -/
theorem WorldOk_quiet (w w1 : World) (evs : List Event) (hw : WorldOk w)
    (h1 : ∀ id r, w1.sfu.rooms.lookup id = some r → w.sfu.rooms.lookup id = some r)
    (h2 : w1.roomAt = w.roomAt)
    (h3 : w1.nextRoom = w.nextRoom)
    (h4 : ∀ q, (w1.peerAt q).pc = (w.peerAt q).pc ∧ (w1.peerAt q).id = (w.peerAt q).id
      ∧ (w1.peerAt q).closed = (w.peerAt q).closed)
    (h5 : w1.nextPeer = w.nextPeer) (h6 : w.nextConn ≤ w1.nextConn)
    (h7 : w1.trace = w.trace ++ evs)
    (h8 : ∀ e ∈ evs, ∀ c, e.failedConn = some c → c < w1.nextConn) : WorldOk w1 := by
  refine ⟨fun id r hl => ?_, fun a k p hl => ?_, fun a k a1 k1 q hl hl1 => ?_,
    fun e he c hc => ?_⟩
  · rw [h3]; exact hw.rooms id r (h1 id r hl)
  · rw [h2] at hl
    obtain ⟨q, q1, q2, q3⟩ := hw.peers a k p hl
    exact ⟨q, q1, by rw [h5]; exact q2, by rw [(h4 q).2.2]; exact q3⟩
  · rw [h2] at hl hl1; exact hw.once a k a1 k1 q hl hl1
  · rw [h7] at he
    rcases List.mem_append.1 he with he | he
    · exact lt_of_lt_of_le (hw.fails e he c hc) h6
    · exact h8 e he c hc

theorem Evolves_quiet (w w1 : World) (evs : List Event)
    (h2 : w1.roomAt = w.roomAt)
    (h3 : w1.nextRoom = w.nextRoom)
    (h4 : ∀ q, (w1.peerAt q).pc = (w.peerAt q).pc ∧ (w1.peerAt q).id = (w.peerAt q).id
      ∧ (w1.peerAt q).closed = (w.peerAt q).closed)
    (h5 : w1.nextPeer = w.nextPeer) (h6 : w.nextConn ≤ w1.nextConn)
    (h7 : w1.trace = w.trace ++ evs) : Evolves w w1 :=
  ⟨h6, by rw [h3], by rw [h5], fun q _ => ⟨(h4 q).1, (h4 q).2.1⟩,
    fun a k q _ hl => by rw [h2] at hl; exact hl, evs, h7⟩

theorem NoFailure_append (w w1 : World) (evs : List Event) (o : Option Nat)
    (h7 : w1.trace = w.trace ++ evs)
    (h : ∀ e ∈ evs, e.failedConn = none ∨ e.failedConn = o) :
    ∀ c, o ≠ some c → NoFailure w c → NoFailure w1 c := by
  intro c hc hn e he
  rw [h7] at he
  rcases List.mem_append.1 he with he | he
  · exact hn e he
  · rcases h e he with h1 | h1
    · rw [h1]; exact fun hh => by cases hh
    · rw [h1]; exact hc

theorem responses_length_append (t evs : List Event) :
    (responses (t ++ evs)).length = (responses t).length + (responses evs).length := by
  simp [responses, List.filterMap_append]

theorem mem_responses_append (t evs : List Event) (x : Nat × Reply)
    (h : x ∈ responses evs) : x ∈ responses (t ++ evs) := by
  simp only [responses, List.filterMap_append, List.mem_append]
  exact Or.inr h


/-- A turn that writes only the trace and the counter of connections. -/
theorem StepOk_quiet (jenv : JoinEnv) (req : Request) (pc pc1 : JoinPc) (w w1 : World)
    (evs : List Event) (hw : WorldOk w)
    (h1 : w1.sfu = w.sfu) (h2 : w1.roomAt = w.roomAt)
    (h3 : w1.nextRoom = w.nextRoom) (h4 : w1.peerAt = w.peerAt)
    (h5 : w1.nextPeer = w.nextPeer) (h6 : w.nextConn ≤ w1.nextConn)
    (h7 : w1.trace = w.trace ++ evs)
    (h8 : ∀ e ∈ evs, ∀ c, e.failedConn = some c → c < w1.nextConn)
    (hthread : ThreadOk jenv w1 { req := req, pc := pc1 })
    (hconn : pc1.conn = pc.conn
      ∨ (pc.conn = none ∧ pc1.conn = some w.nextConn ∧ w.nextConn < w1.nextConn))
    (hfail : ∀ e ∈ evs, e.failedConn = none ∨ e.failedConn = pc1.conn)
    (hjoined : ∀ j, pc.joined = some j → pc1.joined = some j)
    (hown : ∀ j, pc1.joined = some j → pc1.cleaned = false →
      pc.joined = some j ∧ pc.cleaned = false)
    (hcount : (responses evs).length + (if pc.responded then 1 else 0)
      = (if pc1.responded then 1 else 0))
    (hrank : pc1.rank < pc.rank ∨ (pc.rank = 0 ∧ pc1 = pc)) :
    StepOk jenv req pc w (pc1, w1) where
  world := WorldOk_quiet w w1 evs hw (fun id r hl => by rw [h1] at hl; exact hl) h2 h3
    (fun q => by rw [h4]; exact ⟨rfl, rfl, rfl⟩) h5 h6 h7 h8
  evolves := Evolves_quiet w w1 evs h2 h3 (fun q => by rw [h4]; exact ⟨rfl, rfl, rfl⟩) h5 h6 h7
  thread := hthread
  conn := hconn
  quiet := NoFailure_append w w1 evs pc1.conn h7 hfail
  joined := hjoined
  maps := fun a k _ => Or.inl (by show (w1.roomAt a).peers.lookup k = _; rw [h2])
  own := fun j hj hc => Or.inl ⟨(hown j hj hc).1, (hown j hj hc).2, h2⟩
  count := by
    show (responses w1.trace).length + (if pc.responded = true then 1 else 0)
      = (responses w.trace).length + (if pc1.responded = true then 1 else 0)
    rw [h7, responses_length_append]
    omega
  rank := hrank

/-- A goroutine that has returned or panicked. -/
theorem StepOk_done (env : Env) (jenv : JoinEnv) (req : Request) (status : Nat) (reply : Reply)
    (jo : Option Joined) (w : World) (hw : WorldOk w)
    (ht : ThreadOk jenv w { req := req, pc := JoinPc.done status reply jo }) :
    StepOk jenv req (JoinPc.done status reply jo) w
      (stepJoin env jenv req (JoinPc.done status reply jo) w) := by
  have e : stepJoin env jenv req (JoinPc.done status reply jo) w
      = (JoinPc.done status reply jo, w) := rfl
  rw [e]
  exact StepOk_quiet jenv req _ _ w w [] hw rfl rfl rfl rfl rfl (le_refl _) (by simp)
    (fun e he => by cases he) ht (Or.inl rfl) (fun e he => by cases he) (fun j hj => hj)
    (fun j hj hc => ⟨hj, hc⟩) (by simp [responses, JoinPc.responded]) (Or.inr ⟨rfl, rfl⟩)

/-- The turn from the first statement to `createPeerConnection(cfg)`. -/
theorem StepOk_start (env : Env) (jenv : JoinEnv) (req : Request) (w : World) (hw : WorldOk w) :
    StepOk jenv req JoinPc.start w (stepJoin env jenv req JoinPc.start w) := by
  by_cases hcond : req.room = "" ∨ req.peer = ""
  · have e : stepJoin env jenv req JoinPc.start w
        = (JoinPc.done 400 (Reply.error "room and peer query params required") none,
            w.emit (Event.respond 400 (Reply.error "room and peer query params required"))) := by
      simp only [stepJoin, if_pos hcond]
    rw [e]
    refine StepOk_quiet jenv req _ _ w _ [Event.respond 400 (Reply.error "room and peer query params required")]
      hw rfl rfl rfl rfl rfl (le_refl _) rfl ?_ ?_ (Or.inl rfl) ?_ ?_ ?_ ?_ ?_
    · intro e he c hc
      simp only [List.mem_singleton] at he
      subst he; cases hc
    · exact ⟨Or.inl ⟨hcond, rfl, rfl⟩, mem_responses_append _ _ _ (by simp [responses, Event.response])⟩
    · intro e he
      simp only [List.mem_singleton] at he
      subst he; exact Or.inl rfl
    · intro j hj; cases hj
    · intro j hj; cases hj
    · simp [responses, Event.response, JoinPc.responded]
    · exact Or.inl (by simp [JoinPc.rank])
  · cases hbind : BindOfferFromContext jenv req with
    | error err =>
      have e : stepJoin env jenv req JoinPc.start w
          = (JoinPc.done 400 (Reply.error ("invalid offer: " ++ err)) none,
              w.emit (Event.respond 400 (Reply.error ("invalid offer: " ++ err)))) := by
        simp only [stepJoin, if_neg hcond, hbind]
      rw [e]
      refine StepOk_quiet jenv req _ _ w _ [Event.respond 400 (Reply.error ("invalid offer: " ++ err))]
        hw rfl rfl rfl rfl rfl (le_refl _) rfl ?_ ?_ (Or.inl rfl) ?_ ?_ ?_ ?_ ?_
      · intro e he c hc
        simp only [List.mem_singleton] at he
        subst he; cases hc
      · exact ⟨Or.inr (Or.inl ⟨err, hbind, rfl, rfl⟩),
          mem_responses_append _ _ _ (by simp [responses, Event.response])⟩
      · intro e he
        simp only [List.mem_singleton] at he
        subst he; exact Or.inl rfl
      · intro j hj; cases hj
      · intro j hj; cases hj
      · simp [responses, Event.response, JoinPc.responded]
      · exact Or.inl (by simp [JoinPc.rank])
    | ok offer =>
      cases hpc : jenv.newPeerConnectionErr w.trace (getWebRTCConfigFromEnv jenv.getenv) with
      | some err =>
        have e : stepJoin env jenv req JoinPc.start w
            = (JoinPc.done 500 (Reply.error ("pc create: " ++ err)) none,
                (w.emit (Event.newPeerConnection none)).emit
                  (Event.respond 500 (Reply.error ("pc create: " ++ err)))) := by
          simp only [stepJoin, if_neg hcond, hbind, createPeerConnection, hpc]
        rw [e]
        refine StepOk_quiet jenv req _ _ w _
          [Event.newPeerConnection none, Event.respond 500 (Reply.error ("pc create: " ++ err))]
          hw rfl rfl rfl rfl rfl (le_refl _) (by simp [World.emit]) ?_ ?_ (Or.inl rfl) ?_ ?_ ?_ ?_ ?_
        · intro e he c hc
          simp only [List.mem_cons, List.mem_singleton, List.not_mem_nil, or_false] at he
          rcases he with he | he <;> subst he <;> cases hc
        · refine ⟨Or.inr (Or.inr ⟨err, w.trace, [Event.newPeerConnection none,
            Event.respond 500 (Reply.error ("pc create: " ++ err))], ?_, hpc, rfl, rfl⟩), ?_⟩
          · show ((w.emit _).emit _).trace = _
            simp [World.emit]
          · show _ ∈ responses ((w.emit _).emit _).trace
            simp [World.emit, responses, Event.response]
        · intro e he
          simp only [List.mem_cons, List.mem_singleton, List.not_mem_nil, or_false] at he
          rcases he with he | he <;> subst he <;> exact Or.inl rfl
        · intro j hj; cases hj
        · intro j hj; cases hj
        · simp [responses, Event.response, JoinPc.responded]
        · exact Or.inl (by simp [JoinPc.rank])
      | none =>
        have e : stepJoin env jenv req JoinPc.start w
            = (JoinPc.connected offer w.nextConn,
                { w.emit (Event.newPeerConnection (some w.nextConn)) with
                  nextConn := w.nextConn + 1 }) := by
          simp only [stepJoin, if_neg hcond, hbind, createPeerConnection, hpc]
        rw [e]
        refine StepOk_quiet jenv req _ _ w _ [Event.newPeerConnection (some w.nextConn)]
          hw rfl rfl rfl rfl rfl (Nat.le_succ _) rfl ?_ ?_
          (Or.inr ⟨rfl, rfl, Nat.lt_succ_self _⟩) ?_ ?_ ?_ ?_ ?_
        · intro e he c hc
          simp only [List.mem_singleton] at he
          subst he; cases hc
        · refine ⟨Nat.lt_succ_self _, fun e he => ?_⟩
          rcases List.mem_append.1 he with he | he
          · intro hc
            exact absurd (hw.fails e he _ hc) (lt_irrefl _)
          · simp only [List.mem_singleton] at he
            subst he; exact fun hh => by cases hh
        · intro e he
          simp only [List.mem_singleton] at he
          subst he; exact Or.inl rfl
        · intro j hj; cases hj
        · intro j hj; cases hj
        · simp [responses, Event.response, JoinPc.responded]
        · exact Or.inl (by simp [JoinPc.rank])


theorem Owns_trace (w w1 : World) (req : Request) (j : Joined)
    (h2 : w1.roomAt = w.roomAt) (h3 : w1.nextRoom = w.nextRoom) (h4 : w1.peerAt = w.peerAt)
    (h5 : w1.nextPeer = w.nextPeer) (h6 : w1.nextConn = w.nextConn)
    (ho : Owns w req j) : Owns w1 req j := by
  unfold Owns at *
  rw [h2, h3, h4, h5, h6]
  exact ho

/-- The turn of `pc.SetRemoteDescription(offer)`. -/
theorem StepOk_added (env : Env) (jenv : JoinEnv) (req : Request) (offer : SessionDescription)
    (j : Joined) (w : World) (hw : WorldOk w)
    (ht : ThreadOk jenv w { req := req, pc := JoinPc.added offer j }) :
    StepOk jenv req (JoinPc.added offer j) w
      (stepJoin env jenv req (JoinPc.added offer j) w) := by
  obtain ⟨ho, hn⟩ := ht
  cases herr : jenv.setRemoteDescriptionErr w.trace j.conn offer with
  | some err =>
    have e : stepJoin env jenv req (JoinPc.added offer j) w
        = (JoinPc.failing j err,
            (((w.emit (Event.setRemoteDescription j.conn offer (some err))).emit
              (Event.log (LogMsg.setRemoteDescriptionError err))).emit
              (Event.respond 500 (Reply.error err)))) := by
      simp only [stepJoin, herr]
    rw [e]
    refine StepOk_quiet jenv req _ _ w _
      [Event.setRemoteDescription j.conn offer (some err),
        Event.log (LogMsg.setRemoteDescriptionError err), Event.respond 500 (Reply.error err)]
      hw rfl rfl rfl rfl rfl (le_refl _) (by simp [World.emit]) ?_ ?_ (Or.inl rfl) ?_ ?_ ?_ ?_ ?_
    · intro e he c hc
      simp only [List.mem_cons, List.mem_singleton, List.not_mem_nil, or_false] at he
      rcases he with he | he | he <;> subst he <;> cases hc
      exact ho.1
    · refine ⟨Owns_trace w _ req j rfl rfl rfl rfl rfl ho, Or.inl ⟨offer, ?_⟩, ?_⟩
      · show _ ∈ (((w.emit _).emit _).emit _).trace
        simp [World.emit]
      · show _ ∈ responses (((w.emit _).emit _).emit _).trace
        simp [World.emit, responses, Event.response]
    · intro e he
      simp only [List.mem_cons, List.mem_singleton, List.not_mem_nil, or_false] at he
      rcases he with he | he | he <;> subst he
      · exact Or.inr rfl
      · exact Or.inl rfl
      · exact Or.inl rfl
    · intro j1 hj; exact hj
    · intro j1 hj _; exact ⟨hj, rfl⟩
    · simp [responses, Event.response, JoinPc.responded]
    · exact Or.inl (by simp [JoinPc.rank])
  | none =>
    have e : stepJoin env jenv req (JoinPc.added offer j) w
        = (JoinPc.remoteSet j, w.emit (Event.setRemoteDescription j.conn offer none)) := by
      simp only [stepJoin, herr]
    rw [e]
    refine StepOk_quiet jenv req _ _ w _ [Event.setRemoteDescription j.conn offer none]
      hw rfl rfl rfl rfl rfl (le_refl _) rfl ?_ ?_ (Or.inl rfl) ?_ ?_ ?_ ?_ ?_
    · intro e he c hc
      simp only [List.mem_singleton] at he
      subst he; cases hc
    · refine ⟨Owns_trace w _ req j rfl rfl rfl rfl rfl ho, fun e he => ?_⟩
      rcases List.mem_append.1 he with he | he
      · exact hn e he
      · simp only [List.mem_singleton] at he
        subst he; exact fun hh => by cases hh
    · intro e he
      simp only [List.mem_singleton] at he
      subst he; exact Or.inl rfl
    · intro j1 hj; exact hj
    · intro j1 hj _; exact ⟨hj, rfl⟩
    · simp [responses, Event.response, JoinPc.responded]
    · exact Or.inl (by simp [JoinPc.rank])

/-- The turn of `pc.CreateAnswer(nil)`. -/
theorem StepOk_remoteSet (env : Env) (jenv : JoinEnv) (req : Request)
    (j : Joined) (w : World) (hw : WorldOk w)
    (ht : ThreadOk jenv w { req := req, pc := JoinPc.remoteSet j }) :
    StepOk jenv req (JoinPc.remoteSet j) w
      (stepJoin env jenv req (JoinPc.remoteSet j) w) := by
  obtain ⟨ho, hn⟩ := ht
  cases herr : jenv.createAnswer w.trace j.conn with
  | error err =>
    have e : stepJoin env jenv req (JoinPc.remoteSet j) w
        = (JoinPc.failing j err,
            (((w.emit (Event.createAnswer j.conn none)).emit
              (Event.log (LogMsg.createAnswerError err))).emit
              (Event.respond 500 (Reply.error err)))) := by
      simp only [stepJoin, herr]
    rw [e]
    refine StepOk_quiet jenv req _ _ w _
      [Event.createAnswer j.conn none,
        Event.log (LogMsg.createAnswerError err), Event.respond 500 (Reply.error err)]
      hw rfl rfl rfl rfl rfl (le_refl _) (by simp [World.emit]) ?_ ?_ (Or.inl rfl) ?_ ?_ ?_ ?_ ?_
    · intro e he c hc
      simp only [List.mem_cons, List.mem_singleton, List.not_mem_nil, or_false] at he
      rcases he with he | he | he <;> subst he <;> cases hc
      exact ho.1
    · refine ⟨Owns_trace w _ req j rfl rfl rfl rfl rfl ho, Or.inr (Or.inl ⟨?_, ?_⟩), ?_⟩
      · show _ ∈ (((w.emit _).emit _).emit _).trace
        simp [World.emit]
      · show _ ∈ (((w.emit _).emit _).emit _).trace
        simp [World.emit]
      · show _ ∈ responses (((w.emit _).emit _).emit _).trace
        simp [World.emit, responses, Event.response]
    · intro e he
      simp only [List.mem_cons, List.mem_singleton, List.not_mem_nil, or_false] at he
      rcases he with he | he | he <;> subst he
      · exact Or.inr rfl
      · exact Or.inl rfl
      · exact Or.inl rfl
    · intro j1 hj; exact hj
    · intro j1 hj _; exact ⟨hj, rfl⟩
    · simp [responses, Event.response, JoinPc.responded]
    · exact Or.inl (by simp [JoinPc.rank])
  | ok answer =>
    have e : stepJoin env jenv req (JoinPc.remoteSet j) w
        = (JoinPc.answered j answer, w.emit (Event.createAnswer j.conn (some answer))) := by
      simp only [stepJoin, herr]
    rw [e]
    refine StepOk_quiet jenv req _ _ w _ [Event.createAnswer j.conn (some answer)]
      hw rfl rfl rfl rfl rfl (le_refl _) rfl ?_ ?_ (Or.inl rfl) ?_ ?_ ?_ ?_ ?_
    · intro e he c hc
      simp only [List.mem_singleton] at he
      subst he; cases hc
    · refine ⟨Owns_trace w _ req j rfl rfl rfl rfl rfl ho, fun e he => ?_⟩
      rcases List.mem_append.1 he with he | he
      · exact hn e he
      · simp only [List.mem_singleton] at he
        subst he; exact fun hh => by cases hh
    · intro e he
      simp only [List.mem_singleton] at he
      subst he; exact Or.inl rfl
    · intro j1 hj; exact hj
    · intro j1 hj _; exact ⟨hj, rfl⟩
    · simp [responses, Event.response, JoinPc.responded]
    · exact Or.inl (by simp [JoinPc.rank])

/-- The turn of `pc.SetLocalDescription(answer)`: its error is logged and the
goroutine goes on. -/
theorem StepOk_answered (env : Env) (jenv : JoinEnv) (req : Request)
    (j : Joined) (answer : SessionDescription) (w : World) (hw : WorldOk w)
    (ht : ThreadOk jenv w { req := req, pc := JoinPc.answered j answer }) :
    StepOk jenv req (JoinPc.answered j answer) w
      (stepJoin env jenv req (JoinPc.answered j answer) w) := by
  obtain ⟨ho, hn⟩ := ht
  cases herr : jenv.setLocalDescriptionErr w.trace j.conn answer with
  | some err =>
    have e : stepJoin env jenv req (JoinPc.answered j answer) w
        = (JoinPc.localSet j,
            (w.emit (Event.setLocalDescription j.conn answer (some err))).emit
              (Event.log (LogMsg.setLocalDescriptionError err))) := by
      simp only [stepJoin, herr]
    rw [e]
    refine StepOk_quiet jenv req _ _ w _
      [Event.setLocalDescription j.conn answer (some err),
        Event.log (LogMsg.setLocalDescriptionError err)]
      hw rfl rfl rfl rfl rfl (le_refl _) (by simp [World.emit]) ?_ ?_ (Or.inl rfl) ?_ ?_ ?_ ?_ ?_
    · intro e he c hc
      simp only [List.mem_cons, List.mem_singleton, List.not_mem_nil, or_false] at he
      rcases he with he | he <;> subst he <;> cases hc
    · refine ⟨Owns_trace w _ req j rfl rfl rfl rfl rfl ho, fun e he => ?_⟩
      have he1 : e ∈ w.trace ++ [Event.setLocalDescription j.conn answer (some err),
          Event.log (LogMsg.setLocalDescriptionError err)] := by
        simpa [World.emit] using he
      rcases List.mem_append.1 he1 with he | he
      · exact hn e he
      · simp only [List.mem_cons, List.mem_singleton, List.not_mem_nil, or_false] at he
        rcases he with he | he <;> subst he <;> exact fun hh => by cases hh
    · intro e he
      simp only [List.mem_cons, List.mem_singleton, List.not_mem_nil, or_false] at he
      rcases he with he | he <;> subst he <;> exact Or.inl rfl
    · intro j1 hj; exact hj
    · intro j1 hj _; exact ⟨hj, rfl⟩
    · simp [responses, Event.response, JoinPc.responded]
    · exact Or.inl (by simp [JoinPc.rank])
  | none =>
    have e : stepJoin env jenv req (JoinPc.answered j answer) w
        = (JoinPc.localSet j, w.emit (Event.setLocalDescription j.conn answer none)) := by
      simp only [stepJoin, herr]
    rw [e]
    refine StepOk_quiet jenv req _ _ w _ [Event.setLocalDescription j.conn answer none]
      hw rfl rfl rfl rfl rfl (le_refl _) rfl ?_ ?_ (Or.inl rfl) ?_ ?_ ?_ ?_ ?_
    · intro e he c hc
      simp only [List.mem_singleton] at he
      subst he; cases hc
    · refine ⟨Owns_trace w _ req j rfl rfl rfl rfl rfl ho, fun e he => ?_⟩
      rcases List.mem_append.1 he with he | he
      · exact hn e he
      · simp only [List.mem_singleton] at he
        subst he; exact fun hh => by cases hh
    · intro e he
      simp only [List.mem_singleton] at he
      subst he; exact Or.inl rfl
    · intro j1 hj; exact hj
    · intro j1 hj _; exact ⟨hj, rfl⟩
    · simp [responses, Event.response, JoinPc.responded]
    · exact Or.inl (by simp [JoinPc.rank])

/-- The turn of `pc.LocalDescription()` and of the response that follows it. -/
theorem StepOk_localSet (env : Env) (jenv : JoinEnv) (req : Request)
    (j : Joined) (w : World) (hw : WorldOk w)
    (ht : ThreadOk jenv w { req := req, pc := JoinPc.localSet j }) :
    StepOk jenv req (JoinPc.localSet j) w
      (stepJoin env jenv req (JoinPc.localSet j) w) := by
  obtain ⟨ho, hn⟩ := ht
  cases herr : jenv.localDescription w.trace j.conn with
  | none =>
    have e : stepJoin env jenv req (JoinPc.localSet j) w
        = (JoinPc.failing j "local description is nil",
            (w.emit (Event.localDescription j.conn none)).emit
              (Event.respond 500 (Reply.error "local description is nil"))) := by
      simp only [stepJoin, herr]
    rw [e]
    refine StepOk_quiet jenv req _ _ w _
      [Event.localDescription j.conn none,
        Event.respond 500 (Reply.error "local description is nil")]
      hw rfl rfl rfl rfl rfl (le_refl _) (by simp [World.emit]) ?_ ?_ (Or.inl rfl) ?_ ?_ ?_ ?_ ?_
    · intro e he c hc
      simp only [List.mem_cons, List.mem_singleton, List.not_mem_nil, or_false] at he
      rcases he with he | he <;> subst he <;> cases hc
      exact ho.1
    · refine ⟨Owns_trace w _ req j rfl rfl rfl rfl rfl ho, Or.inr (Or.inr ⟨?_, rfl⟩), ?_⟩
      · show _ ∈ ((w.emit _).emit _).trace
        simp [World.emit]
      · show _ ∈ responses ((w.emit _).emit _).trace
        simp [World.emit, responses, Event.response]
    · intro e he
      simp only [List.mem_cons, List.mem_singleton, List.not_mem_nil, or_false] at he
      rcases he with he | he <;> subst he
      · exact Or.inr rfl
      · exact Or.inl rfl
    · intro j1 hj; exact hj
    · intro j1 hj _; exact ⟨hj, rfl⟩
    · simp [responses, Event.response, JoinPc.responded]
    · exact Or.inl (by simp [JoinPc.rank])
  | some ld =>
    have e : stepJoin env jenv req (JoinPc.localSet j) w
        = (JoinPc.done 200 (Reply.answer ld) (some j),
            (w.emit (Event.localDescription j.conn (some ld))).emit
              (Event.respond 200 (Reply.answer ld))) := by
      simp only [stepJoin, herr]
    rw [e]
    refine StepOk_quiet jenv req _ _ w _
      [Event.localDescription j.conn (some ld), Event.respond 200 (Reply.answer ld)]
      hw rfl rfl rfl rfl rfl (le_refl _) (by simp [World.emit]) ?_ ?_ (Or.inl rfl) ?_ ?_ ?_ ?_ ?_
    · intro e he c hc
      simp only [List.mem_cons, List.mem_singleton, List.not_mem_nil, or_false] at he
      rcases he with he | he <;> subst he <;> cases hc
    · refine ⟨Owns_trace w _ req j rfl rfl rfl rfl rfl ho, ?_, Or.inl ⟨rfl, fun e he => ?_, ld, rfl, ?_⟩⟩
      · show _ ∈ responses ((w.emit _).emit _).trace
        simp [World.emit, responses, Event.response]
      · have he1 : e ∈ w.trace ++ [Event.localDescription j.conn (some ld),
            Event.respond 200 (Reply.answer ld)] := by
          simpa [World.emit] using he
        rcases List.mem_append.1 he1 with he | he
        · exact hn e he
        · simp only [List.mem_cons, List.mem_singleton, List.not_mem_nil, or_false] at he
          rcases he with he | he <;> subst he <;> exact fun hh => by cases hh
      · show _ ∈ ((w.emit _).emit _).trace
        simp [World.emit]
    · intro e he
      simp only [List.mem_cons, List.mem_singleton, List.not_mem_nil, or_false] at he
      rcases he with he | he <;> subst he <;> exact Or.inl rfl
    · intro j1 hj; exact hj
    · intro j1 hj _; exact ⟨hj, rfl⟩
    · simp [responses, Event.response, JoinPc.responded]
    · exact Or.inl (by simp [JoinPc.rank])

/-- The turn of `pc.Close()` at the end of a failure branch. -/
theorem StepOk_removed (env : Env) (jenv : JoinEnv) (req : Request)
    (j : Joined) (msg : String) (w : World) (hw : WorldOk w)
    (ht : ThreadOk jenv w { req := req, pc := JoinPc.removed j msg }) :
    StepOk jenv req (JoinPc.removed j msg) w
      (stepJoin env jenv req (JoinPc.removed j msg) w) := by
  obtain ⟨ho, hf, hr, hu⟩ := ht
  have e : stepJoin env jenv req (JoinPc.removed j msg) w
      = (JoinPc.done 500 (Reply.error msg) (some j),
          w.emit (Event.pcClose j.conn (env.closeErr w.trace j.conn))) := rfl
  rw [e]
  have hev : Evolves w (w.emit (Event.pcClose j.conn (env.closeErr w.trace j.conn))) :=
    Evolves_quiet w _ [Event.pcClose j.conn (env.closeErr w.trace j.conn)] rfl rfl
      (fun _ => ⟨rfl, rfl, rfl⟩) rfl (le_refl _) rfl
  refine StepOk_quiet jenv req _ _ w _ [Event.pcClose j.conn (env.closeErr w.trace j.conn)]
    hw rfl rfl rfl rfl rfl (le_refl _) rfl ?_ ?_ (Or.inl rfl) ?_ ?_ ?_ ?_ ?_
  · intro e he c hc
    simp only [List.mem_singleton] at he
    subst he; cases hc
  · refine ⟨Owns_trace w _ req j rfl rfl rfl rfl rfl ho, responses_evolves w _ _ hev hr,
      Or.inr ⟨rfl, msg, rfl, FailedStep_evolves w _ _ _ hev hf, hu, ?_⟩⟩
    show _ ∈ closeCalls (w.emit _).trace
    simp [World.emit, closeCalls, Event.closedConn]
  · intro e he
    simp only [List.mem_singleton] at he
    subst he; exact Or.inl rfl
  · intro j1 hj; exact hj
  · intro j1 hj hc
    simp [JoinPc.cleaned] at hc
  · simp [responses, Event.response, JoinPc.responded]
  · exact Or.inl (by simp [JoinPc.rank])

/-- The turn of `s.getOrCreateRoom(roomID)`. -/
theorem StepOk_connected (env : Env) (jenv : JoinEnv) (req : Request)
    (offer : SessionDescription) (c : Nat) (w : World) (hw : WorldOk w)
    (ht : ThreadOk jenv w { req := req, pc := JoinPc.connected offer c }) :
    StepOk jenv req (JoinPc.connected offer c) w
      (stepJoin env jenv req (JoinPc.connected offer c) w) := by
  obtain ⟨hc, hn⟩ := ht
  have e0 : stepJoin env jenv req (JoinPc.connected offer c) w
      = (JoinPc.resolved offer c (getOrCreateRoom req.room w).1,
          (getOrCreateRoom req.room w).2) := rfl
  rw [e0]
  cases hl : w.sfu.rooms.lookup req.room with
  | some r =>
    rw [getOrCreateRoom_present req.room w r hl]
    obtain ⟨a, ha, hlt⟩ := hw.rooms req.room r hl
    exact StepOk_quiet jenv req _ _ w w [] hw rfl rfl rfl rfl rfl (le_refl _) (by simp)
      (fun e he => by cases he) ⟨hc, hn, a, ha, hlt⟩ (Or.inl rfl) (fun e he => by cases he)
      (fun j hj => by cases hj) (fun j hj => by cases hj)
      (by simp [responses, JoinPc.responded]) (Or.inl (by simp [JoinPc.rank]))
  | none =>
    rw [getOrCreateRoom_absent req.room w hl]
    have hlook : ∀ a k p,
        ((Function.update w.roomAt w.nextRoom { id := req.room, peers := ∅ }) a).peers.lookup k
          = some p → (w.roomAt a).peers.lookup k = some p := by
      intro a k p h
      by_cases ha : a = w.nextRoom
      · subst ha
        rw [Function.update_same] at h
        simp at h
      · rw [Function.update_noteq ha] at h
        exact h
    refine ⟨⟨fun id r h => ?_, fun a k p h => hw.peers a k p (hlook a k p h),
        fun a k a1 k1 q h h1 => hw.once a k a1 k1 q (hlook a k _ h) (hlook a1 k1 _ h1),
        fun e he c1 hc1 => hw.fails e he c1 hc1⟩,
      ⟨le_refl _, Nat.le_succ _, le_refl _, fun q _ => ⟨rfl, rfl⟩,
        fun a k q _ h => hlook a k _ h, [], by simp⟩,
      ⟨hc, hn, w.nextRoom, rfl, Nat.lt_succ_self _⟩, Or.inl rfl, fun c1 _ h => h,
      (fun j hj => by cases hj), fun a k ha => Or.inl ?_, (fun j hj => by cases hj),
      (by simp [JoinPc.responded]), Or.inl (by simp [JoinPc.rank])⟩
    · by_cases hid : id = req.room
      · rw [hid] at h
        have h1 : (w.sfu.rooms.insert req.room (some w.nextRoom)).lookup req.room = some r := h
        rw [AList.lookup_insert] at h1
        exact ⟨w.nextRoom, (Option.some.inj h1).symm, Nat.lt_succ_self _⟩
      · have h1 : (w.sfu.rooms.insert req.room (some w.nextRoom)).lookup id = some r := h
        rw [AList.lookup_insert_ne hid] at h1
        obtain ⟨a, ha, hlt⟩ := hw.rooms id r h1
        exact ⟨a, ha, Nat.lt_succ_of_lt hlt⟩
    · show ((Function.update w.roomAt w.nextRoom { id := req.room, peers := ∅ }) a).peers.lookup k
        = _
      rw [Function.update_noteq (Nat.ne_of_lt ha)]

/-- The turn of `peer := &Peer{...}` and `room.addPeer(peer)`. -/
theorem StepOk_resolved (env : Env) (jenv : JoinEnv) (req : Request)
    (offer : SessionDescription) (c : Nat) (room : Ptr) (w : World) (hw : WorldOk w)
    (ht : ThreadOk jenv w { req := req, pc := JoinPc.resolved offer c room }) :
    StepOk jenv req (JoinPc.resolved offer c room) w
      (stepJoin env jenv req (JoinPc.resolved offer c room) w) := by
  obtain ⟨hc, hn, a, hroom, ha⟩ := ht
  subst hroom
  have e0 : stepJoin env jenv req (JoinPc.resolved offer c (some a)) w
      = (JoinPc.added offer { conn := c, room := a, peer := w.nextPeer },
          { sfu := w.sfu,
            roomAt := Function.update w.roomAt a
              { w.roomAt a with peers := (w.roomAt a).peers.insert req.peer (some w.nextPeer) },
            nextRoom := w.nextRoom,
            peerAt := Function.update w.peerAt w.nextPeer
              { id := req.peer, pc := some c, roomRef := some a, data := none,
                closed := Chan.made },
            nextPeer := w.nextPeer + 1, nextConn := w.nextConn, nextTrack := w.nextTrack,
            nextSender := w.nextSender,
            trace := w.trace ++ [Event.log (LogMsg.joined (w.roomAt a).id req.peer
              ((w.roomAt a).peers.insert req.peer (some w.nextPeer)).entries.length)] }) := by
    simp [stepJoin, addPeer, World.setPeer, World.setRoom, World.emit]
  rw [e0]
  have hlook : ∀ a2 k p,
      ((Function.update w.roomAt a
          { w.roomAt a with peers := (w.roomAt a).peers.insert req.peer (some w.nextPeer) })
        a2).peers.lookup k = some p →
      (a2 = a ∧ k = req.peer ∧ p = some w.nextPeer) ∨ (w.roomAt a2).peers.lookup k = some p := by
    intro a2 k p h
    by_cases ha2 : a2 = a
    · subst ha2
      rw [Function.update_same] at h
      by_cases hk : k = req.peer
      · subst hk
        rw [AList.lookup_insert] at h
        exact Or.inl ⟨rfl, rfl, (Option.some.inj h).symm⟩
      · rw [AList.lookup_insert_ne hk] at h
        exact Or.inr h
    · rw [Function.update_noteq ha2] at h
      exact Or.inr h
  have hold : ∀ a2 k q, (w.roomAt a2).peers.lookup k = some (some q) → q ≠ w.nextPeer := by
    intro a2 k q h
    obtain ⟨q1, h1, h2, _⟩ := hw.peers a2 k _ h
    cases h1
    exact Nat.ne_of_lt h2
  have hown : Owns
      { sfu := w.sfu,
        roomAt := Function.update w.roomAt a
          { w.roomAt a with peers := (w.roomAt a).peers.insert req.peer (some w.nextPeer) },
        nextRoom := w.nextRoom,
        peerAt := Function.update w.peerAt w.nextPeer
          { id := req.peer, pc := some c, roomRef := some a, data := none,
            closed := Chan.made },
        nextPeer := w.nextPeer + 1, nextConn := w.nextConn, nextTrack := w.nextTrack,
        nextSender := w.nextSender,
        trace := w.trace ++ [Event.log (LogMsg.joined (w.roomAt a).id req.peer
          ((w.roomAt a).peers.insert req.peer (some w.nextPeer)).entries.length)] }
      req { conn := c, room := a, peer := w.nextPeer } := by
    refine ⟨hc, ha, Nat.lt_succ_self _, ?_, ?_, fun a2 k h => ?_⟩
    · show ((Function.update w.peerAt w.nextPeer _) w.nextPeer).pc = some c
      rw [Function.update_same]
    · show ((Function.update w.peerAt w.nextPeer _) w.nextPeer).id = req.peer
      rw [Function.update_same]
    · rcases hlook a2 k _ h with ⟨h1, h2, _⟩ | h1
      · exact ⟨h1, h2⟩
      · exact absurd rfl (hold a2 k _ h1)
  refine ⟨⟨fun id r h => hw.rooms id r h, fun a2 k p h => ?_, fun a2 k a3 k3 q h h3 => ?_,
      fun e he c1 hc1 => ?_⟩,
    ⟨le_refl _, le_refl _, Nat.le_succ _, fun q hq => ?_, fun a2 k q hq h => ?_, _, rfl⟩,
    ⟨hown, fun e he => ?_⟩, Or.inl rfl, fun c1 _ h e he => ?_, (fun j hj => by cases hj),
    fun a2 k _ => ?_, fun j hj _ => Or.inr ?_,
    (by simp [JoinPc.responded, responses_length_append, responses, Event.response]),
    Or.inl (by simp [JoinPc.rank])⟩
  · rcases hlook a2 k p h with ⟨_, _, h3⟩ | h1
    · refine ⟨w.nextPeer, h3, Nat.lt_succ_self _, ?_⟩
      show ((Function.update w.peerAt w.nextPeer _) w.nextPeer).closed = Chan.made
      rw [Function.update_same]
    · obtain ⟨q, h2, h3, h4⟩ := hw.peers a2 k p h1
      refine ⟨q, h2, Nat.lt_succ_of_lt h3, ?_⟩
      show ((Function.update w.peerAt w.nextPeer _) q).closed = Chan.made
      rw [Function.update_noteq (Nat.ne_of_lt h3)]
      exact h4
  · rcases hlook a2 k _ h with ⟨h1, h2, h4⟩ | h1
    · rcases hlook a3 k3 _ h3 with ⟨h5, h6, _⟩ | h5
      · exact ⟨h1.trans h5.symm, h2.trans h6.symm⟩
      · exact absurd (Option.some.inj h4) (hold a3 k3 _ h5)
    · rcases hlook a3 k3 _ h3 with ⟨_, _, h7⟩ | h5
      · exact absurd (Option.some.inj h7) (hold a2 k _ h1)
      · exact hw.once a2 k a3 k3 q h1 h5
  · rcases List.mem_append.1 he with he | he
    · exact hw.fails e he c1 hc1
    · simp only [List.mem_singleton] at he
      subst he; cases hc1
  · show ((Function.update w.peerAt w.nextPeer _) q).pc = _ ∧ ((Function.update w.peerAt w.nextPeer _) q).id = _
    rw [Function.update_noteq (Nat.ne_of_lt hq)]
    exact ⟨rfl, rfl⟩
  · rcases hlook a2 k _ h with ⟨_, _, h3⟩ | h1
    · exact absurd (Option.some.inj h3) (Nat.ne_of_lt hq)
    · exact h1
  · rcases List.mem_append.1 he with he | he
    · exact hn e he
    · simp only [List.mem_singleton] at he
      subst he; exact fun hh => by cases hh
  · rcases List.mem_append.1 he with he | he
    · exact h e he
    · simp only [List.mem_singleton] at he
      subst he; exact fun hh => by cases hh
  · by_cases hak : a2 = a ∧ k = req.peer
    · exact Or.inr ⟨_, rfl, hak.1.symm, hak.2.symm⟩
    · refine Or.inl ?_
      show ((Function.update w.roomAt a _) a2).peers.lookup k = _
      by_cases ha2 : a2 = a
      · subst ha2
        rw [Function.update_same]
        exact AList.lookup_insert_ne (fun hk => hak ⟨rfl, hk⟩)
      · rw [Function.update_noteq ha2]
  · cases hj
    show ((Function.update w.roomAt a _) a).peers.lookup req.peer = _
    rw [Function.update_same]
    exact AList.lookup_insert _

/-- The turn of `room.removePeer(peerID)` in a failure branch. -/
theorem StepOk_failing (env : Env) (jenv : JoinEnv) (req : Request)
    (j : Joined) (msg : String) (w : World) (hw : WorldOk w)
    (ht : ThreadOk jenv w { req := req, pc := JoinPc.failing j msg }) :
    StepOk jenv req (JoinPc.failing j msg) w
      (stepJoin env jenv req (JoinPc.failing j msg) w) := by
  obtain ⟨ho, hf, hr⟩ := ht
  have hpanic : (removePeer (some j.room) req.peer w).panic = none := by
    cases hl : (w.roomAt j.room).peers.lookup req.peer with
    | none => simp [removePeer, hl]
    | some p =>
      obtain ⟨q, hq, _, hm⟩ := hw.peers _ _ p hl
      subst hq
      rw [removePeer_present w j.room req.peer q hl hm]
  have e0 : stepJoin env jenv req (JoinPc.failing j msg) w
      = (JoinPc.removed j msg, (removePeer (some j.room) req.peer w).world) := by
    simp only [stepJoin, hpanic]
  rw [e0]
  obtain ⟨w1, hw1⟩ : ∃ w1, w1 = (removePeer (some j.room) req.peer w).world := ⟨_, rfl⟩
  rw [← hw1]
  have hroomAt : w1.roomAt = Function.update w.roomAt j.room
      { w.roomAt j.room with peers := (w.roomAt j.room).peers.erase req.peer } := by
    rw [hw1]; exact (removePeer_world w j.room req.peer).1
  have hsfu : w1.sfu = w.sfu := by rw [hw1]; exact (removePeer_world w j.room req.peer).2.1
  have hnr : w1.nextRoom = w.nextRoom := by
    rw [hw1]; exact (removePeer_world w j.room req.peer).2.2.1
  have hobj := (removePeer_world w j.room req.peer).2.2.2
  have hnp : w1.nextPeer = w.nextPeer := by
    rw [hw1]; exact (removePeer_counters (some j.room) req.peer w).1
  have hnc : w1.nextConn = w.nextConn := by
    rw [hw1]; exact (removePeer_counters (some j.room) req.peer w).2.1
  have hlook : ∀ a k p, (w1.roomAt a).peers.lookup k = some p →
      (w.roomAt a).peers.lookup k = some p ∧ ¬ (a = j.room ∧ k = req.peer) := by
    intro a k p h
    rw [hw1] at h
    exact removePeer_lookup w j.room req.peer a k p h
  have htrace : ∃ evs, w1.trace = w.trace ++ evs
      ∧ ∀ e ∈ evs, e.failedConn = none ∧ e.response = none := by
    cases hl : (w.roomAt j.room).peers.lookup req.peer with
    | none =>
      have e : removePeer (some j.room) req.peer w = ⟨none, w⟩ := by simp [removePeer, hl]
      rw [hw1, e]
      exact ⟨[], by simp, fun e he => by cases he⟩
    | some p =>
      obtain ⟨q, hq, _, hm⟩ := hw.peers _ _ p hl
      subst hq
      rw [hw1, removePeer_present w j.room req.peer q hl hm]
      refine ⟨_, rfl, fun e he => ?_⟩
      simp only [List.mem_cons, List.mem_singleton, List.not_mem_nil, or_false] at he
      rcases he with he | he <;> subst he <;> exact ⟨rfl, rfl⟩
  have hclosed : ∀ q, (w.roomAt j.room).peers.lookup req.peer ≠ some (some q) →
      (w1.peerAt q).closed = (w.peerAt q).closed := by
    intro q hq
    rw [hw1, (removePeer_signals w j.room req.peer).1 q hq]
  obtain ⟨evs, hevs, hq⟩ := htrace
  have hev : Evolves w w1 :=
    ⟨by rw [hnc], by rw [hnr], by rw [hnp],
      fun q _ => by rw [hw1]; exact ⟨(hobj q).2.2, (hobj q).2.1⟩,
      fun a k q _ h => (hlook a k _ h).1, evs, hevs⟩
  refine ⟨⟨fun id r h => ?_, fun a k p h => ?_, fun a k a1 k1 q h h1 => ?_,
      fun e he c1 hc1 => ?_⟩, hev,
    ⟨Owns_evolves w w1 req j hev ho, FailedStep_evolves w w1 _ _ hev hf,
      responses_evolves w w1 _ hev hr, fun a k h => ?_⟩,
    Or.inl rfl, fun c1 _ h e he => ?_, fun j1 hj => hj, fun a k _ => ?_,
    (fun j1 _ hc => by simp [JoinPc.cleaned] at hc), ?_, Or.inl (by simp [JoinPc.rank])⟩
  · rw [hsfu] at h; rw [hnr]; exact hw.rooms id r h
  · obtain ⟨h1, h2⟩ := hlook a k p h
    obtain ⟨q, h3, h4, h5⟩ := hw.peers a k p h1
    subst h3
    refine ⟨q, rfl, by rw [hnp]; exact h4, ?_⟩
    rw [hclosed q (fun hh => h2 (hw.once a k j.room req.peer q h1 hh)), h5]
  · exact hw.once a k a1 k1 q (hlook a k _ h).1 (hlook a1 k1 _ h1).1
  · rw [hevs] at he
    rw [hnc]
    rcases List.mem_append.1 he with he | he
    · exact hw.fails e he c1 hc1
    · rw [(hq e he).1] at hc1; cases hc1
  · obtain ⟨h1, h2⟩ := hlook a k _ h
    exact h2 (ho.2.2.2.2.2 a k h1)
  · rw [hevs] at he
    rcases List.mem_append.1 he with he | he
    · exact h e he
    · rw [(hq e he).1]; exact fun hh => by cases hh
  · by_cases hak : a = j.room ∧ k = req.peer
    · exact Or.inr ⟨j, rfl, hak.1.symm, hak.2.symm⟩
    · refine Or.inl ?_
      show (w1.roomAt a).peers.lookup k = _
      rw [hroomAt]
      by_cases ha2 : a = j.room
      · subst ha2
        rw [Function.update_same]
        exact AList.lookup_erase_ne (fun hk => hak ⟨rfl, hk⟩)
      · rw [Function.update_noteq ha2]
  · show (responses w1.trace).length + _ = _
    rw [hevs, responses_length_append]
    have : responses evs = [] := by
      simp only [responses, List.filterMap_eq_nil_iff]
      exact fun e he => (hq e he).2
    simp [this, JoinPc.responded]

/-- Every turn of a goroutine of `HandleJoin` keeps the invariants. -/
theorem stepJoin_ok (env : Env) (jenv : JoinEnv) (req : Request) (pc : JoinPc) (w : World)
    (hw : WorldOk w) (ht : ThreadOk jenv w { req := req, pc := pc }) :
    StepOk jenv req pc w (stepJoin env jenv req pc w) := by
  cases pc with
  | start => exact StepOk_start env jenv req w hw
  | connected offer c => exact StepOk_connected env jenv req offer c w hw ht
  | resolved offer c room => exact StepOk_resolved env jenv req offer c room w hw ht
  | added offer j => exact StepOk_added env jenv req offer j w hw ht
  | remoteSet j => exact StepOk_remoteSet env jenv req j w hw ht
  | answered j answer => exact StepOk_answered env jenv req j answer w hw ht
  | localSet j => exact StepOk_localSet env jenv req j w hw ht
  | failing j msg => exact StepOk_failing env jenv req j msg w hw ht
  | removed j msg => exact StepOk_removed env jenv req j msg w hw ht
  | done status reply jo => exact StepOk_done env jenv req status reply jo w hw ht
  | panicked e => exact absurd ht (fun h => h)

theorem countP_set_of_getElem {α : Type} (p : α → Bool) (l : List α) (i : Nat) (x y : α)
    (h : l[i]? = some y) :
    (l.set i x).countP p + (if p y then 1 else 0) = l.countP p + (if p x then 1 else 0) := by
  induction l generalizing i with
  | nil => simp at h
  | cons a rest ih =>
    cases i with
    | zero =>
      simp only [List.getElem?_cons_zero, Option.some.injEq] at h
      subst h
      simp only [List.set_cons_zero, List.countP_cons]
      omega
    | succ n =>
      simp only [List.getElem?_cons_succ] at h
      simp only [List.set_cons_succ, List.countP_cons]
      have := ih n h
      omega

theorem Quiet_refl (w : World) : Quiet w w :=
  ⟨fun _ _ h => h, rfl, rfl, fun _ => ⟨rfl, rfl, rfl⟩, rfl, rfl, [], by simp,
    fun e he => by cases he⟩

theorem Quiet_trans (w w1 w2 : World) (h1 : Quiet w w1) (h2 : Quiet w1 w2) : Quiet w w2 := by
  obtain ⟨evs1, t1, q1⟩ := h1.trace
  obtain ⟨evs2, t2, q2⟩ := h2.trace
  refine ⟨fun id r h => h1.sfu id r (h2.sfu id r h), h2.roomAt.trans h1.roomAt,
    h2.nextRoom.trans h1.nextRoom,
    fun q => ⟨(h2.peerAt q).1.trans (h1.peerAt q).1, (h2.peerAt q).2.1.trans (h1.peerAt q).2.1,
      (h2.peerAt q).2.2.trans (h1.peerAt q).2.2⟩,
    h2.nextPeer.trans h1.nextPeer, h2.nextConn.trans h1.nextConn, evs1 ++ evs2,
    by rw [t2, t1, List.append_assoc], fun e he => ?_⟩
  rcases List.mem_append.1 he with he | he
  · exact q1 e he
  · exact q2 e he

/-- A state that differs only in the trace, by harmless events, and in the
counters of tracks and senders. -/
theorem Quiet_events (w w1 : World) (evs : List Event) (h1 : w1.sfu = w.sfu)
    (h2 : w1.roomAt = w.roomAt) (h3 : w1.nextRoom = w.nextRoom) (h4 : w1.peerAt = w.peerAt)
    (h5 : w1.nextPeer = w.nextPeer) (h6 : w1.nextConn = w.nextConn)
    (h7 : w1.trace = w.trace ++ evs)
    (h8 : ∀ e ∈ evs, e.failedConn = none ∧ e.response = none) : Quiet w w1 :=
  ⟨fun id r h => by rw [h1] at h; exact h, h2, h3, fun q => by rw [h4]; exact ⟨rfl, rfl, rfl⟩,
    h5, h6, evs, h7, h8⟩

/-- Harmless events first, then a quiet turn. -/
theorem Quiet_after (w w1 w2 : World) (evs : List Event) (h : Quiet w1 w2)
    (h1 : w1.sfu = w.sfu)
    (h2 : w1.roomAt = w.roomAt) (h3 : w1.nextRoom = w.nextRoom) (h4 : w1.peerAt = w.peerAt)
    (h5 : w1.nextPeer = w.nextPeer) (h6 : w1.nextConn = w.nextConn)
    (h7 : w1.trace = w.trace ++ evs)
    (h8 : ∀ e ∈ evs, e.failedConn = none ∧ e.response = none) : Quiet w w2 :=
  Quiet_trans w w1 w2 (Quiet_events w w1 evs h1 h2 h3 h4 h5 h6 h7 h8) h

/-- The loop `closePeers` only calls `Close`. -/
theorem closePeers_quiet (env : Env) (l : List (Entry Ptr)) (w : World) :
    Quiet w (closePeers env l w).world := by
  induction l generalizing w with
  | nil => exact Quiet_refl w
  | cons e rest ih =>
    obtain ⟨k, p⟩ := e
    cases p with
    | none => exact Quiet_refl w
    | some q =>
      cases hpc : (w.peerAt q).pc with
      | none =>
        simp only [closePeers, hpc]
        exact ih w
      | some pc =>
        simp only [closePeers, hpc]
        refine Quiet_after w _ _ [Event.pcClose pc (env.closeErr w.trace pc)] (ih _)
          rfl rfl rfl rfl rfl rfl rfl (fun e he => ?_)
        simp only [List.mem_singleton] at he
        subst he
        exact ⟨rfl, rfl⟩

/-- The loop of `broadcastData` only calls `Send`. -/
theorem broadcastLoop_quiet (env : Env) (senderID : String) (data : Bytes)
    (l : List (Entry Ptr)) (w : World) :
    Quiet w (broadcastLoop env senderID data l w) := by
  induction l generalizing w with
  | nil => exact Quiet_refl w
  | cons e rest ih =>
    obtain ⟨k, p⟩ := e
    by_cases hk : k = senderID
    · simp only [broadcastLoop, hk, if_true]; exact ih w
    · cases p with
      | none => simp only [broadcastLoop, hk, if_false]; exact ih w
      | some q =>
        cases hd : (w.peerAt q).data with
        | none => simp only [broadcastLoop, hk, if_false, hd]; exact ih w
        | some dc =>
          simp only [broadcastLoop, hk, if_false, hd]
          refine Quiet_after w _ _ [Event.send dc data (env.sendErr w.trace dc data)] (ih _)
            rfl rfl rfl rfl rfl rfl rfl (fun e he => ?_)
          simp only [List.mem_singleton] at he
          subst he
          exact ⟨rfl, rfl⟩

/-- The loop of `forwardTrack` only makes and attaches tracks, starts tasks and
logs. -/
theorem forwardLoop_quiet (env : Env) (roomID senderID : String) (remote : Nat)
    (l : List Ptr) (w : World) :
    Quiet w (forwardLoop env roomID senderID remote l w).world := by
  induction l generalizing w with
  | nil => exact Quiet_refl w
  | cons p rest ih =>
    cases p with
    | none => exact Quiet_refl w
    | some q =>
      by_cases hid : (w.peerAt q).id = senderID
      · simp only [forwardLoop, hid, if_true]; exact ih w
      · cases hpc : (w.peerAt q).pc with
        | none => simp only [forwardLoop, hid, if_false, hpc]; exact ih w
        | some pc =>
          by_cases hnew : env.newTrackErr remote q = true
          · simp only [forwardLoop, hid, if_false, hpc, hnew, if_true]
            refine Quiet_after w _ _
              [Event.newLocalTrack remote none,
                Event.log (LogMsg.newTrackError roomID (w.peerAt q).id)] (ih _)
              rfl rfl rfl rfl rfl rfl (by simp [World.emit]) (fun e he => ?_)
            simp only [List.mem_cons, List.mem_singleton, List.not_mem_nil, or_false] at he
            rcases he with he | he <;> subst he <;> exact ⟨rfl, rfl⟩
          · by_cases hadd : env.addTrackErr remote q = true
            · simp only [forwardLoop, hid, if_false, hpc, hnew, hadd, if_true]
              refine Quiet_after w _ _
                [Event.newLocalTrack remote (some w.nextTrack),
                  Event.addTrack pc w.nextTrack none,
                  Event.log (LogMsg.addTrackError roomID (w.peerAt q).id)] (ih _)
                rfl rfl rfl rfl rfl rfl (by simp [World.emit]) (fun e he => ?_)
              simp only [List.mem_cons, List.mem_singleton, List.not_mem_nil, or_false] at he
              rcases he with he | he | he <;> subst he <;> exact ⟨rfl, rfl⟩
            · simp only [forwardLoop, hid, if_false, hpc, hnew, hadd]
              refine Quiet_after w _ _
                [Event.newLocalTrack remote (some w.nextTrack),
                  Event.addTrack pc w.nextTrack (some w.nextSender),
                  Event.goForward remote w.nextTrack q w.nextSender,
                  Event.goDrain w.nextSender] (ih _)
                rfl rfl rfl rfl rfl rfl (by simp [World.emit]) (fun e he => ?_)
              simp only [List.mem_cons, List.mem_singleton, List.not_mem_nil, or_false] at he
              rcases he with he | he | he | he <;> subst he <;> exact ⟨rfl, rfl⟩

/-- A critical section of `CloseRoom` or `CloseAll` and a callback write
nothing that the joins rely on. -/
theorem Turn_run_quiet (env : Env) (turn : Turn) (w : World) : Quiet w (turn.run env w) := by
  cases turn with
  | join i => exact Quiet_refl w
  | closeRoomDelete roomID =>
    cases hl : w.sfu.rooms.lookup roomID with
    | none =>
      have e : (Turn.closeRoomDelete roomID).run env w = w := by simp only [Turn.run, hl]
      rw [e]; exact Quiet_refl w
    | some r =>
      have e : (Turn.closeRoomDelete roomID).run env w
          = { w with sfu := { rooms := w.sfu.rooms.erase roomID } } := by
        simp only [Turn.run, hl]
      rw [e]
      refine ⟨fun id r1 h => ?_, rfl, rfl, fun _ => ⟨rfl, rfl, rfl⟩, rfl, rfl, [],
        (List.append_nil _).symm, fun e he => by cases he⟩
      have h1 : (w.sfu.rooms.erase roomID).lookup id = some r1 := h
      by_cases hid : id = roomID
      · rw [hid] at h1; simp [AList.lookup_erase] at h1
      · rw [AList.lookup_erase_ne hid] at h1; exact h1
  | closeAllSwap =>
    refine ⟨fun id r1 h => ?_, rfl, rfl, fun _ => ⟨rfl, rfl, rfl⟩, rfl, rfl, [],
      (List.append_nil _).symm, fun e he => by cases he⟩
    have h1 : (∅ : GoMap Ptr).lookup id = some r1 := h
    simp at h1
  | closeLoop a => exact closePeers_quiet env _ w
  | onDataChannel peerID q dc =>
    refine ⟨fun id r h => h, rfl, rfl, fun q1 => ?_, rfl, rfl,
      [Event.log (LogMsg.dataChannelOpen peerID dc)], rfl, fun e he => ?_⟩
    · show ((Function.update w.peerAt q { w.peerAt q with data := some dc }) q1).pc = _ ∧
        ((Function.update w.peerAt q { w.peerAt q with data := some dc }) q1).id = _ ∧
        ((Function.update w.peerAt q { w.peerAt q with data := some dc }) q1).closed = _
      by_cases hq : q1 = q
      · subst hq
        rw [Function.update_same]
        exact ⟨rfl, rfl, rfl⟩
      · rw [Function.update_noteq hq]
        exact ⟨rfl, rfl, rfl⟩
    · simp only [List.mem_singleton] at he
      subst he
      exact ⟨rfl, rfl⟩
  | onMessage room peerID data =>
    cases room with
    | none => exact Quiet_refl w
    | some a => exact broadcastLoop_quiet env peerID data _ w
  | onTrack room peerID remote =>
    cases room with
    | none => exact Quiet_refl w
    | some a =>
      refine Quiet_after w _ _
        [Event.log (LogMsg.incomingTrack (w.roomAt a).id remote peerID)]
        (forwardLoop_quiet env _ peerID remote _ _) rfl rfl rfl rfl rfl rfl rfl (fun e he => ?_)
      simp only [List.mem_singleton] at he
      subst he
      exact ⟨rfl, rfl⟩

/-- A critical section of `CloseRoom` or `CloseAll` or a callback keeps the
invariant: the goroutines of the joins stay where they are. -/
theorem SysInv_quiet (jenv : JoinEnv) (s : Sys) (w1 : World) (inv : SysInv jenv s)
    (hq : Quiet s.world w1) : SysInv jenv { world := w1, joins := s.joins } := by
  obtain ⟨evs, h7, h8⟩ := hq.trace
  have hev : Evolves s.world w1 := Evolves_quiet s.world w1 evs hq.roomAt hq.nextRoom hq.peerAt
    hq.nextPeer (by rw [hq.nextConn]) h7
  refine ⟨WorldOk_quiet s.world w1 evs inv.world hq.sfu hq.roomAt hq.nextRoom hq.peerAt
      hq.nextPeer (by rw [hq.nextConn]) h7
      (fun e he c hc => by rw [(h8 e he).1] at hc; cases hc),
    fun i t hi => ThreadOk_evolves jenv s.world w1 t hev
      (fun c _ => NoFailure_append s.world w1 evs none h7 (fun e he => Or.inl (h8 e he).1) c
        (fun hh => by cases hh)) (inv.threads i t hi),
    inv.conns, ?_⟩
  show (responses w1.trace).length = _
  rw [h7, responses_length_append, inv.counted]
  have : responses evs = [] := by
    simp only [responses, List.filterMap_eq_nil_iff]
    exact fun e he => (h8 e he).2
  simp [this]

/-- A turn of a goroutine of `HandleJoin` keeps the invariant of the relay and
of all goroutines. -/
theorem SysInv_join (env : Env) (jenv : JoinEnv) (s : Sys) (i : Nat) (th : JoinThread)
    (inv : SysInv jenv s) (hi : s.joins[i]? = some th) :
    SysInv jenv
      { world := (stepJoin env jenv th.req th.pc s.world).2,
        joins := s.joins.set i { req := th.req, pc := (stepJoin env jenv th.req th.pc s.world).1 } } := by
  have hs : StepOk jenv th.req th.pc s.world (stepJoin env jenv th.req th.pc s.world) :=
    stepJoin_ok env jenv th.req th.pc s.world inv.world (inv.threads i th hi)
  obtain ⟨r, hr⟩ : ∃ r, r = stepJoin env jenv th.req th.pc s.world := ⟨_, rfl⟩
  rw [← hr] at hs ⊢
  have hlen : i < s.joins.length := by
    rcases Nat.lt_or_ge i s.joins.length with h | h
    · exact h
    · rw [List.getElem?_eq_none h] at hi; cases hi
  have hself : (s.joins.set i { req := th.req, pc := r.1 })[i]? = some { req := th.req, pc := r.1 } := by
    rw [List.getElem?_set_self hlen]
  have hother : ∀ k : Nat, k ≠ i →
      (s.joins.set i { req := th.req, pc := r.1 })[k]? = s.joins[k]? :=
    fun k hk => List.getElem?_set_ne (fun e => hk e.symm)
  have hfresh : ∀ (k : Nat) (t : JoinThread) (c : Nat), k ≠ i → s.joins[k]? = some t →
      t.pc.conn = some c → r.1.conn ≠ some c := by
    intro k t c hk hkt hc
    rcases hs.conn with h | ⟨_, h, _⟩
    · rw [h]
      intro hh
      exact inv.conns i k th t c (fun e => hk e.symm) hi hkt hh hc
    · rw [h]
      intro hh
      have := ThreadOk_conn jenv s.world t c (inv.threads k t hkt) hc
      rw [← Option.some.inj hh] at this
      exact lt_irrefl _ this
  refine ⟨hs.world, fun k t hk => ?_, fun i1 k1 ti tk c hne h1 h2 hc1 => ?_, ?_⟩
  · by_cases hki : k = i
    · subst hki
      rw [hself] at hk
      cases hk
      exact hs.thread
    · rw [hother k hki] at hk
      exact ThreadOk_evolves jenv s.world r.2 t hs.evolves
        (fun c hc => hs.quiet c (hfresh k t c hki hk hc)) (inv.threads k t hk)
  · show ¬ _
    intro hc2
    by_cases h1i : i1 = i
    · subst h1i
      rw [hself] at h1
      cases h1
      rw [hother k1 (fun e => hne e.symm)] at h2
      exact hfresh k1 tk c (fun e => hne e.symm) h2 hc2 hc1
    · rw [hother i1 h1i] at h1
      by_cases h2i : k1 = i
      · subst h2i
        rw [hself] at h2
        cases h2
        exact hfresh i1 ti c h1i h1 hc1 hc2
      · rw [hother k1 h2i] at h2
        exact inv.conns i1 k1 ti tk c hne h1 h2 hc1 hc2
  · show (responses r.2.trace).length = (s.joins.set i { req := th.req, pc := r.1 }).countP _
    have h1 := countP_set_of_getElem (fun t : JoinThread => t.pc.responded) s.joins i
      { req := th.req, pc := r.1 } th hi
    have h2 := hs.count
    have h3 := inv.counted
    unfold Counted at h3
    simp only at h1
    omega

/-- Every turn of the scheduler keeps the invariant. -/
theorem SysInv_step (env : Env) (jenv : JoinEnv) (t : Turn) (s : Sys) (inv : SysInv jenv s) :
    SysInv jenv (stepSys env jenv t s) := by
  cases t with
  | join i =>
    cases hi : s.joins[i]? with
    | none =>
      have e : stepSys env jenv (Turn.join i) s = s := by simp only [stepSys, hi]
      rw [e]; exact inv
    | some th =>
      have e : stepSys env jenv (Turn.join i) s
          = { world := (stepJoin env jenv th.req th.pc s.world).2,
              joins := s.joins.set i
                { req := th.req, pc := (stepJoin env jenv th.req th.pc s.world).1 } } := by
        simp only [stepSys, hi]
      rw [e]
      exact SysInv_join env jenv s i th inv hi
  | closeRoomDelete roomID => exact SysInv_quiet jenv s _ inv (Turn_run_quiet env _ s.world)
  | closeAllSwap => exact SysInv_quiet jenv s _ inv (Turn_run_quiet env _ s.world)
  | closeLoop a => exact SysInv_quiet jenv s _ inv (Turn_run_quiet env _ s.world)
  | onDataChannel peerID q dc => exact SysInv_quiet jenv s _ inv (Turn_run_quiet env _ s.world)
  | onMessage room peerID data => exact SysInv_quiet jenv s _ inv (Turn_run_quiet env _ s.world)
  | onTrack room peerID remote => exact SysInv_quiet jenv s _ inv (Turn_run_quiet env _ s.world)

/-- The invariant holds after every schedule. -/
theorem SysInv_run (env : Env) (jenv : JoinEnv) (sched : List Turn) (s : Sys)
    (inv : SysInv jenv s) : SysInv jenv (runSys env jenv sched s) := by
  induction sched generalizing s with
  | nil => exact inv
  | cons t rest ih => exact ih (stepSys env jenv t s) (SysInv_step env jenv t s inv)

/-- The invariant holds at process start, before any goroutine has run. -/
theorem SysInv_start (jenv : JoinEnv) (reqs : List Request) : SysInv jenv (Sys.start reqs) := by
  have hpc : ∀ (i : Nat) (t : JoinThread), (Sys.start reqs).joins[i]? = some t →
      t.pc = JoinPc.start := by
    intro i t h
    simp only [Sys.start, List.getElem?_map, Option.map_eq_some'] at h
    obtain ⟨r, _, h2⟩ := h
    rw [← h2]
  refine ⟨⟨fun id r h => ?_, fun a k p h => ?_, fun a k a1 k1 q h _ => ?_,
      fun e he => by cases he⟩, fun i t h => ?_, fun i k ti tk c _ h1 _ hc => ?_, ?_⟩
  · have h1 : (∅ : GoMap Ptr).lookup id = some r := h
    simp at h1
  · have h1 : (∅ : GoMap Ptr).lookup k = some p := h
    simp at h1
  · have h1 : (∅ : GoMap Ptr).lookup k = some (some q) := h
    simp at h1
  · obtain ⟨req, pc⟩ := t
    have := hpc i _ h
    simp only at this
    subst this
    trivial
  · rw [hpc i ti h1] at hc; cases hc
  · show (responses ([] : List Event)).length
      = List.countP (fun t : JoinThread => t.pc.responded)
          (reqs.map (fun r => { req := r, pc := JoinPc.start }))
    rw [List.countP_map]
    have h0 : List.countP ((fun t : JoinThread => t.pc.responded)
        ∘ fun r => { req := r, pc := JoinPc.start }) reqs = 0 := by
      rw [List.countP_eq_zero]
      intro r _
      simp [JoinPc.responded]
    rw [h0]
    rfl

/-- The goroutines are the ones of the requests, and each turn of a goroutine
that has not returned brings it nearer to its return. -/
theorem runSys_rank (env : Env) (jenv : JoinEnv) (sched : List Turn) (s : Sys)
    (inv : SysInv jenv s) (i : Nat) (t : JoinThread)
    (h : (runSys env jenv sched s).joins[i]? = some t) :
    ∃ t0, s.joins[i]? = some t0 ∧ t.req = t0.req
      ∧ (t.pc.rank + sched.count (Turn.join i) ≤ t0.pc.rank ∨ t.pc.rank = 0) := by
  induction sched generalizing s with
  | nil => exact ⟨t, h, rfl, Or.inl (by simp)⟩
  | cons turn rest ih =>
    obtain ⟨t1, h1, h2, h3⟩ := ih (stepSys env jenv turn s) (SysInv_step env jenv turn s inv) h
    have hsame : ∀ turn1 : Turn, turn1 ≠ Turn.join i →
        (stepSys env jenv turn1 s).joins[i]? = s.joins[i]? →
        (stepSys env jenv turn1 s).joins[i]? = some t1 →
        ∃ t0, s.joins[i]? = some t0 ∧ t.req = t0.req
          ∧ (t.pc.rank + (turn1 :: rest).count (Turn.join i) ≤ t0.pc.rank ∨ t.pc.rank = 0) := by
      intro turn1 hne he ht1
      rw [he] at ht1
      refine ⟨t1, ht1, h2, ?_⟩
      rw [List.count_cons_of_ne hne.symm]
      exact h3
    cases turn with
    | join k =>
      by_cases hk : k = i
      · subst hk
        cases hi : s.joins[k]? with
        | none =>
          have e : stepSys env jenv (Turn.join k) s = s := by simp only [stepSys, hi]
          rw [e, hi] at h1
          cases h1
        | some th =>
          have e : stepSys env jenv (Turn.join k) s
              = { world := (stepJoin env jenv th.req th.pc s.world).2,
                  joins := s.joins.set k
                    { req := th.req, pc := (stepJoin env jenv th.req th.pc s.world).1 } } := by
            simp only [stepSys, hi]
          have hlen : k < s.joins.length := by
            rcases Nat.lt_or_ge k s.joins.length with hh | hh
            · exact hh
            · rw [List.getElem?_eq_none hh] at hi; cases hi
          rw [e] at h1
          have h1a : (s.joins.set k
              { req := th.req, pc := (stepJoin env jenv th.req th.pc s.world).1 })[k]?
              = some t1 := h1
          rw [List.getElem?_set_self hlen] at h1a
          have ht1 : t1 = { req := th.req, pc := (stepJoin env jenv th.req th.pc s.world).1 } :=
            (Option.some.inj h1a).symm
          have hs := (stepJoin_ok env jenv th.req th.pc s.world inv.world
            (inv.threads k th hi)).rank
          refine ⟨th, rfl, by rw [h2, ht1], ?_⟩
          rw [List.count_cons_self]
          rw [ht1] at h3
          simp only at h3
          rcases hs with hs | ⟨hs1, hs2⟩
          · rcases h3 with h3 | h3
            · exact Or.inl (by omega)
            · exact Or.inr h3
          · rw [hs2, hs1] at h3
            rcases h3 with h3 | h3
            · exact Or.inr (by omega)
            · exact Or.inr h3
      · refine hsame (Turn.join k) (fun e => hk (Turn.join.inj e)) ?_ h1
        cases hi : s.joins[k]? with
        | none =>
          have e : stepSys env jenv (Turn.join k) s = s := by simp only [stepSys, hi]
          rw [e]
        | some th =>
          have e : stepSys env jenv (Turn.join k) s
              = { world := (stepJoin env jenv th.req th.pc s.world).2,
                  joins := s.joins.set k
                    { req := th.req, pc := (stepJoin env jenv th.req th.pc s.world).1 } } := by
            simp only [stepSys, hi]
          rw [e]
          exact List.getElem?_set_ne hk
    | closeRoomDelete roomID => exact hsame _ (fun e => by cases e) rfl h1
    | closeAllSwap => exact hsame _ (fun e => by cases e) rfl h1
    | closeLoop a => exact hsame _ (fun e => by cases e) rfl h1
    | onDataChannel peerID q dc => exact hsame _ (fun e => by cases e) rfl h1
    | onMessage room peerID data => exact hsame _ (fun e => by cases e) rfl h1
    | onTrack room peerID remote => exact hsame _ (fun e => by cases e) rfl h1

/-- A goroutine of rank 0 that has not panicked has returned. -/
theorem rank_zero_done (pc : JoinPc) (h : pc.rank = 0) (hp : ∀ e, pc ≠ JoinPc.panicked e) :
    ∃ status reply j, pc = JoinPc.done status reply j := by
  cases pc with
  | done status reply j => exact ⟨status, reply, j, rfl⟩
  | panicked e => exact absurd rfl (hp e)
  | start => simp [JoinPc.rank] at h
  | connected offer c => simp [JoinPc.rank] at h
  | resolved offer c room => simp [JoinPc.rank] at h
  | added offer j => simp [JoinPc.rank] at h
  | remoteSet j => simp [JoinPc.rank] at h
  | answered j answer => simp [JoinPc.rank] at h
  | localSet j => simp [JoinPc.rank] at h
  | failing j msg => simp [JoinPc.rank] at h
  | removed j msg => simp [JoinPc.rank] at h

/-- From the start of the process no goroutine of `HandleJoin` panics, and one
that was given nine turns has returned. -/
theorem join_returns (env : Env) (jenv : JoinEnv) (reqs : List Request) (sched : List Turn)
    (i : Nat) (t : JoinThread)
    (h : (runSys env jenv sched (Sys.start reqs)).joins[i]? = some t) :
    (∀ e, t.pc ≠ JoinPc.panicked e)
    ∧ (9 ≤ sched.count (Turn.join i) → ∃ status reply j, t.pc = JoinPc.done status reply j) := by
  have inv := SysInv_run env jenv sched (Sys.start reqs) (SysInv_start jenv reqs)
  have ht := inv.threads i t h
  have hp : ∀ e, t.pc ≠ JoinPc.panicked e := by
    intro e he
    obtain ⟨req, pc⟩ := t
    simp only at he
    subst he
    exact ht
  refine ⟨hp, fun hc => ?_⟩
  obtain ⟨t0, h1, _, h3⟩ := runSys_rank env jenv sched (Sys.start reqs)
    (SysInv_start jenv reqs) i t h
  have h0 : t0.pc = JoinPc.start := by
    simp only [Sys.start, List.getElem?_map, Option.map_eq_some'] at h1
    obtain ⟨r, _, h2⟩ := h1
    rw [← h2]
  rw [h0] at h3
  have hr : t.pc.rank = 0 := by
    rcases h3 with h3 | h3
    · have h9 : JoinPc.start.rank = 9 := rfl
      rw [h9] at h3
      omega
    · exact h3
  exact rank_zero_done t.pc hr hp

/-- A goroutine that has returned or panicked stays where it is. -/
theorem soloJoin_done (env : Env) (jenv : JoinEnv) (req : Request) (n : Nat) (pc : JoinPc)
    (w : World) (h : stepJoin env jenv req pc w = (pc, w)) :
    soloJoin env jenv req n (pc, w) = (pc, w) := by
  induction n with
  | zero => rfl
  | succ n ih => simp only [soloJoin, h]; exact ih

/-- The end of a failure branch, run alone, is `failJoin`. -/
theorem soloJoin_failJoin (env : Env) (jenv : JoinEnv) (req : Request) (n : Nat) (j : Joined)
    (msg : String) (w : World) :
    (soloJoin env jenv req (n + 2)
        (JoinPc.failing j msg, w.emit (Event.respond 500 (Reply.error msg)))).2
      = (failJoin env (some j.room) req.peer j.conn msg w).world := by
  cases hp : (removePeer (some j.room) req.peer
      (w.emit (Event.respond 500 (Reply.error msg)))).panic with
  | some e =>
    have e1 : stepJoin env jenv req (JoinPc.failing j msg)
          (w.emit (Event.respond 500 (Reply.error msg)))
        = (JoinPc.panicked e, (removePeer (some j.room) req.peer
            (w.emit (Event.respond 500 (Reply.error msg)))).world) := by
      simp only [stepJoin, hp]
    simp only [soloJoin, e1, failJoin, hp]
    rw [soloJoin_done env jenv req _ _ _ rfl]
    rfl
  | none =>
    have e1 : stepJoin env jenv req (JoinPc.failing j msg)
          (w.emit (Event.respond 500 (Reply.error msg)))
        = (JoinPc.removed j msg, (removePeer (some j.room) req.peer
            (w.emit (Event.respond 500 (Reply.error msg)))).world) := by
      simp only [stepJoin, hp]
    simp only [soloJoin, e1, failJoin, hp]
    rw [soloJoin_done env jenv req _ _ _ rfl]
    rfl

/-- The handshake of a goroutine run alone is `negotiate`. -/
theorem soloJoin_negotiate (env : Env) (jenv : JoinEnv) (req : Request) (offer : SessionDescription)
    (j : Joined) (w : World) :
    (soloJoin env jenv req 6 (JoinPc.added offer j, w)).2
      = (negotiate env jenv (some j.room) req.peer j.conn offer w).world := by
  cases h1 : jenv.setRemoteDescriptionErr w.trace j.conn offer with
  | some err =>
    have e1 : stepJoin env jenv req (JoinPc.added offer j) w
        = (JoinPc.failing j err,
            (((w.emit (Event.setRemoteDescription j.conn offer (some err))).emit
              (Event.log (LogMsg.setRemoteDescriptionError err))).emit
              (Event.respond 500 (Reply.error err)))) := by
      simp only [stepJoin, h1]
    have e2 : negotiate env jenv (some j.room) req.peer j.conn offer w
        = failJoin env (some j.room) req.peer j.conn err
            ((w.emit (Event.setRemoteDescription j.conn offer (some err))).emit
              (Event.log (LogMsg.setRemoteDescriptionError err))) := by
      simp only [negotiate, h1]
    rw [e2, ← soloJoin_failJoin env jenv req 3 j err]
    simp only [soloJoin, e1]
  | none =>
    have e1 : stepJoin env jenv req (JoinPc.added offer j) w
        = (JoinPc.remoteSet j, w.emit (Event.setRemoteDescription j.conn offer none)) := by
      simp only [stepJoin, h1]
    cases h2 : jenv.createAnswer (w.emit (Event.setRemoteDescription j.conn offer none)).trace
        j.conn with
    | error err =>
      have e2 : stepJoin env jenv req (JoinPc.remoteSet j)
            (w.emit (Event.setRemoteDescription j.conn offer none))
          = (JoinPc.failing j err,
              ((((w.emit (Event.setRemoteDescription j.conn offer none)).emit
                (Event.createAnswer j.conn none)).emit
                (Event.log (LogMsg.createAnswerError err))).emit
                (Event.respond 500 (Reply.error err)))) := by
        simp only [stepJoin, h2]
      have e3 : negotiate env jenv (some j.room) req.peer j.conn offer w
          = failJoin env (some j.room) req.peer j.conn err
              (((w.emit (Event.setRemoteDescription j.conn offer none)).emit
                (Event.createAnswer j.conn none)).emit
                (Event.log (LogMsg.createAnswerError err))) := by
        simp only [negotiate, h1, h2]
      rw [e3, ← soloJoin_failJoin env jenv req 2 j err]
      simp only [soloJoin, e1, e2]
    | ok answer =>
      have e2 : stepJoin env jenv req (JoinPc.remoteSet j)
            (w.emit (Event.setRemoteDescription j.conn offer none))
          = (JoinPc.answered j answer,
              (w.emit (Event.setRemoteDescription j.conn offer none)).emit
                (Event.createAnswer j.conn (some answer))) := by
        simp only [stepJoin, h2]
      cases h3 : jenv.setLocalDescriptionErr ((w.emit (Event.setRemoteDescription j.conn offer none)).emit (Event.createAnswer j.conn (some answer))).trace j.conn answer with
      | some err =>
        have e3 : stepJoin env jenv req (JoinPc.answered j answer) ((w.emit (Event.setRemoteDescription j.conn offer none)).emit (Event.createAnswer j.conn (some answer)))
            = (JoinPc.localSet j, ((((w.emit (Event.setRemoteDescription j.conn offer none)).emit (Event.createAnswer j.conn (some answer))).emit (Event.setLocalDescription j.conn answer (some err))).emit (Event.log (LogMsg.setLocalDescriptionError err)))) := by
          simp only [stepJoin, h3]
        cases h4 : jenv.localDescription (((((w.emit (Event.setRemoteDescription j.conn offer none)).emit (Event.createAnswer j.conn (some answer))).emit (Event.setLocalDescription j.conn answer (some err))).emit (Event.log (LogMsg.setLocalDescriptionError err)))).trace j.conn with
        | none =>
          have e5 : stepJoin env jenv req (JoinPc.localSet j) (((((w.emit (Event.setRemoteDescription j.conn offer none)).emit (Event.createAnswer j.conn (some answer))).emit (Event.setLocalDescription j.conn answer (some err))).emit (Event.log (LogMsg.setLocalDescriptionError err))))
              = (JoinPc.failing j "local description is nil",
                  ((((((w.emit (Event.setRemoteDescription j.conn offer none)).emit (Event.createAnswer j.conn (some answer))).emit (Event.setLocalDescription j.conn answer (some err))).emit (Event.log (LogMsg.setLocalDescriptionError err)))).emit (Event.localDescription j.conn none)).emit
                    (Event.respond 500 (Reply.error "local description is nil"))) := by
            simp only [stepJoin, h4]
          have e6 : negotiate env jenv (some j.room) req.peer j.conn offer w
              = failJoin env (some j.room) req.peer j.conn "local description is nil"
                  ((((((w.emit (Event.setRemoteDescription j.conn offer none)).emit (Event.createAnswer j.conn (some answer))).emit (Event.setLocalDescription j.conn answer (some err))).emit (Event.log (LogMsg.setLocalDescriptionError err)))).emit (Event.localDescription j.conn none)) := by
            simp only [negotiate, h1, h2, h3, h4]
          rw [e6, ← soloJoin_failJoin env jenv req 0 j "local description is nil"]
          simp only [soloJoin, e1, e2, e3, e5]
        | some ld =>
          have e5 : stepJoin env jenv req (JoinPc.localSet j) (((((w.emit (Event.setRemoteDescription j.conn offer none)).emit (Event.createAnswer j.conn (some answer))).emit (Event.setLocalDescription j.conn answer (some err))).emit (Event.log (LogMsg.setLocalDescriptionError err))))
              = (JoinPc.done 200 (Reply.answer ld) (some j),
                  ((((((w.emit (Event.setRemoteDescription j.conn offer none)).emit (Event.createAnswer j.conn (some answer))).emit (Event.setLocalDescription j.conn answer (some err))).emit (Event.log (LogMsg.setLocalDescriptionError err)))).emit (Event.localDescription j.conn (some ld))).emit
                    (Event.respond 200 (Reply.answer ld))) := by
            simp only [stepJoin, h4]
          have e6 : negotiate env jenv (some j.room) req.peer j.conn offer w
              = ⟨none, ((((((w.emit (Event.setRemoteDescription j.conn offer none)).emit (Event.createAnswer j.conn (some answer))).emit (Event.setLocalDescription j.conn answer (some err))).emit (Event.log (LogMsg.setLocalDescriptionError err)))).emit (Event.localDescription j.conn (some ld))).emit
                    (Event.respond 200 (Reply.answer ld))⟩ := by
            simp only [negotiate, h1, h2, h3, h4]
          rw [e6]
          simp only [soloJoin, e1, e2, e3, e5]
          rfl
      | none =>
        have e3 : stepJoin env jenv req (JoinPc.answered j answer) ((w.emit (Event.setRemoteDescription j.conn offer none)).emit (Event.createAnswer j.conn (some answer)))
            = (JoinPc.localSet j, (((w.emit (Event.setRemoteDescription j.conn offer none)).emit (Event.createAnswer j.conn (some answer))).emit (Event.setLocalDescription j.conn answer none))) := by
          simp only [stepJoin, h3]
        cases h4 : jenv.localDescription ((((w.emit (Event.setRemoteDescription j.conn offer none)).emit (Event.createAnswer j.conn (some answer))).emit (Event.setLocalDescription j.conn answer none))).trace j.conn with
        | none =>
          have e5 : stepJoin env jenv req (JoinPc.localSet j) ((((w.emit (Event.setRemoteDescription j.conn offer none)).emit (Event.createAnswer j.conn (some answer))).emit (Event.setLocalDescription j.conn answer none)))
              = (JoinPc.failing j "local description is nil",
                  (((((w.emit (Event.setRemoteDescription j.conn offer none)).emit (Event.createAnswer j.conn (some answer))).emit (Event.setLocalDescription j.conn answer none))).emit (Event.localDescription j.conn none)).emit
                    (Event.respond 500 (Reply.error "local description is nil"))) := by
            simp only [stepJoin, h4]
          have e6 : negotiate env jenv (some j.room) req.peer j.conn offer w
              = failJoin env (some j.room) req.peer j.conn "local description is nil"
                  (((((w.emit (Event.setRemoteDescription j.conn offer none)).emit (Event.createAnswer j.conn (some answer))).emit (Event.setLocalDescription j.conn answer none))).emit (Event.localDescription j.conn none)) := by
            simp only [negotiate, h1, h2, h3, h4]
          rw [e6, ← soloJoin_failJoin env jenv req 0 j "local description is nil"]
          simp only [soloJoin, e1, e2, e3, e5]
        | some ld =>
          have e5 : stepJoin env jenv req (JoinPc.localSet j) ((((w.emit (Event.setRemoteDescription j.conn offer none)).emit (Event.createAnswer j.conn (some answer))).emit (Event.setLocalDescription j.conn answer none)))
              = (JoinPc.done 200 (Reply.answer ld) (some j),
                  (((((w.emit (Event.setRemoteDescription j.conn offer none)).emit (Event.createAnswer j.conn (some answer))).emit (Event.setLocalDescription j.conn answer none))).emit (Event.localDescription j.conn (some ld))).emit
                    (Event.respond 200 (Reply.answer ld))) := by
            simp only [stepJoin, h4]
          have e6 : negotiate env jenv (some j.room) req.peer j.conn offer w
              = ⟨none, (((((w.emit (Event.setRemoteDescription j.conn offer none)).emit (Event.createAnswer j.conn (some answer))).emit (Event.setLocalDescription j.conn answer none))).emit (Event.localDescription j.conn (some ld))).emit
                    (Event.respond 200 (Reply.answer ld))⟩ := by
            simp only [negotiate, h1, h2, h3, h4]
          rw [e6]
          simp only [soloJoin, e1, e2, e3, e5]
          rfl

/-- A goroutine of `HandleJoin` that runs alone, nine turns in a row, leaves the
state that the handler run as one piece leaves. -/
theorem soloJoin_HandleJoin (env : Env) (jenv : JoinEnv) (req : Request) (w : World) :
    (soloJoin env jenv req 9 (JoinPc.start, w)).2 = (HandleJoin env jenv req w).world := by
  by_cases hcond : req.room = "" ∨ req.peer = ""
  · have e1 : stepJoin env jenv req JoinPc.start w
        = (JoinPc.done 400 (Reply.error "room and peer query params required") none,
            w.emit (Event.respond 400 (Reply.error "room and peer query params required"))) := by
      simp only [stepJoin, if_pos hcond]
    have e2 : HandleJoin env jenv req w
        = ⟨none, w.emit (Event.respond 400 (Reply.error "room and peer query params required"))⟩ := by
      simp only [HandleJoin, if_pos hcond]
    rw [e2]
    simp only [soloJoin, e1]
    rfl
  · cases hbind : BindOfferFromContext jenv req with
    | error err =>
      have e1 : stepJoin env jenv req JoinPc.start w
          = (JoinPc.done 400 (Reply.error ("invalid offer: " ++ err)) none,
              w.emit (Event.respond 400 (Reply.error ("invalid offer: " ++ err)))) := by
        simp only [stepJoin, if_neg hcond, hbind]
      have e2 : HandleJoin env jenv req w
          = ⟨none, w.emit (Event.respond 400 (Reply.error ("invalid offer: " ++ err)))⟩ := by
        simp only [HandleJoin, if_neg hcond, hbind]
      rw [e2]
      simp only [soloJoin, e1]
      rfl
    | ok offer =>
      cases hpc : jenv.newPeerConnectionErr w.trace (getWebRTCConfigFromEnv jenv.getenv) with
      | some err =>
        have e1 : stepJoin env jenv req JoinPc.start w
            = (JoinPc.done 500 (Reply.error ("pc create: " ++ err)) none,
                (w.emit (Event.newPeerConnection none)).emit
                  (Event.respond 500 (Reply.error ("pc create: " ++ err)))) := by
          simp only [stepJoin, if_neg hcond, hbind, createPeerConnection, hpc]
        have e2 : HandleJoin env jenv req w
            = ⟨none, (w.emit (Event.newPeerConnection none)).emit
                  (Event.respond 500 (Reply.error ("pc create: " ++ err)))⟩ := by
          simp only [HandleJoin, if_neg hcond, hbind, createPeerConnection, hpc]
        rw [e2]
        simp only [soloJoin, e1]
        rfl
      | none =>
        obtain ⟨p1, -⟩ := createPeerConnection_ok jenv (getWebRTCConfigFromEnv jenv.getenv) w hpc
        have e1 : stepJoin env jenv req JoinPc.start w
            = (JoinPc.connected offer w.nextConn,
                (createPeerConnection jenv (getWebRTCConfigFromEnv jenv.getenv) w).2) := by
          simp only [stepJoin, if_neg hcond, hbind]
          rw [p1]
        unfold HandleJoin
        rw [if_neg hcond]
        simp only [hbind]
        rw [p1]
        dsimp only
        show (soloJoin env jenv req 8 (stepJoin env jenv req JoinPc.start w)).2 = _
        rw [e1]
        show (soloJoin env jenv req 7
          (JoinPc.resolved offer w.nextConn (getOrCreateRoom req.room
              (createPeerConnection jenv (getWebRTCConfigFromEnv jenv.getenv) w).2).1,
            (getOrCreateRoom req.room
              (createPeerConnection jenv (getWebRTCConfigFromEnv jenv.getenv) w).2).2)).2 = _
        generalize getOrCreateRoom req.room
          (createPeerConnection jenv (getWebRTCConfigFromEnv jenv.getenv) w).2 = cr
        obtain ⟨room, w2⟩ := cr
        cases room with
        | none => rfl
        | some a =>
          exact soloJoin_negotiate env jenv req offer
            { conn := w.nextConn, room := a, peer := w2.nextPeer } _

/-- A goroutine that has run its `room.removePeer(peerID)` has done so for good. -/
theorem stepJoin_cleaned (env : Env) (jenv : JoinEnv) (req : Request) (pc : JoinPc) (w : World)
    (h : pc.cleaned = true) : (stepJoin env jenv req pc w).1.cleaned = true := by
  cases pc with
  | removed j msg => rfl
  | done status reply jo => exact h
  | start => cases h
  | connected offer c => cases h
  | resolved offer c room => cases h
  | added offer j => cases h
  | remoteSet j => cases h
  | answered j answer => cases h
  | localSet j => cases h
  | failing j msg => cases h
  | panicked e => cases h

/-- The turn of `room.addPeer(peer)` takes the goroutine past it. -/
theorem stepJoin_resolved_joined (env : Env) (jenv : JoinEnv) (req : Request)
    (offer : SessionDescription) (c : Nat) (room : Ptr) (w : World)
    (ht : ThreadOk jenv w { req := req, pc := JoinPc.resolved offer c room }) :
    ∃ j, (stepJoin env jenv req (JoinPc.resolved offer c room) w).1.joined = some j
      ∧ (stepJoin env jenv req (JoinPc.resolved offer c room) w).1.cleaned = false := by
  obtain ⟨_, _, a, hroom, _⟩ := ht
  subst hroom
  exact ⟨{ conn := c, room := a, peer := w.nextPeer }, rfl, rfl⟩

/-- What one turn of the scheduler does to the `i`-th goroutine and to the entry
of its peer: the goroutine keeps its request and what it built, and as long as
it has not run its own `removePeer` the entry that holds its peer changes only
in a turn of another join with the same peer id. -/
theorem stepSys_thread (env : Env) (jenv : JoinEnv) (turn : Turn) (s : Sys) (inv : SysInv jenv s)
    (reqs : List Request)
    (hreqs : ∀ (k : Nat) (tk : JoinThread), s.joins[k]? = some tk → reqs[k]? = some tk.req)
    (i : Nat) (t : JoinThread) (hi : s.joins[i]? = some t) :
    ∃ t1, (stepSys env jenv turn s).joins[i]? = some t1 ∧ t1.req = t.req
      ∧ (∀ j, t.pc.joined = some j → t1.pc.joined = some j)
      ∧ (t.pc.cleaned = true → t1.pc.cleaned = true)
      ∧ (∀ (k : Nat) (tk : JoinThread), (stepSys env jenv turn s).joins[k]? = some tk →
          reqs[k]? = some tk.req)
      ∧ (∀ j, t.pc.joined = some j →
          (s.world.roomAt j.room).peers.lookup t.req.peer = some (some j.peer) →
          Turn.rival reqs i t.req.peer turn = false → t1.pc.cleaned = false →
          ((stepSys env jenv turn s).world.roomAt j.room).peers.lookup t.req.peer
            = some (some j.peer))
      ∧ (turn = Turn.join i → ∀ offer c room, t.pc = JoinPc.resolved offer c room →
          ∃ j, t1.pc.joined = some j ∧ t1.pc.cleaned = false
            ∧ ((stepSys env jenv turn s).world.roomAt j.room).peers.lookup t.req.peer
                = some (some j.peer)) := by
  have hquiet : ∀ s1 : Sys, s1.joins = s.joins → s1.world.roomAt = s.world.roomAt →
      turn ≠ Turn.join i →
      ∃ t1, s1.joins[i]? = some t1 ∧ t1.req = t.req
        ∧ (∀ j, t.pc.joined = some j → t1.pc.joined = some j)
        ∧ (t.pc.cleaned = true → t1.pc.cleaned = true)
        ∧ (∀ (k : Nat) (tk : JoinThread), s1.joins[k]? = some tk → reqs[k]? = some tk.req)
        ∧ (∀ j, t.pc.joined = some j →
            (s.world.roomAt j.room).peers.lookup t.req.peer = some (some j.peer) →
            Turn.rival reqs i t.req.peer turn = false → t1.pc.cleaned = false →
            (s1.world.roomAt j.room).peers.lookup t.req.peer = some (some j.peer))
        ∧ (turn = Turn.join i → ∀ offer c room, t.pc = JoinPc.resolved offer c room →
            ∃ j, t1.pc.joined = some j ∧ t1.pc.cleaned = false
              ∧ (s1.world.roomAt j.room).peers.lookup t.req.peer = some (some j.peer)) := by
    intro s1 h1 h2 hne
    refine ⟨t, by rw [h1]; exact hi, rfl, fun j hj => hj, fun h => h,
      fun k tk hk => hreqs k tk (by rw [h1] at hk; exact hk),
      fun j _ hl _ _ => by rw [h2]; exact hl, fun h => absurd h hne⟩
  cases turn with
  | join k =>
    cases hk : s.joins[k]? with
    | none =>
      have e : stepSys env jenv (Turn.join k) s = s := by simp only [stepSys, hk]
      rw [e]
      exact hquiet s rfl rfl (fun h => by rw [Turn.join.inj h, hi] at hk; cases hk)
    | some th =>
      have e : stepSys env jenv (Turn.join k) s
          = { world := (stepJoin env jenv th.req th.pc s.world).2,
              joins := s.joins.set k
                { req := th.req, pc := (stepJoin env jenv th.req th.pc s.world).1 } } := by
        simp only [stepSys, hk]
      rw [e]
      have hs : StepOk jenv th.req th.pc s.world (stepJoin env jenv th.req th.pc s.world) :=
        stepJoin_ok env jenv th.req th.pc s.world inv.world (inv.threads k th hk)
      have hlen : k < s.joins.length := by
        rcases Nat.lt_or_ge k s.joins.length with hh | hh
        · exact hh
        · rw [List.getElem?_eq_none hh] at hk; cases hk
      have hreqs1 : ∀ (k1 : Nat) (tk : JoinThread),
          (s.joins.set k
            { req := th.req, pc := (stepJoin env jenv th.req th.pc s.world).1 })[k1]? = some tk →
          reqs[k1]? = some tk.req := by
        intro k1 tk h1
        by_cases hkk : k1 = k
        · rw [hkk] at h1 ⊢
          rw [List.getElem?_set_self hlen] at h1
          rw [← Option.some.inj h1]
          exact hreqs k th hk
        · rw [List.getElem?_set_ne (fun e => hkk e.symm)] at h1
          exact hreqs k1 tk h1
      by_cases hki : k = i
      · subst hki
        have htt : th = t := Option.some.inj (hk.symm.trans hi)
        rw [htt] at hs hreqs1 ⊢
        refine ⟨{ req := t.req, pc := (stepJoin env jenv t.req t.pc s.world).1 },
          List.getElem?_set_self hlen, rfl, hs.joined,
          stepJoin_cleaned env jenv t.req t.pc s.world, hreqs1, fun j hj hl _ hc => ?_,
          fun _ offer c room hpc => ?_⟩
        · rcases hs.own j (hs.joined j hj) hc with ⟨_, _, o3⟩ | o1
          · show ((stepJoin env jenv t.req t.pc s.world).2.roomAt j.room).peers.lookup _ = _
            rw [o3]; exact hl
          · exact o1
        · have ht := inv.threads k t hi
          obtain ⟨req, pc⟩ := t
          simp only at hpc
          subst hpc
          obtain ⟨j, hj1, hj2⟩ := stepJoin_resolved_joined env jenv req offer c room s.world ht
          refine ⟨j, hj1, hj2, ?_⟩
          rcases hs.own j hj1 hj2 with ⟨o1, _, _⟩ | o1
          · cases o1
          · exact o1
      · refine ⟨t, (List.getElem?_set_ne hki).trans hi, rfl, fun j hj => hj, fun h => h, hreqs1,
          fun j hj hl hr _ => ?_, fun h => absurd (Turn.join.inj h) hki⟩
        have hroom : j.room < s.world.nextRoom :=
          (ThreadOk_joined jenv s.world t j (inv.threads i t hi) hj).2.1
        rcases hs.maps j.room t.req.peer hroom with m | ⟨j1, _, _, m3⟩
        · show ((stepJoin env jenv th.req th.pc s.world).2.roomAt j.room).peers.lookup _ = _
          rw [m]; exact hl
        · have hrk := hreqs k th hk
          simp only [Turn.rival, hrk, m3, decide_True, Bool.and_true, decide_eq_false_iff_not,
            not_not] at hr
          exact absurd hr hki
  | closeRoomDelete roomID =>
    exact hquiet _ rfl (Turn_run_quiet env _ s.world).roomAt (fun h => by cases h)
  | closeAllSwap =>
    exact hquiet _ rfl (Turn_run_quiet env _ s.world).roomAt (fun h => by cases h)
  | closeLoop a =>
    exact hquiet _ rfl (Turn_run_quiet env _ s.world).roomAt (fun h => by cases h)
  | onDataChannel peerID q dc =>
    exact hquiet _ rfl (Turn_run_quiet env _ s.world).roomAt (fun h => by cases h)
  | onMessage room peerID data =>
    exact hquiet _ rfl (Turn_run_quiet env _ s.world).roomAt (fun h => by cases h)
  | onTrack room peerID remote =>
    exact hquiet _ rfl (Turn_run_quiet env _ s.world).roomAt (fun h => by cases h)

/-- The peer of a join stays registered under its id for as long as its
goroutine has not removed it and no other join with the same peer id takes a
turn. -/
theorem listed_run (env : Env) (jenv : JoinEnv) (sched : List Turn) (s : Sys)
    (inv : SysInv jenv s) (reqs : List Request)
    (hreqs : ∀ (k : Nat) (tk : JoinThread), s.joins[k]? = some tk → reqs[k]? = some tk.req)
    (i : Nat) (t : JoinThread) (hi : s.joins[i]? = some t) (peerID : String)
    (hp : t.req.peer = peerID)
    (hno : ∀ x ∈ sched, Turn.rival reqs i peerID x = false) :
    ∃ t1, (runSys env jenv sched s).joins[i]? = some t1 ∧ t1.req = t.req
      ∧ (∀ j, t.pc.joined = some j → t1.pc.joined = some j)
      ∧ (t.pc.cleaned = true → t1.pc.cleaned = true)
      ∧ (∀ j, t.pc.joined = some j →
          (s.world.roomAt j.room).peers.lookup peerID = some (some j.peer) →
          t1.pc.cleaned = false →
          ((runSys env jenv sched s).world.roomAt j.room).peers.lookup peerID
            = some (some j.peer)) := by
  induction sched generalizing s t with
  | nil => exact ⟨t, hi, rfl, fun j hj => hj, fun h => h, fun j _ hl _ => hl⟩
  | cons turn rest ih =>
    obtain ⟨t1, a1, a2, a3, a4, a5, a6, _⟩ := stepSys_thread env jenv turn s inv reqs hreqs i t hi
    obtain ⟨t2, b1, b2, b3, b4, b5⟩ := ih (stepSys env jenv turn s)
      (SysInv_step env jenv turn s inv) a5 t1 a1 (by rw [a2]; exact hp)
      (fun x hx => hno x (List.mem_cons_of_mem _ hx))
    refine ⟨t2, b1, b2.trans a2, fun j hj => b3 j (a3 j hj), fun h => b4 (a4 h),
      fun j hj hl hc => ?_⟩
    have hc1 : t1.pc.cleaned = false := by
      cases h : t1.pc.cleaned with
      | false => rfl
      | true => rw [b4 h] at hc; cases hc
    refine b5 j (a3 j hj) ?_ hc
    have := a6 j hj (by rw [hp]; exact hl) (by rw [hp]; exact hno turn (List.mem_cons_self _ _)) hc1
    rw [hp] at this
    exact this

theorem runSys_append (env : Env) (jenv : JoinEnv) (s1 s2 : List Turn) (s : Sys) :
    runSys env jenv (s1 ++ s2) s = runSys env jenv s2 (runSys env jenv s1 s) := by
  induction s1 generalizing s with
  | nil => rfl
  | cons t rest ih => exact ih (stepSys env jenv t s)

/-- The goroutines are those of the requests, in order. -/
theorem runSys_reqs (env : Env) (jenv : JoinEnv) (reqs : List Request) (sched : List Turn)
    (k : Nat) (tk : JoinThread)
    (h : (runSys env jenv sched (Sys.start reqs)).joins[k]? = some tk) :
    reqs[k]? = some tk.req := by
  obtain ⟨t0, h1, h2, _⟩ := runSys_rank env jenv sched (Sys.start reqs)
    (SysInv_start jenv reqs) k tk h
  simp only [Sys.start, List.getElem?_map, Option.map_eq_some'] at h1
  obtain ⟨r, h3, h4⟩ := h1
  rw [h2, ← h4]
  exact h3

/-- C13 (amended): whatever the schedule of the join goroutines, of the
critical sections of `CloseRoom` and `CloseAll` and of the callbacks, and
whatever the library answers, a goroutine of `HandleJoin` never panics and returns within nine turns
of its own, and once it has returned after `room.addPeer(peer)`: it holds the
peer it built and a connection no other goroutine holds; if
`SetRemoteDescription` or `CreateAnswer` failed or `LocalDescription` was nil on
that connection, its peer object is in no peer map of any room, `Close` has been
called on its connection, and its response is an error with status 500 that
carries the text of the failed step; and if none of these three failed (an
error of `SetLocalDescription` is only logged and does not count) its response
is the local description with status 200. -/
theorem failed_handshake_aborts (env : Env) (jenv : JoinEnv) (reqs : List Request)
    (sched : List Turn) (i : Nat) (t : JoinThread)
    (h : (runSys env jenv sched (Sys.start reqs)).joins[i]? = some t) :
    (∀ e, t.pc ≠ JoinPc.panicked e)
    ∧ (9 ≤ sched.count (Turn.join i) → ∃ status reply j, t.pc = JoinPc.done status reply j)
    ∧ ∀ status reply j, t.pc = JoinPc.done status reply (some j) →
        ((runSys env jenv sched (Sys.start reqs)).world.peerAt j.peer).id = t.req.peer
        ∧ ((runSys env jenv sched (Sys.start reqs)).world.peerAt j.peer).pc = some j.conn
        ∧ (∀ (k : Nat) (tk : JoinThread), k ≠ i →
            (runSys env jenv sched (Sys.start reqs)).joins[k]? = some tk →
            tk.pc.conn ≠ some j.conn)
        ∧ ((∃ e ∈ (runSys env jenv sched (Sys.start reqs)).world.trace,
              e.failedConn = some j.conn) →
            (∀ a k, ((runSys env jenv sched (Sys.start reqs)).world.roomAt a).peers.lookup k
              ≠ some (some j.peer))
            ∧ j.conn ∈ closeCalls (runSys env jenv sched (Sys.start reqs)).world.trace
            ∧ status = 500
            ∧ ∃ msg, reply = Reply.error msg
              ∧ FailedStep (runSys env jenv sched (Sys.start reqs)).world j.conn msg
              ∧ (500, Reply.error msg)
                  ∈ responses (runSys env jenv sched (Sys.start reqs)).world.trace)
        ∧ ((∀ e ∈ (runSys env jenv sched (Sys.start reqs)).world.trace,
              e.failedConn ≠ some j.conn) →
            status = 200
            ∧ ∃ ld, reply = Reply.answer ld
              ∧ Event.localDescription j.conn (some ld)
                  ∈ (runSys env jenv sched (Sys.start reqs)).world.trace) := by
  have inv := SysInv_run env jenv sched (Sys.start reqs) (SysInv_start jenv reqs)
  obtain ⟨r1, r2⟩ := join_returns env jenv reqs sched i t h
  refine ⟨r1, r2, fun status reply j hpc => ?_⟩
  have ht := inv.threads i t h
  have hconn : t.pc.conn = some j.conn := by rw [hpc]; rfl
  obtain ⟨req, pc⟩ := t
  simp only at hpc
  subst hpc
  obtain ⟨ho, hr, hcase⟩ := ht
  refine ⟨ho.2.2.2.2.1, ho.2.2.2.1,
    fun k tk hk hkt => inv.conns i k _ tk j.conn (fun e => hk e.symm) h hkt hconn,
    fun hf => ?_, fun hn => ?_⟩
  · rcases hcase with ⟨_, s2, _⟩ | ⟨s1, msg, s2, s3, s4, s5⟩
    · obtain ⟨e, he, hc⟩ := hf
      exact absurd hc (s2 e he)
    · exact ⟨s4, s5, s1, msg, s2, s3, by rw [s1, s2] at hr; exact hr⟩
  · rcases hcase with ⟨s1, _, ld, s3, s4⟩ | ⟨_, msg, _, s3, _, _⟩
    · exact ⟨s1, ld, s3, s4⟩
    · rcases s3 with ⟨offer, h1⟩ | ⟨h1, _⟩ | ⟨h1, _⟩
      · exact absurd rfl (hn _ h1)
      · exact absurd rfl (hn _ h1)
      · exact absurd rfl (hn _ h1)

/-- C13, counterexample: with a library in which `SetLocalDescription` returns an
error after it stored the description, the join of `alice` run from the start
of the process records the failed step and is answered with status 200; her
peer stays in the room `lobby` and `Close` is called on no connection. -/
theorem handleJoin_setLocal_counterexample :
    (runSys workingEnv localFailsEnv (List.replicate 7 (Turn.join 0))
        (Sys.start [aliceJoins])).pcs
      = [JoinPc.done 200 (Reply.answer sampleAnswer) (some { conn := 0, room := 0, peer := 0 })]
    ∧ Event.setLocalDescription 0 sampleAnswer (some "gather failed")
        ∈ (runSys workingEnv localFailsEnv (List.replicate 7 (Turn.join 0))
            (Sys.start [aliceJoins])).world.trace
    ∧ (runSys workingEnv localFailsEnv (List.replicate 7 (Turn.join 0))
        (Sys.start [aliceJoins])).world.sfu.rooms.lookup "lobby" = some (some 0)
    ∧ ((runSys workingEnv localFailsEnv (List.replicate 7 (Turn.join 0))
        (Sys.start [aliceJoins])).world.roomAt 0).peers.lookup "alice" = some (some 0)
    ∧ closeCalls (runSys workingEnv localFailsEnv (List.replicate 7 (Turn.join 0))
        (Sys.start [aliceJoins])).world.trace = []
    ∧ responses (runSys workingEnv localFailsEnv (List.replicate 7 (Turn.join 0))
        (Sys.start [aliceJoins])).world.trace = [(200, Reply.answer sampleAnswer)] := by
  decide

/-- Two joins of `alice` overlap and the library rejects the offer of the first:
the first goroutine returns with status 500, its peer (address 0) is in no peer
map and its connection 0 was closed, although the `removePeer` it ran found the
peer of the second join under the id. -/
theorem failed_handshake_aborts_witness :
    (runSys workingEnv firstOfferBadEnv overlapSchedule (Sys.start twoAlices)).joins[0]?
      = some { req := aliceJoins,
               pc := JoinPc.done 500 (Reply.error "bad offer")
                 (some { conn := 0, room := 0, peer := 0 }) }
    ∧ (∀ a k, ((runSys workingEnv firstOfferBadEnv overlapSchedule
          (Sys.start twoAlices)).world.roomAt a).peers.lookup k ≠ some (some 0))
    ∧ 0 ∈ closeCalls (runSys workingEnv firstOfferBadEnv overlapSchedule
          (Sys.start twoAlices)).world.trace
    ∧ chanCloses (runSys workingEnv firstOfferBadEnv overlapSchedule
          (Sys.start twoAlices)).world.trace = [1] :=
  ⟨rfl,
    (((failed_handshake_aborts workingEnv firstOfferBadEnv twoAlices overlapSchedule 0
      { req := aliceJoins,
        pc := JoinPc.done 500 (Reply.error "bad offer")
          (some { conn := 0, room := 0, peer := 0 }) } rfl).2.2
      500 (Reply.error "bad offer") { conn := 0, room := 0, peer := 0 } rfl).2.2.2.1
      ⟨Event.setRemoteDescription 0 sampleOffer (some "bad offer"), by decide, rfl⟩).1,
    (((failed_handshake_aborts workingEnv firstOfferBadEnv twoAlices overlapSchedule 0
      { req := aliceJoins,
        pc := JoinPc.done 500 (Reply.error "bad offer")
          (some { conn := 0, room := 0, peer := 0 }) } rfl).2.2
      500 (Reply.error "bad offer") { conn := 0, room := 0, peer := 0 } rfl).2.2.2.1
      ⟨Event.setRemoteDescription 0 sampleOffer (some "bad offer"), by decide, rfl⟩).2.1,
    by decide⟩

end Sfu
